import Mathlib

/-! SIMD-Pathtracer: a shallow embedding of the intersection and shading core.

Scalars (`float` in the source) are read over a linearly ordered field `F`; the two
infinite values a `float` can hold, which the source uses as interval end points
(`INF`, `-INF`), are the top and bottom of `Ext F`.  Functions of the C math library
are the fields of a `Libm F` that every definition using them takes as an argument.
A C++ exception is the `error` case of `Except String`.

`int` values are integers; signed overflow, undefined in C++, is outside the embedding.
A scalar division is the division of the field, so a quotient by zero, an infinity or a NaN
in IEEE arithmetic, is 0 here; the theorems say where a divisor is not zero. The state of
the thread-local random generator is passed in and out of every function that draws from it.

This is the reading of the arithmetic over the reals: no rounding, no underflow, no overflow.
The section on binary32 embeds the vector operations, the constructors and the `hit`
functions a second time, over the type `fp` of `float` data with the rounding of IEEE 754;
the theorems at its end evaluate both readings at inputs where they differ.
-/

namespace rt

/-! ## Scalars -/

/-- The C math library functions the program calls, over the scalar type `F`. -/
structure Libm (F : Type) where
  sqrt : F → F
  acos : F → F
  atan2 : F → F → F
  sin : F → F
  cos : F → F
  tan : F → F

/-- What `std::sqrt` computes on non-negative arguments, read over the reals. -/
def Libm.SqrtSpec {F : Type} [LinearOrderedField F] (m : Libm F) : Prop :=
  ∀ x : F, 0 ≤ x → 0 ≤ m.sqrt x ∧ m.sqrt x * m.sqrt x = x

/-- The values of a `float` variable that may hold an infinity: `⊥` is `-INF`, `⊤` is `INF`. -/
abbrev Ext (F : Type) := WithBot (WithTop F)

/-- A finite scalar as a possibly infinite one. -/
def fin {F : Type} (x : F) : Ext F := ((x : WithTop F) : WithBot (WithTop F))

/-- Embeds `constants.hpp`: `INF`. -/
def INF {F : Type} : Ext F := ((⊤ : WithTop F) : WithBot (WithTop F))

/-- Embeds `constants.hpp`: `-INF`. -/
def NEG_INF {F : Type} : Ext F := (⊥ : WithBot (WithTop F))

/-! ## `rtm/vecN.hpp`, at `N = 3` -/

/-- Embeds `VecN<float, 3>`: the three components `e[0]`, `e[1]`, `e[2]`. -/
@[ext] structure vec3 (F : Type) where
  x : F
  y : F
  z : F
deriving DecidableEq

namespace vec3

variable {F : Type} [LinearOrderedField F]

/-- Embeds `VecN()`: the zero vector. -/
def zero : vec3 F := ⟨0, 0, 0⟩

/-- Embeds `operator-()`. -/
def neg (v : vec3 F) : vec3 F := ⟨-v.x, -v.y, -v.z⟩

/-- Embeds `operator+(VecN, VecN)`. -/
def add (v u : vec3 F) : vec3 F := ⟨v.x + u.x, v.y + u.y, v.z + u.z⟩

/-- Embeds `operator-(VecN, VecN)`. -/
def sub (v u : vec3 F) : vec3 F := ⟨v.x - u.x, v.y - u.y, v.z - u.z⟩

/-- Embeds `operator*(VecN, VecN)`: the component-wise product. -/
def hadamard (v u : vec3 F) : vec3 F := ⟨v.x * u.x, v.y * u.y, v.z * u.z⟩

/-- Embeds `operator*(T, VecN)`. -/
def smul (t : F) (v : vec3 F) : vec3 F := ⟨t * v.x, t * v.y, t * v.z⟩

/-- Embeds `operator/(VecN, U)`: throws on a zero divisor. -/
def div (v : vec3 F) (t : F) : Except String (vec3 F) :=
  if t = 0 then .error "Division by zero"
  else .ok ⟨v.x / t, v.y / t, v.z / t⟩

/-- Embeds `dot`. -/
def dot (u v : vec3 F) : F := u.x * v.x + u.y * v.y + u.z * v.z

/-- Embeds `cross`. -/
def cross (u v : vec3 F) : vec3 F :=
  ⟨u.y * v.z - u.z * v.y, u.z * v.x - u.x * v.z, u.x * v.y - u.y * v.x⟩

/-- Embeds `length_squared`. -/
def length_squared (v : vec3 F) : F := v.x * v.x + v.y * v.y + v.z * v.z

/-- Embeds `length`. -/
def length (m : Libm F) (v : vec3 F) : F := m.sqrt v.length_squared

/-- Embeds `vec_functions.hpp`: `unit_vector`, read over the reals: the length is 0 for the
zero vector only. `f32.unit_vector` is the reading in binary32, where the squared length can
underflow or overflow. -/
def unit_vector (m : Libm F) (v : vec3 F) : Except String (vec3 F) :=
  let len := v.length m
  if len = 0 then .ok ⟨1, 0, 0⟩
  else v.div len

end vec3

/-! ## `rtm/ray.hpp`, `rtm/interval.hpp` -/

/-- Embeds `ray`. -/
structure ray (F : Type) where
  orig : vec3 F
  dir : vec3 F
  tm : F
deriving DecidableEq

namespace ray

variable {F : Type} [LinearOrderedField F]

/-- Embeds `ray(origin, direction)`: time 0. -/
def mk2 (origin direction : vec3 F) : ray F := ⟨origin, direction, 0⟩

/-- Embeds `ray::at`. -/
def «at» (r : ray F) (t : F) : vec3 F := r.orig.add (vec3.smul t r.dir)

end ray

/-- Embeds `interval`. -/
@[ext] structure interval (F : Type) where
  min : Ext F
  max : Ext F

namespace interval

variable {F : Type} [LinearOrderedField F]

/-- Embeds `interval()`: the empty interval. -/
def empty : interval F := ⟨INF, NEG_INF⟩

/-- Embeds `interval::universe`. -/
def «universe» : interval F := ⟨NEG_INF, INF⟩

/-- Embeds `interval(const interval&, const interval&)`: the hull. -/
def hull (a b : interval F) : interval F :=
  ⟨if a.min ≤ b.min then a.min else b.min, if a.max ≥ b.max then a.max else b.max⟩

/-- Embeds `interval::contains`. -/
def contains (i : interval F) (x : F) : Bool := decide (i.min ≤ fin x ∧ fin x ≤ i.max)

/-- Embeds `interval::surrounds`. -/
def surrounds (i : interval F) (x : F) : Bool := decide (i.min < fin x ∧ fin x < i.max)

end interval

/-! ## `AABB.hpp` -/

/-- Modelled from the spec: `AABB.hpp` is not among the sources. An axis-aligned bounding
box is "three per-axis Intervals". -/
@[ext] structure AABB (F : Type) where
  x : interval F
  y : interval F
  z : interval F

namespace AABB

variable {F : Type} [LinearOrderedField F]

/-- Modelled from the spec: the default box, whose three intervals are `interval()`. -/
def empty : AABB F := ⟨interval.empty, interval.empty, interval.empty⟩

/-- Modelled from the spec: the interval between two coordinates given in either order. -/
def span (a b : F) : interval F := if a ≤ b then ⟨fin a, fin b⟩ else ⟨fin b, fin a⟩

/-- Modelled from the spec: `AABB(a, b)`, the box with the two points as opposite corners. -/
def ofPoints (a b : vec3 F) : AABB F := ⟨span a.x b.x, span a.y b.y, span a.z b.z⟩

/-- Modelled from the spec: `AABB(box0, box1)`, the "hull-merge (used when composing
bounding boxes of children)", axis by axis with the interval hull. -/
def hull (a b : AABB F) : AABB F :=
  ⟨interval.hull a.x b.x, interval.hull a.y b.y, interval.hull a.z b.z⟩

/-- The point `p` is inside the box: each coordinate is between the end points of its axis. -/
def containsPoint (b : AABB F) (p : vec3 F) : Prop :=
  (b.x.min ≤ fin p.x ∧ fin p.x ≤ b.x.max) ∧ (b.y.min ≤ fin p.y ∧ fin p.y ≤ b.y.max) ∧
    (b.z.min ≤ fin p.z ∧ fin p.z ≤ b.z.max)

end AABB

/-! ## `hittable.hpp`: `hit_record` -/

/-- Embeds `hit_record`; `M` is the type of materials, `mat` a possibly null `shared_ptr<material>`. -/
@[ext] structure hit_record (F M : Type) where
  p : vec3 F
  normal : vec3 F
  t : F
  u : F
  v : F
  front_face : Bool
  mat : Option M

namespace hit_record

variable {F M : Type} [LinearOrderedField F]

/-- Embeds `hit_record::set_face_normal`. -/
def set_face_normal (rc : hit_record F M) (r : ray F) (outward_normal : vec3 F) :
    hit_record F M :=
  let front_face := decide (vec3.dot r.dir outward_normal < 0)
  { rc with front_face := front_face,
            normal := if front_face then outward_normal else outward_normal.neg }

end hit_record

/-- The result of a `hit` call: the exception it threw, or the returned `bool` together with
the contents of the `hit_record&` argument after the call. -/
abbrev HitResult (F M : Type) := Except String (Bool × hit_record F M)

/-! ## `sphere.hpp` -/

/-- Embeds `sphere`. -/
structure sphere (F M : Type) where
  center : ray F
  radius : F
  mat : Option M
  bbox : AABB F

namespace sphere

variable {F M : Type} [LinearOrderedField F]

/-- Embeds `sphere(static_center, radius, mat)`. The box is built from the constructor's argument
`radius`, the member is `fmax(0, radius)`. -/
def mk_static (static_center : vec3 F) (radius : F) (mat : Option M) : sphere F M :=
  let rvec : vec3 F := ⟨radius, radius, radius⟩
  { center := ray.mk2 static_center vec3.zero
    radius := max 0 radius
    mat := mat
    bbox := AABB.ofPoints (static_center.sub rvec) (static_center.add rvec) }

/-- Embeds `sphere(center1, center2, radius, mat)`. -/
def mk_moving (center1 center2 : vec3 F) (radius : F) (mat : Option M) : sphere F M :=
  let center : ray F := ray.mk2 center1 (center2.sub center1)
  let rvec : vec3 F := ⟨radius, radius, radius⟩
  let box1 := AABB.ofPoints ((center.«at» 0).sub rvec) ((center.«at» 0).add rvec)
  let box2 := AABB.ofPoints ((center.«at» 1).sub rvec) ((center.«at» 1).add rvec)
  { center := center
    radius := max 0 radius
    mat := mat
    bbox := AABB.hull box1 box2 }

/-- Embeds `sphere::get_sphere_uv`: the pair `(u, v)` it writes; `PI` is the constant of
`constants.hpp`. -/
def get_sphere_uv (m : Libm F) (PI : F) (p : vec3 F) : F × F :=
  let theta := m.acos (-p.y)
  let phi := m.atan2 (-p.z) p.x + PI
  (phi / (2 * PI), theta / PI)

/-- Embeds `sphere::hit`, lines 61 to 68: the record is filled in for the accepted `root`; the
division by `radius` may throw. -/
def hit_at (m : Libm F) (PI : F) (s : sphere F M) (r : ray F) (current_center : vec3 F)
    (root : F) (rc : hit_record F M) : HitResult F M :=
  let rc1 := { rc with t := root }
  let rc2 := { rc1 with p := r.«at» rc1.t }
  match (rc2.p.sub current_center).div s.radius with
  | .error e => .error e
  | .ok outward_normal =>
    let rc3 := rc2.set_face_normal r outward_normal
    let uv := get_sphere_uv m PI outward_normal
    let rc4 := { rc3 with u := uv.1, v := uv.2 }
    .ok (true, { rc4 with mat := s.mat })

/-- Embeds `sphere::hit`, read over the reals. `f32.sphere.hit` is the reading in binary32,
where `a` can underflow to 0, a root can be a NaN, and `rec.p` is rounded. -/
def hit (m : Libm F) (PI : F) (s : sphere F M) (r : ray F) (ray_t : interval F)
    (rc : hit_record F M) : HitResult F M :=
  let current_center := s.center.«at» r.tm
  let oc := current_center.sub r.orig
  let a := r.dir.length_squared
  let h := vec3.dot r.dir oc
  let c := oc.length_squared - s.radius * s.radius
  let discriminant := h * h - a * c
  if discriminant < 0 then .ok (false, rc)
  else
    let sqrtd := m.sqrt discriminant
    let root := (h - sqrtd) / a
    if fin root ≤ ray_t.min ∨ ray_t.max ≤ fin root then
      let root := (h + sqrtd) / a
      if fin root ≤ ray_t.min ∨ ray_t.max ≤ fin root then .ok (false, rc)
      else hit_at m PI s r current_center root rc
    else hit_at m PI s r current_center root rc

/-- Embeds `sphere::bounding_box`. -/
def bounding_box (s : sphere F M) : AABB F := s.bbox

end sphere

/-! ## `quad.hpp` -/

/-- Embeds `quad`. -/
structure quad (F M : Type) where
  Q : vec3 F
  u : vec3 F
  v : vec3 F
  w : vec3 F
  mat : Option M
  bbox : AABB F
  normal : vec3 F
  D : F

namespace quad

variable {F M : Type} [LinearOrderedField F]

/-- Embeds `quad::set_bounding_box`: the box of all four vertices. -/
def set_bounding_box (Q u v : vec3 F) : AABB F :=
  let bbox_diagonal1 := AABB.ofPoints Q ((Q.add u).add v)
  let bbox_diagonal2 := AABB.ofPoints (Q.add u) (Q.add v)
  AABB.hull bbox_diagonal1 bbox_diagonal2

/-- Embeds `quad::quad`: the constructor, read over the reals; the division `n / dot(n, n)`
may throw. `f32.quad.mk_quad` is the reading in binary32, where `dot(n, n)` can underflow. -/
def mk_quad (m : Libm F) (Q u v : vec3 F) (mat : Option M) : Except String (quad F M) :=
  let n := vec3.cross u v
  match vec3.unit_vector m n with
  | .error e => .error e
  | .ok normal =>
    let D := vec3.dot normal Q
    match n.div (vec3.dot n n) with
    | .error e => .error e
    | .ok w =>
      .ok { Q := Q, u := u, v := v, w := w, mat := mat, bbox := set_bounding_box Q u v,
            normal := normal, D := D }

/-- Embeds `quad::is_interior`: the returned `bool` and the record after the call. -/
def is_interior (a b : F) (rc : hit_record F M) : Bool × hit_record F M :=
  let unit_interval : interval F := ⟨fin 0, fin 1⟩
  if !unit_interval.contains a || !unit_interval.contains b then (false, rc)
  else (true, { rc with u := a, v := b })

/-- Embeds `quad::hit`. -/
def hit (q : quad F M) (r : ray F) (ray_t : interval F) (rc : hit_record F M) :
    HitResult F M :=
  let denominator := vec3.dot q.normal r.dir
  if |denominator| < 1 / 100000000 then .ok (false, rc)
  else
    let t := (q.D - vec3.dot q.normal r.orig) / denominator
    if !ray_t.contains t then .ok (false, rc)
    else
      let intersection := r.«at» t
      let planar_hitpt_vector := intersection.sub q.Q
      let alpha := vec3.dot q.w (vec3.cross planar_hitpt_vector q.v)
      let beta := vec3.dot q.w (vec3.cross q.u planar_hitpt_vector)
      match is_interior alpha beta rc with
      | (false, rc1) => .ok (false, rc1)
      | (true, rc1) =>
        let rc2 := { rc1 with t := t }
        let rc3 := { rc2 with p := intersection }
        let rc4 := { rc3 with mat := q.mat }
        .ok (true, rc4.set_face_normal r q.normal)

/-- Embeds `quad::bounding_box`. -/
def bounding_box (q : quad F M) : AABB F := q.bbox

end quad

/-! ## `triangle.hpp` -/

/-- Embeds `triangle`. -/
structure triangle (F M : Type) where
  a : vec3 F
  b : vec3 F
  c : vec3 F
  u : vec3 F
  v : vec3 F
  normal : vec3 F
  D : F
  mat : Option M
  bbox : AABB F

namespace triangle

variable {F M : Type} [LinearOrderedField F]

/-- Embeds `triangle::set_bounding_box`. -/
def set_bounding_box (a b c : vec3 F) : AABB F :=
  let min_point : vec3 F := ⟨min (min a.x b.x) c.x, min (min a.y b.y) c.y, min (min a.z b.z) c.z⟩
  let max_point : vec3 F := ⟨max (max a.x b.x) c.x, max (max a.y b.y) c.y, max (max a.z b.z) c.z⟩
  AABB.ofPoints min_point max_point

/-- Embeds `triangle::triangle`: the constructor. -/
def mk_triangle (m : Libm F) (a b c : vec3 F) (mat : Option M) :
    Except String (triangle F M) :=
  let u := b.sub a
  let v := c.sub a
  match vec3.unit_vector m (vec3.cross u v) with
  | .error e => .error e
  | .ok normal =>
    .ok { a := a, b := b, c := c, u := u, v := v, normal := normal, D := vec3.dot normal a,
          mat := mat, bbox := set_bounding_box a b c }

/-- Embeds `triangle::hit`. -/
def hit (tr : triangle F M) (r : ray F) (ray_t : interval F) (rc : hit_record F M) :
    HitResult F M :=
  let denom := vec3.dot tr.normal r.dir
  if |denom| < 1 / 100000000 then .ok (false, rc)
  else
    let t := (tr.D - vec3.dot tr.normal r.orig) / denom
    if !ray_t.contains t then .ok (false, rc)
    else
      let p := r.«at» t
      let c0 := vec3.cross (tr.b.sub tr.a) (p.sub tr.a)
      let c1 := vec3.cross (tr.c.sub tr.b) (p.sub tr.b)
      let c2 := vec3.cross (tr.a.sub tr.c) (p.sub tr.c)
      if vec3.dot tr.normal c0 < 0 ∨ vec3.dot tr.normal c1 < 0 ∨ vec3.dot tr.normal c2 < 0 then
        .ok (false, rc)
      else
        let rc1 := { rc with t := t }
        let rc2 := { rc1 with p := p }
        let rc3 := { rc2 with mat := tr.mat }
        .ok (true, rc3.set_face_normal r tr.normal)

/-- Embeds `triangle::bounding_box`. -/
def bounding_box (tr : triangle F M) : AABB F := tr.bbox

end triangle

/-! ## `mesh.hpp` -/

/-- Embeds `mesh_triangle`. -/
structure mesh_triangle (F M : Type) where
  v0 : vec3 F
  v1 : vec3 F
  v2 : vec3 F
  mat : Option M

namespace mesh_triangle

variable {F M : Type} [LinearOrderedField F]

/-- Embeds `std::numeric_limits<float>::epsilon()`, which is `2⁻²³`. -/
def epsilon : F := 1 / 8388608

/-- Embeds `mesh_triangle::hit`, read over the reals: the determinant `a` of a triangle of
zero area is exactly 0. `f32.mesh_triangle.hit` is the reading in binary32, where it can be
rounding noise above `epsilon`. -/
def hit (m : Libm F) (mt : mesh_triangle F M) (r : ray F) (ray_t : interval F)
    (rc : hit_record F M) : HitResult F M :=
  let edge1 := mt.v1.sub mt.v0
  let edge2 := mt.v2.sub mt.v0
  let h := vec3.cross r.dir edge2
  let a := vec3.dot edge1 h
  if |a| < epsilon then .ok (false, rc)
  else
    let f := 1 / a
    let s := r.orig.sub mt.v0
    let u := f * vec3.dot s h
    if u < 0 ∨ u > 1 then .ok (false, rc)
    else
      let q := vec3.cross s edge1
      let v := f * vec3.dot r.dir q
      if v < 0 ∨ u + v > 1 then .ok (false, rc)
      else
        let t := f * vec3.dot edge2 q
        if !ray_t.surrounds t then .ok (false, rc)
        else
          let rc1 := { rc with t := t }
          let rc2 := { rc1 with p := r.«at» t }
          match vec3.unit_vector m (vec3.cross edge1 edge2) with
          | .error e => .error e
          | .ok n =>
            let rc3 := rc2.set_face_normal r n
            .ok (true, { rc3 with mat := mt.mat })

/-- Embeds `mesh_triangle::bounding_box`. -/
def bounding_box (mt : mesh_triangle F M) : AABB F :=
  let min_pt : vec3 F := ⟨min mt.v0.x (min mt.v1.x mt.v2.x), min mt.v0.y (min mt.v1.y mt.v2.y),
    min mt.v0.z (min mt.v1.z mt.v2.z)⟩
  let max_pt : vec3 F := ⟨max mt.v0.x (max mt.v1.x mt.v2.x), max mt.v0.y (max mt.v1.y mt.v2.y),
    max mt.v0.z (max mt.v1.z mt.v2.z)⟩
  AABB.ofPoints min_pt max_pt

end mesh_triangle

/-! ## `hittable.hpp`, `hittable_list.hpp` -/

/-- Embeds `hittable`: the primitives a `shared_ptr<hittable>` of a scene list points to. -/
inductive hittable (F M : Type) where
  | sphere (s : sphere F M)
  | quad (q : quad F M)
  | triangle (tr : triangle F M)
  | mesh_triangle (mt : mesh_triangle F M)

namespace hittable

variable {F M : Type} [LinearOrderedField F]

/-- The virtual call `object->hit(r, ray_t, rec)`. -/
def hit (m : Libm F) (PI : F) (o : hittable F M) (r : ray F) (ray_t : interval F)
    (rc : hit_record F M) : HitResult F M :=
  match o with
  | .sphere s => s.hit m PI r ray_t rc
  | .quad q => q.hit r ray_t rc
  | .triangle tr => tr.hit r ray_t rc
  | .mesh_triangle mt => mt.hit m r ray_t rc

/-- The virtual call `object->bounding_box()`. -/
def bounding_box (o : hittable F M) : AABB F :=
  match o with
  | .sphere s => s.bounding_box
  | .quad q => q.bounding_box
  | .triangle tr => tr.bounding_box
  | .mesh_triangle mt => mt.bounding_box

end hittable

namespace hit_record

variable {F M : Type} [LinearOrderedField F]

/-- A local `hit_record rec;` before any call has written it: the vectors are
value-initialised, the pointer is null, and the scalars, which C++ leaves indeterminate,
are read as 0. -/
def fresh : hit_record F M :=
  { p := vec3.zero, normal := vec3.zero, t := 0, u := 0, v := 0, front_face := false,
    mat := none }

end hit_record

/-- Embeds `hittable_list`. -/
structure hittable_list (F M : Type) where
  objects : List (hittable F M)
  bbox : AABB F

namespace hittable_list

variable {F M : Type} [LinearOrderedField F]

/-- Embeds `hittable_list()`: no objects, and the default box. -/
def new : hittable_list F M := ⟨[], AABB.empty⟩

/-- Embeds `hittable_list::clear`. -/
def clear (l : hittable_list F M) : hittable_list F M := { l with objects := [] }

/-- Embeds `hittable_list::add`. -/
def add (l : hittable_list F M) (object : hittable F M) : hittable_list F M :=
  { objects := l.objects ++ [object], bbox := AABB.hull l.bbox object.bounding_box }

/-- Embeds `hittable_list(object)`. -/
def single (object : hittable F M) : hittable_list F M := new.add object

/-- The state of the loop of `hittable_list::hit`. -/
structure scan (F M : Type) where
  temp_rec : hit_record F M
  hit_anything : Bool
  closes_so_far : Ext F
  rc : hit_record F M

/-- The loop of `hittable_list::hit` over the objects not yet visited. -/
def hit_loop (m : Libm F) (PI : F) (r : ray F) (ray_t : interval F) :
    List (hittable F M) → scan F M → Except String (scan F M)
  | [], st => .ok st
  | object :: rest, st =>
    match object.hit m PI r ⟨ray_t.min, st.closes_so_far⟩ st.temp_rec with
    | .error e => .error e
    | .ok (true, temp_rec) =>
      hit_loop m PI r ray_t rest
        { temp_rec := temp_rec, hit_anything := true, closes_so_far := fin temp_rec.t,
          rc := temp_rec }
    | .ok (false, temp_rec) => hit_loop m PI r ray_t rest { st with temp_rec := temp_rec }

/-- Embeds `hittable_list::hit`. -/
def hit (m : Libm F) (PI : F) (l : hittable_list F M) (r : ray F) (ray_t : interval F)
    (rc : hit_record F M) : HitResult F M :=
  match hit_loop m PI r ray_t l.objects
      { temp_rec := hit_record.fresh, hit_anything := false, closes_so_far := ray_t.max,
        rc := rc } with
  | .error e => .error e
  | .ok st => .ok (st.hit_anything, st.rc)

/-- Embeds `hittable_list::bounding_box`. -/
def bounding_box (l : hittable_list F M) : AABB F := l.bbox

end hittable_list

/-- Embeds `transform_mesh(mesh, float scale, translate)` on one object: only a `mesh_triangle`
passes the `dynamic_pointer_cast`. -/
def transform_object {F M : Type} [LinearOrderedField F] (scale : F) (translate : vec3 F) :
    hittable F M → hittable F M
  | .mesh_triangle tri =>
    .mesh_triangle { tri with v0 := (vec3.smul scale tri.v0).add translate,
                              v1 := (vec3.smul scale tri.v1).add translate,
                              v2 := (vec3.smul scale tri.v2).add translate }
  | o => o

/-- Embeds `transform_mesh(mesh, float scale, translate)`. -/
def transform_mesh {F M : Type} [LinearOrderedField F] (mesh : hittable_list F M) (scale : F)
    (translate : vec3 F) : hittable_list F M :=
  { mesh with objects := mesh.objects.map (transform_object scale translate) }

/-- Embeds `transform_mesh(mesh, vec3f scale, translate)` on one object. -/
def transform_object_vec {F M : Type} [LinearOrderedField F] (scale translate : vec3 F) :
    hittable F M → hittable F M
  | .mesh_triangle tri =>
    .mesh_triangle { tri with v0 := (vec3.hadamard scale tri.v0).add translate,
                              v1 := (vec3.hadamard scale tri.v1).add translate,
                              v2 := (vec3.hadamard scale tri.v2).add translate }
  | o => o

/-- Embeds `transform_mesh(mesh, vec3f scale, translate)`. -/
def transform_mesh_vec {F M : Type} [LinearOrderedField F] (mesh : hittable_list F M)
    (scale translate : vec3 F) : hittable_list F M :=
  { mesh with objects := mesh.objects.map (transform_object_vec scale translate) }

/-! ## `bvh_node.hpp` -/

/-- Modelled from the spec: the parameter at which a ray with origin coordinate `o` and
direction coordinate `d ≠ 0` reaches the coordinate `e`, `(e - o) / d`, also for an
infinite `e`. -/
def slab_param {F : Type} [LinearOrderedField F] (e : Ext F) (o d : F) : Ext F :=
  match e with
  | none => if 0 < d then NEG_INF else INF
  | some none => if 0 < d then INF else NEG_INF
  | some (some x) => fin ((x - o) / d)

namespace AABB

variable {F : Type} [LinearOrderedField F]

/-- Modelled from the spec: one axis of the "slab test against the AABB, per axis, handling
the case `direction component == 0` by testing containment within the axis interval
directly". The result is the part of `ray_t` in which the ray is inside the slab, `none`
when there is none. -/
def clip_axis (ax : interval F) (o d : F) (ray_t : interval F) : Option (interval F) :=
  if d = 0 then
    if ax.min ≤ fin o ∧ fin o ≤ ax.max then some ray_t else none
  else
    let t0 := slab_param ax.min o d
    let t1 := slab_param ax.max o d
    let lo := if 0 < d then t0 else t1
    let hi := if 0 < d then t1 else t0
    let tmin := max lo ray_t.min
    let tmax := min hi ray_t.max
    if tmax < tmin then none else some ⟨tmin, tmax⟩

/-- Modelled from the spec: `AABB::hit`, the slab test, "the ray does intersect the box
within the current valid-t interval". -/
def hit (b : AABB F) (r : ray F) (ray_t : interval F) : Bool :=
  match clip_axis b.x r.orig.x r.dir.x ray_t with
  | none => false
  | some i1 =>
    match clip_axis b.y r.orig.y r.dir.y i1 with
    | none => false
    | some i2 => (clip_axis b.z r.orig.z r.dir.z i2).isSome

/-- Modelled from the spec: the interval of the box on axis 0, 1 or 2. -/
def axis_interval (b : AABB F) (axis : Nat) : interval F :=
  if axis = 0 then b.x else if axis = 1 then b.y else b.z

end AABB

/-- Modelled from the spec: `bvh_node.hpp` is not among the sources. "BVH node: either a
leaf (one primitive) or an internal node owning exactly two children and caching the hull
bounding box of both." -/
inductive bvh_node (F M : Type) where
  | leaf (object : hittable F M)
  | node (left right : bvh_node F M) (bbox : AABB F)

namespace bvh_node

variable {F M : Type} [LinearOrderedField F]

/-- Modelled from the spec: `bvh_node::bounding_box`, the box of the primitive of a leaf and
the cached hull of an internal node. -/
def bounding_box : bvh_node F M → AABB F
  | leaf object => object.bounding_box
  | node _ _ bbox => bbox

/-- Modelled from the spec: the sort key of step 3, "each primitive's bounding-box centroid
as key" on the chosen axis: `a` comes before `b` when the sum of the end points of its box,
twice the centroid, is not larger. -/
def box_compare (axis : Nat) (a b : hittable F M) : Prop :=
  (a.bounding_box.axis_interval axis).min + (a.bounding_box.axis_interval axis).max ≤
    (b.bounding_box.axis_interval axis).min + (b.bounding_box.axis_interval axis).max

instance (axis : Nat) : DecidableRel (box_compare axis : hittable F M → hittable F M → Prop) :=
  fun a b => by unfold box_compare; infer_instance

/-- Modelled from the spec: the build algorithm of section 4.2 with the round-robin choice of
the split axis: one primitive gives a leaf, two give one child each, more are sorted by
centroid, split "at the midpoint index" and built recursively; the box of a parent is the
hull of the boxes of its children. `fuel` bounds the recursion depth; the spec gives no
result for the empty range. -/
def build_range : Nat → Nat → List (hittable F M) → Option (bvh_node F M)
  | _, _, [] => none
  | _, _, [a] => some (leaf a)
  | 0, _, _ => none
  | fuel + 1, axis, objects =>
    let sorted := objects.insertionSort (box_compare (axis % 3))
    let mid := sorted.length / 2
    match build_range fuel (axis + 1) (sorted.take mid),
          build_range fuel (axis + 1) (sorted.drop mid) with
    | some left, some right =>
      some (node left right (AABB.hull left.bounding_box right.bounding_box))
    | _, _ => none

/-- Modelled from the spec: `bvh_node(list)`, the tree built over the objects of a list. -/
def build (objects : List (hittable F M)) : Option (bvh_node F M) :=
  build_range objects.length 0 objects

/-- Modelled from the spec: the traversal of section 4.2. A node is rejected when the ray
does not intersect its box within the interval; otherwise both children are tested, the
second with the interval's max narrowed to the hit of the first, and the closer hit is
kept. -/
def hit (m : Libm F) (PI : F) : bvh_node F M → ray F → interval F → hit_record F M →
    HitResult F M
  | leaf object, r, ray_t, rc =>
    if !object.bounding_box.hit r ray_t then .ok (false, rc)
    else object.hit m PI r ray_t rc
  | node left right bbox, r, ray_t, rc =>
    if !bbox.hit r ray_t then .ok (false, rc)
    else
      match hit m PI left r ray_t rc with
      | .error e => .error e
      | .ok (hit_left, rc1) =>
        match hit m PI right r ⟨ray_t.min, if hit_left then fin rc1.t else ray_t.max⟩ rc1 with
        | .error e => .error e
        | .ok (hit_right, rc2) => .ok (hit_left || hit_right, rc2)

end bvh_node

/-! ## `rtm/random.hpp` -/

/-- Embeds `XorShift32`: `state` is a `uint32_t`, a natural number below `2^32`. -/
structure XorShift32 where
  state : Nat
deriving DecidableEq

namespace XorShift32

/-- Embeds `XorShift32::next_u32`: the returned value and the generator after the call. The left
shifts are truncated to 32 bits. -/
def next_u32 (g : XorShift32) : Nat × XorShift32 :=
  let x := g.state
  let x := x ^^^ ((x <<< 13) % 4294967296)
  let x := x ^^^ (x >>> 17)
  let x := x ^^^ ((x <<< 5) % 4294967296)
  (x, ⟨x⟩)

/-- Embeds `XorShift32::next_float`. -/
def next_float {F : Type} [LinearOrderedField F] (g : XorShift32) : F × XorShift32 :=
  let (x, g1) := g.next_u32
  ((((x >>> 8 : Nat) : F) * (1 / 16777216 : F)), g1)

end XorShift32

/-- Embeds `random_real(min, max)` on the thread-local generator `tls_rng`, whose state is passed
in and out. -/
def random_real {F : Type} [LinearOrderedField F] (min max : F) (g : XorShift32) :
    F × XorShift32 :=
  let (x, g1) := (g.next_float : F × XorShift32)
  (min + (max - min) * x, g1)

/-- Embeds `random_float()`. -/
def random_float {F : Type} [LinearOrderedField F] (g : XorShift32) : F × XorShift32 :=
  random_real 0 1 g

/-- Embeds `random_in_unit_disk`: the `while (true)` loop runs at most `fuel` times. -/
def random_in_unit_disk {F : Type} [LinearOrderedField F] :
    Nat → XorShift32 → Option ((F × F) × XorShift32)
  | 0, _ => none
  | fuel + 1, g =>
    let (p0, g1) := random_real (-1 : F) 1 g
    let (p1, g2) := random_real (-1 : F) 1 g1
    if p0 * p0 + p1 * p1 < 1 then some ((p0, p1), g2)
    else random_in_unit_disk fuel g2

/-! ## `rtm/functions.hpp` -/

/-- Embeds `degrees_to_radians`. -/
def degrees_to_radians {F : Type} [LinearOrderedField F] (PI : F) (degrees : F) : F :=
  degrees * PI / 180

/-- Embeds `static_cast<int>` of a `float`: truncation towards zero. -/
def trunc {F : Type} [LinearOrderedField F] [FloorRing F] (x : F) : Int :=
  if 0 ≤ x then ⌊x⌋ else ⌈x⌉

/-! ## `camera.hpp` -/

/-- How a call ends: it returns a value, throws, runs out of the fuel that bounds its loops
and recursion, or has undefined behaviour (a null material is dereferenced). -/
inductive Outcome (α : Type) where
  | ret (a : α)
  | throws (msg : String)
  | fuel_out
  | undefined

/-- A `for` loop over the values `ks` of its counter, threading the state through `body` and
stopping at the first iteration that does not return. -/
def Outcome.loop {κ σ : Type} (body : κ → σ → Outcome σ) : List κ → σ → Outcome σ
  | [], s => .ret s
  | k :: ks, s =>
    match body k s with
    | .ret s1 => Outcome.loop body ks s1
    | .throws e => .throws e
    | .fuel_out => .fuel_out
    | .undefined => .undefined

/-- The values of `k` in `for (int k = 0; k < n; ++k)`. -/
def int_range (n : Int) : List Int := (List.range n.toNat).map (fun k : Nat => (k : Int))

/-- The values of `k` in `for (int k = lo; k < hi; ++k)`. -/
def int_range_from (lo hi : Int) : List Int :=
  (List.range (hi - lo).toNat).map (fun k : Nat => lo + (k : Int))

/-- The values of `x` in `for (int x = 0; x < n; x += TILE_SIZE)`, `TILE_SIZE = 32`. -/
def tile_starts (n : Int) : List Int :=
  (List.range ((n + 31) / 32).toNat).map (fun k : Nat => 32 * (k : Int))

/-- Modelled from the spec: `material.hpp` is not among the sources. The material contract
`emitted(u, v, point) -> radiance` and `scatter(incoming ray, hit) -> (attenuation, outgoing
ray) | absorbed`; `scatter` draws from the thread-local random source. -/
structure material_ops (F M : Type) where
  emitted : M → F → F → vec3 F → vec3 F
  scatter : M → ray F → hit_record F M → XorShift32 → Option (vec3 F × ray F) × XorShift32

/-- Embeds `Camera`: the public configuration and the private members `initialize` sets. -/
structure Camera (F : Type) where
  aspect_ratio : F
  image_width : Int
  samples_per_pixel : Int
  max_depth : Int
  background : vec3 F
  vfov : F
  lookfrom : vec3 F
  lookat : vec3 F
  vup : vec3 F
  defocus_angle : F
  focus_dist : F
  pixel_samples_scale : F
  image_height : Int
  camera_center : vec3 F
  pixel00_loc : vec3 F
  pixel_delta_u : vec3 F
  pixel_delta_v : vec3 F
  u : vec3 F
  v : vec3 F
  w : vec3 F
  defocus_disk_u : vec3 F
  defocus_disk_v : vec3 F

/-- Embeds `Camera::Tile`. -/
structure Tile where
  x0 : Int
  y0 : Int
  x1 : Int
  y1 : Int
deriving DecidableEq

namespace Camera

variable {F M : Type} [LinearOrderedField F]

/-- The member function `initialize` of `Camera`. The divisions of a vector by `image_width` and `image_height` may
throw. -/
def init [FloorRing F] (m : Libm F) (PI : F) (c : Camera F) : Except String (Camera F) :=
  let image_height : Int := trunc ((c.image_width : F) / c.aspect_ratio)
  let image_height : Int := if image_height < 1 then 1 else image_height
  let pixel_samples_scale : F := 1 / (c.samples_per_pixel : F)
  let camera_center := c.lookfrom
  let theta := degrees_to_radians PI c.vfov
  let h := m.tan (theta / 2)
  let viewport_height := 2 * h * c.focus_dist
  let viewport_width := viewport_height * ((c.image_width : F) / (image_height : F))
  match vec3.unit_vector m (c.lookfrom.sub c.lookat) with
  | .error e => .error e
  | .ok w =>
  match vec3.unit_vector m (vec3.cross c.vup w) with
  | .error e => .error e
  | .ok u =>
  let v := vec3.cross w u
  let viewport_u := vec3.smul viewport_width u
  let viewport_v := vec3.smul viewport_height v.neg
  match viewport_u.div (c.image_width : F) with
  | .error e => .error e
  | .ok pixel_delta_u =>
  match viewport_v.div (image_height : F) with
  | .error e => .error e
  | .ok pixel_delta_v =>
  match viewport_u.div 2 with
  | .error e => .error e
  | .ok half_u =>
  match viewport_v.div 2 with
  | .error e => .error e
  | .ok half_v =>
  let viewport_upper_left :=
    ((camera_center.sub (vec3.smul c.focus_dist w)).sub half_u).sub half_v
  let pixel00_loc := viewport_upper_left.add (vec3.smul (1 / 2) (pixel_delta_u.add pixel_delta_v))
  let defocus_radius := c.focus_dist * m.tan (degrees_to_radians PI (c.defocus_angle / 2))
  .ok { c with
    pixel_samples_scale := pixel_samples_scale
    image_height := image_height
    camera_center := camera_center
    pixel00_loc := pixel00_loc
    pixel_delta_u := pixel_delta_u
    pixel_delta_v := pixel_delta_v
    u := u
    v := v
    w := w
    defocus_disk_u := vec3.smul defocus_radius u
    defocus_disk_v := vec3.smul defocus_radius v }

/-- Embeds `Camera::sample_squared`. -/
def sample_squared (g : XorShift32) : vec3 F × XorShift32 :=
  let (a, g1) := (random_float g : F × XorShift32)
  let (b, g2) := (random_float g1 : F × XorShift32)
  (⟨a - 1 / 2, b - 1 / 2, 0⟩, g2)

/-- Embeds `Camera::defocus_disk_sample`. -/
def defocus_disk_sample (c : Camera F) (fuel : Nat) (g : XorShift32) :
    Option (vec3 F × XorShift32) :=
  match (random_in_unit_disk fuel g : Option ((F × F) × XorShift32)) with
  | none => none
  | some (p, g1) =>
    some ((c.camera_center.add (vec3.smul p.1 c.defocus_disk_u)).add
      (vec3.smul p.2 c.defocus_disk_v), g1)

/-- Embeds `Camera::get_ray`; `none` when the rejection loop of the disk sample runs out of fuel. -/
def get_ray (c : Camera F) (fuel : Nat) (i j : Int) (g : XorShift32) :
    Option (ray F × XorShift32) :=
  let (offset, g1) := (sample_squared g : vec3 F × XorShift32)
  let pixel_sample := (c.pixel00_loc.add (vec3.smul ((i : F) + offset.x) c.pixel_delta_u)).add
    (vec3.smul ((j : F) + offset.y) c.pixel_delta_v)
  match (if c.defocus_angle ≤ 0 then some (c.camera_center, g1)
         else c.defocus_disk_sample fuel g1) with
  | none => none
  | some (ray_origin, g2) =>
    let ray_direction := pixel_sample.sub ray_origin
    let (ray_time, g3) := (random_float g2 : F × XorShift32)
    some (⟨ray_origin, ray_direction, ray_time⟩, g3)

/-- Embeds `Camera::ray_color`; `world` is the `hit` of the scene, `fuel` bounds the recursion. -/
def ray_color (c : Camera F) (mo : material_ops F M)
    (world : ray F → interval F → hit_record F M → HitResult F M) :
    Nat → ray F → Int → XorShift32 → Outcome (vec3 F × XorShift32)
  | fuel, r, depth, g =>
    if depth = 0 then .ret (⟨0, 0, 0⟩, g)
    else
      match fuel with
      | 0 => .fuel_out
      | fuel + 1 =>
        match world r ⟨fin (1 / 1000), INF⟩ hit_record.fresh with
        | .error e => .throws e
        | .ok (false, _) => .ret (c.background, g)
        | .ok (true, rc) =>
          match rc.mat with
          | none => .undefined
          | some mt =>
            let color_from_emission := mo.emitted mt rc.u rc.v rc.p
            match mo.scatter mt r rc g with
            | (none, g1) => .ret (color_from_emission, g1)
            | (some (attenuation, scattered), g1) =>
              match ray_color c mo world fuel scattered (depth - 1) g1 with
              | .ret (col, g2) =>
                let color_from_scatter := attenuation.hadamard col
                .ret (color_from_emission.add color_from_scatter, g2)
              | .throws e => .throws e
              | .fuel_out => .fuel_out
              | .undefined => .undefined

/-- The tiles `Camera::render_tiles` creates. -/
def make_tiles (c : Camera F) : List Tile :=
  (tile_starts c.image_height).flatMap fun y =>
    (tile_starts c.image_width).map fun x =>
      ⟨x, y, min (x + 32) c.image_width, min (y + 32) c.image_height⟩

end Camera

/-- A `Camera` object as declared, with the default member initialisers of the class; the
private members, which `initialize` sets, are read as 0. -/
def Camera.default_config {F : Type} [LinearOrderedField F] : Camera F :=
  { aspect_ratio := 1
    image_width := 100
    samples_per_pixel := 10
    max_depth := 10
    background := ⟨0, 0, 0⟩
    vfov := 90
    lookfrom := ⟨0, 0, 0⟩
    lookat := ⟨0, 0, -1⟩
    vup := ⟨0, 0, 0⟩
    defocus_angle := 0
    focus_dist := 10
    pixel_samples_scale := 0
    image_height := 0
    camera_center := ⟨0, 0, 0⟩
    pixel00_loc := ⟨0, 0, 0⟩
    pixel_delta_u := ⟨0, 0, 0⟩
    pixel_delta_v := ⟨0, 0, 0⟩
    u := ⟨0, 0, 0⟩
    v := ⟨0, 0, 0⟩
    w := ⟨0, 0, 0⟩
    defocus_disk_u := ⟨0, 0, 0⟩
    defocus_disk_v := ⟨0, 0, 0⟩ }

/-- The hull of the bounding boxes of the objects of a list, the empty box for no objects:
what the spec says `hittable_list::bounding_box` is equal to. -/
def hittable_list.hull_of {F M : Type} [LinearOrderedField F] (objects : List (hittable F M)) :
    AABB F :=
  objects.foldl (fun b o => AABB.hull b o.bounding_box) AABB.empty

/-- Embeds the abstract class `hittable` as a wrapper sees the object it holds: its two
virtual functions. -/
structure object_ops (F M : Type) where
  hit : ray F → interval F → hit_record F M → HitResult F M
  bounding_box : AABB F

/-- Embeds `translate`. -/
structure translate (F M : Type) where
  object : object_ops F M
  offset : vec3 F
  bbox : AABB F

namespace translate

variable {F M : Type} [LinearOrderedField F]

/-- Embeds `translate::hit`. -/
def hit (tr : translate F M) (r : ray F) (ray_t : interval F) (rc : hit_record F M) :
    HitResult F M :=
  let offset_r : ray F := ⟨r.orig.sub tr.offset, r.dir, r.tm⟩
  match tr.object.hit offset_r ray_t rc with
  | .error e => .error e
  | .ok (false, rc1) => .ok (false, rc1)
  | .ok (true, rc1) => .ok (true, { rc1 with p := rc1.p.add tr.offset })

/-- Embeds `translate::bounding_box`. -/
def bounding_box (tr : translate F M) : AABB F := tr.bbox

end translate

/-- The float held by an end point, `none` for an infinite one. -/
def Ext.finite {F : Type} (e : Ext F) : Option F :=
  match e with
  | some (some x) => some x
  | _ => none

/-- A `point3f` whose coordinates may be infinite, as `min` and `max` in the constructor of
`rotate_y` are. -/
structure ext3 (F : Type) where
  x : Ext F
  y : Ext F
  z : Ext F

/-- Modelled from the spec: the interval between two possibly infinite coordinates given in
either order, as `AABB.span` is for finite ones. -/
def AABB.span_ext {F : Type} [LinearOrderedField F] (a b : Ext F) : interval F :=
  if a ≤ b then ⟨a, b⟩ else ⟨b, a⟩

/-- Modelled from the spec: `AABB(a, b)` for two corners whose coordinates may be infinite. -/
def AABB.ofExt {F : Type} [LinearOrderedField F] (a b : ext3 F) : AABB F :=
  ⟨AABB.span_ext a.x b.x, AABB.span_ext a.y b.y, AABB.span_ext a.z b.z⟩

/-- Embeds `rotate_y`. -/
structure rotate_y (F M : Type) where
  object : object_ops F M
  sin_theta : F
  cos_theta : F
  bbox : AABB F

namespace rotate_y

variable {F M : Type} [LinearOrderedField F]

/-- The index triples `(i, j, k)` in the order of the three nested loops of the
constructor. -/
def corner_indices : List (Int × Int × Int) :=
  (int_range 2).flatMap (fun i => (int_range 2).flatMap (fun j =>
    (int_range 2).map (fun k => (i, j, k))))

/-- The body of the innermost loop of the constructor for the corner `(i, j, k)` of the box
with the finite end points `x0 ≤ x ≤ x1`, `y0 ≤ y ≤ y1`, `z0 ≤ z ≤ z1`: the corner is rotated
and `min`, `max` are updated with `fmin`, `fmax`. -/
def corner_step (sin_theta cos_theta x0 x1 y0 y1 z0 z1 : F) (s : ext3 F × ext3 F)
    (c : Int × Int × Int) : ext3 F × ext3 F :=
  let x := (c.1 : F) * x1 + (1 - (c.1 : F)) * x0
  let y := (c.2.1 : F) * y1 + (1 - (c.2.1 : F)) * y0
  let z := (c.2.2 : F) * z1 + (1 - (c.2.2 : F)) * z0
  let newx := cos_theta * x + sin_theta * z
  let newz := -sin_theta * x + cos_theta * z
  let tester : vec3 F := ⟨newx, y, newz⟩
  (⟨min s.1.x (fin tester.x), min s.1.y (fin tester.y), min s.1.z (fin tester.z)⟩,
   ⟨max s.2.x (fin tester.x), max s.2.y (fin tester.y), max s.2.z (fin tester.z)⟩)

/-- Embeds `rotate_y::rotate_y`. The result is `none` when the box of the object has an
infinite end point: the corner arithmetic `i*bbox.x.max + (1-i)*bbox.x.min` then multiplies
an infinity by zero, which has no value in the embedding. -/
def mk_rotate_y (m : Libm F) (PI : F) (object : object_ops F M) (angle : F) :
    Option (rotate_y F M) :=
  let radians := degrees_to_radians PI angle
  let sin_theta := m.sin radians
  let cos_theta := m.cos radians
  let bbox := object.bounding_box
  match bbox.x.min.finite, bbox.x.max.finite, bbox.y.min.finite, bbox.y.max.finite,
    bbox.z.min.finite, bbox.z.max.finite with
  | some x0, some x1, some y0, some y1, some z0, some z1 =>
    let s := corner_indices.foldl (corner_step sin_theta cos_theta x0 x1 y0 y1 z0 z1)
      ((⟨INF, INF, INF⟩ : ext3 F), (⟨NEG_INF, NEG_INF, NEG_INF⟩ : ext3 F))
    some ⟨object, sin_theta, cos_theta, AABB.ofExt s.1 s.2⟩
  | _, _, _, _, _, _ => none

/-- Embeds `rotate_y::hit`. -/
def hit (ro : rotate_y F M) (r : ray F) (ray_t : interval F) (rc : hit_record F M) :
    HitResult F M :=
  let origin : vec3 F :=
    ⟨ro.cos_theta * r.orig.x - ro.sin_theta * r.orig.z,
     r.orig.y,
     ro.sin_theta * r.orig.x + ro.cos_theta * r.orig.z⟩
  let direction : vec3 F :=
    ⟨ro.cos_theta * r.dir.x - ro.sin_theta * r.dir.z,
     r.dir.y,
     ro.sin_theta * r.dir.x + ro.cos_theta * r.dir.z⟩
  let rotated_r : ray F := ⟨origin, direction, r.tm⟩
  match ro.object.hit rotated_r ray_t rc with
  | .error e => .error e
  | .ok (false, rc1) => .ok (false, rc1)
  | .ok (true, rc1) =>
    let p : vec3 F :=
      ⟨ro.cos_theta * rc1.p.x + ro.sin_theta * rc1.p.z,
       rc1.p.y,
       -ro.sin_theta * rc1.p.x + ro.cos_theta * rc1.p.z⟩
    let normal : vec3 F :=
      ⟨ro.cos_theta * rc1.normal.x + ro.sin_theta * rc1.normal.z,
       rc1.normal.y,
       -ro.sin_theta * rc1.normal.x + ro.cos_theta * rc1.normal.z⟩
    .ok (true, { rc1 with p := p, normal := normal })

/-- Embeds `rotate_y::bounding_box`. -/
def bounding_box (ro : rotate_y F M) : AABB F := ro.bbox

/-- The rotation of world space into the space of the object, which `rotate_y::hit` applies
to the origin and the direction of the ray. -/
def to_object (sin_theta cos_theta : F) (v : vec3 F) : vec3 F :=
  ⟨cos_theta * v.x - sin_theta * v.z, v.y, sin_theta * v.x + cos_theta * v.z⟩

/-- The rotation of the space of the object into world space, which `rotate_y::hit` applies
to the point and the normal of the hit, and the constructor to the corners of the box. -/
def to_world (sin_theta cos_theta : F) (v : vec3 F) : vec3 F :=
  ⟨cos_theta * v.x + sin_theta * v.z, v.y, -sin_theta * v.x + cos_theta * v.z⟩

/-- The eight corners of the box with the given end points. -/
def box_corners (x0 x1 y0 y1 z0 z1 : F) : List (vec3 F) :=
  [⟨x0, y0, z0⟩, ⟨x0, y0, z1⟩, ⟨x0, y1, z0⟩, ⟨x0, y1, z1⟩,
   ⟨x1, y0, z0⟩, ⟨x1, y0, z1⟩, ⟨x1, y1, z0⟩, ⟨x1, y1, z1⟩]

end rotate_y

/-- The corner of the box that the loops of the constructor of `rotate_y` visit for the
indices `(i, j, k)`. -/
def rotate_y.corner {F : Type} [LinearOrderedField F] (x0 x1 y0 y1 z0 z1 : F)
    (c : Int × Int × Int) : vec3 F :=
  ⟨(c.1 : F) * x1 + (1 - (c.1 : F)) * x0, (c.2.1 : F) * y1 + (1 - (c.2.1 : F)) * y0,
   (c.2.2 : F) * z1 + (1 - (c.2.2 : F)) * z0⟩

/-! ## `rtm/vec_functions.hpp`: `refract` -/

/-- Embeds `refract`; `std::fmin` is the minimum and `std::abs` the absolute value. -/
def refract {F : Type} [LinearOrderedField F] (m : Libm F) (uv n : vec3 F) (eta_ratio : F) :
    vec3 F :=
  let cos_theta := min (vec3.dot uv.neg n) 1
  let r_out_perp := vec3.smul eta_ratio (uv.add (vec3.smul cos_theta n))
  let r_out_parallel := vec3.smul (-(m.sqrt |1 - r_out_perp.length_squared|)) n
  r_out_perp.add r_out_parallel

/-! ## `rtm/vecN.hpp`, `rtm/vec_functions.hpp`: every dimension `N` -/

/-- Embeds `VecN<T, N>` for a floating-point `T`: the array `e` of `N` components. -/
@[ext] structure VecN (F : Type) (N : Nat) where
  e : Fin N → F

namespace VecN

variable {F : Type} [LinearOrderedField F] {N : Nat}

/-- Embeds `VecN()`: the zero vector. -/
def zero : VecN F N := ⟨fun _ => 0⟩

/-- Embeds the assignment `v[i] = x`. -/
def set (v : VecN F N) (i : Fin N) (x : F) : VecN F N :=
  ⟨fun j => if j = i then x else v.e j⟩

/-- Embeds `operator*=(T t)`: the vector after the call. -/
def mul_assign (v : VecN F N) (t : F) : VecN F N := ⟨fun i => v.e i * t⟩

/-- Embeds `operator/=(T t)` for a floating-point `T`, read over the reals: whether the call
threw, and the vector `*this` after the call. `f32.div_assign` is the reading in binary32,
where the product with `1 / t` is not the quotient by `t`. -/
def div_assign (v : VecN F N) (t : F) : Except String Unit × VecN F N :=
  if t = 0 then (.error "Division by zero", v)
  else (.ok (), v.mul_assign (1 / t))

/-- Embeds `operator/(const VecN<T, N>&, U t)`. -/
def div (v : VecN F N) (t : F) : Except String (VecN F N) :=
  if t = 0 then .error "Division by zero"
  else .ok ⟨fun i => v.e i / t⟩

/-- Embeds `VecN::length_squared`: the loop `sum += e[i] * e[i]` from `sum = 0`. -/
def length_squared (v : VecN F N) : F :=
  (List.finRange N).foldl (fun sum i => sum + v.e i * v.e i) 0

/-- Embeds `VecN::length`. -/
def length (m : Libm F) (v : VecN F N) : F := m.sqrt v.length_squared

/-- Embeds `unit_vector`, read over the reals; `hN` is the `static_assert(N > 0)` of the
class. `f32.unit_vector` is the reading in binary32 at `N = 3`. -/
def unit_vector (m : Libm F) (hN : 0 < N) (v : VecN F N) : Except String (VecN F N) :=
  let len := v.length m
  if len = 0 then .ok ((zero : VecN F N).set ⟨0, hN⟩ 1)
  else v.div len

end VecN

/-- The components of a `vec3f` as the array of a `VecN<float, 3>`. -/
def vec3.toVecN {F : Type} (v : vec3 F) : VecN F 3 := ⟨![v.x, v.y, v.z]⟩

/-! ## `color.hpp`, `save_file.hpp` -/

/-- Embeds `interval::clamp`. -/
def interval.clamp {F : Type} [LinearOrderedField F] (i : interval F) (x : F) : Ext F :=
  if fin x < i.min then i.min
  else if fin x > i.max then i.max
  else fin x

/-- Embeds `linear_to_gamma`. -/
def linear_to_gamma {F : Type} [LinearOrderedField F] (m : Libm F) (linear_component : F) : F :=
  if linear_component > 0 then m.sqrt linear_component else 0

/-- Embeds `static const interval intensity(0.000f, 0.999f)`, declared in `write_color` and in
`save_framebuffer`. -/
def intensity {F : Type} [LinearOrderedField F] : interval F := ⟨fin 0, fin (999 / 1000)⟩

/-- Embeds `static_cast<int>(256 * e)` for a float `e` that may be infinite: the conversion
truncates, and it is undefined, `none`, for an infinite value. -/
def cast_int_256 {F : Type} [LinearOrderedField F] [FloorRing F] (e : Ext F) : Option Int :=
  match e.finite with
  | some v => some (trunc (256 * v))
  | none => none

/-- Embeds `write_color`: the three numbers `rbyte`, `gbyte`, `bbyte` of the line written to
the stream. -/
def write_color {F : Type} [LinearOrderedField F] [FloorRing F] (m : Libm F)
    (pixel_color : vec3 F) : Option (Int × Int × Int) :=
  let r := linear_to_gamma m pixel_color.x
  let g := linear_to_gamma m pixel_color.y
  let b := linear_to_gamma m pixel_color.z
  match cast_int_256 (intensity.clamp r), cast_int_256 (intensity.clamp g),
    cast_int_256 (intensity.clamp b) with
  | some rbyte, some gbyte, some bbyte => some (rbyte, gbyte, bbyte)
  | _, _, _ => none

/-- The loop of `extract_file_format`, `for (int i = size - 1; i >= 0; --i)`, with `n = i + 1`
iterations left. -/
def extract_loop (lower : List Char) : Nat → List Char
  | 0 => []
  | i + 1 =>
    if lower[i]? = some '.' then
      if i = 0 then [] else lower.drop (i + 1)
    else extract_loop lower i

/-- Embeds `extract_file_format`; `std::tolower` in the C locale changes the letters `A`–`Z`
only. -/
def extract_file_format (filename : String) : String :=
  let lower := filename.data.map Char.toLower
  ⟨extract_loop lower lower.length⟩

/-- What `save_framebuffer` hands to the writer of the file `filename`: the header and the
lines of a text PPM, or the arguments of the `stbi_write_*` function. -/
inductive image_file where
  | ppm (width height : Int) (lines : List (Int × Int × Int))
  | png (width height : Int) (image_buffer : List Nat)
  | jpg (width height : Int) (image_buffer : List Nat)
  | bmp (width height : Int) (image_buffer : List Nat)
  | tga (width height : Int) (image_buffer : List Nat)

/-- Embeds `static_cast<unsigned char>` of an `int`. -/
def to_uchar (n : Int) : Nat := (n % 256).toNat

/-- The body of the two loops of `save_framebuffer` for the pixel `(i, j)`: the state is
`image_buffer`. Reading `framebuffer` past its end is undefined behaviour. -/
def byte_body {F : Type} [LinearOrderedField F] [FloorRing F] (m : Libm F)
    (framebuffer : List (vec3 F)) (width : Int) (j i : Int) (image_buffer : List Nat) :
    Outcome (List Nat) :=
  match framebuffer[(j * width + i).toNat]? with
  | none => .undefined
  | some pixel_color =>
    let r := linear_to_gamma m pixel_color.x
    let g := linear_to_gamma m pixel_color.y
    let b := linear_to_gamma m pixel_color.z
    match cast_int_256 (intensity.clamp r), cast_int_256 (intensity.clamp g),
      cast_int_256 (intensity.clamp b) with
    | some rbyte, some gbyte, some bbyte =>
      let idx := (j * width + i) * 3
      .ret (((image_buffer.set (idx + 0).toNat (to_uchar rbyte)).set (idx + 1).toNat
        (to_uchar gbyte)).set (idx + 2).toNat (to_uchar bbyte))
    | _, _, _ => .undefined

/-- The loop `for (const color& c : framebuffer) write_color(out, c)` of the PPM writer: the
lines written. -/
def write_lines {F : Type} [LinearOrderedField F] [FloorRing F] (m : Libm F) :
    List (vec3 F) → Option (List (Int × Int × Int))
  | [] => some []
  | c :: cs =>
    match write_color m c with
    | none => none
    | some line =>
      match write_lines m cs with
      | none => none
      | some lines => some (line :: lines)

/-- Embeds `save_framebuffer`. The files are written by the standard library and by
`stb_image_write`, whose failures the function ignores. A negative size makes the
constructor of `std::vector` throw `std::length_error`, with a message of the library. -/
def save_framebuffer {F : Type} [LinearOrderedField F] [FloorRing F] (m : Libm F)
    (framebuffer : List (vec3 F)) (width height : Int) (filename : String) :
    Outcome image_file :=
  let format := extract_file_format filename
  if format = "ppm" then
    match write_lines m framebuffer with
    | some lines => .ret (.ppm width height lines)
    | none => .undefined
  else if width * height * 3 < 0 then .throws "std::length_error"
  else
    match Outcome.loop
        (fun j buf => Outcome.loop (byte_body m framebuffer width j) (int_range width) buf)
        (int_range height) (List.replicate (width * height * 3).toNat 0) with
    | .ret image_buffer =>
      if format = "png" then .ret (.png width height image_buffer)
      else if format = "jpg" ∨ format = "jpeg" then .ret (.jpg width height image_buffer)
      else if format = "bmp" then .ret (.bmp width height image_buffer)
      else if format = "tga" then .ret (.tga width height image_buffer)
      else .throws ("Unsupported format: " ++ format)
    | .throws e => .throws e
    | .fuel_out => .fuel_out
    | .undefined => .undefined

/-- The byte buffer handed to `stb_image_write`, if the file is not a PPM. -/
def image_file.image_buffer : image_file → Option (List Nat)
  | .ppm _ _ _ => none
  | .png _ _ b => some b
  | .jpg _ _ b => some b
  | .bmp _ _ b => some b
  | .tga _ _ b => some b

/-- The encoding of a linear channel value in the words of the specification: the floor of
`256 * clamp(g, 0, 0.999)`, with `g = sqrt(x)` when `x > 0` and `g = 0` otherwise. -/
def gamma_byte {F : Type} [LinearOrderedField F] [FloorRing F] (m : Libm F) (x : F) : Int :=
  ⌊256 * max 0 (min (999 / 1000) (if x > 0 then m.sqrt x else 0))⌋

/-- The formats that `save_framebuffer` writes, in the words of the specification. -/
def supported_formats : List String := ["ppm", "png", "jpg", "jpeg", "bmp", "tga"]

/-- The byte `v` at index `n` of the image buffer is the encoding of a channel of the pixel
of the image that has this index: the channels of pixel `(i, j)` are at
`(j * width + i) * 3 + 0, 1, 2`. -/
def byte_good {F : Type} [LinearOrderedField F] [FloorRing F] (m : Libm F)
    (framebuffer : List (vec3 F)) (width height : Int) (n : Nat) (v : Nat) : Prop :=
  ∃ i j : Int, 0 ≤ i ∧ i < width ∧ 0 ≤ j ∧ j < height ∧
    ∃ c, framebuffer[(j * width + i).toNat]? = some c ∧
      ((n = 3 * (j * width + i).toNat ∧ v = (gamma_byte m c.x).toNat) ∨
       (n = 3 * (j * width + i).toNat + 1 ∧ v = (gamma_byte m c.y).toNat) ∨
       (n = 3 * (j * width + i).toNat + 2 ∧ v = (gamma_byte m c.z).toNat))

/-- The pixel `(i, j)` is visited by the two loops of `render_tiles` over the tile `t`,
`for (int j = t.y0; j < t.y1; ++j)` and `for (int i = t.x0; i < t.x1; ++i)`. -/
def Tile.covers (t : Tile) (i j : Int) : Prop :=
  j ∈ int_range_from t.y0 t.y1 ∧ i ∈ int_range_from t.x0 t.x1

/-- Embeds `interval::contains` for an argument that may be infinite. -/
def interval.contains_ext {F : Type} [LinearOrderedField F] (i : interval F) (x : Ext F) :
    Bool :=
  decide (i.min ≤ x ∧ x ≤ i.max)

/-- The function `Camera.ray_color` with its scene-intersection queries recorded: next to the
outcome, the list of the calls `world.hit(r, ...)` made, each with its ray and the `depth` of
the call of `ray_color` that made it. -/
def Camera.ray_color_traced {F M : Type} [LinearOrderedField F] (c : Camera F)
    (mo : material_ops F M) (world : ray F → interval F → hit_record F M → HitResult F M) :
    Nat → ray F → Int → XorShift32 → Outcome (vec3 F × XorShift32) × List (ray F × Int)
  | fuel, r, depth, g =>
    if depth = 0 then (.ret (⟨0, 0, 0⟩, g), [])
    else
      match fuel with
      | 0 => (.fuel_out, [])
      | fuel + 1 =>
        match world r ⟨fin (1 / 1000), INF⟩ hit_record.fresh with
        | .error e => (.throws e, [(r, depth)])
        | .ok (false, _) => (.ret (c.background, g), [(r, depth)])
        | .ok (true, rc) =>
          match rc.mat with
          | none => (.undefined, [(r, depth)])
          | some mt =>
            let color_from_emission := mo.emitted mt rc.u rc.v rc.p
            match mo.scatter mt r rc g with
            | (none, g1) => (.ret (color_from_emission, g1), [(r, depth)])
            | (some (attenuation, scattered), g1) =>
              let rest := Camera.ray_color_traced c mo world fuel scattered (depth - 1) g1
              (match rest.1 with
               | .ret (col, g2) =>
                 let color_from_scatter := attenuation.hadamard col
                 .ret (color_from_emission.add color_from_scatter, g2)
               | .throws e => .throws e
               | .fuel_out => .fuel_out
               | .undefined => .undefined,
               (r, depth) :: rest.2)

/-! ## `rtm/comparison.hpp`, `rtm/vec3_SIMD.hpp` -/

/-- Embeds `std::numeric_limits<float>::epsilon()`, `2⁻²³`. -/
def FLT_EPSILON {F : Type} [LinearOrderedField F] : F := 1 / 2 ^ 23

/-- Embeds `std::numeric_limits<float>::min()`, `2⁻¹²⁶`. -/
def FLT_MIN {F : Type} [LinearOrderedField F] : F := 1 / 2 ^ 126

/-- Embeds `std::numeric_limits<float>::max()`, `(2 - 2⁻²³) · 2¹²⁷`. -/
def FLT_MAX {F : Type} [LinearOrderedField F] : F := (2 - 1 / 2 ^ 23) * 2 ^ 127

/-- Embeds `nearlyEqual(a, b, epsilon)`. -/
def nearlyEqual {F : Type} [LinearOrderedField F] (a b epsilon : F) : Bool :=
  let absA := |a|
  let absB := |b|
  let diff := |a - b|
  if a = b then true
  else if a = 0 ∨ b = 0 ∨ absA + absB < FLT_MIN then decide (diff < epsilon * FLT_MIN)
  else decide (diff / min (absA + absB) FLT_MAX < epsilon)

/-- Embeds `VecN::near_zero` of the generic template, at `N = 3`: the loop returns `false` at
the first component with `fabs(e[i]) >= epsilon`. -/
def vec3.near_zero {F : Type} [LinearOrderedField F] (v : vec3 F) : Bool :=
  if |v.x| ≥ FLT_EPSILON then false
  else if |v.y| ≥ FLT_EPSILON then false
  else if |v.z| ≥ FLT_EPSILON then false
  else true

/-- Embeds `__m128`: four floats, lane 0 first. -/
structure m128 (F : Type) where
  e0 : F
  e1 : F
  e2 : F
  e3 : F

namespace simd_utils

variable {F : Type} [LinearOrderedField F]

/-- The lane `i` of a register. -/
def lane (a : m128 F) (i : Fin 4) : F :=
  match i with
  | 0 => a.e0
  | 1 => a.e1
  | 2 => a.e2
  | 3 => a.e3

/-- Embeds the intrinsic `_mm_set_ps(e3, e2, e1, e0)`. -/
def mm_set_ps (e3 e2 e1 e0 : F) : m128 F := ⟨e0, e1, e2, e3⟩

/-- Embeds the intrinsic `_mm_set1_ps`. -/
def mm_set1_ps (a : F) : m128 F := ⟨a, a, a, a⟩

/-- Embeds the intrinsic `_mm_setzero_ps`. -/
def mm_setzero_ps : m128 F := ⟨0, 0, 0, 0⟩

/-- Embeds the intrinsic `_mm_add_ps`. -/
def mm_add_ps (a b : m128 F) : m128 F := ⟨a.e0 + b.e0, a.e1 + b.e1, a.e2 + b.e2, a.e3 + b.e3⟩

/-- Embeds the intrinsic `_mm_sub_ps`. -/
def mm_sub_ps (a b : m128 F) : m128 F := ⟨a.e0 - b.e0, a.e1 - b.e1, a.e2 - b.e2, a.e3 - b.e3⟩

/-- Embeds the intrinsic `_mm_mul_ps`. -/
def mm_mul_ps (a b : m128 F) : m128 F := ⟨a.e0 * b.e0, a.e1 * b.e1, a.e2 * b.e2, a.e3 * b.e3⟩

/-- Embeds the intrinsic `_mm_add_ss`: the sum in lane 0, the other lanes of `a`. -/
def mm_add_ss (a b : m128 F) : m128 F := ⟨a.e0 + b.e0, a.e1, a.e2, a.e3⟩

/-- Embeds the intrinsic `_mm_hadd_ps`. -/
def mm_hadd_ps (a b : m128 F) : m128 F := ⟨a.e0 + a.e1, a.e2 + a.e3, b.e0 + b.e1, b.e2 + b.e3⟩

/-- Embeds the intrinsic `_mm_movehl_ps`: the upper lanes of `b`, then the upper lanes of
`a`. -/
def mm_movehl_ps (a b : m128 F) : m128 F := ⟨b.e2, b.e3, a.e2, a.e3⟩

/-- Embeds the intrinsic `_mm_shuffle_ps(a, b, _MM_SHUFFLE(z, y, x, w))`: the lanes `w` and
`x` of `a`, then the lanes `y` and `z` of `b`. -/
def mm_shuffle_ps (a b : m128 F) (z y x w : Fin 4) : m128 F :=
  ⟨lane a w, lane a x, lane b y, lane b z⟩

/-- Embeds the intrinsic `_mm_cvtss_f32`. -/
def mm_cvtss_f32 (a : m128 F) : F := a.e0

/-- Embeds `simd_utils::load_vec3`. -/
def load_vec3 (v : vec3 F) : m128 F := mm_set_ps 0 v.z v.y v.x

/-- Embeds `simd_utils::load_scalar`. -/
def load_scalar (scalar : F) : m128 F := mm_set1_ps scalar

/-- Embeds `simd_utils::store_vec3`: of the four floats `_mm_storeu_ps` writes, the first
three are the array of the vector. -/
def store_vec3 (vec : m128 F) : vec3 F := ⟨vec.e0, vec.e1, vec.e2⟩

/-- Embeds `simd_utils::horizontal_sum_sse`; `sse3` tells whether `VECN_HAS_SSE3` is
defined. -/
def horizontal_sum_sse (sse3 : Bool) (v : m128 F) : F :=
  if sse3 then
    let v := mm_hadd_ps v v
    let v := mm_hadd_ps v v
    mm_cvtss_f32 v
  else
    let shuf := mm_shuffle_ps v v 2 3 0 1
    let sums := mm_add_ps v shuf
    let shuf := mm_movehl_ps shuf sums
    let sums := mm_add_ss sums shuf
    mm_cvtss_f32 sums

end simd_utils

/-- The SSE specialisation `VecN<float, 3>` of `vec3_SIMD.hpp`; its data is the same array of
three floats as that of the generic template. -/
structure vec3_simd (F : Type) where
  v : vec3 F

namespace vec3_simd

open simd_utils

variable {F : Type} [LinearOrderedField F]

/-- Embeds the unary `operator-` of the specialisation. -/
def neg (a : vec3_simd F) : vec3_simd F :=
  let v := load_vec3 a.v
  let zero : m128 F := mm_setzero_ps
  let result := mm_sub_ps zero v
  ⟨store_vec3 result⟩

/-- Embeds `operator+` of the specialisation. -/
def add (a b : vec3_simd F) : vec3_simd F :=
  let va := load_vec3 a.v
  let vb := load_vec3 b.v
  let result := mm_add_ps va vb
  ⟨store_vec3 result⟩

/-- Embeds the binary `operator-` of the specialisation. -/
def sub (a b : vec3_simd F) : vec3_simd F :=
  let va := load_vec3 a.v
  let vb := load_vec3 b.v
  let result := mm_sub_ps va vb
  ⟨store_vec3 result⟩

/-- Embeds `operator*` of two vectors of the specialisation. -/
def hadamard (a b : vec3_simd F) : vec3_simd F :=
  let va := load_vec3 a.v
  let vb := load_vec3 b.v
  let result := mm_mul_ps va vb
  ⟨store_vec3 result⟩

/-- Embeds `operator*(float, const VecN<float, 3>&)` of the specialisation. -/
def smul (scalar : F) (v : vec3_simd F) : vec3_simd F :=
  let vv := load_vec3 v.v
  let s : m128 F := mm_set1_ps scalar
  let result := mm_mul_ps vv s
  ⟨store_vec3 result⟩

/-- Embeds `dot` of the specialisation. -/
def dot (sse3 : Bool) (a b : vec3_simd F) : F :=
  let va := load_vec3 a.v
  let vb := load_vec3 b.v
  let mul := mm_mul_ps va vb
  horizontal_sum_sse sse3 mul

/-- Embeds `cross` of the specialisation. -/
def cross (a b : vec3_simd F) : vec3_simd F :=
  let va := load_vec3 a.v
  let vb := load_vec3 b.v
  let a_yzx := mm_shuffle_ps va va 3 0 2 1
  let b_zxy := mm_shuffle_ps vb vb 3 1 0 2
  let a_zxy := mm_shuffle_ps va va 3 1 0 2
  let b_yzx := mm_shuffle_ps vb vb 3 0 2 1
  let result := mm_sub_ps (mm_mul_ps a_yzx b_zxy) (mm_mul_ps a_zxy b_yzx)
  ⟨store_vec3 result⟩

/-- Embeds `length_squared` of the specialisation. -/
def length_squared (sse3 : Bool) (a : vec3_simd F) : F :=
  let v := load_vec3 a.v
  let sq := mm_mul_ps v v
  horizontal_sum_sse sse3 sq

/-- Embeds `near_zero` of the specialisation; the constant `epsilon` it declares is not
used, `nearlyEqual` is called with its default third argument. -/
def near_zero (a : vec3_simd F) : Bool :=
  nearlyEqual a.v.x 0 FLT_EPSILON && nearlyEqual a.v.y 0 FLT_EPSILON &&
    nearlyEqual a.v.z 0 FLT_EPSILON

end vec3_simd

/-! ## `rtm/random.hpp`: `random_int`; `perlin.hpp` -/

/-- Embeds the conversion of a `uint32_t` value to `int`. -/
def to_int32 (x : Int) : Int := if x < 2147483648 then x else x - 4294967296

/-- Embeds `random_int<int>(min, max)` on the generator `tls_rng`: in
`min + (r % (max - min + 1))` both `int` operands are converted to `uint32_t` and the sum is
converted back. The result is `none` for the remainder by zero, which is undefined. -/
def random_int (min max : Int) (g : XorShift32) : Option (Int × XorShift32) :=
  let (r, g1) := g.next_u32
  let d := (max - min + 1) % 4294967296
  if d = 0 then none
  else some (to_int32 ((min % 4294967296 + (r : Int) % d) % 4294967296), g1)

/-- Embeds `a[n]` on a C array of which `a` lists the elements: `none` outside the array,
where the access is undefined. -/
def index_array {α : Type} (a : List α) (n : Int) : Option α :=
  if 0 ≤ n then a[n.toNat]? else none

/-- Embeds the assignment `a[n] = x` on a C array: `none` outside the array. -/
def assign_array {α : Type} (a : List α) (n : Int) (x : α) : Option (List α) :=
  if 0 ≤ n ∧ n.toNat < a.length then some (a.set n.toNat x) else none

/-- Embeds `perlin`: the arrays `rand_float`, `perm_x`, `perm_y`, `perm_z`. -/
structure perlin (F : Type) where
  rand_float : List (vec3 F)
  perm_x : List Int
  perm_y : List Int
  perm_z : List Int

namespace perlin

variable {F : Type} [LinearOrderedField F]

/-- The body of the loop of `perlin::permute` for the index `i`. -/
def permute_step (i : Int) (s : List Int × XorShift32) : Option (List Int × XorShift32) :=
  match random_int 0 i s.2 with
  | none => none
  | some (target, g1) =>
    match index_array s.1 i with
    | none => none
    | some tmp =>
      match index_array s.1 target with
      | none => none
      | some pt =>
        match assign_array s.1 i pt with
        | none => none
        | some p1 =>
          match assign_array p1 target tmp with
          | none => none
          | some p2 => some (p2, g1)

/-- The loop `for (int i = n-1; i > 0; i--)` of `perlin::permute`, from `i = k` down. -/
def permute_loop : Nat → List Int × XorShift32 → Option (List Int × XorShift32)
  | 0, s => some s
  | k + 1, s =>
    match permute_step ((k : Int) + 1) s with
    | none => none
    | some s1 => permute_loop k s1

/-- Embeds `perlin::permute`. -/
def permute (p : List Int) (n : Int) (g : XorShift32) : Option (List Int × XorShift32) :=
  permute_loop (n - 1).toNat (p, g)

/-- Embeds `point_count`. -/
def point_count : Int := 256

/-- Embeds `perlin::perlin_generate_perm`: the table it fills, and the generator after the
call. -/
def perlin_generate_perm (g : XorShift32) : Option (List Int × XorShift32) :=
  let p := (int_range point_count)
  permute p point_count g

/-- The index triples `(di, dj, dk)`, or `(i, j, k)`, in the order of the three nested loops
of `noise_smooth` and of `perlin_interp`. -/
def cube_indices : List (Int × Int × Int) :=
  (int_range 2).flatMap (fun i => (int_range 2).flatMap (fun j =>
    (int_range 2).map (fun k => (i, j, k))))

/-- Embeds the right-hand side
`rand_float[perm_x[(i+di) & 255] ^ perm_y[(j+dj) & 255] ^ perm_z[(k+dk) & 255]]`. -/
def cell (pn : perlin F) (i j k : Int) (d : Int × Int × Int) : Option (vec3 F) :=
  match index_array pn.perm_x (Int.land (i + d.1) 255),
    index_array pn.perm_y (Int.land (j + d.2.1) 255),
    index_array pn.perm_z (Int.land (k + d.2.2) 255) with
  | some a, some b, some c => index_array pn.rand_float (Int.xor (Int.xor a b) c)
  | _, _, _ => none

/-- The three nested loops of `noise_smooth` that fill `c`: the entries, in the order of
the loops. -/
def cells (pn : perlin F) (i j k : Int) :
    List (Int × Int × Int) → Option (List ((Int × Int × Int) × vec3 F))
  | [] => some []
  | d :: ds =>
    match cell pn i j k d with
    | none => none
    | some x =>
      match cells pn i j k ds with
      | none => none
      | some xs => some ((d, x) :: xs)

/-- Embeds `perlin::fade`. -/
def fade (t : F) : F := t * t * (3 - 2 * t)

/-- Embeds `perlin::perlin_interp`; `c` gives the entry `c[i][j][k]`. -/
def perlin_interp (c : Int × Int × Int → vec3 F) (u v w : F) : F :=
  let uu := fade u
  let vv := fade v
  let ww := fade w
  cube_indices.foldl (fun accum d =>
    let weight_v : vec3 F := ⟨u - (d.1 : F), v - (d.2.1 : F), w - (d.2.2 : F)⟩
    accum + ((d.1 : F) * uu + (1 - (d.1 : F)) * (1 - uu))
      * ((d.2.1 : F) * vv + (1 - (d.2.1 : F)) * (1 - vv))
      * ((d.2.2 : F) * ww + (1 - (d.2.2 : F)) * (1 - ww))
      * vec3.dot (c d) weight_v) 0

/-- Embeds `perlin::noise_smooth`; `none` when an array is read outside its bounds. -/
def noise_smooth [FloorRing F] (pn : perlin F) (p : vec3 F) : Option F :=
  let u := p.x - (⌊p.x⌋ : F)
  let v := p.y - (⌊p.y⌋ : F)
  let w := p.z - (⌊p.z⌋ : F)
  let i : Int := ⌊p.x⌋
  let j : Int := ⌊p.y⌋
  let k : Int := ⌊p.z⌋
  match cells pn i j k cube_indices with
  | none => none
  | some cs =>
    some (perlin_interp (fun d => ((cs.lookup d).getD vec3.zero)) u v w)

/-- The table `p` is a permutation of `0..255`. -/
def is_perm_table (p : List Int) : Prop := p.Perm (int_range 256)

end perlin

/-- A `hit` function seen as a search, for a fixed ray: it tries the parameter `t1`, then
`t2`; a parameter is accepted when its geometric condition, `G1` or `G2`, holds and it is
inside the interval, strictly or not; the record is then filled in by `B1` or `B2`, and is
left as it was when no parameter is accepted. -/
structure hit_form (F M : Type) where
  strict : Bool
  t1 : F
  t2 : F
  G1 : Prop
  G2 : Prop
  B1 : hit_record F M → hit_record F M
  B2 : hit_record F M → hit_record F M

/-- The parameter `t` is inside the interval `I`, as the form tests it. -/
def hit_form.accepts {F M : Type} [LinearOrderedField F] (hf : hit_form F M) (I : interval F)
    (t : F) : Prop :=
  if hf.strict = true then I.min < fin t ∧ fin t < I.max else I.min ≤ fin t ∧ fin t ≤ I.max

/-- The form `hf` describes the function `h` of the interval and the record. -/
def hit_form.describes {F M : Type} [LinearOrderedField F] (hf : hit_form F M)
    (h : interval F → hit_record F M → HitResult F M) : Prop :=
  (hf.G2 → hf.t1 ≤ hf.t2) ∧ (∀ rc, (hf.B1 rc).t = hf.t1 ∧ (hf.B2 rc).t = hf.t2) ∧
  ∀ I rc,
    (hf.G1 ∧ hf.accepts I hf.t1 → h I rc = .ok (true, hf.B1 rc)) ∧
    (¬ (hf.G1 ∧ hf.accepts I hf.t1) → hf.G2 ∧ hf.accepts I hf.t2 →
      h I rc = .ok (true, hf.B2 rc)) ∧
    (¬ (hf.G1 ∧ hf.accepts I hf.t1) → ¬ (hf.G2 ∧ hf.accepts I hf.t2) →
      h I rc = .ok (false, rc))

/-- What the loop of `hittable_list::hit` needs of a `hit` function `h`, for intervals that
start at `lo` and end at or before `hi`: it returns; a miss leaves the record as it was;
whether it hits, and at which `t`, does not depend on the record passed in; a hit inside a
shorter interval is the hit inside `(lo, hi)`; and a hit inside `(lo, hi)` is found in a
shorter interval unless its `t` is at or beyond the end of that interval. -/
def narrows {F M : Type} [LinearOrderedField F]
    (h : interval F → hit_record F M → HitResult F M) (lo hi : Ext F) : Prop :=
  (∀ I rc, ∃ b out, h I rc = .ok (b, out)) ∧
  (∀ I rc out, h I rc = .ok (false, out) → out = rc) ∧
  (∀ I rc rc1 out, h I rc = .ok (true, out) →
    ∃ out1, h I rc1 = .ok (true, out1) ∧ out1.t = out.t) ∧
  (∀ c rc out, c ≤ hi → h ⟨lo, c⟩ rc = .ok (true, out) →
    h ⟨lo, hi⟩ rc = .ok (true, out) ∧ fin out.t ≤ c) ∧
  (∀ c rc out, c ≤ hi → h ⟨lo, hi⟩ rc = .ok (true, out) →
    h ⟨lo, c⟩ rc = .ok (true, out) ∨ (h ⟨lo, c⟩ rc = .ok (false, rc) ∧ c ≤ fin out.t))

/-- The generator when iteration `k` of the loop of `random_in_unit_disk` begins, the
iterations before it having rejected their points: an iteration draws twice. -/
def disk_state (F : Type) [LinearOrderedField F] : Nat → XorShift32 → XorShift32
  | 0, g => g
  | k + 1, g => disk_state F k (random_real (-1 : F) 1 (random_real (-1 : F) 1 g).2).2

/-- The point that iteration `k` of the loop of `random_in_unit_disk` draws is inside the
unit disk, so that the loop returns it. -/
def disk_accepts (F : Type) [LinearOrderedField F] (k : Nat) (g : XorShift32) : Prop :=
  (random_real (-1 : F) 1 (disk_state F k g)).1 * (random_real (-1 : F) 1 (disk_state F k g)).1 +
    (random_real (-1 : F) 1 (random_real (-1 : F) 1 (disk_state F k g)).2).1 *
      (random_real (-1 : F) 1 (random_real (-1 : F) 1 (disk_state F k g)).2).1 < 1

/-! ## Binary32: the `float` of the source, bit for bit

The definitions above read `float` over an ordered field. The definitions of this section
embed the same source lines a second time, in IEEE 754 binary32 with round to nearest, ties
to even, one rounding per operation (no fused multiply-add), so that the two readings can be
compared at concrete inputs. -/

/-- A `float` datum: the finite value `(-1)^s * m * 2^(-149)`, an infinity, or a NaN. Every
finite `float` has this form with `m < 2^277`; a `double` constant of the source that is a
multiple of `2^(-149)` has it too. -/
inductive fp where
  | fin (s : Bool) (m : Nat)
  | inf (s : Bool)
  | nan
deriving DecidableEq

namespace fp

/-- The floor of the binary logarithm of `n`, for `0 < n < 2^1024`; 0 for `n = 0`. -/
def ilog2 (n : Nat) : Nat :=
  [512, 256, 128, 64, 32, 16, 8, 4, 2, 1].foldl
    (fun acc k => if 1 ≤ n >>> (acc + k) then acc + k else acc) 0

/-- The `float` nearest to `(-1)^s * (num / den) * 2^(-149)`, ties to even: 24 significant
bits, no quantum below `2^(-149)`, and an infinity from `2^128` on. -/
def round32 (s : Bool) (num den : Nat) : fp :=
  let q := ilog2 (num / den) - 23
  let d := den <<< q
  let k := num / d
  let r := num % d
  let k1 := if 2 * r < d then k else if 2 * r = d then k + k % 2 else k + 1
  if 1 <<< 277 ≤ k1 <<< q then inf s else fin s (k1 <<< q)

/-- The `float` literal `num / den`, with the sign `s`: the nearest `float`. -/
def ofDec32 (s : Bool) (num den : Nat) : fp := round32 s (num <<< 149) den

/-- The `float` `+0`. -/
def zero : fp := fin false 0

/-- The `float` `1`. -/
def one : fp := fin false (1 <<< 149)

/-- The value of a finite datum as a rational number; 0 for an infinity or a NaN. -/
def toRat : fp → ℚ
  | fin false m => (m : ℚ) / 2 ^ 149
  | fin true m => -((m : ℚ) / 2 ^ 149)
  | _ => 0

/-- The place of a datum that is not a NaN in the order of the extended reals, in units of
`2^(-149)`; the two zeros have the same place. -/
def key : fp → Int
  | fin false m => (m : Int)
  | fin true m => -(m : Int)
  | inf false => ((1 <<< 300 : Nat) : Int)
  | inf true => -((1 <<< 300 : Nat) : Int)
  | nan => 0

/-- The datum is a NaN. -/
def isNaN : fp → Bool
  | nan => true
  | _ => false

/-- Embeds `x < y` on `float`: false when an operand is a NaN. -/
def lt (x y : fp) : Bool := !x.isNaN && !y.isNaN && decide (x.key < y.key)

/-- Embeds `x <= y` on `float`: false when an operand is a NaN. -/
def le (x y : fp) : Bool := !x.isNaN && !y.isNaN && decide (x.key ≤ y.key)

/-- Embeds `x == y` on `float`: false when an operand is a NaN, true on `+0` and `-0`. -/
def eq (x y : fp) : Bool := !x.isNaN && !y.isNaN && decide (x.key = y.key)

/-- Embeds the unary `-x`. -/
def neg : fp → fp
  | fin s m => fin (!s) m
  | inf s => inf (!s)
  | nan => nan

/-- Embeds `std::fabs`. -/
def abs : fp → fp
  | fin _ m => fin false m
  | inf _ => inf false
  | nan => nan

/-- Embeds `x + y` on `float`. -/
def add : fp → fp → fp
  | fin s1 m1, fin s2 m2 =>
    if s1 = s2 then round32 s1 (m1 + m2) 1
    else if m1 = m2 then fin false 0
    else if m2 < m1 then round32 s1 (m1 - m2) 1
    else round32 s2 (m2 - m1) 1
  | fin _ _, inf s2 => inf s2
  | inf s1, fin _ _ => inf s1
  | inf s1, inf s2 => if s1 = s2 then inf s1 else nan
  | _, _ => nan

/-- Embeds `x - y` on `float`. -/
def sub (x y : fp) : fp := x.add y.neg

/-- Embeds `x * y` on `float`. -/
def mul : fp → fp → fp
  | fin s1 m1, fin s2 m2 => round32 (xor s1 s2) (m1 * m2) (1 <<< 149)
  | fin s1 m1, inf s2 => if m1 = 0 then nan else inf (xor s1 s2)
  | inf s1, fin s2 m2 => if m2 = 0 then nan else inf (xor s1 s2)
  | inf s1, inf s2 => inf (xor s1 s2)
  | _, _ => nan

/-- Embeds `x / y` on `float`. -/
def div : fp → fp → fp
  | fin s1 m1, fin s2 m2 =>
    if m2 = 0 then (if m1 = 0 then nan else inf (xor s1 s2))
    else round32 (xor s1 s2) (m1 <<< 149) m2
  | fin s1 _, inf s2 => fin (xor s1 s2) 0
  | inf s1, fin s2 _ => inf (xor s1 s2)
  | _, _ => nan

/-- The floor of the square root of `n < 2^128`, bit by bit from the top. -/
def isqrt (n : Nat) : Nat :=
  (List.range 64).foldl
    (fun res i => if (res + (1 <<< (63 - i))) * (res + (1 <<< (63 - i))) ≤ n
      then res + (1 <<< (63 - i)) else res) 0

/-- Embeds `std::sqrt` on `float`, which IEEE 754 rounds correctly. -/
def sqrt : fp → fp
  | fin s m =>
    if m = 0 then fin s 0
    else if s then nan
    else
      let q := ilog2 (m <<< 149) / 2 - 23
      let k := isqrt ((m <<< 149) >>> (2 * q))
      let k1 :=
        if 4 * (m <<< 149) < ((2 * k + 1) * (2 * k + 1)) <<< (2 * q) then k
        else if 4 * (m <<< 149) = ((2 * k + 1) * (2 * k + 1)) <<< (2 * q) then k + k % 2
        else k + 1
      fin false (k1 <<< q)
  | inf s => if s then nan else inf false
  | nan => nan

end fp

/-- The C math library functions on `float` that IEEE 754 does not fix: any functions. -/
structure Libm32 where
  acos : fp → fp
  atan2 : fp → fp → fp

namespace f32

/-- Embeds `VecN<float, 3>::operator-()`. -/
def neg (v : vec3 fp) : vec3 fp := ⟨v.x.neg, v.y.neg, v.z.neg⟩

/-- Embeds `operator+(VecN, VecN)` on `float`. -/
def add (v u : vec3 fp) : vec3 fp := ⟨v.x.add u.x, v.y.add u.y, v.z.add u.z⟩

/-- Embeds `operator-(VecN, VecN)` on `float`. -/
def sub (v u : vec3 fp) : vec3 fp := ⟨v.x.sub u.x, v.y.sub u.y, v.z.sub u.z⟩

/-- Embeds `operator*(T, VecN)` on `float`. -/
def smul (t : fp) (v : vec3 fp) : vec3 fp := ⟨t.mul v.x, t.mul v.y, t.mul v.z⟩

/-- Embeds `operator/(VecN, U)` on `float`: throws on a zero divisor, divides each
component otherwise. -/
def div (v : vec3 fp) (t : fp) : Except String (vec3 fp) :=
  if t.eq fp.zero then .error "Division by zero"
  else .ok ⟨v.x.div t, v.y.div t, v.z.div t⟩

/-- Embeds `VecN::operator*=(T)` on `float`. -/
def mul_assign (v : vec3 fp) (t : fp) : vec3 fp := ⟨v.x.mul t, v.y.mul t, v.z.mul t⟩

/-- Embeds `VecN::operator/=(T)` on `float`: throws on a zero divisor, and is
`*this *= T(1) / t` otherwise. -/
def div_assign (v : vec3 fp) (t : fp) : Except String (vec3 fp) :=
  if t.eq fp.zero then .error "Division by zero"
  else .ok (mul_assign v (fp.one.div t))

/-- Embeds `dot` on `float`: the products are added to `sum = 0` in the order of the
index. -/
def dot (u v : vec3 fp) : fp :=
  ((fp.zero.add (u.x.mul v.x)).add (u.y.mul v.y)).add (u.z.mul v.z)

/-- Embeds `cross` on `float`. -/
def cross (u v : vec3 fp) : vec3 fp :=
  ⟨(u.y.mul v.z).sub (u.z.mul v.y), (u.z.mul v.x).sub (u.x.mul v.z),
    (u.x.mul v.y).sub (u.y.mul v.x)⟩

/-- Embeds `length_squared` on `float`. -/
def length_squared (v : vec3 fp) : fp :=
  ((fp.zero.add (v.x.mul v.x)).add (v.y.mul v.y)).add (v.z.mul v.z)

/-- Embeds `length` on `float`. -/
def length (v : vec3 fp) : fp := (length_squared v).sqrt

/-- Embeds `unit_vector` on `float`. -/
def unit_vector (v : vec3 fp) : Except String (vec3 fp) :=
  if (length v).eq fp.zero then .ok ⟨fp.one, fp.zero, fp.zero⟩
  else div v (length v)

/-- Embeds `ray::at` on `float`. -/
def ray_at (r : ray fp) (t : fp) : vec3 fp := add r.orig (smul t r.dir)

/-- Embeds `interval`, whose members are `float`. -/
structure interval where
  min : fp
  max : fp

/-- Embeds `interval::contains` on `float`. -/
def interval.contains (i : interval) (x : fp) : Bool := i.min.le x && x.le i.max

/-- Embeds `interval::surrounds` on `float`. -/
def interval.surrounds (i : interval) (x : fp) : Bool := i.min.lt x && x.lt i.max

/-- Embeds `hit_record::set_face_normal` on `float`. -/
def set_face_normal {M : Type} (rc : hit_record fp M) (r : ray fp) (outward_normal : vec3 fp) :
    hit_record fp M :=
  { rc with front_face := (dot r.dir outward_normal).lt fp.zero,
            normal := if (dot r.dir outward_normal).lt fp.zero then outward_normal
              else neg outward_normal }

/-- A local `hit_record rec;` before any call has written it, the indeterminate scalars
read as `+0`. -/
def fresh {M : Type} : hit_record fp M :=
  { p := ⟨fp.zero, fp.zero, fp.zero⟩, normal := ⟨fp.zero, fp.zero, fp.zero⟩, t := fp.zero,
    u := fp.zero, v := fp.zero, front_face := false, mat := none }

/-- Embeds `constants.hpp`: `PI = 3.141593f`. -/
def PI : fp := fp.ofDec32 false 3141593 1000000

/-- Embeds `sphere`, without the bounding box of the absent `AABB.hpp`. -/
structure sphere (M : Type) where
  center : ray fp
  radius : fp
  mat : Option M

/-- Embeds `std::fmax(0, radius)`. -/
def fmax0 (radius : fp) : fp := if fp.zero.lt radius then radius else fp.zero

/-- Embeds `sphere(static_center, radius, mat)` on `float`. -/
def sphere.mk_static {M : Type} (static_center : vec3 fp) (radius : fp) (mat : Option M) :
    sphere M :=
  { center := ⟨static_center, ⟨fp.zero, fp.zero, fp.zero⟩, fp.zero⟩, radius := fmax0 radius,
    mat := mat }

/-- Embeds `sphere(center1, center2, radius, mat)` on `float`. -/
def sphere.mk_moving {M : Type} (center1 center2 : vec3 fp) (radius : fp) (mat : Option M) :
    sphere M :=
  { center := ⟨center1, sub center2 center1, fp.zero⟩, radius := fmax0 radius, mat := mat }

/-- Embeds `sphere::get_sphere_uv` on `float`. -/
def sphere.get_sphere_uv (m : Libm32) (p : vec3 fp) : fp × fp :=
  (((m.atan2 p.z.neg p.x).add PI).div ((fp.ofDec32 false 2 1).mul PI),
    (m.acos p.y.neg).div PI)

/-- Embeds `sphere::hit` on `float`, after the root is chosen. -/
def sphere.hit_at {M : Type} (m : Libm32) (s : sphere M) (r : ray fp)
    (current_center : vec3 fp) (root : fp) (rc : hit_record fp M) : HitResult fp M :=
  match div (sub (ray_at r root) current_center) s.radius with
  | .error e => .error e
  | .ok outward_normal =>
    .ok (true,
      { set_face_normal { rc with t := root, p := ray_at r root } r outward_normal with
        u := (sphere.get_sphere_uv m outward_normal).1
        v := (sphere.get_sphere_uv m outward_normal).2
        mat := s.mat })

/-- Embeds `sphere::hit` on `float`. -/
def sphere.hit {M : Type} (m : Libm32) (s : sphere M) (r : ray fp) (ray_t : interval)
    (rc : hit_record fp M) : HitResult fp M :=
  let current_center := ray_at s.center r.tm
  let oc := sub current_center r.orig
  let a := length_squared r.dir
  let h := dot r.dir oc
  let c := (length_squared oc).sub (s.radius.mul s.radius)
  let discriminant := (h.mul h).sub (a.mul c)
  if discriminant.lt fp.zero then .ok (false, rc)
  else
    let sqrtd := discriminant.sqrt
    if ((h.sub sqrtd).div a).le ray_t.min || ray_t.max.le ((h.sub sqrtd).div a) then
      if ((h.add sqrtd).div a).le ray_t.min || ray_t.max.le ((h.add sqrtd).div a) then
        .ok (false, rc)
      else sphere.hit_at m s r current_center ((h.add sqrtd).div a) rc
    else sphere.hit_at m s r current_center ((h.sub sqrtd).div a) rc

/-- Embeds `quad`, without the bounding box of the absent `AABB.hpp`. -/
structure quad (M : Type) where
  Q : vec3 fp
  u : vec3 fp
  v : vec3 fp
  w : vec3 fp
  mat : Option M
  normal : vec3 fp
  D : fp

/-- Embeds the constructor of `quad` on `float`. -/
def quad.mk_quad {M : Type} (Q u v : vec3 fp) (mat : Option M) : Except String (quad M) :=
  match unit_vector (cross u v) with
  | .error e => .error e
  | .ok normal =>
    match div (cross u v) (dot (cross u v) (cross u v)) with
    | .error e => .error e
    | .ok w => .ok { Q := Q, u := u, v := v, w := w, mat := mat, normal := normal,
                     D := dot normal Q }

/-- The `double` constant `1e-8` of `quad::hit` and `triangle::hit`, which is
`0x1.5798ee2308c3ap-27`; the `float` it is compared with is converted to `double` without
a change of value. -/
def tiny : fp := fp.fin false (6044629098073146 <<< 70)

/-- Embeds `quad::hit` and `quad::is_interior` on `float`. -/
def quad.hit {M : Type} (q : quad M) (r : ray fp) (ray_t : interval) (rc : hit_record fp M) :
    HitResult fp M :=
  let denominator := dot q.normal r.dir
  if denominator.abs.lt tiny then .ok (false, rc)
  else
    let t := (q.D.sub (dot q.normal r.orig)).div denominator
    if !ray_t.contains t then .ok (false, rc)
    else
      let intersection := ray_at r t
      let planar_hitpt_vector := sub intersection q.Q
      let alpha := dot q.w (cross planar_hitpt_vector q.v)
      let beta := dot q.w (cross q.u planar_hitpt_vector)
      if !(interval.contains ⟨fp.zero, fp.one⟩ alpha) ||
          !(interval.contains ⟨fp.zero, fp.one⟩ beta) then .ok (false, rc)
      else
        .ok (true, set_face_normal
          { rc with u := alpha, v := beta, t := t, p := intersection, mat := q.mat } r q.normal)

/-- Embeds `triangle`, without the bounding box of the absent `AABB.hpp`. -/
structure triangle (M : Type) where
  a : vec3 fp
  b : vec3 fp
  c : vec3 fp
  u : vec3 fp
  v : vec3 fp
  normal : vec3 fp
  D : fp
  mat : Option M

/-- Embeds the constructor of `triangle` on `float`. -/
def triangle.mk_triangle {M : Type} (a b c : vec3 fp) (mat : Option M) :
    Except String (triangle M) :=
  match unit_vector (cross (sub b a) (sub c a)) with
  | .error e => .error e
  | .ok normal =>
    .ok { a := a, b := b, c := c, u := sub b a, v := sub c a, normal := normal,
          D := dot normal a, mat := mat }

/-- Embeds `triangle::hit` on `float`. -/
def triangle.hit {M : Type} (tr : triangle M) (r : ray fp) (ray_t : interval)
    (rc : hit_record fp M) : HitResult fp M :=
  let denom := dot tr.normal r.dir
  if denom.abs.lt tiny then .ok (false, rc)
  else
    let t := (tr.D.sub (dot tr.normal r.orig)).div denom
    if !ray_t.contains t then .ok (false, rc)
    else
      let p := ray_at r t
      let c0 := cross (sub tr.b tr.a) (sub p tr.a)
      let c1 := cross (sub tr.c tr.b) (sub p tr.b)
      let c2 := cross (sub tr.a tr.c) (sub p tr.c)
      if (dot tr.normal c0).lt fp.zero || (dot tr.normal c1).lt fp.zero ||
          (dot tr.normal c2).lt fp.zero then .ok (false, rc)
      else .ok (true, set_face_normal { rc with t := t, p := p, mat := tr.mat } r tr.normal)

/-- Embeds `mesh_triangle` on `float`. -/
structure mesh_triangle (M : Type) where
  v0 : vec3 fp
  v1 : vec3 fp
  v2 : vec3 fp
  mat : Option M

/-- Embeds `std::numeric_limits<float>::epsilon()`, which is `2^(-23)`. -/
def epsilon : fp := fp.fin false (1 <<< 126)

/-- Embeds `mesh_triangle::hit` on `float`. -/
def mesh_triangle.hit {M : Type} (mt : mesh_triangle M) (r : ray fp) (ray_t : interval)
    (rc : hit_record fp M) : HitResult fp M :=
  let edge1 := sub mt.v1 mt.v0
  let edge2 := sub mt.v2 mt.v0
  let h := cross r.dir edge2
  let a := dot edge1 h
  if a.abs.lt epsilon then .ok (false, rc)
  else
    let f := fp.one.div a
    let s := sub r.orig mt.v0
    let u := f.mul (dot s h)
    if u.lt fp.zero || fp.one.lt u then .ok (false, rc)
    else
      let q := cross s edge1
      let v := f.mul (dot r.dir q)
      if v.lt fp.zero || fp.one.lt (u.add v) then .ok (false, rc)
      else
        let t := f.mul (dot edge2 q)
        if !ray_t.surrounds t then .ok (false, rc)
        else
          match unit_vector (cross edge1 edge2) with
          | .error e => .error e
          | .ok n => .ok (true, { set_face_normal { rc with t := t, p := ray_at r t } r n with
                                  mat := mt.mat })

/-- Embeds the lines of `Camera::initialize` that compute the camera frame, on `float`:
`w = unit_vector(lookfrom - lookat); u = unit_vector(cross(vup, w)); v = cross(w, u);`.
The result is `(u, v, w)`. -/
def camera_frame (lookfrom lookat vup : vec3 fp) : Except String (vec3 fp × vec3 fp × vec3 fp) :=
  match unit_vector (sub lookfrom lookat) with
  | .error e => .error e
  | .ok w =>
    match unit_vector (cross vup w) with
    | .error e => .error e
    | .ok u => .ok (u, cross w u, w)

/-- The loop of `hittable_list::hit` on `float`, over the `hit` functions of the objects not
yet visited; the state is `(temp_rec, hit_anything, closes_so_far, rec)`. -/
def hit_loop {M : Type} (r : ray fp) (ray_t : interval) :
    List (ray fp → interval → hit_record fp M → HitResult fp M) →
    hit_record fp M × Bool × fp × hit_record fp M →
    Except String (hit_record fp M × Bool × fp × hit_record fp M)
  | [], st => .ok st
  | object :: rest, (temp_rec, hit_anything, closes_so_far, rc) =>
    match object r ⟨ray_t.min, closes_so_far⟩ temp_rec with
    | .error e => .error e
    | .ok (true, temp_rec1) => hit_loop r ray_t rest (temp_rec1, true, temp_rec1.t, temp_rec1)
    | .ok (false, temp_rec1) =>
      hit_loop r ray_t rest (temp_rec1, hit_anything, closes_so_far, rc)

/-- Embeds `hittable_list::hit` on `float`. -/
def list_hit {M : Type}
    (objects : List (ray fp → interval → hit_record fp M → HitResult fp M)) (r : ray fp)
    (ray_t : interval) (rc : hit_record fp M) : HitResult fp M :=
  match hit_loop r ray_t objects (fresh, false, ray_t.max, rc) with
  | .error e => .error e
  | .ok st => .ok (st.2.1, st.2.2.2)

end f32

/-! # Theorems -/

/-! ## Lemmas on scalars and vectors -/

section lemmas

variable {F M : Type} [LinearOrderedField F]

theorem fin_le_fin (a b : F) : fin a ≤ fin b ↔ a ≤ b := by
  simp [fin]

theorem fin_lt_fin (a b : F) : fin a < fin b ↔ a < b := by
  simp [fin]

/-- With `a > 0` and `s * s` the reduced discriminant, the roots of `a t² - 2 h t + c` are
`(h - s) / a` and `(h + s) / a`. -/
theorem quadratic_roots (a h c s t : F) (ha : 0 < a) (hs : s * s = h * h - a * c) :
    a * (t * t) - 2 * h * t + c = 0 ↔ t = (h - s) / a ∨ t = (h + s) / a := by
  have ha0 : a ≠ 0 := ne_of_gt ha
  have key : a * (a * (t * t) - 2 * h * t + c) = (a * t - (h - s)) * (a * t - (h + s)) := by
    have : a * c = h * h - s * s := by rw [hs]; ring
    calc a * (a * (t * t) - 2 * h * t + c)
        = a * a * (t * t) - 2 * a * h * t + a * c := by ring
      _ = a * a * (t * t) - 2 * a * h * t + (h * h - s * s) := by rw [this]
      _ = (a * t - (h - s)) * (a * t - (h + s)) := by ring
  constructor
  · intro h0
    have hz : (a * t - (h - s)) * (a * t - (h + s)) = 0 := by rw [← key, h0, mul_zero]
    rcases mul_eq_zero.mp hz with h1 | h1
    · left; rw [eq_div_iff ha0]; linear_combination h1
    · right; rw [eq_div_iff ha0]; linear_combination h1
  · intro h0
    have hz : (a * t - (h - s)) * (a * t - (h + s)) = 0 := by
      rcases h0 with h1 | h1
      · rw [eq_div_iff ha0] at h1
        have : a * t - (h - s) = 0 := by linear_combination h1
        rw [this, zero_mul]
      · rw [eq_div_iff ha0] at h1
        have : a * t - (h + s) = 0 := by linear_combination h1
        rw [this, mul_zero]
    rw [← key] at hz
    rcases mul_eq_zero.mp hz with h1 | h1
    · exact absurd h1 ha0
    · exact h1

/-- A quadratic with a root has a non-negative reduced discriminant. -/
theorem discriminant_nonneg (a h c t : F) (h0 : a * (t * t) - 2 * h * t + c = 0) :
    0 ≤ h * h - a * c := by
  have : h * h - a * c = (a * t - h) * (a * t - h) := by linear_combination (-a) * h0
  rw [this]
  exact mul_self_nonneg _

theorem vec3.length_squared_pos (v : vec3 F) (hv : v ≠ vec3.zero) : 0 < v.length_squared := by
  rcases lt_or_eq_of_le (show 0 ≤ v.length_squared from by
      unfold vec3.length_squared
      linarith [mul_self_nonneg v.x, mul_self_nonneg v.y, mul_self_nonneg v.z]) with h | h
  · exact h
  · exfalso
    apply hv
    unfold vec3.length_squared at h
    have hx := mul_self_nonneg v.x
    have hy := mul_self_nonneg v.y
    have hz := mul_self_nonneg v.z
    have h1 : v.x * v.x = 0 := by linarith
    have h2 : v.y * v.y = 0 := by linarith
    have h3 : v.z * v.z = 0 := by linarith
    ext
    · exact mul_self_eq_zero.mp h1
    · exact mul_self_eq_zero.mp h2
    · exact mul_self_eq_zero.mp h3

end lemmas

/-! ## `sphere::hit` -/

section sphere_hit

variable {F M : Type} [LinearOrderedField F]

/-- With a non-zero radius the tail of `sphere::hit` does not throw and fills the record. -/
theorem sphere.hit_at_ok (m : Libm F) (PI : F) (s : sphere F M) (r : ray F) (C : vec3 F)
    (root : F) (rc : hit_record F M) (hr : s.radius ≠ 0) :
    sphere.hit_at m PI s r C root rc = .ok (true,
      { p := r.«at» root
        normal :=
          if vec3.dot r.dir ⟨((r.«at» root).x - C.x) / s.radius,
              ((r.«at» root).y - C.y) / s.radius, ((r.«at» root).z - C.z) / s.radius⟩ < 0
          then ⟨((r.«at» root).x - C.x) / s.radius,
              ((r.«at» root).y - C.y) / s.radius, ((r.«at» root).z - C.z) / s.radius⟩
          else vec3.neg ⟨((r.«at» root).x - C.x) / s.radius,
              ((r.«at» root).y - C.y) / s.radius, ((r.«at» root).z - C.z) / s.radius⟩
        t := root
        u := (sphere.get_sphere_uv m PI ⟨((r.«at» root).x - C.x) / s.radius,
              ((r.«at» root).y - C.y) / s.radius, ((r.«at» root).z - C.z) / s.radius⟩).1
        v := (sphere.get_sphere_uv m PI ⟨((r.«at» root).x - C.x) / s.radius,
              ((r.«at» root).y - C.y) / s.radius, ((r.«at» root).z - C.z) / s.radius⟩).2
        front_face := decide (vec3.dot r.dir ⟨((r.«at» root).x - C.x) / s.radius,
              ((r.«at» root).y - C.y) / s.radius, ((r.«at» root).z - C.z) / s.radius⟩ < 0)
        mat := s.mat }) := by
  simp [sphere.hit_at, vec3.div, hr, hit_record.set_face_normal, vec3.sub]

/-- The point `r.at t` is on the sphere around `C` exactly when `t` solves the quadratic
whose coefficients `sphere::hit` computes. -/
theorem sphere.on_sphere_iff (r : ray F) (C : vec3 F) (rad t : F) :
    ((r.«at» t).sub C).length_squared = rad * rad ↔
      r.dir.length_squared * (t * t) - 2 * vec3.dot r.dir (C.sub r.orig) * t
        + ((C.sub r.orig).length_squared - rad * rad) = 0 := by
  simp only [ray.«at», vec3.sub, vec3.add, vec3.smul, vec3.length_squared, vec3.dot]
  constructor
  · intro h; linear_combination h
  · intro h; linear_combination h


theorem sphere.unit_normal (p C : vec3 F) (rad : F) (hr : rad ≠ 0)
    (h : (p.sub C).length_squared = rad * rad) :
    (⟨(p.x - C.x) / rad, (p.y - C.y) / rad, (p.z - C.z) / rad⟩ : vec3 F).length_squared
      = 1 := by
  simp only [vec3.length_squared, vec3.sub] at h ⊢
  field_simp
  linear_combination h

theorem sphere_hit_spec (m : Libm F) (PI : F) (s : sphere F M) (r : ray F)
    (ray_t : interval F) (rc : hit_record F M)
    (hm : m.SqrtSpec) (hrad : 0 < s.radius) (hdir : r.dir ≠ vec3.zero) :
    let C := s.center.«at» r.tm
    let onSphere := fun t : F => ((r.«at» t).sub C).length_squared = s.radius * s.radius
    let inside := fun t : F => ray_t.min < fin t ∧ fin t < ray_t.max
    (∃ b rc', s.hit m PI r ray_t rc = .ok (b, rc')) ∧
    ((∃ rc', s.hit m PI r ray_t rc = .ok (true, rc')) ↔ ∃ t, inside t ∧ onSphere t) ∧
    (∀ rc', s.hit m PI r ray_t rc = .ok (true, rc') →
      inside rc'.t ∧ onSphere rc'.t ∧ (∀ t, inside t → onSphere t → rc'.t ≤ t) ∧
      rc'.p = r.«at» rc'.t ∧
      ∃ n : vec3 F, n = ⟨(rc'.p.x - C.x) / s.radius, (rc'.p.y - C.y) / s.radius,
          (rc'.p.z - C.z) / s.radius⟩ ∧ n.length_squared = 1 ∧
        (rc'.normal = n ∨ rc'.normal = n.neg)) := by
  intro C onSphere inside
  have hrad0 : s.radius ≠ 0 := ne_of_gt hrad
  have ha : 0 < r.dir.length_squared := vec3.length_squared_pos _ hdir
  have hon : ∀ t, onSphere t ↔ _ := fun t => sphere.on_sphere_iff r C s.radius t
  have hins : ∀ t, ¬ (fin t ≤ ray_t.min ∨ ray_t.max ≤ fin t) ↔ inside t := by
    intro t; simp only [inside, not_or, not_le]
  generalize hA : r.dir.length_squared = a at ha hon
  generalize hH : vec3.dot r.dir (C.sub r.orig) = h at hon
  generalize hC : (C.sub r.orig).length_squared - s.radius * s.radius = c at hon
  have hunf : s.hit m PI r ray_t rc =
      if h * h - a * c < 0 then .ok (false, rc)
      else if fin ((h - m.sqrt (h * h - a * c)) / a) ≤ ray_t.min ∨
            ray_t.max ≤ fin ((h - m.sqrt (h * h - a * c)) / a) then
        if fin ((h + m.sqrt (h * h - a * c)) / a) ≤ ray_t.min ∨
            ray_t.max ≤ fin ((h + m.sqrt (h * h - a * c)) / a) then .ok (false, rc)
        else sphere.hit_at m PI s r C ((h + m.sqrt (h * h - a * c)) / a) rc
      else sphere.hit_at m PI s r C ((h - m.sqrt (h * h - a * c)) / a) rc := by
    rw [← hA, ← hH, ← hC]; rfl
  rw [hunf]
  by_cases hd : h * h - a * c < 0
  · rw [if_pos hd]
    refine ⟨⟨false, rc, rfl⟩, ⟨?_, ?_⟩, ?_⟩
    · rintro ⟨rc', h1⟩; simp at h1
    · rintro ⟨t, _, ht⟩
      have := discriminant_nonneg a h c t ((hon t).mp ht)
      exact absurd hd (not_lt.mpr this)
    · intro rc' h1; simp at h1
  · rw [if_neg hd]
    obtain ⟨hs0, hss⟩ := hm _ (not_lt.mp hd)
    generalize m.sqrt (h * h - a * c) = sq at hs0 hss ⊢
    have hroots := fun t => quadratic_roots a h c sq t ha hss
    have h12 : (h - sq) / a ≤ (h + sq) / a :=
      div_le_div_of_nonneg_right (by linarith) (le_of_lt ha)
    have hon1 : onSphere ((h - sq) / a) := (hon _).mpr ((hroots _).mpr (Or.inl rfl))
    have hon2 : onSphere ((h + sq) / a) := (hon _).mpr ((hroots _).mpr (Or.inr rfl))
    by_cases h1 : fin ((h - sq) / a) ≤ ray_t.min ∨ ray_t.max ≤ fin ((h - sq) / a)
    · rw [if_pos h1]
      by_cases h2 : fin ((h + sq) / a) ≤ ray_t.min ∨ ray_t.max ≤ fin ((h + sq) / a)
      · rw [if_pos h2]
        refine ⟨⟨false, rc, rfl⟩, ⟨?_, ?_⟩, ?_⟩
        · rintro ⟨rc', e⟩; simp at e
        · rintro ⟨t, hin, ht⟩
          rcases (hroots t).mp ((hon t).mp ht) with e | e
          · subst e; exact absurd h1 ((hins _).mpr hin)
          · subst e; exact absurd h2 ((hins _).mpr hin)
        · intro rc' e; simp at e
      · rw [if_neg h2, sphere.hit_at_ok _ _ _ _ _ _ _ hrad0]
        have hin2 := (hins _).mp h2
        refine ⟨⟨_, _, rfl⟩, ⟨fun _ => ⟨_, hin2, hon2⟩, fun _ => ⟨_, rfl⟩⟩, ?_⟩
        intro rc' e
        simp only [Except.ok.injEq, Prod.mk.injEq, true_and] at e
        subst e
        refine ⟨hin2, hon2, ?_, rfl, _, rfl, sphere.unit_normal _ _ _ hrad0 hon2, ?_⟩
        · intro t hin ht
          rcases (hroots t).mp ((hon t).mp ht) with e | e
          · subst e; exact absurd h1 ((hins _).mpr hin)
          · exact le_of_eq e.symm
        · dsimp only
          split_ifs
          · left; rfl
          · right; rfl
    · rw [if_neg h1, sphere.hit_at_ok _ _ _ _ _ _ _ hrad0]
      have hin1 := (hins _).mp h1
      refine ⟨⟨_, _, rfl⟩, ⟨fun _ => ⟨_, hin1, hon1⟩, fun _ => ⟨_, rfl⟩⟩, ?_⟩
      intro rc' e
      simp only [Except.ok.injEq, Prod.mk.injEq, true_and] at e
      subst e
      refine ⟨hin1, hon1, ?_, rfl, _, rfl, sphere.unit_normal _ _ _ hrad0 hon1, ?_⟩
      · intro t hin ht
        rcases (hroots t).mp ((hon t).mp ht) with e | e
        · exact le_of_eq e.symm
        · rw [e]; exact h12
      · dsimp only
        split_ifs
        · left; rfl
        · right; rfl

theorem not_INF_le_fin (x : F) : ¬ ((INF : Ext F) ≤ fin x) := by
  simp [INF, fin]

theorem fin_lt_INF (x : F) : fin x < (INF : Ext F) :=
  WithBot.coe_lt_coe.mpr (WithTop.coe_lt_top x)

theorem NEG_INF_lt_fin (x : F) : (NEG_INF : Ext F) < fin x := by
  simp [NEG_INF, fin]

theorem not_fin_le_NEG_INF (x : F) : ¬ (fin x ≤ (NEG_INF : Ext F)) := by
  simp [NEG_INF, fin]

theorem sqrt_one (m : Libm F) (hm : m.SqrtSpec) : m.sqrt 1 = 1 := by
  obtain ⟨h0, h1⟩ := hm 1 zero_le_one
  have : (m.sqrt 1 - 1) * (m.sqrt 1 + 1) = 0 := by linear_combination h1
  rcases mul_eq_zero.mp this with h | h
  · linear_combination h
  · linarith

theorem sphere_hit_example (m : Libm F) (PI : F) (hm : m.SqrtSpec) (mat : Option M) (tm : F)
    (rc : hit_record F M) :
    ∃ rc', (sphere.mk_static ⟨0, 0, 0⟩ 1 mat).hit m PI ⟨⟨0, 0, 5⟩, ⟨0, 0, -1⟩, tm⟩
        ⟨fin (1 / 1000), INF⟩ rc = .ok (true, rc') ∧ rc'.t = 4 ∧ rc'.normal = ⟨0, 0, 1⟩ := by
  have e1 : (sphere.mk_static (⟨0, 0, 0⟩ : vec3 F) 1 mat).radius = 1 := by
    simp [sphere.mk_static]
  simp only [sphere.hit, sphere.mk_static, ray.mk2, ray.«at», vec3.zero, vec3.add, vec3.smul, vec3.sub, vec3.length_squared, vec3.dot]
  norm_num
  rw [sqrt_one m hm]
  norm_num
  rw [if_neg (by simp [fin_le_fin, not_INF_le_fin]; norm_num), sphere.hit_at_ok _ _ _ _ _ _ _ (by norm_num)]
  refine ⟨_, rfl, rfl, ?_⟩
  simp [ray.«at», vec3.add, vec3.smul, vec3.dot]
  norm_num

/-- The real square root satisfies `SqrtSpec`, whatever the other library functions are. -/
theorem real_sqrt_spec (acos : ℝ → ℝ) (atan2 : ℝ → ℝ → ℝ) (sin cos tan : ℝ → ℝ) :
    (⟨Real.sqrt, acos, atan2, sin, cos, tan⟩ : Libm ℝ).SqrtSpec :=
  fun x hx => ⟨Real.sqrt_nonneg x, Real.mul_self_sqrt hx⟩

/-- C1, amended: with arithmetic read over the reals, for a sphere with radius > 0, a ray
with non-zero direction and an interval, `sphere::hit` returns (it does not throw), it returns true iff the quadratic
`|origin + t * direction - center(ray.time)|² = radius²` has a root strictly inside the
interval; on a hit `rec.t` is such a root and the smallest one, `rec.p = r.at(rec.t)`, and
`rec.normal` is the unit vector `(rec.p - center) / radius` or its negation. The unit sphere
at the origin and the ray from (0,0,5) with direction (0,0,-1) over (0.001, +inf) give a hit
with `t = 4` and normal (0,0,1). -/
theorem sphere_hit_contract (m : Libm F) (PI : F) (hm : m.SqrtSpec) :
    (∀ (s : sphere F M) (r : ray F) (ray_t : interval F) (rc : hit_record F M),
      0 < s.radius → r.dir ≠ vec3.zero →
      let C := s.center.«at» r.tm
      let onSphere := fun t : F => ((r.«at» t).sub C).length_squared = s.radius * s.radius
      let inside := fun t : F => ray_t.min < fin t ∧ fin t < ray_t.max
      (∃ b rc', s.hit m PI r ray_t rc = .ok (b, rc')) ∧
      ((∃ rc', s.hit m PI r ray_t rc = .ok (true, rc')) ↔ ∃ t, inside t ∧ onSphere t) ∧
      (∀ rc', s.hit m PI r ray_t rc = .ok (true, rc') →
        inside rc'.t ∧ onSphere rc'.t ∧ (∀ t, inside t → onSphere t → rc'.t ≤ t) ∧
        rc'.p = r.«at» rc'.t ∧
        ∃ n : vec3 F, n = ⟨(rc'.p.x - C.x) / s.radius, (rc'.p.y - C.y) / s.radius,
            (rc'.p.z - C.z) / s.radius⟩ ∧ n.length_squared = 1 ∧
          (rc'.normal = n ∨ rc'.normal = n.neg))) ∧
    (∀ (mat : Option M) (tm : F) (rc : hit_record F M),
      ∃ rc', (sphere.mk_static ⟨0, 0, 0⟩ 1 mat).hit m PI ⟨⟨0, 0, 5⟩, ⟨0, 0, -1⟩, tm⟩
          ⟨fin (1 / 1000), INF⟩ rc = .ok (true, rc') ∧ rc'.t = 4 ∧
        rc'.normal = ⟨0, 0, 1⟩) :=
  ⟨fun s r ray_t rc hrad hdir => sphere_hit_spec m PI s r ray_t rc hm hrad hdir,
   fun mat tm rc => sphere_hit_example m PI hm mat tm rc⟩

/-- The contract of `sphere::hit` at the real numbers, for the sphere of radius 2 around
(1,0,0) and the ray from (1,0,5) towards -z over (0.001, +inf). -/
theorem sphere_hit_contract_witness :
    (⟨Real.sqrt, Real.arccos, fun y x => Complex.arg ⟨x, y⟩, Real.sin, Real.cos, Real.tan⟩ :
      Libm ℝ).SqrtSpec ∧
    (0 : ℝ) < (sphere.mk_static (⟨1, 0, 0⟩ : vec3 ℝ) 2 (none : Option Unit)).radius ∧
    (⟨0, 0, -1⟩ : vec3 ℝ) ≠ vec3.zero ∧
    ((∃ rc', (sphere.mk_static (⟨1, 0, 0⟩ : vec3 ℝ) 2 (none : Option Unit)).hit
        ⟨Real.sqrt, Real.arccos, fun y x => Complex.arg ⟨x, y⟩, Real.sin, Real.cos, Real.tan⟩
        (3141593 / 1000000) ⟨⟨1, 0, 5⟩, ⟨0, 0, -1⟩, 0⟩ ⟨fin (1 / 1000), INF⟩
        hit_record.fresh = .ok (true, rc')) ↔
      ∃ t : ℝ, (fin (1 / 1000) < fin t ∧ fin t < INF) ∧
        (((⟨⟨1, 0, 5⟩, ⟨0, 0, -1⟩, 0⟩ : ray ℝ).«at» t).sub
          ((sphere.mk_static (⟨1, 0, 0⟩ : vec3 ℝ) 2 (none : Option Unit)).center.«at»
            0)).length_squared =
          (sphere.mk_static (⟨1, 0, 0⟩ : vec3 ℝ) 2 (none : Option Unit)).radius *
            (sphere.mk_static (⟨1, 0, 0⟩ : vec3 ℝ) 2 (none : Option Unit)).radius) :=
  have hrad : (0 : ℝ) < (sphere.mk_static (⟨1, 0, 0⟩ : vec3 ℝ) 2 (none : Option Unit)).radius := by
    simp [sphere.mk_static]
  have hdir : (⟨0, 0, -1⟩ : vec3 ℝ) ≠ vec3.zero := by
    simp [vec3.zero]
  ⟨real_sqrt_spec _ _ _ _ _, hrad, hdir,
   ((sphere_hit_contract _ _ (real_sqrt_spec _ _ _ _ _)).1 _ ⟨⟨1, 0, 5⟩, ⟨0, 0, -1⟩, 0⟩
      ⟨fin (1 / 1000), INF⟩ hit_record.fresh hrad hdir).2.1⟩

end sphere_hit


section quad_hit

variable {F M : Type} [LinearOrderedField F]

theorem interval.contains_iff (i : interval F) (x : F) :
    i.contains x = true ↔ i.min ≤ fin x ∧ fin x ≤ i.max := by
  simp [interval.contains]

theorem interval.surrounds_iff (i : interval F) (x : F) :
    i.surrounds x = true ↔ i.min < fin x ∧ fin x < i.max := by
  simp [interval.surrounds]

theorem quad.is_interior_eq (a b : F) (rc : hit_record F M) :
    quad.is_interior a b rc =
      if 0 ≤ a ∧ a ≤ 1 ∧ 0 ≤ b ∧ b ≤ 1 then (true, { rc with u := a, v := b })
      else (false, rc) := by
  unfold quad.is_interior
  by_cases h : 0 ≤ a ∧ a ≤ 1 ∧ 0 ≤ b ∧ b ≤ 1
  · rw [if_pos h]
    obtain ⟨h1, h2, h3, h4⟩ := h
    simp [interval.contains, fin_le_fin, h1, h2, h3, h4]
  · rw [if_neg h]
    simp only [interval.contains, fin_le_fin]
    rw [if_pos]
    simp only [Bool.or_eq_true, Bool.not_eq_true', decide_eq_false_iff_not]
    by_contra hc
    apply h
    push_neg at hc
    exact ⟨hc.1.1, hc.1.2, hc.2.1, hc.2.2⟩

/-- What `quad::hit` returns, for any stored fields. -/
theorem quad_hit_eq (q : quad F M) (r : ray F) (ray_t : interval F) (rc : hit_record F M) :
    let denominator := vec3.dot q.normal r.dir
    let t := (q.D - vec3.dot q.normal r.orig) / denominator
    let alpha := vec3.dot q.w (vec3.cross ((r.«at» t).sub q.Q) q.v)
    let beta := vec3.dot q.w (vec3.cross q.u ((r.«at» t).sub q.Q))
    q.hit r ray_t rc =
      if 1 / 100000000 ≤ |denominator| ∧ (ray_t.min ≤ fin t ∧ fin t ≤ ray_t.max) ∧
          (0 ≤ alpha ∧ alpha ≤ 1 ∧ 0 ≤ beta ∧ beta ≤ 1) then
        .ok (true,
          { p := r.«at» t
            normal := if vec3.dot r.dir q.normal < 0 then q.normal else q.normal.neg
            t := t, u := alpha, v := beta
            front_face := decide (vec3.dot r.dir q.normal < 0)
            mat := q.mat })
      else .ok (false, rc) := by
  intro denominator t alpha beta
  unfold quad.hit
  by_cases h1 : |denominator| < 1 / 100000000
  · simp only [denominator] at h1
    rw [if_pos h1, if_neg]
    rintro ⟨h, _⟩
    exact absurd h1 (not_lt.mpr h)
  · have h1' := h1
    simp only [denominator] at h1'
    rw [if_neg h1']
    by_cases h2 : ray_t.min ≤ fin t ∧ fin t ≤ ray_t.max
    · have h2' : ray_t.contains ((q.D - vec3.dot q.normal r.orig) / vec3.dot q.normal r.dir)
          = true := (interval.contains_iff _ _).mpr h2
      simp only [h2', Bool.not_true, Bool.false_eq_true, if_false]
      rw [quad.is_interior_eq]
      by_cases h3 : 0 ≤ alpha ∧ alpha ≤ 1 ∧ 0 ≤ beta ∧ beta ≤ 1
      · have h3' := h3
        simp only [alpha, beta, t, denominator] at h3'
        rw [if_pos h3', if_pos ⟨not_lt.mp h1, h2, h3⟩]
        simp [hit_record.set_face_normal]
      · have h3' := h3
        simp only [alpha, beta, t, denominator] at h3'
        rw [if_neg h3', if_neg]
        rintro ⟨_, _, h⟩
        exact h3 h
    · have h2' : ray_t.contains ((q.D - vec3.dot q.normal r.orig) / vec3.dot q.normal r.dir)
          = false := by
        rw [← Bool.not_eq_true, interval.contains_iff]
        exact h2
      simp only [h2', Bool.not_false, if_true]
      rw [if_neg]
      rintro ⟨_, h, _⟩
      exact h2 h


theorem vec3.dot_self_pos (n : vec3 F) (hn : n ≠ vec3.zero) : 0 < vec3.dot n n :=
  vec3.length_squared_pos n hn

/-- A vector `p` in the plane spanned by `u` and `v` is `alpha u + beta v` for the planar
coordinates that `quad::hit` computes with `w = n / dot(n, n)`. -/
theorem vec3.planar_decomp (u v p : vec3 F)
    (hN : vec3.dot (vec3.cross u v) (vec3.cross u v) ≠ 0)
    (hp : vec3.dot (vec3.cross u v) p = 0) :
    p = (vec3.smul (vec3.dot
          ⟨(vec3.cross u v).x / vec3.dot (vec3.cross u v) (vec3.cross u v),
           (vec3.cross u v).y / vec3.dot (vec3.cross u v) (vec3.cross u v),
           (vec3.cross u v).z / vec3.dot (vec3.cross u v) (vec3.cross u v)⟩
          (vec3.cross p v)) u).add
        (vec3.smul (vec3.dot
          ⟨(vec3.cross u v).x / vec3.dot (vec3.cross u v) (vec3.cross u v),
           (vec3.cross u v).y / vec3.dot (vec3.cross u v) (vec3.cross u v),
           (vec3.cross u v).z / vec3.dot (vec3.cross u v) (vec3.cross u v)⟩
          (vec3.cross u p)) v) := by
  generalize hNN : vec3.dot (vec3.cross u v) (vec3.cross u v) = N at hN
  simp only [vec3.dot, vec3.cross] at hNN hp
  ext
  · simp only [vec3.add, vec3.smul, vec3.dot, vec3.cross]
    field_simp
    rw [← hNN]
    linear_combination (u.y * v.z - u.z * v.y) * hp
  · simp only [vec3.add, vec3.smul, vec3.dot, vec3.cross]
    field_simp
    rw [← hNN]
    linear_combination (u.z * v.x - u.x * v.z) * hp
  · simp only [vec3.add, vec3.smul, vec3.dot, vec3.cross]
    field_simp
    rw [← hNN]
    linear_combination (u.x * v.y - u.y * v.x) * hp

/-- With `cross(u, v) ≠ 0` the constructor of `quad` does not throw, and stores the unit
normal `n / |n|` and `w = n / dot(n, n)`. -/
theorem quad.mk_quad_ok (m : Libm F) (hm : m.SqrtSpec) (Q u v : vec3 F) (mat : Option M)
    (hn : vec3.cross u v ≠ vec3.zero) :
    quad.mk_quad m Q u v mat = .ok
      { Q := Q, u := u, v := v
        w := ⟨(vec3.cross u v).x / vec3.dot (vec3.cross u v) (vec3.cross u v),
              (vec3.cross u v).y / vec3.dot (vec3.cross u v) (vec3.cross u v),
              (vec3.cross u v).z / vec3.dot (vec3.cross u v) (vec3.cross u v)⟩
        mat := mat
        bbox := quad.set_bounding_box Q u v
        normal := ⟨(vec3.cross u v).x / m.sqrt (vec3.cross u v).length_squared,
                   (vec3.cross u v).y / m.sqrt (vec3.cross u v).length_squared,
                   (vec3.cross u v).z / m.sqrt (vec3.cross u v).length_squared⟩
        D := vec3.dot ⟨(vec3.cross u v).x / m.sqrt (vec3.cross u v).length_squared,
                   (vec3.cross u v).y / m.sqrt (vec3.cross u v).length_squared,
                   (vec3.cross u v).z / m.sqrt (vec3.cross u v).length_squared⟩ Q } := by
  have hpos := vec3.length_squared_pos _ hn
  have hN : vec3.dot (vec3.cross u v) (vec3.cross u v) ≠ 0 := ne_of_gt (vec3.dot_self_pos _ hn)
  obtain ⟨h0, h1⟩ := hm _ (le_of_lt hpos)
  have hL : m.sqrt (vec3.cross u v).length_squared ≠ 0 := by
    intro h
    rw [h, mul_zero] at h1
    exact absurd h1.symm (ne_of_gt hpos)
  simp only [quad.mk_quad, vec3.unit_vector, vec3.length, vec3.div, if_neg hL, if_neg hN]


theorem vec3.length_squared_div (n : vec3 F) (L : F) (hL : L ≠ 0)
    (h : L * L = n.length_squared) :
    (⟨n.x / L, n.y / L, n.z / L⟩ : vec3 F).length_squared = 1 := by
  simp only [vec3.length_squared] at h ⊢
  field_simp
  linear_combination -h

/-- The contract of `quad::hit` for a quad built from independent edge vectors. -/
theorem quad_hit_spec (m : Libm F) (hm : m.SqrtSpec) (Q u v : vec3 F) (mat : Option M)
    (hn : vec3.cross u v ≠ vec3.zero) :
    ∃ q : quad F M, quad.mk_quad m Q u v mat = .ok q ∧
      q.Q = Q ∧ q.u = u ∧ q.v = v ∧ q.D = vec3.dot q.normal Q ∧
      q.normal.length_squared = 1 ∧
      ∀ (r : ray F) (ray_t : interval F) (rc : hit_record F M),
        let denominator := vec3.dot q.normal r.dir
        let t := (q.D - vec3.dot q.normal r.orig) / denominator
        let alpha := vec3.dot q.w (vec3.cross ((r.«at» t).sub Q) v)
        let beta := vec3.dot q.w (vec3.cross u ((r.«at» t).sub Q))
        let cond := 1 / 100000000 ≤ |denominator| ∧ (ray_t.min ≤ fin t ∧ fin t ≤ ray_t.max) ∧
          (0 ≤ alpha ∧ alpha ≤ 1 ∧ 0 ≤ beta ∧ beta ≤ 1)
        ((∃ rc', q.hit r ray_t rc = .ok (true, rc')) ↔ cond) ∧
        (q.hit r ray_t rc = .ok (false, rc) ↔ ¬ cond) ∧
        (denominator ≠ 0 →
          r.«at» t = (Q.add (vec3.smul alpha u)).add (vec3.smul beta v)) ∧
        (∀ rc', q.hit r ray_t rc = .ok (true, rc') →
          rc'.u = alpha ∧ rc'.v = beta ∧ rc'.t = t ∧ rc'.p = r.«at» t ∧
          r.«at» t = (Q.add (vec3.smul alpha u)).add (vec3.smul beta v)) := by
  have hpos := vec3.length_squared_pos _ hn
  have hN : vec3.dot (vec3.cross u v) (vec3.cross u v) ≠ 0 := ne_of_gt (vec3.dot_self_pos _ hn)
  obtain ⟨h0, h1⟩ := hm _ (le_of_lt hpos)
  have hL : m.sqrt (vec3.cross u v).length_squared ≠ 0 := by
    intro h
    rw [h, mul_zero] at h1
    exact absurd h1.symm (ne_of_gt hpos)
  refine ⟨_, quad.mk_quad_ok m hm Q u v mat hn, rfl, rfl, rfl, rfl, ?_, ?_⟩
  · exact vec3.length_squared_div _ _ hL h1
  · intro r ray_t rc
    generalize hL' : m.sqrt (vec3.cross u v).length_squared = L at hL h0 h1
    intro denominator t alpha beta cond
    have hplane : denominator ≠ 0 →
        r.«at» t = (Q.add (vec3.smul alpha u)).add (vec3.smul beta v) := by
      intro hd
      have hdiv : ∀ X : vec3 F, vec3.dot ⟨(vec3.cross u v).x / L, (vec3.cross u v).y / L,
          (vec3.cross u v).z / L⟩ X = vec3.dot (vec3.cross u v) X / L := by
        intro X; simp only [vec3.dot]; ring
      have ht : t * denominator = vec3.dot ⟨(vec3.cross u v).x / L, (vec3.cross u v).y / L,
            (vec3.cross u v).z / L⟩ Q - vec3.dot ⟨(vec3.cross u v).x / L,
            (vec3.cross u v).y / L, (vec3.cross u v).z / L⟩ r.orig :=
        div_mul_cancel₀ _ hd
      simp only [denominator, hdiv] at ht
      have ht2 : t * vec3.dot (vec3.cross u v) r.dir =
          vec3.dot (vec3.cross u v) Q - vec3.dot (vec3.cross u v) r.orig := by
        calc t * vec3.dot (vec3.cross u v) r.dir
            = t * (vec3.dot (vec3.cross u v) r.dir / L) * L := by field_simp
          _ = (vec3.dot (vec3.cross u v) Q / L - vec3.dot (vec3.cross u v) r.orig / L) * L := by
              rw [ht]
          _ = vec3.dot (vec3.cross u v) Q - vec3.dot (vec3.cross u v) r.orig := by field_simp
      have hp : vec3.dot (vec3.cross u v) ((r.«at» t).sub Q) = 0 := by
        simp only [vec3.dot, ray.«at», vec3.sub, vec3.add, vec3.smul] at ht2 ⊢
        linear_combination ht2
      have hdec := vec3.planar_decomp u v ((r.«at» t).sub Q) hN hp
      have hx := congrArg vec3.x hdec
      have hy := congrArg vec3.y hdec
      have hz := congrArg vec3.z hdec
      simp only [vec3.add, vec3.smul, vec3.sub] at hx hy hz
      ext
      · simp only [alpha, beta, vec3.add, vec3.smul, vec3.sub]; linear_combination hx
      · simp only [alpha, beta, vec3.add, vec3.smul, vec3.sub]; linear_combination hy
      · simp only [alpha, beta, vec3.add, vec3.smul, vec3.sub]; linear_combination hz
    have heq := quad_hit_eq
      ({ Q := Q, u := u, v := v
         w := ⟨(vec3.cross u v).x / vec3.dot (vec3.cross u v) (vec3.cross u v),
              (vec3.cross u v).y / vec3.dot (vec3.cross u v) (vec3.cross u v),
              (vec3.cross u v).z / vec3.dot (vec3.cross u v) (vec3.cross u v)⟩
         mat := mat
         bbox := quad.set_bounding_box Q u v
         normal := ⟨(vec3.cross u v).x / L, (vec3.cross u v).y / L, (vec3.cross u v).z / L⟩
         D := vec3.dot ⟨(vec3.cross u v).x / L, (vec3.cross u v).y / L,
                (vec3.cross u v).z / L⟩ Q } : quad F M) r ray_t rc
    simp only at heq
    by_cases hc : cond
    · have hc' := hc
      simp only [cond, alpha, beta, t, denominator] at hc'
      rw [if_pos hc'] at heq
      have hd : denominator ≠ 0 := by
        intro h0
        have := hc.1
        rw [h0, abs_zero] at this
        norm_num at this
      refine ⟨⟨fun _ => hc, fun _ => ⟨_, heq⟩⟩, ⟨fun h => ?_, fun h => absurd hc h⟩, hplane, ?_⟩
      · rw [heq] at h; simp at h
      · intro rc' h
        rw [heq] at h
        simp only [Except.ok.injEq, Prod.mk.injEq, true_and] at h
        subst h
        exact ⟨rfl, rfl, rfl, rfl, hplane hd⟩
    · have hc' := hc
      simp only [cond, alpha, beta, t, denominator] at hc'
      rw [if_neg hc'] at heq
      refine ⟨⟨fun ⟨rc', h⟩ => ?_, fun h => absurd h hc⟩, ⟨fun _ => hc, fun _ => heq⟩, hplane, ?_⟩
      · rw [heq] at h; simp at h
      · intro rc' h
        rw [heq] at h; simp at h


/-- The quad with corner (0,0,0) and edges (1,0,0), (0,1,0): a ray that meets its plane at
(0.5, 0.5) hits, one that meets it at (1.5, 0.5) misses. -/
theorem quad_hit_example (m : Libm F) (hm : m.SqrtSpec) (mat : Option M) :
    ∃ q : quad F M, quad.mk_quad m ⟨0, 0, 0⟩ ⟨1, 0, 0⟩ ⟨0, 1, 0⟩ mat = .ok q ∧
      ∀ (r : ray F) (ray_t : interval F) (rc : hit_record F M),
        let denominator := vec3.dot q.normal r.dir
        let t := (q.D - vec3.dot q.normal r.orig) / denominator
        1 / 100000000 ≤ |denominator| → (ray_t.min ≤ fin t ∧ fin t ≤ ray_t.max) →
        (r.«at» t = ⟨1 / 2, 1 / 2, 0⟩ →
          ∃ rc', q.hit r ray_t rc = .ok (true, rc') ∧ rc'.u = 1 / 2 ∧ rc'.v = 1 / 2) ∧
        (r.«at» t = ⟨3 / 2, 1 / 2, 0⟩ → q.hit r ray_t rc = .ok (false, rc)) := by
  have hn : vec3.cross (⟨1, 0, 0⟩ : vec3 F) ⟨0, 1, 0⟩ ≠ vec3.zero := by
    simp [vec3.cross, vec3.zero]
  obtain ⟨q, hq, -, -, -, -, -, hspec⟩ := quad_hit_spec m hm ⟨0, 0, 0⟩ ⟨1, 0, 0⟩ ⟨0, 1, 0⟩ mat hn
  refine ⟨q, hq, ?_⟩
  intro r ray_t rc denominator t hden ht
  obtain ⟨hiff, hmiss, hplane, hrec⟩ := hspec r ray_t rc
  have hd : denominator ≠ 0 := by
    intro h0
    rw [h0, abs_zero] at hden
    norm_num at hden
  have hP := hplane hd
  have hx := congrArg vec3.x hP
  have hy := congrArg vec3.y hP
  simp only [vec3.add, vec3.smul, mul_one, mul_zero, add_zero, zero_add] at hx hy
  constructor
  · intro hpt
    have ha := hx.symm.trans (congrArg vec3.x hpt)
    have hb := hy.symm.trans (congrArg vec3.y hpt)
    have hc : ∃ rc', q.hit r ray_t rc = .ok (true, rc') := by
      refine hiff.mpr ⟨hden, ht, ?_, ?_, ?_, ?_⟩
      · rw [ha]; norm_num
      · rw [ha]; norm_num
      · rw [hb]; norm_num
      · rw [hb]; norm_num
    obtain ⟨rc', hrc'⟩ := hc
    obtain ⟨hu, hv, -⟩ := hrec rc' hrc'
    exact ⟨rc', hrc', hu.trans ha, hv.trans hb⟩
  · intro hpt
    have ha := hx.symm.trans (congrArg vec3.x hpt)
    refine hmiss.mpr ?_
    rintro ⟨-, -, -, h1, -⟩
    rw [ha] at h1
    norm_num at h1

/-- C2, amended: with arithmetic read over the reals and `std::sqrt` the square root, for a
quad (Q, u, v) with cross(u, v) ≠ 0 the constructor succeeds, and for every
ray and interval `quad::hit` returns true iff `|dot(normal, direction)| >= 1e-8`, the plane
parameter `t = (D - dot(normal, origin)) / dot(normal, direction)` lies in the closed
interval, and the planar coordinates alpha, beta both lie in [0,1]; it returns false, with
the record untouched, otherwise. On a hit `rec.u = alpha`, `rec.v = beta`, `rec.t = t` and
`rec.p = r.at(t) = Q + alpha*u + beta*v`. For Q = (0,0,0), u = (1,0,0), v = (0,1,0) a ray
meeting the plane at (0.5, 0.5) hits and one meeting it at (1.5, 0.5) misses. -/
theorem quad_hit_contract (m : Libm F) (hm : m.SqrtSpec) :
    (∀ (Q u v : vec3 F) (mat : Option M), vec3.cross u v ≠ vec3.zero →
      ∃ q : quad F M, quad.mk_quad m Q u v mat = .ok q ∧
        q.Q = Q ∧ q.u = u ∧ q.v = v ∧ q.D = vec3.dot q.normal Q ∧
        q.normal.length_squared = 1 ∧
        ∀ (r : ray F) (ray_t : interval F) (rc : hit_record F M),
          let denominator := vec3.dot q.normal r.dir
          let t := (q.D - vec3.dot q.normal r.orig) / denominator
          let alpha := vec3.dot q.w (vec3.cross ((r.«at» t).sub Q) v)
          let beta := vec3.dot q.w (vec3.cross u ((r.«at» t).sub Q))
          let cond := 1 / 100000000 ≤ |denominator| ∧
            (ray_t.min ≤ fin t ∧ fin t ≤ ray_t.max) ∧
            (0 ≤ alpha ∧ alpha ≤ 1 ∧ 0 ≤ beta ∧ beta ≤ 1)
          ((∃ rc', q.hit r ray_t rc = .ok (true, rc')) ↔ cond) ∧
          (q.hit r ray_t rc = .ok (false, rc) ↔ ¬ cond) ∧
          (denominator ≠ 0 →
            r.«at» t = (Q.add (vec3.smul alpha u)).add (vec3.smul beta v)) ∧
          (∀ rc', q.hit r ray_t rc = .ok (true, rc') →
            rc'.u = alpha ∧ rc'.v = beta ∧ rc'.t = t ∧ rc'.p = r.«at» t ∧
            r.«at» t = (Q.add (vec3.smul alpha u)).add (vec3.smul beta v))) ∧
    (∀ mat : Option M,
      ∃ q : quad F M, quad.mk_quad m ⟨0, 0, 0⟩ ⟨1, 0, 0⟩ ⟨0, 1, 0⟩ mat = .ok q ∧
        ∀ (r : ray F) (ray_t : interval F) (rc : hit_record F M),
          let denominator := vec3.dot q.normal r.dir
          let t := (q.D - vec3.dot q.normal r.orig) / denominator
          1 / 100000000 ≤ |denominator| → (ray_t.min ≤ fin t ∧ fin t ≤ ray_t.max) →
          (r.«at» t = ⟨1 / 2, 1 / 2, 0⟩ →
            ∃ rc', q.hit r ray_t rc = .ok (true, rc') ∧ rc'.u = 1 / 2 ∧ rc'.v = 1 / 2) ∧
          (r.«at» t = ⟨3 / 2, 1 / 2, 0⟩ → q.hit r ray_t rc = .ok (false, rc))) :=
  ⟨fun Q u v mat hn => quad_hit_spec m hm Q u v mat hn,
   fun mat => quad_hit_example m hm mat⟩

/-- The contract of `quad::hit` at the real numbers: the quad with corner (1,1,1) and edges
(2,0,0), (0,3,0) is constructed, with a unit normal. -/
theorem quad_hit_contract_witness :
    (⟨Real.sqrt, Real.arccos, fun y x => Complex.arg ⟨x, y⟩, Real.sin, Real.cos, Real.tan⟩ :
      Libm ℝ).SqrtSpec ∧
    vec3.cross (⟨2, 0, 0⟩ : vec3 ℝ) ⟨0, 3, 0⟩ ≠ vec3.zero ∧
    ∃ q : quad ℝ Unit, quad.mk_quad
        ⟨Real.sqrt, Real.arccos, fun y x => Complex.arg ⟨x, y⟩, Real.sin, Real.cos, Real.tan⟩
        ⟨1, 1, 1⟩ ⟨2, 0, 0⟩ ⟨0, 3, 0⟩ none = .ok q ∧
      q.Q = ⟨1, 1, 1⟩ ∧ q.u = ⟨2, 0, 0⟩ ∧ q.v = ⟨0, 3, 0⟩ ∧ q.D = vec3.dot q.normal ⟨1, 1, 1⟩ ∧
      q.normal.length_squared = 1 :=
  have hn : vec3.cross (⟨2, 0, 0⟩ : vec3 ℝ) ⟨0, 3, 0⟩ ≠ vec3.zero := by
    simp [vec3.cross, vec3.zero]
  ⟨real_sqrt_spec _ _ _ _ _, hn,
   match (quad_hit_contract _ (real_sqrt_spec _ _ _ _ _)).1 ⟨1, 1, 1⟩ ⟨2, 0, 0⟩ ⟨0, 3, 0⟩
      (none : Option Unit) hn with
   | ⟨q, h1, h2, h3, h4, h5, h6, _⟩ => ⟨q, h1, h2, h3, h4, h5, h6⟩⟩

end quad_hit

/-! ## `Camera::ray_color` -/

section ray_color

variable {F M : Type} [LinearOrderedField F]

/-- With depth `d ≥ 0`, fuel `d` is enough for `ray_color`: it does not run out. -/
theorem Camera.ray_color_fuel (c : Camera F) (mo : material_ops F M)
    (world : ray F → interval F → hit_record F M → HitResult F M) :
    ∀ (fuel : Nat) (depth : Int) (r : ray F) (g : XorShift32), 0 ≤ depth →
      depth.toNat ≤ fuel → c.ray_color mo world fuel r depth g ≠ .fuel_out := by
  intro fuel
  induction fuel with
  | zero =>
    intro depth r g h0 hle
    have hd : depth = 0 := by omega
    subst hd
    simp [Camera.ray_color]
  | succ n ih =>
    intro depth r g h0 hle
    unfold Camera.ray_color
    by_cases hd : depth = 0
    · simp [hd]
    · rw [if_neg hd]
      simp only
      have hrec : ∀ (sc : ray F) (g1 : XorShift32),
          c.ray_color mo world n sc (depth - 1) g1 ≠ .fuel_out :=
        fun sc g1 => ih (depth - 1) sc g1 (by omega) (by omega)
      cases hw : world r ⟨fin (1 / 1000), INF⟩ hit_record.fresh with
      | error e => simp
      | ok res =>
        obtain ⟨b, rc⟩ := res
        cases b with
        | false => simp
        | true =>
          simp only
          cases hmat : rc.mat with
          | none => simp
          | some mt =>
            simp only
            cases hs : mo.scatter mt r rc g with
            | mk o g1 =>
              cases o with
              | none => simp
              | some as =>
                obtain ⟨att, sc⟩ := as
                simp only
                have := hrec sc g1
                cases hr : c.ray_color mo world n sc (depth - 1) g1 with
                | ret a => simp
                | throws e => simp
                | fuel_out => exact absurd hr this
                | undefined => simp


/-- C3: `Camera::ray_color` returns black (0,0,0) when depth = 0; otherwise it returns the
configured background when the scene reports no hit in (0.001, +inf); otherwise the hit
material's `emitted(u, v, p)` alone when the material does not scatter; otherwise
`emitted + attenuation * ray_color(scattered, depth - 1, scene)` with the component-wise
product. With depth `d ≥ 0` the recursion ends within fuel `d`. -/
theorem ray_color_contract (c : Camera F) (mo : material_ops F M)
    (world : ray F → interval F → hit_record F M → HitResult F M) (r : ray F)
    (g : XorShift32) :
    (∀ fuel, c.ray_color mo world fuel r 0 g = .ret (⟨0, 0, 0⟩, g)) ∧
    (∀ (fuel : Nat) (depth : Int), depth ≠ 0 →
      (∀ rc, world r ⟨fin (1 / 1000), INF⟩ hit_record.fresh = .ok (false, rc) →
        c.ray_color mo world (fuel + 1) r depth g = .ret (c.background, g)) ∧
      (∀ rc mt g1, world r ⟨fin (1 / 1000), INF⟩ hit_record.fresh = .ok (true, rc) →
        rc.mat = some mt → mo.scatter mt r rc g = (none, g1) →
        c.ray_color mo world (fuel + 1) r depth g = .ret (mo.emitted mt rc.u rc.v rc.p, g1)) ∧
      (∀ rc mt attenuation scattered g1 col g2,
        world r ⟨fin (1 / 1000), INF⟩ hit_record.fresh = .ok (true, rc) →
        rc.mat = some mt → mo.scatter mt r rc g = (some (attenuation, scattered), g1) →
        c.ray_color mo world fuel scattered (depth - 1) g1 = .ret (col, g2) →
        c.ray_color mo world (fuel + 1) r depth g =
          .ret (⟨(mo.emitted mt rc.u rc.v rc.p).x + attenuation.x * col.x,
                 (mo.emitted mt rc.u rc.v rc.p).y + attenuation.y * col.y,
                 (mo.emitted mt rc.u rc.v rc.p).z + attenuation.z * col.z⟩, g2))) ∧
    (∀ (fuel : Nat) (depth : Int), 0 ≤ depth → depth.toNat ≤ fuel →
      c.ray_color mo world fuel r depth g ≠ .fuel_out) := by
  refine ⟨?_, ?_, ?_⟩
  · intro fuel
    unfold Camera.ray_color
    simp
  · intro fuel depth hd
    refine ⟨?_, ?_, ?_⟩
    · intro rc hw
      rw [Camera.ray_color, if_neg hd]
      simp only [hw]
    · intro rc mt g1 hw hmat hs
      rw [Camera.ray_color, if_neg hd]
      simp only [hw, hmat, hs]
    · intro rc mt attenuation scattered g1 col g2 hw hmat hs hrec
      rw [Camera.ray_color, if_neg hd]
      simp only [hw, hmat, hs, hrec, vec3.add, vec3.hadamard]
  · intro fuel depth h0 hle
    exact Camera.ray_color_fuel c mo world fuel depth r g h0 hle


/-- The contract of `ray_color` for the default camera with a sky-blue background, an empty
scene and depth 5: the background is returned. -/
theorem ray_color_contract_witness :
    (5 : Int) ≠ 0 ∧
    (Camera.ray_color { (Camera.default_config : Camera ℚ) with background := ⟨7 / 10, 8 / 10, 1⟩ }
      (⟨fun _ _ _ _ => ⟨0, 0, 0⟩, fun _ _ _ g => (none, g)⟩ : material_ops ℚ Unit)
      (fun _ _ rc => .ok (false, rc)) 1 ⟨⟨0, 0, 0⟩, ⟨0, 0, -1⟩, 0⟩ 5 ⟨88675123⟩ =
        .ret (⟨7 / 10, 8 / 10, 1⟩, ⟨88675123⟩)) :=
  ⟨by decide,
   ((ray_color_contract { (Camera.default_config : Camera ℚ) with background := ⟨7 / 10, 8 / 10, 1⟩ }
      (⟨fun _ _ _ _ => ⟨0, 0, 0⟩, fun _ _ _ g => (none, g)⟩ : material_ops ℚ Unit)
      (fun _ _ rc => .ok (false, rc)) ⟨⟨0, 0, 0⟩, ⟨0, 0, -1⟩, 0⟩ ⟨88675123⟩).2.1 0 5
        (by decide)).1 hit_record.fresh rfl⟩

end ray_color

/-! ## BVH against the linear scan -/

section bvh

/-- The triangle with three coincident vertices at the origin gets the fall-back normal
(1,0,0) of `unit_vector`. -/
theorem degenerate_triangle_built (acos : ℝ → ℝ) (atan2 : ℝ → ℝ → ℝ) (sin cos tan : ℝ → ℝ) :
    triangle.mk_triangle ⟨Real.sqrt, acos, atan2, sin, cos, tan⟩
      (⟨0, 0, 0⟩ : vec3 ℝ) ⟨0, 0, 0⟩ ⟨0, 0, 0⟩ (none : Option Unit) =
      .ok { a := ⟨0, 0, 0⟩, b := ⟨0, 0, 0⟩, c := ⟨0, 0, 0⟩, u := ⟨0, 0, 0⟩, v := ⟨0, 0, 0⟩,
            normal := ⟨1, 0, 0⟩, D := 0, mat := none,
            bbox := ⟨⟨fin 0, fin 0⟩, ⟨fin 0, fin 0⟩, ⟨fin 0, fin 0⟩⟩ } := by
  simp [triangle.mk_triangle, vec3.unit_vector, vec3.length, vec3.length_squared, vec3.cross,
    vec3.sub, vec3.dot, triangle.set_bounding_box, AABB.ofPoints, AABB.span]

theorem not_INF_lt_fin {F : Type} [LinearOrderedField F] (x : F) : ¬ ((INF : Ext F) < fin x) :=
  fun h => not_INF_le_fin x (le_of_lt h)

/-- The function `triangle::hit` on the triangle with three coincident vertices at the origin: the ray
from (-1,5,5) along +x is reported as a hit at `t = 1`, in the point (0,5,5). -/
theorem degenerate_triangle_hit (rc : hit_record ℝ Unit) :
    triangle.hit
        ({ a := ⟨0, 0, 0⟩, b := ⟨0, 0, 0⟩, c := ⟨0, 0, 0⟩, u := ⟨0, 0, 0⟩, v := ⟨0, 0, 0⟩,
           normal := ⟨1, 0, 0⟩, D := 0, mat := none,
           bbox := ⟨⟨fin 0, fin 0⟩, ⟨fin 0, fin 0⟩, ⟨fin 0, fin 0⟩⟩ } : triangle ℝ Unit)
        ⟨⟨-1, 5, 5⟩, ⟨1, 0, 0⟩, 0⟩ ⟨fin (1 / 1000), INF⟩ rc =
      .ok (true, { p := ⟨0, 5, 5⟩, normal := ⟨-1, 0, 0⟩, t := 1, u := rc.u, v := rc.v,
                   front_face := false, mat := none }) := by
  simp [triangle.hit, vec3.dot, interval.contains, fin_le_fin, vec3.cross, vec3.sub,
    ray.«at», vec3.add, vec3.smul, hit_record.set_face_normal, vec3.neg]
  rw [if_neg (by norm_num), if_neg (by simp [not_INF_lt_fin]; norm_num)]
  norm_num


/-- A ray parallel to the y slab of a box and outside of it misses the box. -/
theorem AABB.hit_eq_false_of_y {F : Type} [LinearOrderedField F] (b : AABB F) (r : ray F)
    (ray_t : interval F) (hd : r.dir.y = 0)
    (hout : ¬ (b.y.min ≤ fin r.orig.y ∧ fin r.orig.y ≤ b.y.max)) :
    b.hit r ray_t = false := by
  unfold AABB.hit
  cases AABB.clip_axis b.x r.orig.x r.dir.x ray_t with
  | none => rfl
  | some i1 => simp [AABB.clip_axis, hd, hout]

/-- C4, at the failing input: over the list that holds the triangle with three coincident
vertices at the origin, the linear scan `hittable_list::hit` reports a hit at `t = 1` for
the ray from (-1,5,5) along +x over (0.001, +inf), and the BVH built over the same list
reports no hit, because the ray misses the bounding box of the triangle. -/
theorem bvh_differs_from_scan :
    ∃ tr : triangle ℝ Unit,
      triangle.mk_triangle
        ⟨Real.sqrt, Real.arccos, fun y x => Complex.arg ⟨x, y⟩, Real.sin, Real.cos, Real.tan⟩
        ⟨0, 0, 0⟩ ⟨0, 0, 0⟩ ⟨0, 0, 0⟩ none = .ok tr ∧
      (∃ rc', (hittable_list.single (hittable.triangle tr)).hit
          ⟨Real.sqrt, Real.arccos, fun y x => Complex.arg ⟨x, y⟩, Real.sin, Real.cos, Real.tan⟩
          (3141593 / 1000000) ⟨⟨-1, 5, 5⟩, ⟨1, 0, 0⟩, 0⟩ ⟨fin (1 / 1000), INF⟩
          hit_record.fresh = .ok (true, rc') ∧ rc'.t = 1) ∧
      ∃ nd : bvh_node ℝ Unit,
        bvh_node.build (hittable_list.single (hittable.triangle tr)).objects = some nd ∧
        nd.hit
          ⟨Real.sqrt, Real.arccos, fun y x => Complex.arg ⟨x, y⟩, Real.sin, Real.cos, Real.tan⟩
          (3141593 / 1000000) ⟨⟨-1, 5, 5⟩, ⟨1, 0, 0⟩, 0⟩ ⟨fin (1 / 1000), INF⟩
          hit_record.fresh = .ok (false, hit_record.fresh) := by
  refine ⟨_, degenerate_triangle_built _ _ _ _ _, ?_, ?_⟩
  · simp only [hittable_list.single, hittable_list.add, hittable_list.new, List.nil_append,
      hittable_list.hit, hittable_list.hit_loop, hittable.hit]
    rw [degenerate_triangle_hit]
    exact ⟨_, rfl, rfl⟩
  · refine ⟨bvh_node.leaf _, rfl, ?_⟩
    have hbox : (hittable.triangle
        ({ a := ⟨0, 0, 0⟩, b := ⟨0, 0, 0⟩, c := ⟨0, 0, 0⟩, u := ⟨0, 0, 0⟩, v := ⟨0, 0, 0⟩,
           normal := ⟨1, 0, 0⟩, D := 0, mat := none,
           bbox := ⟨⟨fin 0, fin 0⟩, ⟨fin 0, fin 0⟩, ⟨fin 0, fin 0⟩⟩ } :
          triangle ℝ Unit)).bounding_box.hit ⟨⟨-1, 5, 5⟩, ⟨1, 0, 0⟩, 0⟩
        ⟨fin (1 / 1000), INF⟩ = false := by
      apply AABB.hit_eq_false_of_y
      · rfl
      · simp [hittable.bounding_box, triangle.bounding_box, fin_le_fin]
    simp only [bvh_node.hit, hbox, Bool.not_false, if_true]

end bvh

/-! ## The bounding box of a moving sphere -/

section moving_sphere

variable {F M : Type} [LinearOrderedField F]

/-- The hull of the intervals `[a - rad, a + rad]` and `[b - rad, b + rad]`. -/
theorem AABB.hull_span_pm (a b rad : F) (hr : 0 ≤ rad) :
    interval.hull (AABB.span (a - rad) (a + rad)) (AABB.span (b - rad) (b + rad)) =
      ⟨fin (min a b - rad), fin (max a b + rad)⟩ := by
  have ha : a - rad ≤ a + rad := by linarith
  have hb : b - rad ≤ b + rad := by linarith
  simp only [AABB.span, if_pos ha, if_pos hb, interval.hull, ge_iff_le, fin_le_fin]
  rcases le_total a b with h | h
  · have h1 : a - rad ≤ b - rad := by linarith
    have h2 : ¬ (b + rad ≤ a + rad) ∨ a = b := by
      rcases eq_or_lt_of_le h with e | l
      · right; exact e
      · left; intro hc; linarith
    rw [if_pos h1, min_eq_left h, max_eq_right h]
    rcases h2 with h2 | h2
    · rw [if_neg h2]
    · subst h2; simp
  · have h1 : b + rad ≤ a + rad := by linarith
    rw [if_pos h1, min_eq_right h, max_eq_left h]
    by_cases h2 : a - rad ≤ b - rad
    · have : a = b := le_antisymm (by linarith) h
      subst this
      rw [if_pos h2]
    · rw [if_neg h2]

/-- The bounding box the moving-sphere constructor stores. -/
theorem sphere.mk_moving_bbox (c1 c2 : vec3 F) (radius : F) (mat : Option M)
    (hr : 0 ≤ radius) :
    (sphere.mk_moving c1 c2 radius mat).bounding_box =
      ⟨⟨fin (min c1.x c2.x - radius), fin (max c1.x c2.x + radius)⟩,
       ⟨fin (min c1.y c2.y - radius), fin (max c1.y c2.y + radius)⟩,
       ⟨fin (min c1.z c2.z - radius), fin (max c1.z c2.z + radius)⟩⟩ := by
  simp only [sphere.bounding_box, sphere.mk_moving, ray.mk2, ray.«at», vec3.add, vec3.sub,
    vec3.smul, AABB.hull, AABB.ofPoints, zero_mul, add_zero, one_mul, add_sub_cancel,
    AABB.hull_span_pm _ _ _ hr]

/-- A coordinate at distance at most `rad` from a point between `a` and `b`. -/
theorem axis_bound (a b tm p cen rad sq : F) (h0 : 0 ≤ tm) (h1 : tm ≤ 1) (hr : 0 ≤ rad)
    (hc : cen = a + tm * (b - a)) (hsq : (p - cen) * (p - cen) + sq = rad * rad)
    (hsq0 : 0 ≤ sq) :
    min a b - rad ≤ p ∧ p ≤ max a b + rad := by
  have h2 : (p - cen) * (p - cen) ≤ rad * rad := by linarith
  have hub : p - cen ≤ rad := by
    by_contra hcon
    push_neg at hcon
    nlinarith
  have hlb : -rad ≤ p - cen := by
    by_contra hcon
    push_neg at hcon
    nlinarith
  have hmin : min a b ≤ cen := by
    rcases le_total a b with h | h
    · rw [min_eq_left h, hc]
      nlinarith
    · rw [min_eq_right h, hc]
      nlinarith
  have hmax : cen ≤ max a b := by
    rcases le_total a b with h | h
    · rw [max_eq_right h, hc]
      nlinarith
    · rw [max_eq_left h, hc]
      nlinarith
  constructor <;> linarith

/-- C5, amended: with arithmetic read over the reals and `std::sqrt` the square root, for
every moving sphere (center1, center2, radius > 0), every ray with non-zero direction whose time lies in [0,1] and every interval: if `sphere::hit` returns
true then `rec.p` lies inside `sphere::bounding_box()`, i.e. on each axis k,
`min(center1_k, center2_k) - radius <= rec.p_k <= max(center1_k, center2_k) + radius`. -/
theorem moving_sphere_hit_in_box (m : Libm F) (PI : F) (hm : m.SqrtSpec) (c1 c2 : vec3 F)
    (radius : F) (mat : Option M) (r : ray F) (ray_t : interval F) (rc rc' : hit_record F M)
    (hrad : 0 < radius) (hdir : r.dir ≠ vec3.zero) (h0 : 0 ≤ r.tm) (h1 : r.tm ≤ 1)
    (hhit : (sphere.mk_moving c1 c2 radius mat).hit m PI r ray_t rc = .ok (true, rc')) :
    (sphere.mk_moving c1 c2 radius mat).bounding_box.containsPoint rc'.p ∧
    (min c1.x c2.x - radius ≤ rc'.p.x ∧ rc'.p.x ≤ max c1.x c2.x + radius) ∧
    (min c1.y c2.y - radius ≤ rc'.p.y ∧ rc'.p.y ≤ max c1.y c2.y + radius) ∧
    (min c1.z c2.z - radius ≤ rc'.p.z ∧ rc'.p.z ≤ max c1.z c2.z + radius) := by
  have hradm : (sphere.mk_moving c1 c2 radius mat).radius = radius := by
    simp [sphere.mk_moving, max_eq_right (le_of_lt hrad)]
  have hradpos : 0 < (sphere.mk_moving c1 c2 radius mat).radius := by rw [hradm]; exact hrad
  obtain ⟨-, -, hrec⟩ := sphere_hit_spec m PI (sphere.mk_moving c1 c2 radius mat) r ray_t rc hm
    hradpos hdir
  obtain ⟨-, hon, -, hp, -⟩ := hrec rc' hhit
  rw [← hp, hradm] at hon
  simp only [sphere.mk_moving, ray.mk2, ray.«at», vec3.add, vec3.sub, vec3.smul,
    vec3.length_squared] at hon
  have hr0 := le_of_lt hrad
  have hx := axis_bound c1.x c2.x r.tm rc'.p.x _ radius
    ((rc'.p.y - (c1.y + r.tm * (c2.y - c1.y))) * (rc'.p.y - (c1.y + r.tm * (c2.y - c1.y))) +
     (rc'.p.z - (c1.z + r.tm * (c2.z - c1.z))) * (rc'.p.z - (c1.z + r.tm * (c2.z - c1.z))))
    h0 h1 hr0 rfl (by linarith)
    (add_nonneg (mul_self_nonneg _) (mul_self_nonneg _))
  have hy := axis_bound c1.y c2.y r.tm rc'.p.y _ radius
    ((rc'.p.x - (c1.x + r.tm * (c2.x - c1.x))) * (rc'.p.x - (c1.x + r.tm * (c2.x - c1.x))) +
     (rc'.p.z - (c1.z + r.tm * (c2.z - c1.z))) * (rc'.p.z - (c1.z + r.tm * (c2.z - c1.z))))
    h0 h1 hr0 rfl (by linarith)
    (add_nonneg (mul_self_nonneg _) (mul_self_nonneg _))
  have hz := axis_bound c1.z c2.z r.tm rc'.p.z _ radius
    ((rc'.p.x - (c1.x + r.tm * (c2.x - c1.x))) * (rc'.p.x - (c1.x + r.tm * (c2.x - c1.x))) +
     (rc'.p.y - (c1.y + r.tm * (c2.y - c1.y))) * (rc'.p.y - (c1.y + r.tm * (c2.y - c1.y))))
    h0 h1 hr0 rfl (by linarith)
    (add_nonneg (mul_self_nonneg _) (mul_self_nonneg _))
  refine ⟨?_, hx, hy, hz⟩
  rw [sphere.mk_moving_bbox c1 c2 radius mat hr0]
  simp only [AABB.containsPoint, fin_le_fin]
  exact ⟨hx, hy, hz⟩

theorem sqrt_zero_of_spec (m : Libm F) (hm : m.SqrtSpec) : m.sqrt 0 = 0 := by
  obtain ⟨-, h1⟩ := hm 0 le_rfl
  exact mul_self_eq_zero.mp h1

/-- The moving sphere from (0,0,0) to (1,0,0) with radius 1 is hit at time 0 by the ray from
(0,0,5) towards -z. -/
theorem moving_sphere_example (m : Libm F) (PI : F) (hm : m.SqrtSpec) (mat : Option M)
    (rc : hit_record F M) :
    ∃ rc', (sphere.mk_moving ⟨0, 0, 0⟩ ⟨1, 0, 0⟩ 1 mat).hit m PI ⟨⟨0, 0, 5⟩, ⟨0, 0, -1⟩, 0⟩
        ⟨fin (1 / 1000), INF⟩ rc = .ok (true, rc') := by
  simp only [sphere.hit, sphere.mk_moving, ray.mk2, ray.«at», vec3.zero, vec3.add, vec3.smul,
    vec3.sub, vec3.length_squared, vec3.dot]
  norm_num
  rw [sqrt_one m hm]
  norm_num
  rw [if_neg (by simp [fin_le_fin, not_INF_le_fin]; norm_num),
    sphere.hit_at_ok _ _ _ _ _ _ _ (by norm_num)]
  exact ⟨_, rfl⟩

/-- The box containment of a moving sphere at the real numbers, for the sphere moving from
(0,0,0) to (1,0,0) with radius 1 and the ray from (0,0,5) towards -z at time 0. -/
theorem moving_sphere_hit_in_box_witness :
    (⟨Real.sqrt, Real.arccos, fun y x => Complex.arg ⟨x, y⟩, Real.sin, Real.cos, Real.tan⟩ :
      Libm ℝ).SqrtSpec ∧
    (0 : ℝ) < 1 ∧ (⟨0, 0, -1⟩ : vec3 ℝ) ≠ vec3.zero ∧ (0 : ℝ) ≤ 0 ∧ (0 : ℝ) ≤ 1 ∧
    ∃ rc' : hit_record ℝ Unit,
      (sphere.mk_moving ⟨0, 0, 0⟩ ⟨1, 0, 0⟩ 1 none).hit
        ⟨Real.sqrt, Real.arccos, fun y x => Complex.arg ⟨x, y⟩, Real.sin, Real.cos, Real.tan⟩
        (3141593 / 1000000) ⟨⟨0, 0, 5⟩, ⟨0, 0, -1⟩, 0⟩ ⟨fin (1 / 1000), INF⟩
        hit_record.fresh = .ok (true, rc') ∧
      (sphere.mk_moving (⟨0, 0, 0⟩ : vec3 ℝ) ⟨1, 0, 0⟩ 1
        (none : Option Unit)).bounding_box.containsPoint rc'.p :=
  have hdir : (⟨0, 0, -1⟩ : vec3 ℝ) ≠ vec3.zero := by simp [vec3.zero]
  ⟨real_sqrt_spec _ _ _ _ _, one_pos, hdir, le_rfl, zero_le_one,
   match moving_sphere_example _ (3141593 / 1000000) (real_sqrt_spec _ _ _ _ _)
      (none : Option Unit) hit_record.fresh with
   | ⟨rc', h⟩ =>
     ⟨rc', h, (moving_sphere_hit_in_box _ _ (real_sqrt_spec _ _ _ _ _) ⟨0, 0, 0⟩ ⟨1, 0, 0⟩ 1
        none ⟨⟨0, 0, 5⟩, ⟨0, 0, -1⟩, 0⟩ ⟨fin (1 / 1000), INF⟩ hit_record.fresh rc' one_pos
        hdir le_rfl zero_le_one h).1⟩⟩

end moving_sphere

/-! ## Which calls throw -/

section errors

variable {F M : Type} [LinearOrderedField F]

/-- The function `unit_vector` does not throw: the division is guarded by `len == 0`. -/
theorem vec3.unit_vector_ok (m : Libm F) (v : vec3 F) :
    ∃ n, vec3.unit_vector m v = .ok n := by
  unfold vec3.unit_vector
  by_cases h : vec3.length m v = 0
  · rw [if_pos h]
    exact ⟨_, rfl⟩
  · rw [if_neg h, vec3.div, if_neg h]
    exact ⟨_, rfl⟩

theorem quad_hit_total (q : quad F M) (r : ray F) (ray_t : interval F) (rc : hit_record F M) :
    ∃ b rc', q.hit r ray_t rc = .ok (b, rc') := by
  have h := quad_hit_eq q r ray_t rc
  simp only at h
  rw [h]
  split_ifs <;> exact ⟨_, _, rfl⟩

theorem triangle_hit_total (tr : triangle F M) (r : ray F) (ray_t : interval F)
    (rc : hit_record F M) : ∃ b rc', tr.hit r ray_t rc = .ok (b, rc') := by
  unfold triangle.hit
  simp only
  split_ifs <;> exact ⟨_, _, rfl⟩

theorem mesh_triangle_hit_total (m : Libm F) (mt : mesh_triangle F M) (r : ray F)
    (ray_t : interval F) (rc : hit_record F M) :
    ∃ b rc', mt.hit m r ray_t rc = .ok (b, rc') := by
  obtain ⟨n, hn⟩ := vec3.unit_vector_ok m (vec3.cross (mt.v1.sub mt.v0) (mt.v2.sub mt.v0))
  unfold mesh_triangle.hit
  simp only [hn]
  split_ifs <;> exact ⟨_, _, rfl⟩

theorem triangle.mk_triangle_total (m : Libm F) (a b c : vec3 F) (mat : Option M) :
    ∃ tr, triangle.mk_triangle m a b c mat = .ok tr := by
  obtain ⟨n, hn⟩ := vec3.unit_vector_ok m (vec3.cross (b.sub a) (c.sub a))
  unfold triangle.mk_triangle
  simp only [hn]
  exact ⟨_, rfl⟩

theorem vec3.dot_self_eq_zero_iff (n : vec3 F) : vec3.dot n n = 0 ↔ n = vec3.zero := by
  constructor
  · intro h
    by_contra hn
    exact absurd h (ne_of_gt (vec3.dot_self_pos n hn))
  · intro h
    subst h
    simp [vec3.dot, vec3.zero]

/-- The constructor of `quad` throws exactly when `cross(u, v)` is the zero vector. -/
theorem quad.mk_quad_cases (m : Libm F) (Q u v : vec3 F) (mat : Option M) :
    (vec3.cross u v ≠ vec3.zero → ∃ q, quad.mk_quad m Q u v mat = .ok q) ∧
    (vec3.cross u v = vec3.zero → quad.mk_quad m Q u v mat = .error "Division by zero") := by
  obtain ⟨n, hn⟩ := vec3.unit_vector_ok m (vec3.cross u v)
  unfold quad.mk_quad
  simp only [hn, vec3.div]
  constructor
  · intro h
    have : vec3.dot (vec3.cross u v) (vec3.cross u v) ≠ 0 :=
      fun h0 => h ((vec3.dot_self_eq_zero_iff _).mp h0)
    rw [if_neg this]
    exact ⟨_, rfl⟩
  · intro h
    have : vec3.dot (vec3.cross u v) (vec3.cross u v) = 0 := (vec3.dot_self_eq_zero_iff _).mpr h
    rw [if_pos this]

/-- On a sphere whose stored radius is 0, `sphere::hit` reports no hit or throws. -/
theorem sphere.hit_radius_zero (m : Libm F) (PI : F) (s : sphere F M) (r : ray F)
    (ray_t : interval F) (rc : hit_record F M) (h0 : s.radius = 0) :
    s.hit m PI r ray_t rc = .ok (false, rc) ∨
      s.hit m PI r ray_t rc = .error "Division by zero" := by
  have hat : ∀ C root, sphere.hit_at m PI s r C root rc = .error "Division by zero" := by
    intro C root
    simp [sphere.hit_at, vec3.div, h0]
  unfold sphere.hit
  simp only [hat]
  split_ifs
  · left; rfl
  · left; rfl
  · right; rfl
  · right; rfl

/-- C6, amended: with arithmetic read over the reals, the constructors of sphere, triangle
and mesh_triangle never raise an error, and the constructor of quad raises the invalid-argument error "Division by zero"
exactly when cross(u, v) is the zero vector (the edge vectors are zero or parallel); `hit`
never raises on a quad, a triangle or a mesh_triangle, nor on a sphere with radius > 0; on a
sphere whose radius is 0 `hit` reports no hit or raises "Division by zero". -/
theorem primitives_error_contract (m : Libm F) (PI : F) :
    (∀ (s : sphere F M) (r : ray F) (ray_t : interval F) (rc : hit_record F M),
      (0 < s.radius → ∃ b rc', s.hit m PI r ray_t rc = .ok (b, rc')) ∧
      (s.radius = 0 → s.hit m PI r ray_t rc = .ok (false, rc) ∨
        s.hit m PI r ray_t rc = .error "Division by zero")) ∧
    (∀ (Q u v : vec3 F) (mat : Option M),
      (vec3.cross u v ≠ vec3.zero → ∃ q, quad.mk_quad m Q u v mat = .ok q) ∧
      (vec3.cross u v = vec3.zero → quad.mk_quad m Q u v mat = .error "Division by zero")) ∧
    (∀ (q : quad F M) (r : ray F) (ray_t : interval F) (rc : hit_record F M),
      ∃ b rc', q.hit r ray_t rc = .ok (b, rc')) ∧
    (∀ (a b c : vec3 F) (mat : Option M), ∃ tr, triangle.mk_triangle m a b c mat = .ok tr) ∧
    (∀ (tr : triangle F M) (r : ray F) (ray_t : interval F) (rc : hit_record F M),
      ∃ b rc', tr.hit r ray_t rc = .ok (b, rc')) ∧
    (∀ (mt : mesh_triangle F M) (r : ray F) (ray_t : interval F) (rc : hit_record F M),
      ∃ b rc', mt.hit m r ray_t rc = .ok (b, rc')) := by
  refine ⟨fun s r ray_t rc => ⟨fun h => ?_, fun h => sphere.hit_radius_zero m PI s r ray_t rc h⟩,
    fun Q u v mat => quad.mk_quad_cases m Q u v mat,
    fun q r ray_t rc => quad_hit_total q r ray_t rc,
    fun a b c mat => triangle.mk_triangle_total m a b c mat,
    fun tr r ray_t rc => triangle_hit_total tr r ray_t rc,
    fun mt r ray_t rc => mesh_triangle_hit_total m mt r ray_t rc⟩
  have hr : s.radius ≠ 0 := ne_of_gt h
  unfold sphere.hit
  simp only [sphere.hit_at_ok _ _ _ _ _ _ _ hr]
  split_ifs <;> exact ⟨_, _, rfl⟩

/-- The error contract at the real numbers: the unit sphere at the origin has a positive
radius and its `hit` returns, and the quad with edges (1,0,0), (0,1,0) is constructed. -/
theorem primitives_error_contract_witness :
    (0 : ℝ) < (sphere.mk_static (⟨0, 0, 0⟩ : vec3 ℝ) 1 (none : Option Unit)).radius ∧
    (∃ b rc', (sphere.mk_static (⟨0, 0, 0⟩ : vec3 ℝ) 1 (none : Option Unit)).hit
      ⟨Real.sqrt, Real.arccos, fun y x => Complex.arg ⟨x, y⟩, Real.sin, Real.cos, Real.tan⟩
      (3141593 / 1000000) ⟨⟨0, 0, 5⟩, ⟨0, 0, -1⟩, 0⟩ ⟨fin (1 / 1000), INF⟩
      hit_record.fresh = .ok (b, rc')) ∧
    vec3.cross (⟨1, 0, 0⟩ : vec3 ℝ) ⟨0, 1, 0⟩ ≠ vec3.zero ∧
    (∃ q, quad.mk_quad
      ⟨Real.sqrt, Real.arccos, fun y x => Complex.arg ⟨x, y⟩, Real.sin, Real.cos, Real.tan⟩
      (⟨0, 0, 0⟩ : vec3 ℝ) ⟨1, 0, 0⟩ ⟨0, 1, 0⟩ (none : Option Unit) = .ok q) :=
  have hrad : (0 : ℝ) < (sphere.mk_static (⟨0, 0, 0⟩ : vec3 ℝ) 1 (none : Option Unit)).radius := by
    simp [sphere.mk_static]
  have hn : vec3.cross (⟨1, 0, 0⟩ : vec3 ℝ) ⟨0, 1, 0⟩ ≠ vec3.zero := by
    simp [vec3.cross, vec3.zero]
  ⟨hrad,
   ((primitives_error_contract
      ⟨Real.sqrt, Real.arccos, fun y x => Complex.arg ⟨x, y⟩, Real.sin, Real.cos, Real.tan⟩
      (3141593 / 1000000)).1 _ _ _ _).1 hrad,
   hn,
   ((primitives_error_contract
      (⟨Real.sqrt, Real.arccos, fun y x => Complex.arg ⟨x, y⟩, Real.sin, Real.cos, Real.tan⟩ : Libm ℝ)
      (3141593 / 1000000) : _ ∧ (∀ (Q u v : vec3 ℝ) (mat : Option Unit), _) ∧ _).2.1
        ⟨0, 0, 0⟩ ⟨1, 0, 0⟩ ⟨0, 1, 0⟩ none).1 hn⟩

/-- C6 as stated fails: constructing the quad whose two edge vectors are zero, or parallel,
raises "Division by zero", and `hit` on the sphere of radius 0 at the origin raises it for
the ray from (0,0,5) towards -z, which passes through the centre. In binary32 the
constructor of the quad raises it as well for the edges (1e-12,0,0) and (0,1e-12,0),
whose cross product (0,0,1e-24) is not zero: `dot(n, n)` underflows to 0. -/
theorem degenerate_primitives_raise :
    quad.mk_quad
      ⟨Real.sqrt, Real.arccos, fun y x => Complex.arg ⟨x, y⟩, Real.sin, Real.cos, Real.tan⟩
      (⟨0, 0, 0⟩ : vec3 ℝ) ⟨0, 0, 0⟩ ⟨0, 0, 0⟩ (none : Option Unit) =
        .error "Division by zero" ∧
    quad.mk_quad
      ⟨Real.sqrt, Real.arccos, fun y x => Complex.arg ⟨x, y⟩, Real.sin, Real.cos, Real.tan⟩
      (⟨0, 0, 0⟩ : vec3 ℝ) ⟨1, 0, 0⟩ ⟨2, 0, 0⟩ (none : Option Unit) =
        .error "Division by zero" ∧
    (sphere.mk_static (⟨0, 0, 0⟩ : vec3 ℝ) 0 (none : Option Unit)).hit
      ⟨Real.sqrt, Real.arccos, fun y x => Complex.arg ⟨x, y⟩, Real.sin, Real.cos, Real.tan⟩
      (3141593 / 1000000) ⟨⟨0, 0, 5⟩, ⟨0, 0, -1⟩, 0⟩ ⟨fin (1 / 1000), INF⟩
      hit_record.fresh = .error "Division by zero" ∧
    f32.quad.mk_quad ⟨fp.zero, fp.zero, fp.zero⟩ ⟨fp.ofDec32 false 1 (10 ^ 12), fp.zero, fp.zero⟩
      ⟨fp.zero, fp.ofDec32 false 1 (10 ^ 12), fp.zero⟩ (none : Option Unit) =
        .error "Division by zero" ∧
    f32.cross ⟨fp.ofDec32 false 1 (10 ^ 12), fp.zero, fp.zero⟩
      ⟨fp.zero, fp.ofDec32 false 1 (10 ^ 12), fp.zero⟩ =
        ⟨fp.zero, fp.zero, fp.ofDec32 false 1 (10 ^ 24)⟩ ∧
    fp.ofDec32 false 1 (10 ^ 24) ≠ fp.zero := by
  refine ⟨(quad.mk_quad_cases _ _ _ _ _).2 (by simp [vec3.cross, vec3.zero]),
    (quad.mk_quad_cases _ _ _ _ _).2 (by simp [vec3.cross, vec3.zero]), ?_, rfl, by decide,
    by decide⟩
  simp only [sphere.hit, sphere.mk_static, ray.mk2, ray.«at», vec3.zero, vec3.add, vec3.smul,
    vec3.sub, vec3.length_squared, vec3.dot]
  norm_num
  rw [if_neg (by simp [fin_le_fin, not_INF_le_fin]; norm_num)]
  simp [sphere.hit_at, vec3.div]

/-- C7, at the failing inputs: `triangle::hit` returns true on zero-area triangles. The
triangle with three coincident vertices at the origin and the triangle with the collinear
vertices (0,0,0), (1,0,0), (2,0,0) both get the fall-back normal (1,0,0) of `unit_vector`,
and the ray from (-1,5,5) along +x over (0.001, +inf) is reported as a hit at `t = 1`, in the
point (0,5,5). -/
theorem degenerate_triangle_is_hit :
    (∃ tr : triangle ℝ Unit,
      triangle.mk_triangle
        ⟨Real.sqrt, Real.arccos, fun y x => Complex.arg ⟨x, y⟩, Real.sin, Real.cos, Real.tan⟩
        ⟨0, 0, 0⟩ ⟨0, 0, 0⟩ ⟨0, 0, 0⟩ none = .ok tr ∧
      ∃ rc', tr.hit ⟨⟨-1, 5, 5⟩, ⟨1, 0, 0⟩, 0⟩ ⟨fin (1 / 1000), INF⟩ hit_record.fresh =
          .ok (true, rc') ∧ rc'.t = 1 ∧ rc'.p = ⟨0, 5, 5⟩) ∧
    (∃ tr : triangle ℝ Unit,
      triangle.mk_triangle
        ⟨Real.sqrt, Real.arccos, fun y x => Complex.arg ⟨x, y⟩, Real.sin, Real.cos, Real.tan⟩
        ⟨0, 0, 0⟩ ⟨1, 0, 0⟩ ⟨2, 0, 0⟩ none = .ok tr ∧
      ∃ rc', tr.hit ⟨⟨-1, 5, 5⟩, ⟨1, 0, 0⟩, 0⟩ ⟨fin (1 / 1000), INF⟩ hit_record.fresh =
          .ok (true, rc') ∧ rc'.t = 1 ∧ rc'.p = ⟨0, 5, 5⟩) := by
  constructor
  · refine ⟨_, degenerate_triangle_built _ _ _ _ _, ?_⟩
    rw [degenerate_triangle_hit]
    exact ⟨_, rfl, rfl, rfl⟩
  · have hb : triangle.mk_triangle
        ⟨Real.sqrt, Real.arccos, fun y x => Complex.arg ⟨x, y⟩, Real.sin, Real.cos, Real.tan⟩
        (⟨0, 0, 0⟩ : vec3 ℝ) ⟨1, 0, 0⟩ ⟨2, 0, 0⟩ (none : Option Unit) =
        .ok { a := ⟨0, 0, 0⟩, b := ⟨1, 0, 0⟩, c := ⟨2, 0, 0⟩, u := ⟨1, 0, 0⟩, v := ⟨2, 0, 0⟩,
              normal := ⟨1, 0, 0⟩, D := 0, mat := none,
              bbox := triangle.set_bounding_box ⟨0, 0, 0⟩ ⟨1, 0, 0⟩ ⟨2, 0, 0⟩ } := by
      simp [triangle.mk_triangle, vec3.unit_vector, vec3.length, vec3.length_squared,
        vec3.cross, vec3.sub, vec3.dot]
    refine ⟨_, hb, ?_⟩
    simp [triangle.hit, vec3.dot, interval.contains, fin_le_fin, vec3.cross, vec3.sub,
      ray.«at», vec3.add, vec3.smul, hit_record.set_face_normal, vec3.neg]
    rw [if_neg (by norm_num), if_neg (by simp [not_INF_lt_fin]; norm_num)]
    exact ⟨_, rfl, rfl, rfl⟩

end errors

/-! ## `triangle::hit` -/

section triangle_hit

variable {F M : Type} [LinearOrderedField F]

/-- What `triangle::hit` returns, for any stored fields. -/
theorem triangle_hit_eq (tr : triangle F M) (r : ray F) (ray_t : interval F)
    (rc : hit_record F M) :
    let denom := vec3.dot tr.normal r.dir
    let t := (tr.D - vec3.dot tr.normal r.orig) / denom
    let p := r.«at» t
    tr.hit r ray_t rc =
      if 1 / 100000000 ≤ |denom| ∧ (ray_t.min ≤ fin t ∧ fin t ≤ ray_t.max) ∧
          (0 ≤ vec3.dot tr.normal (vec3.cross (tr.b.sub tr.a) (p.sub tr.a)) ∧
           0 ≤ vec3.dot tr.normal (vec3.cross (tr.c.sub tr.b) (p.sub tr.b)) ∧
           0 ≤ vec3.dot tr.normal (vec3.cross (tr.a.sub tr.c) (p.sub tr.c))) then
        .ok (true,
          { p := p
            normal := if vec3.dot r.dir tr.normal < 0 then tr.normal else tr.normal.neg
            t := t, u := rc.u, v := rc.v
            front_face := decide (vec3.dot r.dir tr.normal < 0)
            mat := tr.mat })
      else .ok (false, rc) := by
  intro denom t p
  unfold triangle.hit
  by_cases h1 : |denom| < 1 / 100000000
  · have h1' := h1
    simp only [denom] at h1'
    rw [if_pos h1', if_neg]
    rintro ⟨h, _⟩
    exact absurd h1 (not_lt.mpr h)
  · have h1' := h1
    simp only [denom] at h1'
    rw [if_neg h1']
    by_cases h2 : ray_t.min ≤ fin t ∧ fin t ≤ ray_t.max
    · have h2' : ray_t.contains ((tr.D - vec3.dot tr.normal r.orig) / vec3.dot tr.normal r.dir)
          = true := (interval.contains_iff _ _).mpr h2
      simp only [h2', Bool.not_true, Bool.false_eq_true, if_false]
      by_cases h3 : 0 ≤ vec3.dot tr.normal (vec3.cross (tr.b.sub tr.a) (p.sub tr.a)) ∧
           0 ≤ vec3.dot tr.normal (vec3.cross (tr.c.sub tr.b) (p.sub tr.b)) ∧
           0 ≤ vec3.dot tr.normal (vec3.cross (tr.a.sub tr.c) (p.sub tr.c))
      · rw [if_neg, if_pos ⟨not_lt.mp h1, h2, h3⟩]
        · simp [hit_record.set_face_normal, p, t, denom]
        · rintro (h | h | h)
          · exact absurd h (not_lt.mpr h3.1)
          · exact absurd h (not_lt.mpr h3.2.1)
          · exact absurd h (not_lt.mpr h3.2.2)
      · rw [if_pos, if_neg]
        · rintro ⟨_, _, h⟩
          exact h3 h
        · by_contra hc
          push_neg at hc
          exact h3 hc
    · have h2' : ray_t.contains ((tr.D - vec3.dot tr.normal r.orig) / vec3.dot tr.normal r.dir)
          = false := by
        rw [← Bool.not_eq_true, interval.contains_iff]
        exact h2
      simp only [h2', Bool.not_false, if_true]
      rw [if_neg]
      rintro ⟨_, h, _⟩
      exact h2 h


/-- With the unit normal `n / L`, a dot product with the normal has the sign of the dot
product with `n`. -/
theorem vec3.dot_div_nonneg (n X : vec3 F) (L : F) (hL : 0 < L) :
    0 ≤ vec3.dot ⟨n.x / L, n.y / L, n.z / L⟩ X ↔ 0 ≤ vec3.dot n X := by
  have h : vec3.dot ⟨n.x / L, n.y / L, n.z / L⟩ X = vec3.dot n X / L := by
    simp only [vec3.dot]; ring
  rw [h]
  constructor
  · intro h0
    have := mul_nonneg h0 (le_of_lt hL)
    rwa [div_mul_cancel₀ _ (ne_of_gt hL)] at this
  · intro h0
    exact div_nonneg h0 (le_of_lt hL)

/-- The inside-outside test of `triangle::hit`: for a point `P` of the plane of a
non-degenerate triangle, the three edge cross products have a non-negative dot product with
`n = cross(b - a, c - a)` exactly when `P` is a convex combination of the vertices. -/
theorem triangle_inside_iff (a b c P : vec3 F)
    (hn : vec3.cross (b.sub a) (c.sub a) ≠ vec3.zero)
    (hplane : vec3.dot (vec3.cross (b.sub a) (c.sub a)) (P.sub a) = 0) :
    (0 ≤ vec3.dot (vec3.cross (b.sub a) (c.sub a)) (vec3.cross (b.sub a) (P.sub a)) ∧
     0 ≤ vec3.dot (vec3.cross (b.sub a) (c.sub a)) (vec3.cross (c.sub b) (P.sub b)) ∧
     0 ≤ vec3.dot (vec3.cross (b.sub a) (c.sub a)) (vec3.cross (a.sub c) (P.sub c))) ↔
    ∃ α β γ : F, 0 ≤ α ∧ 0 ≤ β ∧ 0 ≤ γ ∧ α + β + γ = 1 ∧
      P = ((vec3.smul α a).add (vec3.smul β b)).add (vec3.smul γ c) := by
  have hNpos := vec3.dot_self_pos _ hn
  have hN : vec3.dot (vec3.cross (b.sub a) (c.sub a)) (vec3.cross (b.sub a) (c.sub a)) ≠ 0 :=
    ne_of_gt hNpos
  constructor
  · rintro ⟨h0, h1, h2⟩
    have hdec := vec3.planar_decomp (b.sub a) (c.sub a) (P.sub a) hN hplane
    generalize hNN : vec3.dot (vec3.cross (b.sub a) (c.sub a)) (vec3.cross (b.sub a) (c.sub a))
      = N at hNpos hN hdec
    refine ⟨vec3.dot (vec3.cross (b.sub a) (c.sub a)) (vec3.cross (c.sub b) (P.sub b)) / N,
      vec3.dot (vec3.cross (b.sub a) (c.sub a)) (vec3.cross (a.sub c) (P.sub c)) / N,
      vec3.dot (vec3.cross (b.sub a) (c.sub a)) (vec3.cross (b.sub a) (P.sub a)) / N,
      div_nonneg h1 (le_of_lt hNpos), div_nonneg h2 (le_of_lt hNpos),
      div_nonneg h0 (le_of_lt hNpos), ?_, ?_⟩
    · rw [← add_div, ← add_div, div_eq_one_iff_eq hN, ← hNN]
      simp only [vec3.dot, vec3.cross, vec3.sub]
      ring
    · have hx := congrArg vec3.x hdec
      have hy := congrArg vec3.y hdec
      have hz := congrArg vec3.z hdec
      simp only [vec3.dot, vec3.cross, vec3.sub, vec3.add, vec3.smul] at hx hy hz hNN hplane
      ext
      · simp only [vec3.dot, vec3.cross, vec3.sub, vec3.add, vec3.smul]
        field_simp
        field_simp at hx
        rw [← hNN]
        rw [← hNN] at hx
        linear_combination hx
      · simp only [vec3.dot, vec3.cross, vec3.sub, vec3.add, vec3.smul]
        field_simp
        field_simp at hy
        rw [← hNN]
        rw [← hNN] at hy
        linear_combination hy
      · simp only [vec3.dot, vec3.cross, vec3.sub, vec3.add, vec3.smul]
        field_simp
        field_simp at hz
        rw [← hNN]
        rw [← hNN] at hz
        linear_combination hz
  · rintro ⟨α, β, γ, hα, hβ, hγ, hsum, hP⟩
    have hα' : α = 1 - β - γ := by linear_combination hsum
    subst hα'
    subst hP
    have e0 : vec3.dot (vec3.cross (b.sub a) (c.sub a))
        (vec3.cross (b.sub a)
          ((((vec3.smul (1 - β - γ) a).add (vec3.smul β b)).add (vec3.smul γ c)).sub a)) =
        γ * vec3.dot (vec3.cross (b.sub a) (c.sub a)) (vec3.cross (b.sub a) (c.sub a)) := by
      simp only [vec3.dot, vec3.cross, vec3.sub, vec3.add, vec3.smul]; ring
    have e1 : vec3.dot (vec3.cross (b.sub a) (c.sub a))
        (vec3.cross (c.sub b)
          ((((vec3.smul (1 - β - γ) a).add (vec3.smul β b)).add (vec3.smul γ c)).sub b)) =
        (1 - β - γ) *
          vec3.dot (vec3.cross (b.sub a) (c.sub a)) (vec3.cross (b.sub a) (c.sub a)) := by
      simp only [vec3.dot, vec3.cross, vec3.sub, vec3.add, vec3.smul]; ring
    have e2 : vec3.dot (vec3.cross (b.sub a) (c.sub a))
        (vec3.cross (a.sub c)
          ((((vec3.smul (1 - β - γ) a).add (vec3.smul β b)).add (vec3.smul γ c)).sub c)) =
        β * vec3.dot (vec3.cross (b.sub a) (c.sub a)) (vec3.cross (b.sub a) (c.sub a)) := by
      simp only [vec3.dot, vec3.cross, vec3.sub, vec3.add, vec3.smul]; ring
    rw [e0, e1, e2]
    exact ⟨mul_nonneg hγ (le_of_lt hNpos), mul_nonneg hα (le_of_lt hNpos),
      mul_nonneg hβ (le_of_lt hNpos)⟩


/-- The contract of `triangle::hit` for a triangle of non-zero area. -/
theorem triangle_hit_spec (m : Libm F) (hm : m.SqrtSpec) (a b c : vec3 F) (mat : Option M)
    (hn : vec3.cross (b.sub a) (c.sub a) ≠ vec3.zero) :
    ∃ tr : triangle F M, triangle.mk_triangle m a b c mat = .ok tr ∧
      tr.a = a ∧ tr.b = b ∧ tr.c = c ∧ tr.D = vec3.dot tr.normal a ∧
      tr.normal.length_squared = 1 ∧
      ∀ (r : ray F) (ray_t : interval F) (rc : hit_record F M),
        let denom := vec3.dot tr.normal r.dir
        let t := (tr.D - vec3.dot tr.normal r.orig) / denom
        let cond := 1 / 100000000 ≤ |denom| ∧ (ray_t.min ≤ fin t ∧ fin t ≤ ray_t.max) ∧
          ∃ α β γ : F, 0 ≤ α ∧ 0 ≤ β ∧ 0 ≤ γ ∧ α + β + γ = 1 ∧
            r.«at» t = ((vec3.smul α a).add (vec3.smul β b)).add (vec3.smul γ c)
        ((∃ rc', tr.hit r ray_t rc = .ok (true, rc')) ↔ cond) ∧
        (tr.hit r ray_t rc = .ok (false, rc) ↔ ¬ cond) ∧
        (∀ rc', tr.hit r ray_t rc = .ok (true, rc') → rc'.t = t ∧ rc'.p = r.«at» t) := by
  have hpos := vec3.length_squared_pos _ hn
  obtain ⟨h0, h1⟩ := hm _ (le_of_lt hpos)
  have hL : m.sqrt (vec3.cross (b.sub a) (c.sub a)).length_squared ≠ 0 := by
    intro h
    rw [h, mul_zero] at h1
    exact absurd h1.symm (ne_of_gt hpos)
  have hLpos : 0 < m.sqrt (vec3.cross (b.sub a) (c.sub a)).length_squared :=
    lt_of_le_of_ne h0 (Ne.symm hL)
  have hmk : triangle.mk_triangle m a b c mat = .ok
      { a := a, b := b, c := c, u := b.sub a, v := c.sub a
        normal := ⟨(vec3.cross (b.sub a) (c.sub a)).x /
                      m.sqrt (vec3.cross (b.sub a) (c.sub a)).length_squared,
                   (vec3.cross (b.sub a) (c.sub a)).y /
                      m.sqrt (vec3.cross (b.sub a) (c.sub a)).length_squared,
                   (vec3.cross (b.sub a) (c.sub a)).z /
                      m.sqrt (vec3.cross (b.sub a) (c.sub a)).length_squared⟩
        D := vec3.dot ⟨(vec3.cross (b.sub a) (c.sub a)).x /
                      m.sqrt (vec3.cross (b.sub a) (c.sub a)).length_squared,
                   (vec3.cross (b.sub a) (c.sub a)).y /
                      m.sqrt (vec3.cross (b.sub a) (c.sub a)).length_squared,
                   (vec3.cross (b.sub a) (c.sub a)).z /
                      m.sqrt (vec3.cross (b.sub a) (c.sub a)).length_squared⟩ a
        mat := mat
        bbox := triangle.set_bounding_box a b c } := by
    simp only [triangle.mk_triangle, vec3.unit_vector, vec3.length, vec3.div, if_neg hL]
  refine ⟨_, hmk, rfl, rfl, rfl, rfl, vec3.length_squared_div _ _ hL h1, ?_⟩
  intro r ray_t rc
  generalize hL' : m.sqrt (vec3.cross (b.sub a) (c.sub a)).length_squared = L at hL hLpos h0 h1
  intro denom t cond
  have heq := triangle_hit_eq
    ({ a := a, b := b, c := c, u := b.sub a, v := c.sub a
       normal := ⟨(vec3.cross (b.sub a) (c.sub a)).x / L, (vec3.cross (b.sub a) (c.sub a)).y / L,
                  (vec3.cross (b.sub a) (c.sub a)).z / L⟩
       D := vec3.dot ⟨(vec3.cross (b.sub a) (c.sub a)).x / L,
                  (vec3.cross (b.sub a) (c.sub a)).y / L,
                  (vec3.cross (b.sub a) (c.sub a)).z / L⟩ a
       mat := mat
       bbox := triangle.set_bounding_box a b c } : triangle F M) r ray_t rc
  simp only [vec3.dot_div_nonneg _ _ L hLpos] at heq
  -- the plane point lies in the plane of the triangle
  have hplane : denom ≠ 0 →
      vec3.dot (vec3.cross (b.sub a) (c.sub a)) ((r.«at» t).sub a) = 0 := by
    intro hd
    have hdiv : ∀ X : vec3 F, vec3.dot ⟨(vec3.cross (b.sub a) (c.sub a)).x / L,
        (vec3.cross (b.sub a) (c.sub a)).y / L, (vec3.cross (b.sub a) (c.sub a)).z / L⟩ X =
        vec3.dot (vec3.cross (b.sub a) (c.sub a)) X / L := by
      intro X; simp only [vec3.dot]; ring
    have ht : t * denom = vec3.dot ⟨(vec3.cross (b.sub a) (c.sub a)).x / L,
        (vec3.cross (b.sub a) (c.sub a)).y / L, (vec3.cross (b.sub a) (c.sub a)).z / L⟩ a -
        vec3.dot ⟨(vec3.cross (b.sub a) (c.sub a)).x / L,
        (vec3.cross (b.sub a) (c.sub a)).y / L, (vec3.cross (b.sub a) (c.sub a)).z / L⟩ r.orig :=
      div_mul_cancel₀ _ hd
    simp only [denom, hdiv] at ht
    have ht2 : t * vec3.dot (vec3.cross (b.sub a) (c.sub a)) r.dir =
        vec3.dot (vec3.cross (b.sub a) (c.sub a)) a -
          vec3.dot (vec3.cross (b.sub a) (c.sub a)) r.orig := by
      calc t * vec3.dot (vec3.cross (b.sub a) (c.sub a)) r.dir
          = t * (vec3.dot (vec3.cross (b.sub a) (c.sub a)) r.dir / L) * L := by field_simp
        _ = (vec3.dot (vec3.cross (b.sub a) (c.sub a)) a / L -
              vec3.dot (vec3.cross (b.sub a) (c.sub a)) r.orig / L) * L := by rw [ht]
        _ = vec3.dot (vec3.cross (b.sub a) (c.sub a)) a -
              vec3.dot (vec3.cross (b.sub a) (c.sub a)) r.orig := by field_simp
    generalize vec3.cross (b.sub a) (c.sub a) = n at ht2 ⊢
    simp only [vec3.dot, ray.«at», vec3.sub, vec3.add, vec3.smul] at ht2 ⊢
    linear_combination ht2
  have hden : 1 / 100000000 ≤ |denom| → denom ≠ 0 := by
    intro h hz
    rw [hz, abs_zero] at h
    norm_num at h
  have hcond : cond ↔ (1 / 100000000 ≤ |denom| ∧ (ray_t.min ≤ fin t ∧ fin t ≤ ray_t.max) ∧
      (0 ≤ vec3.dot (vec3.cross (b.sub a) (c.sub a))
            (vec3.cross (b.sub a) ((r.«at» t).sub a)) ∧
       0 ≤ vec3.dot (vec3.cross (b.sub a) (c.sub a))
            (vec3.cross (c.sub b) ((r.«at» t).sub b)) ∧
       0 ≤ vec3.dot (vec3.cross (b.sub a) (c.sub a))
            (vec3.cross (a.sub c) ((r.«at» t).sub c)))) := by
    constructor
    · rintro ⟨h1, h2, h3⟩
      exact ⟨h1, h2, (triangle_inside_iff a b c _ hn (hplane (hden h1))).mpr h3⟩
    · rintro ⟨h1, h2, h3⟩
      exact ⟨h1, h2, (triangle_inside_iff a b c _ hn (hplane (hden h1))).mp h3⟩
  by_cases hc : cond
  · have hc' := hcond.mp hc
    rw [if_pos hc'] at heq
    refine ⟨⟨fun _ => hc, fun _ => ⟨_, heq⟩⟩, ⟨fun h => ?_, fun h => absurd hc h⟩, ?_⟩
    · rw [heq] at h; simp at h
    · intro rc' h
      rw [heq] at h
      simp only [Except.ok.injEq, Prod.mk.injEq, true_and] at h
      subst h
      exact ⟨rfl, rfl⟩
  · have hc' : ¬ _ := fun h => hc (hcond.mpr h)
    rw [if_neg hc'] at heq
    refine ⟨⟨fun ⟨rc', h⟩ => ?_, fun h => absurd h hc⟩, ⟨fun _ => hc, fun _ => heq⟩, ?_⟩
    · rw [heq] at h; simp at h
    · intro rc' h
      rw [heq] at h; simp at h


/-- C8, amended: with arithmetic read over the reals and `std::sqrt` the square root, for a
triangle (a, b, c) of non-zero area the constructor succeeds, and for every
ray and interval `triangle::hit` returns true iff `|dot(normal, direction)| >= 1e-8`, the
plane parameter `t` lies in the closed interval, and the plane point `r.at(t)` is a convex
combination of a, b and c; it returns false, with the record untouched, otherwise. On a hit
`rec.t = t` and `rec.p = r.at(t)`. The threshold is the one of `quad::hit`: both report no
hit when `|dot(normal, direction)| < 1e-8`. -/
theorem triangle_hit_contract (m : Libm F) (hm : m.SqrtSpec) :
    (∀ (a b c : vec3 F) (mat : Option M), vec3.cross (b.sub a) (c.sub a) ≠ vec3.zero →
      ∃ tr : triangle F M, triangle.mk_triangle m a b c mat = .ok tr ∧
        tr.a = a ∧ tr.b = b ∧ tr.c = c ∧ tr.D = vec3.dot tr.normal a ∧
        tr.normal.length_squared = 1 ∧
        ∀ (r : ray F) (ray_t : interval F) (rc : hit_record F M),
          let denom := vec3.dot tr.normal r.dir
          let t := (tr.D - vec3.dot tr.normal r.orig) / denom
          let cond := 1 / 100000000 ≤ |denom| ∧ (ray_t.min ≤ fin t ∧ fin t ≤ ray_t.max) ∧
            ∃ α β γ : F, 0 ≤ α ∧ 0 ≤ β ∧ 0 ≤ γ ∧ α + β + γ = 1 ∧
              r.«at» t = ((vec3.smul α a).add (vec3.smul β b)).add (vec3.smul γ c)
          ((∃ rc', tr.hit r ray_t rc = .ok (true, rc')) ↔ cond) ∧
          (tr.hit r ray_t rc = .ok (false, rc) ↔ ¬ cond) ∧
          (∀ rc', tr.hit r ray_t rc = .ok (true, rc') → rc'.t = t ∧ rc'.p = r.«at» t)) ∧
    (∀ (tr : triangle F M) (q : quad F M) (r : ray F) (ray_t : interval F)
        (rc : hit_record F M),
      (|vec3.dot tr.normal r.dir| < 1 / 100000000 → tr.hit r ray_t rc = .ok (false, rc)) ∧
      (|vec3.dot q.normal r.dir| < 1 / 100000000 → q.hit r ray_t rc = .ok (false, rc))) := by
  refine ⟨fun a b c mat hn => triangle_hit_spec m hm a b c mat hn, ?_⟩
  intro tr q r ray_t rc
  constructor
  · intro h
    have heq := triangle_hit_eq tr r ray_t rc
    simp only at heq
    rw [heq, if_neg]
    rintro ⟨h1, -⟩
    exact absurd h (not_lt.mpr h1)
  · intro h
    have heq := quad_hit_eq q r ray_t rc
    simp only at heq
    rw [heq, if_neg]
    rintro ⟨h1, -⟩
    exact absurd h (not_lt.mpr h1)

/-- The contract of `triangle::hit` at the real numbers: the triangle (0,0,0), (1,0,0),
(0,1,0) is constructed, with a unit normal. -/
theorem triangle_hit_contract_witness :
    (⟨Real.sqrt, Real.arccos, fun y x => Complex.arg ⟨x, y⟩, Real.sin, Real.cos, Real.tan⟩ :
      Libm ℝ).SqrtSpec ∧
    vec3.cross ((⟨1, 0, 0⟩ : vec3 ℝ).sub ⟨0, 0, 0⟩) ((⟨0, 1, 0⟩ : vec3 ℝ).sub ⟨0, 0, 0⟩) ≠
      vec3.zero ∧
    ∃ tr : triangle ℝ Unit, triangle.mk_triangle
        ⟨Real.sqrt, Real.arccos, fun y x => Complex.arg ⟨x, y⟩, Real.sin, Real.cos, Real.tan⟩
        ⟨0, 0, 0⟩ ⟨1, 0, 0⟩ ⟨0, 1, 0⟩ none = .ok tr ∧
      tr.a = ⟨0, 0, 0⟩ ∧ tr.b = ⟨1, 0, 0⟩ ∧ tr.c = ⟨0, 1, 0⟩ ∧
      tr.D = vec3.dot tr.normal ⟨0, 0, 0⟩ ∧ tr.normal.length_squared = 1 :=
  have hn : vec3.cross ((⟨1, 0, 0⟩ : vec3 ℝ).sub ⟨0, 0, 0⟩)
      ((⟨0, 1, 0⟩ : vec3 ℝ).sub ⟨0, 0, 0⟩) ≠ vec3.zero := by
    simp [vec3.cross, vec3.sub, vec3.zero]
  ⟨real_sqrt_spec _ _ _ _ _, hn,
   match (triangle_hit_contract _ (real_sqrt_spec _ _ _ _ _)).1 ⟨0, 0, 0⟩ ⟨1, 0, 0⟩ ⟨0, 1, 0⟩
      (none : Option Unit) hn with
   | ⟨tr, h1, h2, h3, h4, h5, h6, _⟩ => ⟨tr, h1, h2, h3, h4, h5, h6⟩⟩

end triangle_hit

/-! ## The bounding box of a `hittable_list` -/

section list_bbox

variable {F M : Type} [LinearOrderedField F]

theorem fin_ne_INF (x : F) : fin x ≠ (INF : Ext F) :=
  fun h => not_INF_le_fin x (le_of_eq h.symm)

theorem fin_injective (x y : F) (h : fin x = fin y) : x = y :=
  le_antisymm ((fin_le_fin x y).mp (le_of_eq h)) ((fin_le_fin y x).mp (le_of_eq h.symm))

/-- The hull of the empty interval and a finite interval is the finite interval. -/
theorem interval.hull_empty_left (a b : F) :
    interval.hull interval.empty (⟨fin a, fin b⟩ : interval F) = ⟨fin a, fin b⟩ := by
  simp only [interval.hull, interval.empty, ge_iff_le, if_neg (not_INF_le_fin a),
    if_neg (not_fin_le_NEG_INF b)]

/-- Embeds `add` keeps the box of a list equal to the hull of the boxes of its objects, and the box
of a new list is the empty box. -/
theorem hittable_list.add_keeps_hull (l : hittable_list F M) (o : hittable F M)
    (h : l.bounding_box = hittable_list.hull_of l.objects) :
    (l.add o).bounding_box = hittable_list.hull_of (l.add o).objects ∧
    (hittable_list.new : hittable_list F M).bounding_box =
      hittable_list.hull_of (hittable_list.new : hittable_list F M).objects := by
  constructor
  · simp only [hittable_list.bounding_box] at h
    simp only [hittable_list.add, hittable_list.bounding_box, hittable_list.hull_of,
      List.foldl_append, List.foldl_cons, List.foldl_nil, h]
  · rfl

/-- C9, at the failing inputs. (1) After `add` of the unit sphere and `clear`, the list has no
objects but `bounding_box()` is still the box [-1,1]³ of the sphere, not the empty box.
(2) After `add` of the mesh triangle (0,0,0), (1,0,0), (0,1,0) and
`transform_mesh(list, 2, (10,10,10))`, the triangle in the list has the box
[10,12]×[10,12]×[10,10], but `bounding_box()` of the list is still [0,1]×[0,1]×[0,0]. In both cases
`bounding_box()` differs from the hull of the boxes of the objects in the list. -/
theorem list_bbox_is_stale :
    ((hittable_list.new.add
        (hittable.sphere (sphere.mk_static (⟨0, 0, 0⟩ : vec3 ℚ) 1 (none : Option Unit)))).clear.objects
      = [] ∧
     (hittable_list.new.add
        (hittable.sphere (sphere.mk_static (⟨0, 0, 0⟩ : vec3 ℚ) 1 (none : Option Unit)))).clear.bounding_box
      = ⟨⟨fin (-1), fin 1⟩, ⟨fin (-1), fin 1⟩, ⟨fin (-1), fin 1⟩⟩ ∧
     (hittable_list.new.add
        (hittable.sphere (sphere.mk_static (⟨0, 0, 0⟩ : vec3 ℚ) 1 (none : Option Unit)))).clear.bounding_box
      ≠ hittable_list.hull_of (hittable_list.new.add
        (hittable.sphere (sphere.mk_static (⟨0, 0, 0⟩ : vec3 ℚ) 1
          (none : Option Unit)))).clear.objects) ∧
    ((transform_mesh (hittable_list.new.add (hittable.mesh_triangle
          (⟨⟨0, 0, 0⟩, ⟨1, 0, 0⟩, ⟨0, 1, 0⟩, none⟩ : mesh_triangle ℚ Unit))) 2 ⟨10, 10, 10⟩).objects
      = [hittable.mesh_triangle ⟨⟨10, 10, 10⟩, ⟨12, 10, 10⟩, ⟨10, 12, 10⟩, none⟩] ∧
     (hittable.mesh_triangle (⟨⟨10, 10, 10⟩, ⟨12, 10, 10⟩, ⟨10, 12, 10⟩, none⟩ :
          mesh_triangle ℚ Unit)).bounding_box
      = ⟨⟨fin 10, fin 12⟩, ⟨fin 10, fin 12⟩, ⟨fin 10, fin 10⟩⟩ ∧
     (transform_mesh (hittable_list.new.add (hittable.mesh_triangle
          (⟨⟨0, 0, 0⟩, ⟨1, 0, 0⟩, ⟨0, 1, 0⟩, none⟩ : mesh_triangle ℚ Unit))) 2
          ⟨10, 10, 10⟩).bounding_box
      = ⟨⟨fin 0, fin 1⟩, ⟨fin 0, fin 1⟩, ⟨fin 0, fin 0⟩⟩ ∧
     (transform_mesh (hittable_list.new.add (hittable.mesh_triangle
          (⟨⟨0, 0, 0⟩, ⟨1, 0, 0⟩, ⟨0, 1, 0⟩, none⟩ : mesh_triangle ℚ Unit))) 2
          ⟨10, 10, 10⟩).bounding_box
      ≠ hittable_list.hull_of (transform_mesh (hittable_list.new.add (hittable.mesh_triangle
          (⟨⟨0, 0, 0⟩, ⟨1, 0, 0⟩, ⟨0, 1, 0⟩, none⟩ : mesh_triangle ℚ Unit))) 2
          ⟨10, 10, 10⟩).objects) := by
  have hs : (hittable_list.new.add
        (hittable.sphere (sphere.mk_static (⟨0, 0, 0⟩ : vec3 ℚ) 1
          (none : Option Unit)))).clear.bounding_box
      = ⟨⟨fin (-1), fin 1⟩, ⟨fin (-1), fin 1⟩, ⟨fin (-1), fin 1⟩⟩ := by
    simp only [hittable_list.clear, hittable_list.add, hittable_list.new,
      hittable_list.bounding_box, hittable.bounding_box, sphere.bounding_box, sphere.mk_static,
      AABB.ofPoints, AABB.span, vec3.sub, vec3.add, AABB.hull, AABB.empty]
    norm_num [interval.hull_empty_left]
  have hobj : (transform_mesh (hittable_list.new.add (hittable.mesh_triangle
          (⟨⟨0, 0, 0⟩, ⟨1, 0, 0⟩, ⟨0, 1, 0⟩, none⟩ : mesh_triangle ℚ Unit))) 2
          ⟨10, 10, 10⟩).objects
      = [hittable.mesh_triangle ⟨⟨10, 10, 10⟩, ⟨12, 10, 10⟩, ⟨10, 12, 10⟩, none⟩] := by
    simp only [transform_mesh, transform_object, hittable_list.add, hittable_list.new,
      List.nil_append, List.map, vec3.smul, vec3.add]
    norm_num
  have hbox : (hittable.mesh_triangle (⟨⟨10, 10, 10⟩, ⟨12, 10, 10⟩, ⟨10, 12, 10⟩, none⟩ :
          mesh_triangle ℚ Unit)).bounding_box
      = ⟨⟨fin 10, fin 12⟩, ⟨fin 10, fin 12⟩, ⟨fin 10, fin 10⟩⟩ := by
    simp only [hittable.bounding_box, mesh_triangle.bounding_box, AABB.ofPoints, AABB.span]
    norm_num
  have hl : (transform_mesh (hittable_list.new.add (hittable.mesh_triangle
          (⟨⟨0, 0, 0⟩, ⟨1, 0, 0⟩, ⟨0, 1, 0⟩, none⟩ : mesh_triangle ℚ Unit))) 2
          ⟨10, 10, 10⟩).bounding_box
      = ⟨⟨fin 0, fin 1⟩, ⟨fin 0, fin 1⟩, ⟨fin 0, fin 0⟩⟩ := by
    simp only [transform_mesh, hittable_list.add, hittable_list.new,
      hittable_list.bounding_box, hittable.bounding_box, mesh_triangle.bounding_box,
      AABB.ofPoints, AABB.span, AABB.hull, AABB.empty]
    norm_num [interval.hull_empty_left]
  refine ⟨⟨rfl, hs, ?_⟩, hobj, hbox, hl, ?_⟩
  · rw [hs]
    intro h
    have hx := congrArg (fun b : AABB ℚ => b.x.min) h
    exact fin_ne_INF (-1 : ℚ) hx
  · rw [hl, hobj]
    simp only [hittable_list.hull_of, List.foldl_cons, List.foldl_nil, hbox, AABB.hull,
      AABB.empty, interval.hull_empty_left]
    intro h
    have hx := congrArg (fun b : AABB ℚ => b.x.min) h
    have := fin_injective (0 : ℚ) 10 hx
    norm_num at this

end list_bbox

/-! ## The render loops -/

section render

variable {F M : Type} [LinearOrderedField F]

theorem mem_int_range (n k : Int) : k ∈ int_range n ↔ 0 ≤ k ∧ k < n := by
  simp only [int_range, List.mem_map, List.mem_range]
  constructor
  · rintro ⟨a, ha, rfl⟩
    omega
  · rintro ⟨h0, h1⟩
    exact ⟨k.toNat, by omega, by omega⟩

theorem mem_int_range_from (lo hi k : Int) : k ∈ int_range_from lo hi ↔ lo ≤ k ∧ k < hi := by
  simp only [int_range_from, List.mem_map, List.mem_range]
  constructor
  · rintro ⟨a, ha, rfl⟩
    omega
  · rintro ⟨h0, h1⟩
    exact ⟨(k - lo).toNat, by omega, by omega⟩

theorem mem_tile_starts (n x : Int) :
    x ∈ tile_starts n ↔ 0 ≤ x ∧ x < n ∧ x % 32 = 0 := by
  simp only [tile_starts, List.mem_map, List.mem_range]
  constructor
  · rintro ⟨a, ha, rfl⟩
    omega
  · rintro ⟨h0, h1, h2⟩
    exact ⟨(x / 32).toNat, by omega, by omega⟩

/-- A loop whose iterations all return, returns. -/
theorem Outcome.loop_returns {κ σ : Type} (body : κ → σ → Outcome σ) (ks : List κ)
    (h : ∀ k ∈ ks, ∀ s, ∃ s', body k s = .ret s') :
    ∀ s, ∃ s', Outcome.loop body ks s = .ret s' := by
  induction ks with
  | nil => intro s; exact ⟨s, rfl⟩
  | cons k ks ih =>
    intro s
    obtain ⟨s1, h1⟩ := h k (List.mem_cons_self _ _) s
    obtain ⟨s', h2⟩ := ih (fun k' hk' => h k' (List.mem_cons_of_mem _ hk')) s1
    exact ⟨s', by simp only [Outcome.loop, h1, h2]⟩

/-- A loop that returns: its first iteration returned and the rest of the loop returned. -/
theorem Outcome.loop_cons_ret {κ σ : Type} (body : κ → σ → Outcome σ) (k : κ)
    (ks : List κ) (s s' : σ) (h : Outcome.loop body (k :: ks) s = .ret s') :
    ∃ s1, body k s = .ret s1 ∧ Outcome.loop body ks s1 = .ret s' := by
  simp only [Outcome.loop] at h
  cases hb : body k s with
  | ret s1 => rw [hb] at h; exact ⟨s1, rfl, h⟩
  | throws e => rw [hb] at h; simp at h
  | fuel_out => rw [hb] at h; simp at h
  | undefined => rw [hb] at h; simp at h

/-- A loop over a buffer in which every iteration `k` leaves the length alone, stores a good
value at every index of its footprint `foot k`, and at any other index stores a good value
or nothing: after the loop every index in the footprint of some iteration holds a good
value. -/
theorem Outcome.loop_writes {κ σ V : Type} (fbOf : σ → List V) (body : κ → σ → Outcome σ)
    (foot : κ → Nat → Prop) (Good : Nat → V → Prop) (ks : List κ)
    (hbody : ∀ k ∈ ks, ∀ s s', body k s = .ret s' →
      (fbOf s').length = (fbOf s).length ∧
      ∀ n, n < (fbOf s).length →
        (foot k n → ∃ v, (fbOf s')[n]? = some v ∧ Good n v) ∧
        ((∃ v, (fbOf s')[n]? = some v ∧ Good n v) ∨ (fbOf s')[n]? = (fbOf s)[n]?)) :
    ∀ s s', Outcome.loop body ks s = .ret s' →
      (fbOf s').length = (fbOf s).length ∧
      ∀ n, n < (fbOf s).length →
        ((∃ k ∈ ks, foot k n) → ∃ v, (fbOf s')[n]? = some v ∧ Good n v) ∧
        ((∃ v, (fbOf s')[n]? = some v ∧ Good n v) ∨ (fbOf s')[n]? = (fbOf s)[n]?) := by
  induction ks with
  | nil =>
    intro s s' h
    simp only [Outcome.loop, Outcome.ret.injEq] at h
    subst h
    refine ⟨rfl, fun n _ => ⟨?_, Or.inr rfl⟩⟩
    rintro ⟨k, hk, -⟩
    exact absurd hk (List.not_mem_nil k)
  | cons k ks ih =>
    intro s s' h
    obtain ⟨s1, h1, h2⟩ := Outcome.loop_cons_ret body k ks s s' h
    obtain ⟨hlen1, hw1⟩ := hbody k (List.mem_cons_self _ _) s s1 h1
    obtain ⟨hlen2, hw2⟩ := ih (fun k' hk' => hbody k' (List.mem_cons_of_mem _ hk')) s1 s' h2
    refine ⟨hlen2.trans hlen1, fun n hn => ?_⟩
    have hn1 : n < (fbOf s1).length := by rw [hlen1]; exact hn
    obtain ⟨hf1, hk1⟩ := hw1 n hn
    obtain ⟨hf2, hk2⟩ := hw2 n hn1
    have hkeep : (∃ v, (fbOf s1)[n]? = some v ∧ Good n v) →
        ∃ v, (fbOf s')[n]? = some v ∧ Good n v := by
      rintro ⟨v, hv, hg⟩
      rcases hk2 with hgood | heq
      · exact hgood
      · exact ⟨v, by rw [heq, hv], hg⟩
    constructor
    · rintro ⟨k', hk', hfoot⟩
      rcases List.mem_cons.mp hk' with e | hmem
      · subst e
        exact hkeep (hf1 hfoot)
      · exact hf2 ⟨k', hmem, hfoot⟩
    · rcases hk2 with hgood | heq
      · exact Or.inl hgood
      · rcases hk1 with hgood1 | heq1
        · exact Or.inl (hkeep hgood1)
        · exact Or.inr (heq.trans heq1)

/-- The index of a pixel of the image is inside the framebuffer. -/
theorem pixel_index_lt (w h i j : Int) (hi0 : 0 ≤ i) (hi1 : i < w) (hj0 : 0 ≤ j) (hj1 : j < h) :
    (j * w + i).toNat < (w * h).toNat := by
  have h1 : j * w + i < w * h := by
    have : (j + 1) * w ≤ h * w := mul_le_mul_of_nonneg_right (by omega) (by omega)
    nlinarith
  have h0 : 0 ≤ j * w + i := by
    have := mul_nonneg hj0 (show (0 : Int) ≤ w by omega)
    omega
  omega

/-- Two pixels of the image with the same index are the same pixel. -/
theorem pixel_index_inj (w i j i' j' : Int) (hi0 : 0 ≤ i) (hi1 : i < w) (hj0 : 0 ≤ j)
    (hi0' : 0 ≤ i') (hi1' : i' < w) (hj0' : 0 ≤ j')
    (h : (j * w + i).toNat = (j' * w + i').toNat) : i = i' ∧ j = j' := by
  have hw : (0 : Int) ≤ w := by omega
  have h0 : 0 ≤ j * w + i := by have := mul_nonneg hj0 hw; omega
  have h0' : 0 ≤ j' * w + i' := by have := mul_nonneg hj0' hw; omega
  have he : j * w + i = j' * w + i' := by omega
  have hjj : j = j' := by
    rcases lt_trichotomy j j' with hlt | heq | hgt
    · exfalso
      have : (j + 1) * w ≤ j' * w := mul_le_mul_of_nonneg_right (by omega) hw
      nlinarith
    · exact heq
    · exfalso
      have : (j' + 1) * w ≤ j * w := mul_le_mul_of_nonneg_right (by omega) hw
      nlinarith
  subst hjj
  exact ⟨by omega, rfl⟩

theorem Camera.mem_make_tiles (c : Camera F) (t : Tile) :
    t ∈ c.make_tiles ↔ ∃ y ∈ tile_starts c.image_height, ∃ x ∈ tile_starts c.image_width,
      t = ⟨x, y, min (x + 32) c.image_width, min (y + 32) c.image_height⟩ := by
  simp only [Camera.make_tiles, List.mem_flatMap, List.mem_map]
  constructor
  · rintro ⟨y, hy, x, hx, rfl⟩
    exact ⟨y, hy, x, hx, rfl⟩
  · rintro ⟨y, hy, x, hx, rfl⟩
    exact ⟨y, hy, x, hx, rfl⟩

/-- Embeds `initialize` does not throw when `image_width` is not 0. -/
theorem Camera.init_ok [FloorRing F] (m : Libm F) (PI : F) (c0 : Camera F)
    (hw : c0.image_width ≠ 0) : ∃ c, c0.init m PI = .ok c := by
  obtain ⟨w, hwv⟩ := vec3.unit_vector_ok m (c0.lookfrom.sub c0.lookat)
  obtain ⟨u, huv⟩ := vec3.unit_vector_ok m (vec3.cross c0.vup w)
  have h1 : (c0.image_width : F) ≠ 0 := Int.cast_ne_zero.mpr hw
  have h2 : ((if trunc ((c0.image_width : F) / c0.aspect_ratio) < 1 then (1 : Int)
      else trunc ((c0.image_width : F) / c0.aspect_ratio) : Int) : F) ≠ 0 := by
    apply Int.cast_ne_zero.mpr
    split_ifs with h
    · exact one_ne_zero
    · omega
  have h3 : (2 : F) ≠ 0 := two_ne_zero
  unfold Camera.init
  simp only [hwv, huv, vec3.div, if_neg h1, if_neg h2, if_neg h3]
  exact ⟨_, rfl⟩

/-- Without defocus `get_ray` returns. -/
theorem Camera.get_ray_returns (c : Camera F) (fuel : Nat) (i j : Int) (g : XorShift32)
    (hd : c.defocus_angle ≤ 0) : ∃ r g1, c.get_ray fuel i j g = some (r, g1) := by
  unfold Camera.get_ray
  simp only [if_pos hd]
  exact ⟨_, _, rfl⟩

/-- From the generator state 0 every draw of `random_in_unit_disk` is the point `(-1, -1)`,
which the loop rejects: no amount of fuel makes it return. -/
theorem random_in_unit_disk_zero_state :
    ∀ fuel : Nat, (random_in_unit_disk fuel ⟨0⟩ : Option ((F × F) × XorShift32)) = none := by
  intro fuel
  induction fuel with
  | zero => rfl
  | succ n ih =>
    have e0 : (random_real (-1 : F) 1 ⟨0⟩ : F × XorShift32) = (-1, ⟨0⟩) := by
      simp [random_real, XorShift32.next_float, XorShift32.next_u32]
    unfold random_in_unit_disk
    simp only [e0]
    rw [if_neg (by norm_num), ih]

/-- With `defocus_angle > 0`, `get_ray` does not return from the generator state 0. -/
theorem Camera.get_ray_zero_state (c : Camera F) (hd : 0 < c.defocus_angle) (fuel : Nat)
    (i j : Int) : c.get_ray fuel i j ⟨0⟩ = none := by
  have e0 : (Camera.sample_squared ⟨0⟩ : vec3 F × XorShift32).2 = ⟨0⟩ := by
    simp [Camera.sample_squared, random_float, random_real, XorShift32.next_float,
      XorShift32.next_u32]
  unfold Camera.get_ray
  simp only [if_neg (not_le.mpr hd), Camera.defocus_disk_sample, e0,
    random_in_unit_disk_zero_state]

end render

/-! ## `translate::hit` -/

section translate_hit

variable {F M : Type} [LinearOrderedField F]

end translate_hit

/-! ## `rotate_y::hit` -/

section rotate_y_hit

variable {F M : Type} [LinearOrderedField F]

theorem rotate_y_hit_eq (ro : rotate_y F M) (r : ray F) (ray_t : interval F)
    (rc : hit_record F M) :
    ro.hit r ray_t rc =
      match ro.object.hit ⟨rotate_y.to_object ro.sin_theta ro.cos_theta r.orig,
          rotate_y.to_object ro.sin_theta ro.cos_theta r.dir, r.tm⟩ ray_t rc with
      | .error e => .error e
      | .ok (false, rc1) => .ok (false, rc1)
      | .ok (true, rc1) =>
        .ok (true, { rc1 with p := rotate_y.to_world ro.sin_theta ro.cos_theta rc1.p,
                              normal := rotate_y.to_world ro.sin_theta ro.cos_theta rc1.normal })
    := rfl

theorem rotate_y.to_world_to_object (s c : F) (h : s * s + c * c = 1) (v : vec3 F) :
    rotate_y.to_world s c (rotate_y.to_object s c v) = v := by
  simp only [rotate_y.to_world, rotate_y.to_object]
  ext <;> simp only []
  · linear_combination v.x * h
  · linear_combination v.z * h

theorem rotate_y.to_object_to_world (s c : F) (h : s * s + c * c = 1) (v : vec3 F) :
    rotate_y.to_object s c (rotate_y.to_world s c v) = v := by
  simp only [rotate_y.to_world, rotate_y.to_object]
  ext <;> simp only []
  · linear_combination v.x * h
  · linear_combination v.z * h

theorem rotate_y.to_world_at (s c : F) (h : s * s + c * c = 1) (r : ray F) (t : F) :
    rotate_y.to_world s c ((⟨rotate_y.to_object s c r.orig, rotate_y.to_object s c r.dir,
      r.tm⟩ : ray F).«at» t) = r.«at» t := by
  simp only [rotate_y.to_world, rotate_y.to_object, ray.«at», vec3.add, vec3.smul]
  ext <;> simp only []
  · linear_combination (r.orig.x + t * r.dir.x) * h
  · linear_combination (r.orig.z + t * r.dir.z) * h

theorem rotate_y.to_world_length_squared (s c : F) (h : s * s + c * c = 1) (v : vec3 F) :
    (rotate_y.to_world s c v).length_squared = v.length_squared := by
  simp only [rotate_y.to_world, vec3.length_squared]
  linear_combination (v.x * v.x + v.z * v.z) * h

theorem rotate_y.dot_to_world (s c : F) (d n : vec3 F) :
    vec3.dot d (rotate_y.to_world s c n) = vec3.dot (rotate_y.to_object s c d) n := by
  simp only [rotate_y.to_world, rotate_y.to_object, vec3.dot]
  ring

theorem rotate_y.to_object_zero_angle (v : vec3 F) : rotate_y.to_object 0 1 v = v := by
  simp only [rotate_y.to_object]
  ext <;> simp

theorem rotate_y.to_world_zero_angle (v : vec3 F) : rotate_y.to_world 0 1 v = v := by
  simp only [rotate_y.to_world]
  ext <;> simp

/-- The constructor of `rotate_y` stores the sine and the cosine of the angle in radians, and
the object. -/
theorem rotate_y.mk_rotate_y_fields (m : Libm F) (PI : F) (object : object_ops F M)
    (angle : F) (ro : rotate_y F M) (h : rotate_y.mk_rotate_y m PI object angle = some ro) :
    ro.object = object ∧ ro.sin_theta = m.sin (degrees_to_radians PI angle) ∧
      ro.cos_theta = m.cos (degrees_to_radians PI angle) := by
  simp only [rotate_y.mk_rotate_y] at h
  split at h
  · simp only [Option.some.injEq] at h
    subst h
    exact ⟨rfl, rfl, rfl⟩
  · exact absurd h (by simp)

/-- Claim C12: with `sin_theta² + cos_theta² = 1` the rotation that `rotate_y::hit` applies to
the result undoes the one it applies to the ray. The call throws, misses and hits as the
wrapped object does on the rotated ray; on a hit only the point and the normal are rotated
back, so a point `p' = r'.at(t)`, a unit normal `n'` and `dot(r'.direction(), n') <= 0`
reported on the rotated ray `r'` give `rec.p = r.at(t)`, a unit normal and
`dot(r.direction(), rec.normal) <= 0`. With sine 0 and cosine 1, the values for the angle 0,
the result is that of the wrapped object. -/
theorem rotate_y_hit_contract (ro : rotate_y F M)
    (hsc : ro.sin_theta * ro.sin_theta + ro.cos_theta * ro.cos_theta = 1) (r : ray F)
    (ray_t : interval F) (rc : hit_record F M) :
    (∀ v, rotate_y.to_world ro.sin_theta ro.cos_theta
        (rotate_y.to_object ro.sin_theta ro.cos_theta v) = v ∧
      rotate_y.to_object ro.sin_theta ro.cos_theta
        (rotate_y.to_world ro.sin_theta ro.cos_theta v) = v) ∧
    (∀ e, ro.hit r ray_t rc = .error e ↔
      ro.object.hit ⟨rotate_y.to_object ro.sin_theta ro.cos_theta r.orig,
        rotate_y.to_object ro.sin_theta ro.cos_theta r.dir, r.tm⟩ ray_t rc = .error e) ∧
    (∀ rc1, ro.hit r ray_t rc = .ok (false, rc1) ↔
      ro.object.hit ⟨rotate_y.to_object ro.sin_theta ro.cos_theta r.orig,
        rotate_y.to_object ro.sin_theta ro.cos_theta r.dir, r.tm⟩ ray_t rc = .ok (false, rc1)) ∧
    (∀ rc1, ro.object.hit ⟨rotate_y.to_object ro.sin_theta ro.cos_theta r.orig,
        rotate_y.to_object ro.sin_theta ro.cos_theta r.dir, r.tm⟩ ray_t rc = .ok (true, rc1) →
      ∃ out, ro.hit r ray_t rc = .ok (true, out) ∧
        out.p = rotate_y.to_world ro.sin_theta ro.cos_theta rc1.p ∧
        out.normal = rotate_y.to_world ro.sin_theta ro.cos_theta rc1.normal ∧
        out.t = rc1.t ∧ out.u = rc1.u ∧ out.v = rc1.v ∧ out.front_face = rc1.front_face ∧
        out.mat = rc1.mat ∧
        (rc1.p = (⟨rotate_y.to_object ro.sin_theta ro.cos_theta r.orig,
            rotate_y.to_object ro.sin_theta ro.cos_theta r.dir, r.tm⟩ : ray F).«at» rc1.t →
          out.p = r.«at» out.t) ∧
        (rc1.normal.length_squared = 1 → out.normal.length_squared = 1) ∧
        (vec3.dot (rotate_y.to_object ro.sin_theta ro.cos_theta r.dir) rc1.normal ≤ 0 →
          vec3.dot r.dir out.normal ≤ 0)) ∧
    (ro.sin_theta = 0 → ro.cos_theta = 1 → ro.hit r ray_t rc = ro.object.hit r ray_t rc) := by
  refine ⟨fun v => ⟨rotate_y.to_world_to_object _ _ hsc v,
    rotate_y.to_object_to_world _ _ hsc v⟩, ?_, ?_, ?_, ?_⟩
  · intro e
    rw [rotate_y_hit_eq]
    rcases ro.object.hit ⟨rotate_y.to_object ro.sin_theta ro.cos_theta r.orig,
        rotate_y.to_object ro.sin_theta ro.cos_theta r.dir, r.tm⟩ ray_t rc with e1 | ⟨b, rc1⟩
    · simp
    · cases b <;> simp
  · intro rc2
    rw [rotate_y_hit_eq]
    rcases ro.object.hit ⟨rotate_y.to_object ro.sin_theta ro.cos_theta r.orig,
        rotate_y.to_object ro.sin_theta ro.cos_theta r.dir, r.tm⟩ ray_t rc with e1 | ⟨b, rc1⟩
    · simp
    · cases b <;> simp
  · intro rc1 h
    rw [rotate_y_hit_eq, h]
    refine ⟨_, rfl, rfl, rfl, rfl, rfl, rfl, rfl, rfl, ?_, ?_, ?_⟩
    · intro hp
      simp only [hp]
      exact rotate_y.to_world_at _ _ hsc r rc1.t
    · intro hn
      simp only [rotate_y.to_world_length_squared _ _ hsc, hn]
    · intro hd
      simp only [rotate_y.dot_to_world]
      exact hd
  · intro hs hc
    rw [rotate_y_hit_eq, hs, hc]
    simp only [rotate_y.to_object_zero_angle, rotate_y.to_world_zero_angle]
    rcases ro.object.hit r ray_t rc with e1 | ⟨b, rc1⟩
    · rfl
    · cases b <;> rfl

/-- Example for C12: a quarter turn, sine 1 and cosine 0, around an object that reports the
point at `t = 2` of the ray it is given with the normal `(0, 0, 1)`. The ray from `(3, 0, 0)`
towards `-x` is hit at `(1, 0, 0)` with the normal `(1, 0, 0)`. -/
theorem rotate_y_hit_contract_witness :
    ((1 : ℚ) * 1 + 0 * 0 = 1) ∧
    ∃ out, (⟨⟨fun r _ rc => .ok (true, { rc with p := r.«at» 2, t := 2, normal := ⟨0, 0, 1⟩ }),
          AABB.empty⟩, 1, 0, AABB.empty⟩ : rotate_y ℚ Unit).hit
        ⟨⟨3, 0, 0⟩, ⟨-1, 0, 0⟩, 0⟩ ⟨fin (1 / 1000), INF⟩ hit_record.fresh = .ok (true, out) ∧
      out.p = ⟨1, 0, 0⟩ ∧ out.normal = ⟨1, 0, 0⟩ ∧ out.t = 2 :=
  ⟨by norm_num,
   match (rotate_y_hit_contract
        (⟨⟨fun r _ rc => .ok (true, { rc with p := r.«at» 2, t := 2, normal := ⟨0, 0, 1⟩ }),
          AABB.empty⟩, 1, 0, AABB.empty⟩ : rotate_y ℚ Unit) (by norm_num)
        ⟨⟨3, 0, 0⟩, ⟨-1, 0, 0⟩, 0⟩ ⟨fin (1 / 1000), INF⟩ hit_record.fresh).2.2.2.1 _ rfl with
   | ⟨out, h, hp, hn, ht, _⟩ =>
     ⟨out, h, by
        rw [hp]
        simp only [rotate_y.to_world, rotate_y.to_object, ray.«at», vec3.add, vec3.smul]
        norm_num, by
        rw [hn]
        simp only [rotate_y.to_world]
        norm_num, ht⟩⟩

end rotate_y_hit

/-! ## `rotate_y::rotate_y`: the bounding box -/

section rotate_y_bbox

variable {F M : Type} [LinearOrderedField F]

theorem Ext.finite_fin (x : F) : Ext.finite (fin x) = some x := rfl

theorem foldl_min_le {κ : Type} (f : κ → Ext F) (L : List κ) :
    ∀ a0 : Ext F, L.foldl (fun a c => min a (f c)) a0 ≤ a0 ∧
      ∀ c ∈ L, L.foldl (fun a c => min a (f c)) a0 ≤ f c := by
  induction L with
  | nil => intro a0; simp
  | cons d L ih =>
    intro a0
    simp only [List.foldl_cons, List.mem_cons, forall_eq_or_imp]
    obtain ⟨h1, h2⟩ := ih (min a0 (f d))
    exact ⟨h1.trans (min_le_left _ _), h1.trans (min_le_right _ _), h2⟩

theorem foldl_max_ge {κ : Type} (f : κ → Ext F) (L : List κ) :
    ∀ a0 : Ext F, a0 ≤ L.foldl (fun a c => max a (f c)) a0 ∧
      ∀ c ∈ L, f c ≤ L.foldl (fun a c => max a (f c)) a0 := by
  induction L with
  | nil => intro a0; simp
  | cons d L ih =>
    intro a0
    simp only [List.foldl_cons, List.mem_cons, forall_eq_or_imp]
    obtain ⟨h1, h2⟩ := ih (max a0 (f d))
    exact ⟨(le_max_left _ _).trans h1, (le_max_right _ _).trans h1, h2⟩

theorem foldl_min_attained {κ : Type} (f : κ → Ext F) (L : List κ) :
    ∀ a0 : Ext F, L.foldl (fun a c => min a (f c)) a0 = a0 ∨
      ∃ c ∈ L, L.foldl (fun a c => min a (f c)) a0 = f c := by
  induction L with
  | nil => intro a0; simp
  | cons d L ih =>
    intro a0
    simp only [List.foldl_cons, List.mem_cons, exists_eq_or_imp]
    rcases ih (min a0 (f d)) with h | ⟨c, hc, h⟩
    · rcases min_choice a0 (f d) with h1 | h1
      · left; rw [h, h1]
      · right; left; rw [h, h1]
    · right; right; exact ⟨c, hc, h⟩

theorem foldl_max_attained {κ : Type} (f : κ → Ext F) (L : List κ) :
    ∀ a0 : Ext F, L.foldl (fun a c => max a (f c)) a0 = a0 ∨
      ∃ c ∈ L, L.foldl (fun a c => max a (f c)) a0 = f c := by
  induction L with
  | nil => intro a0; simp
  | cons d L ih =>
    intro a0
    simp only [List.foldl_cons, List.mem_cons, exists_eq_or_imp]
    rcases ih (max a0 (f d)) with h | ⟨c, hc, h⟩
    · rcases max_choice a0 (f d) with h1 | h1
      · left; rw [h, h1]
      · right; left; rw [h, h1]
    · right; right; exact ⟨c, hc, h⟩

/-- The loops of the constructor of `rotate_y` fold each of the six coordinates of `min` and
`max` separately over the rotated corners. -/
theorem rotate_y.corner_fold (s c x0 x1 y0 y1 z0 z1 : F) (L : List (Int × Int × Int)) :
    ∀ a : ext3 F × ext3 F,
      L.foldl (rotate_y.corner_step s c x0 x1 y0 y1 z0 z1) a =
        (⟨L.foldl (fun a i => min a
            (fin (rotate_y.to_world s c (rotate_y.corner x0 x1 y0 y1 z0 z1 i)).x)) a.1.x,
          L.foldl (fun a i => min a
            (fin (rotate_y.to_world s c (rotate_y.corner x0 x1 y0 y1 z0 z1 i)).y)) a.1.y,
          L.foldl (fun a i => min a
            (fin (rotate_y.to_world s c (rotate_y.corner x0 x1 y0 y1 z0 z1 i)).z)) a.1.z⟩,
         ⟨L.foldl (fun a i => max a
            (fin (rotate_y.to_world s c (rotate_y.corner x0 x1 y0 y1 z0 z1 i)).x)) a.2.x,
          L.foldl (fun a i => max a
            (fin (rotate_y.to_world s c (rotate_y.corner x0 x1 y0 y1 z0 z1 i)).y)) a.2.y,
          L.foldl (fun a i => max a
            (fin (rotate_y.to_world s c (rotate_y.corner x0 x1 y0 y1 z0 z1 i)).z)) a.2.z⟩) := by
  induction L with
  | nil => intro a; rfl
  | cons d L ih =>
    intro a
    rw [List.foldl_cons, ih]
    rfl

theorem rotate_y.corner_indices_eq : rotate_y.corner_indices =
    [(0, 0, 0), (0, 0, 1), (0, 1, 0), (0, 1, 1), (1, 0, 0), (1, 0, 1), (1, 1, 0), (1, 1, 1)] := by
  decide

theorem rotate_y.map_corner (x0 x1 y0 y1 z0 z1 : F) :
    rotate_y.corner_indices.map (rotate_y.corner x0 x1 y0 y1 z0 z1) =
      rotate_y.box_corners x0 x1 y0 y1 z0 z1 := by
  rw [rotate_y.corner_indices_eq]
  simp [rotate_y.corner, rotate_y.box_corners]

end rotate_y_bbox

section rotate_y_bbox2

variable {F M : Type} [LinearOrderedField F]

/-- The running minimum and maximum of finitely many floats, started at `+INF` and `-INF`:
they bound every value, are attained, and are in order when there is a value. -/
theorem fold_min_max_spec {κ : Type} (f : κ → F) (L : List κ) (c0 : κ) (h0 : c0 ∈ L) :
    AABB.span_ext (L.foldl (fun a c => min a (fin (f c))) INF)
        (L.foldl (fun a c => max a (fin (f c))) NEG_INF) =
      ⟨L.foldl (fun a c => min a (fin (f c))) INF,
        L.foldl (fun a c => max a (fin (f c))) NEG_INF⟩ ∧
    (∀ c ∈ L, L.foldl (fun a c => min a (fin (f c))) INF ≤ fin (f c) ∧
      fin (f c) ≤ L.foldl (fun a c => max a (fin (f c))) NEG_INF) ∧
    (∃ c ∈ L, L.foldl (fun a c => min a (fin (f c))) INF = fin (f c)) ∧
    (∃ c ∈ L, L.foldl (fun a c => max a (fin (f c))) NEG_INF = fin (f c)) := by
  have hmin := foldl_min_le (fun c => fin (f c)) L INF
  have hmax := foldl_max_ge (fun c => fin (f c)) L NEG_INF
  have hb : ∀ c ∈ L, L.foldl (fun a c => min a (fin (f c))) INF ≤ fin (f c) ∧
      fin (f c) ≤ L.foldl (fun a c => max a (fin (f c))) NEG_INF :=
    fun c hc => ⟨hmin.2 c hc, hmax.2 c hc⟩
  refine ⟨?_, hb, ?_, ?_⟩
  · rw [AABB.span_ext, if_pos ((hb c0 h0).1.trans (hb c0 h0).2)]
  · rcases foldl_min_attained (fun c => fin (f c)) L INF with h | h
    · exact absurd (h ▸ hmin.2 c0 h0) (not_INF_le_fin _)
    · exact h
  · rcases foldl_max_attained (fun c => fin (f c)) L NEG_INF with h | h
    · exact absurd (h ▸ hmax.2 c0 h0) (not_fin_le_NEG_INF _)
    · exact h

/-- A linear function of two coordinates is, on a rectangle, at least its value at one of the
corners; the corner is given by its indices as in the constructor of `rotate_y`. -/
theorem corner_bound_lower (a b u0 u1 w0 w1 u w : F) (hu0 : u0 ≤ u) (hu1 : u ≤ u1)
    (hw0 : w0 ≤ w) (hw1 : w ≤ w1) :
    ∃ i k : Int, (i = 0 ∨ i = 1) ∧ (k = 0 ∨ k = 1) ∧
      a * ((i : F) * u1 + (1 - (i : F)) * u0) + b * ((k : F) * w1 + (1 - (k : F)) * w0) ≤
        a * u + b * w := by
  rcases le_total 0 a with ha | ha <;> rcases le_total 0 b with hb | hb
  · refine ⟨0, 0, Or.inl rfl, Or.inl rfl, ?_⟩
    simp only [Int.cast_zero, zero_mul, sub_zero, one_mul, zero_add]
    exact add_le_add (mul_le_mul_of_nonneg_left hu0 ha) (mul_le_mul_of_nonneg_left hw0 hb)
  · refine ⟨0, 1, Or.inl rfl, Or.inr rfl, ?_⟩
    simp only [Int.cast_zero, Int.cast_one, zero_mul, sub_zero, one_mul, zero_add, sub_self,
      add_zero]
    exact add_le_add (mul_le_mul_of_nonneg_left hu0 ha) (mul_le_mul_of_nonpos_left hw1 hb)
  · refine ⟨1, 0, Or.inr rfl, Or.inl rfl, ?_⟩
    simp only [Int.cast_zero, Int.cast_one, zero_mul, sub_zero, one_mul, zero_add, sub_self,
      add_zero]
    exact add_le_add (mul_le_mul_of_nonpos_left hu1 ha) (mul_le_mul_of_nonneg_left hw0 hb)
  · refine ⟨1, 1, Or.inr rfl, Or.inr rfl, ?_⟩
    simp only [Int.cast_one, one_mul, sub_self, zero_mul, add_zero]
    exact add_le_add (mul_le_mul_of_nonpos_left hu1 ha) (mul_le_mul_of_nonpos_left hw1 hb)

theorem corner_bound_upper (a b u0 u1 w0 w1 u w : F) (hu0 : u0 ≤ u) (hu1 : u ≤ u1)
    (hw0 : w0 ≤ w) (hw1 : w ≤ w1) :
    ∃ i k : Int, (i = 0 ∨ i = 1) ∧ (k = 0 ∨ k = 1) ∧
      a * u + b * w ≤
        a * ((i : F) * u1 + (1 - (i : F)) * u0) + b * ((k : F) * w1 + (1 - (k : F)) * w0) := by
  obtain ⟨i, k, hi, hk, h⟩ := corner_bound_lower (-a) (-b) u0 u1 w0 w1 u w hu0 hu1 hw0 hw1
  refine ⟨i, k, hi, hk, ?_⟩
  linarith

theorem rotate_y.mem_corner_indices (i j k : Int) (hi : i = 0 ∨ i = 1) (hj : j = 0 ∨ j = 1)
    (hk : k = 0 ∨ k = 1) : (i, j, k) ∈ rotate_y.corner_indices := by
  rw [rotate_y.corner_indices_eq]
  rcases hi with rfl | rfl <;> rcases hj with rfl | rfl <;> rcases hk with rfl | rfl <;> simp

end rotate_y_bbox2

section rotate_y_bbox3

variable {F M : Type} [LinearOrderedField F]

/-- The constructor of `rotate_y` on an object whose box has finite end points: the box it
stores has, on each axis, the running minimum and maximum of that coordinate over the
rotated corners. -/
theorem rotate_y.mk_rotate_y_finite (m : Libm F) (PI : F) (object : object_ops F M)
    (angle x0 x1 y0 y1 z0 z1 : F)
    (hb : object.bounding_box = ⟨⟨fin x0, fin x1⟩, ⟨fin y0, fin y1⟩, ⟨fin z0, fin z1⟩⟩) :
    ∃ ro, rotate_y.mk_rotate_y m PI object angle = some ro ∧
      ro.sin_theta = m.sin (degrees_to_radians PI angle) ∧
      ro.cos_theta = m.cos (degrees_to_radians PI angle) ∧
      ro.bbox = AABB.ofExt
        (rotate_y.corner_indices.foldl (rotate_y.corner_step ro.sin_theta ro.cos_theta
          x0 x1 y0 y1 z0 z1) (⟨INF, INF, INF⟩, ⟨NEG_INF, NEG_INF, NEG_INF⟩)).1
        (rotate_y.corner_indices.foldl (rotate_y.corner_step ro.sin_theta ro.cos_theta
          x0 x1 y0 y1 z0 z1) (⟨INF, INF, INF⟩, ⟨NEG_INF, NEG_INF, NEG_INF⟩)).2 := by
  simp only [rotate_y.mk_rotate_y, hb, Ext.finite_fin]
  exact ⟨_, rfl, rfl, rfl, rfl⟩

/-- Claim C13: for an object whose box has finite end points `[x0, x1]`, `[y0, y1]`,
`[z0, z1]`, the constructor of `rotate_y` returns, and `bounding_box()` contains the rotated
point `(cos·q.x + sin·q.z, q.y, -sin·q.x + cos·q.z)` of every point `q` of the box of the
object. It is the hull of the eight rotated corners: it contains each of them, and each of
its six end points is the coordinate of one of them. -/
theorem rotate_y_bbox_contract (m : Libm F) (PI : F) (object : object_ops F M)
    (angle x0 x1 y0 y1 z0 z1 : F)
    (hb : object.bounding_box = ⟨⟨fin x0, fin x1⟩, ⟨fin y0, fin y1⟩, ⟨fin z0, fin z1⟩⟩) :
    ∃ ro, rotate_y.mk_rotate_y m PI object angle = some ro ∧
      (∀ q, object.bounding_box.containsPoint q →
        ro.bounding_box.containsPoint (rotate_y.to_world ro.sin_theta ro.cos_theta q)) ∧
      (∀ p ∈ rotate_y.box_corners x0 x1 y0 y1 z0 z1,
        ro.bounding_box.containsPoint (rotate_y.to_world ro.sin_theta ro.cos_theta p)) ∧
      (∃ p ∈ rotate_y.box_corners x0 x1 y0 y1 z0 z1,
        ro.bounding_box.x.min = fin (rotate_y.to_world ro.sin_theta ro.cos_theta p).x) ∧
      (∃ p ∈ rotate_y.box_corners x0 x1 y0 y1 z0 z1,
        ro.bounding_box.x.max = fin (rotate_y.to_world ro.sin_theta ro.cos_theta p).x) ∧
      (∃ p ∈ rotate_y.box_corners x0 x1 y0 y1 z0 z1,
        ro.bounding_box.y.min = fin (rotate_y.to_world ro.sin_theta ro.cos_theta p).y) ∧
      (∃ p ∈ rotate_y.box_corners x0 x1 y0 y1 z0 z1,
        ro.bounding_box.y.max = fin (rotate_y.to_world ro.sin_theta ro.cos_theta p).y) ∧
      (∃ p ∈ rotate_y.box_corners x0 x1 y0 y1 z0 z1,
        ro.bounding_box.z.min = fin (rotate_y.to_world ro.sin_theta ro.cos_theta p).z) ∧
      (∃ p ∈ rotate_y.box_corners x0 x1 y0 y1 z0 z1,
        ro.bounding_box.z.max = fin (rotate_y.to_world ro.sin_theta ro.cos_theta p).z) := by
  obtain ⟨ro, hro, -, -, hbox⟩ := rotate_y.mk_rotate_y_finite m PI object angle x0 x1 y0 y1 z0 z1 hb
  refine ⟨ro, hro, ?_⟩
  generalize ro.sin_theta = s at hbox ⊢
  generalize ro.cos_theta = c at hbox ⊢
  have h0 : ((0 : Int), (0 : Int), (0 : Int)) ∈ rotate_y.corner_indices :=
    rotate_y.mem_corner_indices 0 0 0 (Or.inl rfl) (Or.inl rfl) (Or.inl rfl)
  obtain ⟨sx, bx, ax0, ax1⟩ := fold_min_max_spec
    (fun i => (rotate_y.to_world s c (rotate_y.corner x0 x1 y0 y1 z0 z1 i)).x) _ _ h0
  obtain ⟨sy, by1, ay0, ay1⟩ := fold_min_max_spec
    (fun i => (rotate_y.to_world s c (rotate_y.corner x0 x1 y0 y1 z0 z1 i)).y) _ _ h0
  obtain ⟨sz, bz, az0, az1⟩ := fold_min_max_spec
    (fun i => (rotate_y.to_world s c (rotate_y.corner x0 x1 y0 y1 z0 z1 i)).z) _ _ h0
  have hbx : ro.bounding_box = _ := hbox
  rw [rotate_y.corner_fold] at hbx
  simp only [AABB.ofExt, sx, sy, sz] at hbx
  rw [hbx]
  have hmem : ∀ i, i ∈ rotate_y.corner_indices →
      rotate_y.corner x0 x1 y0 y1 z0 z1 i ∈ rotate_y.box_corners x0 x1 y0 y1 z0 z1 := by
    intro i hi
    rw [← rotate_y.map_corner]
    exact List.mem_map_of_mem _ hi
  refine ⟨?_, ?_, ?_, ?_, ?_, ?_, ?_, ?_⟩
  · intro q hq
    rw [hb] at hq
    obtain ⟨⟨qx0, qx1⟩, ⟨qy0, qy1⟩, ⟨qz0, qz1⟩⟩ := hq
    simp only [fin_le_fin] at qx0 qx1 qy0 qy1 qz0 qz1
    refine ⟨⟨?_, ?_⟩, ⟨?_, ?_⟩, ⟨?_, ?_⟩⟩
    · obtain ⟨i, k, hi, hk, h⟩ := corner_bound_lower c s x0 x1 z0 z1 q.x q.z qx0 qx1 qz0 qz1
      exact (bx _ (rotate_y.mem_corner_indices i 0 k hi (Or.inl rfl) hk)).1.trans
        ((fin_le_fin _ _).mpr h)
    · obtain ⟨i, k, hi, hk, h⟩ := corner_bound_upper c s x0 x1 z0 z1 q.x q.z qx0 qx1 qz0 qz1
      exact le_trans ((fin_le_fin _ _).mpr h)
        (bx _ (rotate_y.mem_corner_indices i 0 k hi (Or.inl rfl) hk)).2
    · refine (by1 _ h0).1.trans ((fin_le_fin _ _).mpr ?_)
      simpa [rotate_y.to_world, rotate_y.corner] using qy0
    · refine le_trans ((fin_le_fin _ _).mpr ?_)
        (by1 _ (rotate_y.mem_corner_indices 0 1 0 (Or.inl rfl) (Or.inr rfl) (Or.inl rfl))).2
      simpa [rotate_y.to_world, rotate_y.corner] using qy1
    · obtain ⟨i, k, hi, hk, h⟩ := corner_bound_lower (-s) c x0 x1 z0 z1 q.x q.z qx0 qx1 qz0 qz1
      exact (bz _ (rotate_y.mem_corner_indices i 0 k hi (Or.inl rfl) hk)).1.trans
        ((fin_le_fin _ _).mpr h)
    · obtain ⟨i, k, hi, hk, h⟩ := corner_bound_upper (-s) c x0 x1 z0 z1 q.x q.z qx0 qx1 qz0 qz1
      exact le_trans ((fin_le_fin _ _).mpr h)
        (bz _ (rotate_y.mem_corner_indices i 0 k hi (Or.inl rfl) hk)).2
  · intro p hp
    rw [← rotate_y.map_corner, List.mem_map] at hp
    obtain ⟨i, hi, rfl⟩ := hp
    exact ⟨bx i hi, by1 i hi, bz i hi⟩
  · obtain ⟨i, hi, h⟩ := ax0
    exact ⟨_, hmem i hi, h⟩
  · obtain ⟨i, hi, h⟩ := ax1
    exact ⟨_, hmem i hi, h⟩
  · obtain ⟨i, hi, h⟩ := ay0
    exact ⟨_, hmem i hi, h⟩
  · obtain ⟨i, hi, h⟩ := ay1
    exact ⟨_, hmem i hi, h⟩
  · obtain ⟨i, hi, h⟩ := az0
    exact ⟨_, hmem i hi, h⟩
  · obtain ⟨i, hi, h⟩ := az1
    exact ⟨_, hmem i hi, h⟩

/-- Example for C13: the box `[0, 2]³` under the angle 0, with the sine and cosine of the
reals. The constructor returns and the box it stores contains the image of `(1, 1, 1)`. -/
theorem rotate_y_bbox_contract_witness :
    ∃ ro, rotate_y.mk_rotate_y
        (⟨Real.sqrt, Real.arccos, fun y x => Complex.arg ⟨x, y⟩, Real.sin, Real.cos, Real.tan⟩ :
          Libm ℝ) (3141593 / 1000000)
        (⟨fun _ _ rc => .ok (false, rc), ⟨⟨fin 0, fin 2⟩, ⟨fin 0, fin 2⟩, ⟨fin 0, fin 2⟩⟩⟩ :
          object_ops ℝ Unit) 0 = some ro ∧
      ro.bounding_box.containsPoint (rotate_y.to_world ro.sin_theta ro.cos_theta ⟨1, 1, 1⟩) :=
  match rotate_y_bbox_contract
      (⟨Real.sqrt, Real.arccos, fun y x => Complex.arg ⟨x, y⟩, Real.sin, Real.cos, Real.tan⟩ :
        Libm ℝ) (3141593 / 1000000)
      (⟨fun _ _ rc => .ok (false, rc), ⟨⟨fin 0, fin 2⟩, ⟨fin 0, fin 2⟩, ⟨fin 0, fin 2⟩⟩⟩ :
        object_ops ℝ Unit) 0 0 2 0 2 0 2 rfl with
  | ⟨ro, h, hq, _⟩ =>
    ⟨ro, h, hq ⟨1, 1, 1⟩
      ⟨⟨(fin_le_fin _ _).mpr (by norm_num), (fin_le_fin _ _).mpr (by norm_num)⟩,
       ⟨(fin_le_fin _ _).mpr (by norm_num), (fin_le_fin _ _).mpr (by norm_num)⟩,
       ⟨(fin_le_fin _ _).mpr (by norm_num), (fin_le_fin _ _).mpr (by norm_num)⟩⟩⟩

end rotate_y_bbox3

/-! ## `refract` -/

section refract_lemmas

variable {F : Type} [LinearOrderedField F]

/-- The inequality of Cauchy and Schwarz for `vec3`. -/
theorem vec3.dot_sq_le (u v : vec3 F) :
    vec3.dot u v * vec3.dot u v ≤ u.length_squared * v.length_squared := by
  have h : u.length_squared * v.length_squared - vec3.dot u v * vec3.dot u v =
      (vec3.cross u v).length_squared := by
    simp only [vec3.length_squared, vec3.dot, vec3.cross]
    ring
  have h2 : 0 ≤ (vec3.cross u v).length_squared := by
    simp only [vec3.length_squared]
    linarith [mul_self_nonneg (vec3.cross u v).x, mul_self_nonneg (vec3.cross u v).y,
      mul_self_nonneg (vec3.cross u v).z]
  linarith

theorem sqrt_mul_self_of_spec (m : Libm F) (hm : m.SqrtSpec) (c : F) (hc : 0 ≤ c) :
    m.sqrt (c * c) = c := by
  obtain ⟨h1, h2⟩ := hm (c * c) (mul_self_nonneg c)
  exact (mul_self_inj h1 hc).mp h2

theorem vec3.length_squared_of_length (m : Libm F) (hm : m.SqrtSpec) (v : vec3 F)
    (h : v.length m = 1) : v.length_squared = 1 := by
  have h0 : 0 ≤ v.length_squared := by
    simp only [vec3.length_squared]
    linarith [mul_self_nonneg v.x, mul_self_nonneg v.y, mul_self_nonneg v.z]
  obtain ⟨-, h2⟩ := hm _ h0
  rw [vec3.length] at h
  rw [h] at h2
  linarith

/-- Claim C14: with `std::sqrt` the square root, `refract(uv, n, 1)` is `uv` for every unit
vector `uv` and unit normal `n` with `dot(uv, n) <= 0`. -/
theorem refract_identity (m : Libm F) (hm : m.SqrtSpec) (uv n : vec3 F)
    (huv : uv.length m = 1) (hn : n.length m = 1) (hd : vec3.dot uv n ≤ 0) :
    refract m uv n 1 = uv := by
  have huv2 := vec3.length_squared_of_length m hm uv huv
  have hn2 := vec3.length_squared_of_length m hm n hn
  have hcs := vec3.dot_sq_le uv n
  rw [huv2, hn2] at hcs
  have hneg : vec3.dot uv.neg n = -vec3.dot uv n := by
    simp only [vec3.dot, vec3.neg]
    ring
  have hc0 : 0 ≤ -vec3.dot uv n := by linarith
  have hc1 : -vec3.dot uv n ≤ 1 := by nlinarith
  have hperp : (vec3.smul 1 (uv.add (vec3.smul (-vec3.dot uv n) n))).length_squared =
      1 - (-vec3.dot uv n) * (-vec3.dot uv n) := by
    simp only [vec3.length_squared, vec3.dot, vec3.smul, vec3.add] at huv2 hn2 ⊢
    linear_combination huv2 + (uv.x * n.x + uv.y * n.y + uv.z * n.z) ^ 2 * hn2
  simp only [refract, hneg, min_eq_left hc1, hperp]
  rw [sub_sub_cancel, abs_of_nonneg (mul_self_nonneg _), sqrt_mul_self_of_spec m hm _ hc0]
  simp only [vec3.smul, vec3.add]
  ext <;> simp only [] <;> ring

/-- Example for C14: the ray direction `(0, 0, -1)` meeting the normal `(0, 0, 1)` head on,
with the square root of the reals, is not bent at ratio 1. -/
theorem refract_identity_witness :
    (⟨Real.sqrt, Real.arccos, fun y x => Complex.arg ⟨x, y⟩, Real.sin, Real.cos, Real.tan⟩ :
      Libm ℝ).SqrtSpec ∧
    vec3.dot (⟨0, 0, -1⟩ : vec3 ℝ) ⟨0, 0, 1⟩ ≤ 0 ∧
    refract (⟨Real.sqrt, Real.arccos, fun y x => Complex.arg ⟨x, y⟩, Real.sin, Real.cos,
      Real.tan⟩ : Libm ℝ) ⟨0, 0, -1⟩ ⟨0, 0, 1⟩ 1 = ⟨0, 0, -1⟩ :=
  ⟨real_sqrt_spec _ _ _ _ _, by simp [vec3.dot],
   refract_identity _ (real_sqrt_spec _ _ _ _ _) ⟨0, 0, -1⟩ ⟨0, 0, 1⟩
     (by simp [vec3.length, vec3.length_squared])
     (by simp [vec3.length, vec3.length_squared]) (by simp [vec3.dot])⟩

end refract_lemmas

/-! ## `VecN`: scalar division and `unit_vector` -/

section vecN

variable {F : Type} [LinearOrderedField F] {N : Nat}

/-- The loop of `length_squared` computes the sum of the squares of the components. -/
theorem VecN.length_squared_eq_sum (v : VecN F N) :
    v.length_squared = ∑ i, v.e i * v.e i := by
  rw [VecN.length_squared, Fin.sum_univ_def, List.sum_eq_foldl, List.foldl_map]

theorem VecN.length_squared_nonneg (v : VecN F N) : 0 ≤ v.length_squared := by
  rw [VecN.length_squared_eq_sum]
  exact Finset.sum_nonneg (fun i _ => mul_self_nonneg _)

theorem VecN.length_squared_eq_zero_iff (v : VecN F N) :
    v.length_squared = 0 ↔ v = VecN.zero := by
  rw [VecN.length_squared_eq_sum,
    Finset.sum_eq_zero_iff_of_nonneg (fun i _ => mul_self_nonneg _)]
  constructor
  · intro h
    ext i
    exact mul_self_eq_zero.mp (h i (Finset.mem_univ i))
  · intro h i _
    rw [h]
    simp [VecN.zero]

theorem VecN.length_squared_div_scalar (v : VecN F N) (t : F) :
    (⟨fun i => v.e i / t⟩ : VecN F N).length_squared = v.length_squared / (t * t) := by
  simp only [VecN.length_squared_eq_sum]
  rw [Finset.sum_div]
  refine Finset.sum_congr rfl (fun i _ => ?_)
  rw [div_mul_div_comm]

/-- The scalar division of `vec3` is that of `VecN` at `N = 3`. -/
theorem vec3.div_toVecN (v : vec3 F) (t : F) :
    (v.div t).map vec3.toVecN = v.toVecN.div t := by
  simp only [vec3.div, VecN.div]
  split_ifs
  · rfl
  · simp only [Except.map, vec3.toVecN]
    congr 1
    ext i
    fin_cases i <;> rfl

theorem vec3.length_squared_toVecN (v : vec3 F) :
    v.toVecN.length_squared = v.length_squared := by
  rw [VecN.length_squared_eq_sum, Fin.sum_univ_three]
  simp [vec3.toVecN, vec3.length_squared]

/-- The function `unit_vector` of `vec3` is that of `VecN` at `N = 3`. -/
theorem vec3.unit_vector_toVecN (m : Libm F) (v : vec3 F) :
    (vec3.unit_vector m v).map vec3.toVecN = VecN.unit_vector m (by norm_num) v.toVecN := by
  simp only [vec3.unit_vector, VecN.unit_vector, VecN.length, vec3.length,
    vec3.length_squared_toVecN]
  split_ifs
  · simp only [Except.map, vec3.toVecN, VecN.set, VecN.zero]
    congr 1
    ext i
    fin_cases i <;> rfl
  · exact vec3.div_toVecN v _

/-- Claim C15, amended: with arithmetic read over the reals, `v / t` and `v /= t` throw `std::invalid_argument("Division by zero")` exactly
when `t == 0`; when `t != 0` every component of the result is `v[i] / t`, and when `v /= t`
throws `v` is unchanged. -/
theorem vecN_division_contract (v : VecN F N) (t : F) :
    ((∃ e, v.div t = .error e) ↔ t = 0) ∧
    ((∃ e, (v.div_assign t).1 = .error e) ↔ t = 0) ∧
    (t = 0 → v.div t = .error "Division by zero" ∧
      (v.div_assign t).1 = .error "Division by zero" ∧ (v.div_assign t).2 = v) ∧
    (t ≠ 0 → (∃ w, v.div t = .ok w ∧ ∀ i, w.e i = v.e i / t) ∧
      (v.div_assign t).1 = .ok () ∧ ∀ i, (v.div_assign t).2.e i = v.e i / t) := by
  by_cases ht : t = 0
  · simp [VecN.div, VecN.div_assign, ht]
  · simp [VecN.div, VecN.div_assign, VecN.mul_assign, ht, div_eq_mul_inv]

/-- Example for C15: `(2, 4, 6) / 2` is `(1, 2, 3)` and `(2, 4, 6) / 0` throws. -/
theorem vecN_division_contract_witness :
    (∃ w, (⟨![2, 4, 6]⟩ : VecN ℚ 3).div 2 = .ok w ∧ w.e 0 = 1 ∧ w.e 1 = 2 ∧ w.e 2 = 3) ∧
    (⟨![2, 4, 6]⟩ : VecN ℚ 3).div 0 = .error "Division by zero" ∧
    ((⟨![2, 4, 6]⟩ : VecN ℚ 3).div_assign 0).2 = ⟨![2, 4, 6]⟩ :=
  ⟨match ((vecN_division_contract (⟨![2, 4, 6]⟩ : VecN ℚ 3) 2).2.2.2 (by norm_num)).1 with
   | ⟨w, h, hw⟩ => ⟨w, h, by rw [hw]; norm_num, by rw [hw]; norm_num, by rw [hw]; norm_num⟩,
   ((vecN_division_contract (⟨![2, 4, 6]⟩ : VecN ℚ 3) 0).2.2.1 rfl).1,
   ((vecN_division_contract (⟨![2, 4, 6]⟩ : VecN ℚ 3) 0).2.2.1 rfl).2.2⟩

/-- Claim C16, amended: `unit_vector` never throws. With arithmetic read over the reals and
`std::sqrt` the square root, the zero vector
gives the first basis vector `(1, 0, ..., 0)`, and a vector `v` that is not zero gives
`v / |v|`, which has length 1 and is `v` times the positive number `1 / |v|`. -/
theorem unit_vector_contract (m : Libm F) (hN : 0 < N) (v : VecN F N) :
    (∃ w, VecN.unit_vector m hN v = .ok w) ∧
    (m.SqrtSpec →
      (v = VecN.zero → ∃ w, VecN.unit_vector m hN v = .ok w ∧
        ∀ i : Fin N, w.e i = if i.val = 0 then 1 else 0) ∧
      (v ≠ VecN.zero → ∃ w, VecN.unit_vector m hN v = .ok w ∧ 0 < v.length m ∧
        v.div (v.length m) = .ok w ∧ (∀ i, w.e i = v.e i / v.length m) ∧
        w.length m = 1 ∧ ∀ i, w.e i = (1 / v.length m) * v.e i)) := by
  constructor
  · rw [VecN.unit_vector]
    simp only [VecN.div]
    split_ifs <;> exact ⟨_, rfl⟩
  intro hm
  constructor
  · intro h
    have hl : v.length m = 0 := by
      rw [VecN.length, (VecN.length_squared_eq_zero_iff v).mpr h]
      exact sqrt_zero_of_spec m hm
    refine ⟨(VecN.zero : VecN F N).set ⟨0, hN⟩ 1, ?_, ?_⟩
    · rw [VecN.unit_vector]
      simp only [hl, if_true]
    · intro i
      simp [VecN.set, VecN.zero, Fin.ext_iff]
  · intro h
    have hls : 0 < v.length_squared :=
      lt_of_le_of_ne (VecN.length_squared_nonneg v)
        (fun h0 => h ((VecN.length_squared_eq_zero_iff v).mp h0.symm))
    obtain ⟨h1, h2⟩ := hm _ hls.le
    have hl0 : v.length m ≠ 0 := by
      intro h0
      rw [VecN.length] at h0
      rw [h0] at h2
      linarith
    have hl : 0 < v.length m := lt_of_le_of_ne h1 (Ne.symm hl0)
    refine ⟨⟨fun i => v.e i / v.length m⟩, ?_, hl, ?_, fun i => rfl, ?_, ?_⟩
    · rw [VecN.unit_vector]
      simp only [hl0, if_false, VecN.div]
    · simp only [VecN.div, hl0, if_false]
    · rw [VecN.length, VecN.length_squared_div_scalar]
      have : v.length_squared / (v.length m * v.length m) = 1 := by
        rw [VecN.length, h2]
        exact div_self hls.ne.symm
      rw [this]
      exact sqrt_one m hm
    · intro i
      simp only []
      rw [div_eq_mul_inv, one_div, mul_comm]

/-- Example for C16: with the square root of the reals, `unit_vector` of the zero vector of
dimension 3 is `(1, 0, 0)`. -/
theorem unit_vector_contract_witness :
    ∃ w, VecN.unit_vector (⟨Real.sqrt, Real.arccos, fun y x => Complex.arg ⟨x, y⟩, Real.sin,
        Real.cos, Real.tan⟩ : Libm ℝ) (by norm_num) (VecN.zero : VecN ℝ 3) = .ok w ∧
      w.e 0 = 1 ∧ w.e 1 = 0 ∧ w.e 2 = 0 :=
  match ((unit_vector_contract (⟨Real.sqrt, Real.arccos, fun y x => Complex.arg ⟨x, y⟩,
      Real.sin, Real.cos, Real.tan⟩ : Libm ℝ) (by norm_num) (VecN.zero : VecN ℝ 3)).2
      (real_sqrt_spec _ _ _ _ _)).1 rfl with
  | ⟨w, h, hw⟩ => ⟨w, h, by rw [hw]; simp, by rw [hw]; simp, by rw [hw]; simp⟩

end vecN

/-! ## `write_color` and `save_framebuffer` -/

section save_file

variable {F : Type} [LinearOrderedField F] [FloorRing F]

theorem intensity_clamp (x : F) :
    (intensity : interval F).clamp x = fin (max 0 (min (999 / 1000) x)) := by
  simp only [interval.clamp, intensity, fin_lt_fin, gt_iff_lt]
  by_cases h0 : x < 0
  · rw [if_pos h0, min_eq_right (by linarith), max_eq_left h0.le]
  · rw [if_neg h0]
    by_cases h1 : 999 / 1000 < x
    · rw [if_pos h1, min_eq_left h1.le, max_eq_right (by norm_num)]
    · rw [if_neg h1, min_eq_right (not_lt.mp h1), max_eq_right (not_lt.mp h0)]

theorem cast_int_256_fin (v : F) : cast_int_256 (fin v) = some (trunc (256 * v)) := rfl

/-- Both `write_color` and the loop of `save_framebuffer` compute the byte of a channel as
`static_cast<int>(256 * intensity.clamp(linear_to_gamma(x)))`, which is `gamma_byte`. -/
theorem cast_clamp_gamma (m : Libm F) (x : F) :
    cast_int_256 ((intensity : interval F).clamp (linear_to_gamma m x)) =
      some (gamma_byte m x) := by
  rw [intensity_clamp, cast_int_256_fin, trunc, if_pos, gamma_byte, linear_to_gamma]
  exact mul_nonneg (by norm_num) (le_max_left _ _)

theorem gamma_byte_range (m : Libm F) (x : F) : 0 ≤ gamma_byte m x ∧ gamma_byte m x ≤ 255 := by
  rw [gamma_byte]
  constructor
  · exact Int.floor_nonneg.mpr (mul_nonneg (by norm_num) (le_max_left _ _))
  · have h : max (0 : F) (min (999 / 1000) (if x > 0 then m.sqrt x else 0)) ≤ 999 / 1000 :=
      max_le (by norm_num) (min_le_left _ _)
    have h2 : ⌊256 * max (0 : F) (min (999 / 1000) (if x > 0 then m.sqrt x else 0))⌋ < 256 := by
      rw [Int.floor_lt]
      push_cast
      linarith
    omega

theorem sqrt_mono_of_spec (m : Libm F) (hm : m.SqrtSpec) (x y : F) (hx : 0 ≤ x) (hxy : x ≤ y) :
    m.sqrt x ≤ m.sqrt y := by
  obtain ⟨hx0, hx1⟩ := hm x hx
  obtain ⟨hy0, hy1⟩ := hm y (hx.trans hxy)
  by_contra h
  push_neg at h
  have : m.sqrt y * m.sqrt y < m.sqrt x * m.sqrt x := mul_self_lt_mul_self hy0 h
  linarith

theorem gamma_byte_mono (m : Libm F) (hm : m.SqrtSpec) (x y : F) (hxy : x ≤ y) :
    gamma_byte m x ≤ gamma_byte m y := by
  rw [gamma_byte, gamma_byte]
  apply Int.floor_mono
  apply mul_le_mul_of_nonneg_left _ (by norm_num)
  apply max_le_max le_rfl
  apply min_le_min le_rfl
  by_cases hx : x > 0
  · rw [if_pos hx, if_pos (lt_of_lt_of_le hx hxy)]
    exact sqrt_mono_of_spec m hm x y hx.le hxy
  · rw [if_neg hx]
    split_ifs with hy
    · exact (hm y hy.le).1
    · exact le_rfl

theorem to_uchar_gamma_byte (m : Libm F) (x : F) :
    to_uchar (gamma_byte m x) = (gamma_byte m x).toNat := by
  obtain ⟨h0, h1⟩ := gamma_byte_range m x
  rw [to_uchar]
  congr 1
  omega

theorem write_color_eq (m : Libm F) (c : vec3 F) :
    write_color m c = some (gamma_byte m c.x, gamma_byte m c.y, gamma_byte m c.z) := by
  simp only [write_color, cast_clamp_gamma]

theorem byte_body_eq (m : Libm F) (framebuffer : List (vec3 F)) (width j i : Int)
    (buf : List Nat) (c : vec3 F) (hc : framebuffer[(j * width + i).toNat]? = some c) :
    byte_body m framebuffer width j i buf =
      .ret (((buf.set ((j * width + i) * 3 + 0).toNat (gamma_byte m c.x).toNat).set
        ((j * width + i) * 3 + 1).toNat (gamma_byte m c.y).toNat).set
        ((j * width + i) * 3 + 2).toNat (gamma_byte m c.z).toNat) := by
  simp only [byte_body, hc, cast_clamp_gamma, to_uchar_gamma_byte]

end save_file

section save_file_buffer

variable {F : Type} [LinearOrderedField F] [FloorRing F]

theorem getElem?_set3 (buf : List Nat) (a x y z n : Nat) :
    (((buf.set a x).set (a + 1) y).set (a + 2) z).length = buf.length ∧
    (n < buf.length →
      (((buf.set a x).set (a + 1) y).set (a + 2) z)[n]? =
        if n = a + 2 then some z else if n = a + 1 then some y else if n = a then some x
        else buf[n]?) := by
  refine ⟨by simp, fun hn => ?_⟩
  simp only [List.getElem?_set, List.length_set]
  by_cases h2 : n = a + 2
  · subst h2
    simp [hn]
  · by_cases h1 : n = a + 1
    · subst h1
      simp [hn]
    · by_cases h0 : n = a
      · subst h0
        simp [hn]
      · have e2 : ¬ (a + 2 = n) := fun h => h2 h.symm
        have e1 : ¬ (a + 1 = n) := fun h => h1 h.symm
        have e0 : ¬ (a = n) := fun h => h0 h.symm
        simp [h2, h1, h0, e2, e1, e0]

theorem byte_body_writes (m : Libm F) (framebuffer : List (vec3 F)) (width height j i : Int)
    (hi : 0 ≤ i ∧ i < width) (hj : 0 ≤ j ∧ j < height) (buf buf' : List Nat)
    (h : byte_body m framebuffer width j i buf = .ret buf') :
    buf'.length = buf.length ∧
    ∀ n, n < buf.length →
      ((n = 3 * (j * width + i).toNat ∨ n = 3 * (j * width + i).toNat + 1 ∨
          n = 3 * (j * width + i).toNat + 2) →
        ∃ v, buf'[n]? = some v ∧ byte_good m framebuffer width height n v) ∧
      ((∃ v, buf'[n]? = some v ∧ byte_good m framebuffer width height n v) ∨
        buf'[n]? = buf[n]?) := by
  cases hc : framebuffer[(j * width + i).toNat]? with
  | none => simp [byte_body, hc] at h
  | some c =>
    rw [byte_body_eq m framebuffer width j i buf c hc] at h
    have hq : 0 ≤ j * width + i := by
      have := mul_nonneg hj.1 (show (0 : Int) ≤ width by omega)
      omega
    have e0 : ((j * width + i) * 3 + 0).toNat = 3 * (j * width + i).toNat := by omega
    have e1 : ((j * width + i) * 3 + 1).toNat = 3 * (j * width + i).toNat + 1 := by omega
    have e2 : ((j * width + i) * 3 + 2).toNat = 3 * (j * width + i).toNat + 2 := by omega
    rw [e0, e1, e2] at h
    injection h with h
    subst h
    refine ⟨(getElem?_set3 buf (3 * (j * width + i).toNat)
      (gamma_byte m c.x).toNat (gamma_byte m c.y).toNat (gamma_byte m c.z).toNat 0).1, ?_⟩
    intro n hn
    have hg := (getElem?_set3 buf (3 * (j * width + i).toNat)
      (gamma_byte m c.x).toNat (gamma_byte m c.y).toNat (gamma_byte m c.z).toNat n).2 hn
    have good : ∀ v, ((n = 3 * (j * width + i).toNat ∧ v = (gamma_byte m c.x).toNat) ∨
        (n = 3 * (j * width + i).toNat + 1 ∧ v = (gamma_byte m c.y).toNat) ∨
        (n = 3 * (j * width + i).toNat + 2 ∧ v = (gamma_byte m c.z).toNat)) →
        byte_good m framebuffer width height n v :=
      fun v hv => ⟨i, j, hi.1, hi.2, hj.1, hj.2, c, hc, hv⟩
    by_cases h2 : n = 3 * (j * width + i).toNat + 2
    · rw [if_pos h2] at hg
      exact ⟨fun _ => ⟨_, hg, good _ (Or.inr (Or.inr ⟨h2, rfl⟩))⟩,
        Or.inl ⟨_, hg, good _ (Or.inr (Or.inr ⟨h2, rfl⟩))⟩⟩
    · rw [if_neg h2] at hg
      by_cases h1 : n = 3 * (j * width + i).toNat + 1
      · rw [if_pos h1] at hg
        exact ⟨fun _ => ⟨_, hg, good _ (Or.inr (Or.inl ⟨h1, rfl⟩))⟩,
          Or.inl ⟨_, hg, good _ (Or.inr (Or.inl ⟨h1, rfl⟩))⟩⟩
      · rw [if_neg h1] at hg
        by_cases h0 : n = 3 * (j * width + i).toNat
        · rw [if_pos h0] at hg
          exact ⟨fun _ => ⟨_, hg, good _ (Or.inl ⟨h0, rfl⟩)⟩,
            Or.inl ⟨_, hg, good _ (Or.inl ⟨h0, rfl⟩)⟩⟩
        · rw [if_neg h0] at hg
          refine ⟨fun hf => ?_, Or.inr hg⟩
          rcases hf with hf | hf | hf
          · exact absurd hf h0
          · exact absurd hf h1
          · exact absurd hf h2

end save_file_buffer

section save_file_loops

variable {F : Type} [LinearOrderedField F] [FloorRing F]

/-- The two loops of `save_framebuffer` over the framebuffer of a `width × height` image
return, and afterwards the three bytes of every pixel are the encodings of its channels. -/
theorem byte_loops_ok (m : Libm F) (framebuffer : List (vec3 F)) (width height : Int)
    (hfb : framebuffer.length = (width * height).toNat) :
    ∃ buf, Outcome.loop
        (fun j buf => Outcome.loop (byte_body m framebuffer width j) (int_range width) buf)
        (int_range height) (List.replicate (width * height * 3).toNat 0) = .ret buf ∧
      buf.length = (width * height * 3).toNat ∧
      ∀ i j : Int, 0 ≤ i → i < width → 0 ≤ j → j < height →
        ∃ c, framebuffer[(j * width + i).toNat]? = some c ∧
          buf[((j * width + i) * 3 + 0).toNat]? = some (gamma_byte m c.x).toNat ∧
          buf[((j * width + i) * 3 + 1).toNat]? = some (gamma_byte m c.y).toNat ∧
          buf[((j * width + i) * 3 + 2).toNat]? = some (gamma_byte m c.z).toNat := by
  have hret : ∀ j ∈ int_range height, ∀ s : List Nat, ∃ s',
      Outcome.loop (byte_body m framebuffer width j) (int_range width) s = .ret s' := by
    intro j hj s
    refine Outcome.loop_returns _ _ ?_ s
    intro i hi t
    rw [mem_int_range] at hi hj
    have hlt := pixel_index_lt width height i j hi.1 hi.2 hj.1 hj.2
    rw [← hfb] at hlt
    obtain ⟨c, hc⟩ : ∃ c, framebuffer[(j * width + i).toNat]? = some c :=
      ⟨_, List.getElem?_eq_getElem hlt⟩
    exact ⟨_, byte_body_eq m framebuffer width j i t c hc⟩
  obtain ⟨buf, hbuf⟩ := Outcome.loop_returns _ _ hret
    (List.replicate (width * height * 3).toNat 0)
  have hrow : ∀ j ∈ int_range height, ∀ s s' : List Nat,
      Outcome.loop (byte_body m framebuffer width j) (int_range width) s = .ret s' →
      s'.length = s.length ∧
      ∀ n, n < s.length →
        ((∃ i ∈ int_range width, n = 3 * (j * width + i).toNat ∨
            n = 3 * (j * width + i).toNat + 1 ∨ n = 3 * (j * width + i).toNat + 2) →
          ∃ v, s'[n]? = some v ∧ byte_good m framebuffer width height n v) ∧
        ((∃ v, s'[n]? = some v ∧ byte_good m framebuffer width height n v) ∨
          s'[n]? = s[n]?) := by
    intro j hj
    rw [mem_int_range] at hj
    refine Outcome.loop_writes (fun s : List Nat => s) (byte_body m framebuffer width j)
      (fun i n => n = 3 * (j * width + i).toNat ∨ n = 3 * (j * width + i).toNat + 1 ∨
        n = 3 * (j * width + i).toNat + 2)
      (byte_good m framebuffer width height) (int_range width) ?_
    intro i hi t t' ht
    rw [mem_int_range] at hi
    exact byte_body_writes m framebuffer width height j i hi hj t t' ht
  obtain ⟨hlen, hw⟩ := Outcome.loop_writes (fun s : List Nat => s)
    (fun j buf => Outcome.loop (byte_body m framebuffer width j) (int_range width) buf)
    (fun j n => ∃ i ∈ int_range width, n = 3 * (j * width + i).toNat ∨
      n = 3 * (j * width + i).toNat + 1 ∨ n = 3 * (j * width + i).toNat + 2)
    (byte_good m framebuffer width height) (int_range height) hrow _ _ hbuf
  rw [List.length_replicate] at hlen hw
  refine ⟨buf, hbuf, hlen, ?_⟩
  intro i j hi0 hi1 hj0 hj1
  have hlt := pixel_index_lt width height i j hi0 hi1 hj0 hj1
  have hq : 0 ≤ j * width + i := by
    have := mul_nonneg hj0 (show (0 : Int) ≤ width by omega)
    omega
  have hwh : 0 ≤ width * height := mul_nonneg (by omega) (by omega)
  obtain ⟨c, hc⟩ : ∃ c, framebuffer[(j * width + i).toNat]? = some c :=
    ⟨_, List.getElem?_eq_getElem (hfb ▸ hlt)⟩
  have key : ∀ k : Nat, k < 3 → ∀ v, buf[3 * (j * width + i).toNat + k]? = some v →
      byte_good m framebuffer width height (3 * (j * width + i).toNat + k) v →
      (k = 0 → v = (gamma_byte m c.x).toNat) ∧ (k = 1 → v = (gamma_byte m c.y).toNat) ∧
        (k = 2 → v = (gamma_byte m c.z).toNat) := by
    intro k hk v _ hg
    obtain ⟨i', j', hi0', hi1', hj0', hj1', c', hc', hv⟩ := hg
    have hpix : (j * width + i).toNat = (j' * width + i').toNat := by
      rcases hv with ⟨h, -⟩ | ⟨h, -⟩ | ⟨h, -⟩ <;> omega
    obtain ⟨rfl, rfl⟩ := pixel_index_inj width i j i' j' hi0 hi1 hj0 hi0' hi1' hj0' hpix
    rw [hc] at hc'
    injection hc' with hc'
    subst hc'
    refine ⟨?_, ?_, ?_⟩
    · intro hk0
      rcases hv with ⟨h, hv⟩ | ⟨h, hv⟩ | ⟨h, hv⟩
      · exact hv
      · omega
      · omega
    · intro hk1
      rcases hv with ⟨h, hv⟩ | ⟨h, hv⟩ | ⟨h, hv⟩
      · omega
      · exact hv
      · omega
    · intro hk2
      rcases hv with ⟨h, hv⟩ | ⟨h, hv⟩ | ⟨h, hv⟩
      · omega
      · omega
      · exact hv
  have hmem : ∀ k : Nat, k < 3 → ∃ v, buf[3 * (j * width + i).toNat + k]? = some v ∧
      byte_good m framebuffer width height (3 * (j * width + i).toNat + k) v := by
    intro k hk
    refine (hw (3 * (j * width + i).toNat + k) (by omega)).1
      ⟨j, (mem_int_range _ _).mpr ⟨hj0, hj1⟩, i, (mem_int_range _ _).mpr ⟨hi0, hi1⟩, ?_⟩
    omega
  have e0 : ((j * width + i) * 3 + 0).toNat = 3 * (j * width + i).toNat + 0 := by omega
  have e1 : ((j * width + i) * 3 + 1).toNat = 3 * (j * width + i).toNat + 1 := by omega
  have e2 : ((j * width + i) * 3 + 2).toNat = 3 * (j * width + i).toNat + 2 := by omega
  rw [e0, e1, e2]
  refine ⟨c, hc, ?_, ?_, ?_⟩
  · obtain ⟨v, hv, hg⟩ := hmem 0 (by norm_num)
    rw [hv, (key 0 (by norm_num) v hv hg).1 rfl]
  · obtain ⟨v, hv, hg⟩ := hmem 1 (by norm_num)
    rw [hv, (key 1 (by norm_num) v hv hg).2.1 rfl]
  · obtain ⟨v, hv, hg⟩ := hmem 2 (by norm_num)
    rw [hv, (key 2 (by norm_num) v hv hg).2.2 rfl]

end save_file_loops

section save_file_format

variable {F : Type} [LinearOrderedField F] [FloorRing F]

theorem toLower_eq_dot (c : Char) : c.toLower = '.' ↔ c = '.' := by
  constructor
  · intro h
    unfold Char.toLower at h
    simp only [] at h
    split_ifs at h with hc
    · exfalso
      generalize c.toNat = n at hc h
      obtain ⟨h1, h2⟩ := hc
      interval_cases n <;> exact absurd h (by decide)
    · exact h
  · rintro rfl
    rfl

theorem extract_loop_no_dot (lower : List Char) (h : ∀ c ∈ lower, c ≠ '.') :
    ∀ n, extract_loop lower n = [] := by
  intro n
  induction n with
  | zero => rfl
  | succ i ih =>
    rw [extract_loop, if_neg, ih]
    intro hi
    exact h _ (List.mem_iff_getElem?.mpr ⟨i, hi⟩) rfl

theorem extract_loop_last_dot (pre ext : List Char) (h : '.' ∉ ext) :
    ∀ n, pre.length + 1 ≤ n → n ≤ (pre ++ '.' :: ext).length →
      extract_loop (pre ++ '.' :: ext) n = if pre = [] then [] else ext := by
  intro n
  induction n with
  | zero => intro h1; omega
  | succ i ih =>
    intro h1 h2
    rw [extract_loop]
    by_cases hi : i = pre.length
    · subst hi
      rw [if_pos (by rw [List.getElem?_append_right le_rfl]; simp)]
      by_cases hp : pre = []
      · subst hp
        simp
      · have : pre.length ≠ 0 := fun h0 => hp (List.length_eq_zero.mp h0)
        rw [if_neg this, if_neg hp]
        simp
    · rw [if_neg, ih (by omega) (by omega)]
      intro hd
      rw [List.getElem?_append_right (by omega)] at hd
      obtain ⟨k, hk⟩ : ∃ k, i - pre.length = k + 1 := ⟨i - pre.length - 1, by omega⟩
      rw [hk, List.getElem?_cons_succ] at hd
      exact h (List.mem_iff_getElem?.mpr ⟨k, hd⟩)

/-- The format of a file name without a dot is empty. -/
theorem extract_file_format_no_dot (filename : String) (h : ∀ c ∈ filename.data, c ≠ '.') :
    extract_file_format filename = "" := by
  simp only [extract_file_format]
  rw [extract_loop_no_dot]
  intro c hc
  rw [List.mem_map] at hc
  obtain ⟨d, hd, rfl⟩ := hc
  exact fun hdot => h d hd ((toLower_eq_dot d).mp hdot)

/-- The format of a file name whose last dot is followed by `ext`: the lower-cased `ext`,
and empty if the dot is the first character. -/
theorem extract_file_format_last_dot (filename : String) (pre ext : List Char)
    (hf : filename.data = pre ++ '.' :: ext) (h : '.' ∉ ext) :
    extract_file_format filename = if pre = [] then "" else ⟨ext.map Char.toLower⟩ := by
  simp only [extract_file_format]
  have hl : filename.data.map Char.toLower =
      pre.map Char.toLower ++ '.' :: ext.map Char.toLower := by
    rw [hf, List.map_append, List.map_cons]
    rfl
  rw [hl, extract_loop_last_dot _ _ _ _ (by simp) le_rfl]
  · by_cases hp : pre = []
    · subst hp
      simp
    · have : pre.map Char.toLower ≠ [] := by simpa using hp
      rw [if_neg this, if_neg hp]
  · intro hc
    rw [List.mem_map] at hc
    obtain ⟨d, hd, hdot⟩ := hc
    rw [(toLower_eq_dot d).mp hdot] at hd
    exact h hd

end save_file_format

section save_file_claims

variable {F : Type} [LinearOrderedField F] [FloorRing F]

theorem write_lines_eq (m : Libm F) (framebuffer : List (vec3 F)) :
    write_lines m framebuffer =
      some (framebuffer.map
        (fun c => (gamma_byte m c.x, gamma_byte m c.y, gamma_byte m c.z))) := by
  induction framebuffer with
  | nil => rfl
  | cons c cs ih => simp only [write_lines, write_color_eq, ih, List.map_cons]

/-- The result of `save_framebuffer` on the framebuffer of a `width × height` image, by the
format of the file name. -/
theorem save_framebuffer_eq (m : Libm F) (framebuffer : List (vec3 F)) (width height : Int)
    (filename : String) (hw : 0 ≤ width) (hh : 0 ≤ height)
    (hfb : framebuffer.length = (width * height).toNat) :
    ∃ buf : List Nat,
      (∀ i j : Int, 0 ≤ i → i < width → 0 ≤ j → j < height →
        ∃ c, framebuffer[(j * width + i).toNat]? = some c ∧
          buf[((j * width + i) * 3 + 0).toNat]? = some (gamma_byte m c.x).toNat ∧
          buf[((j * width + i) * 3 + 1).toNat]? = some (gamma_byte m c.y).toNat ∧
          buf[((j * width + i) * 3 + 2).toNat]? = some (gamma_byte m c.z).toNat) ∧
      save_framebuffer m framebuffer width height filename =
        if extract_file_format filename = "ppm" then
          .ret (.ppm width height (framebuffer.map
            (fun c => (gamma_byte m c.x, gamma_byte m c.y, gamma_byte m c.z))))
        else if extract_file_format filename = "png" then .ret (.png width height buf)
        else if extract_file_format filename = "jpg" ∨ extract_file_format filename = "jpeg"
          then .ret (.jpg width height buf)
        else if extract_file_format filename = "bmp" then .ret (.bmp width height buf)
        else if extract_file_format filename = "tga" then .ret (.tga width height buf)
        else .throws ("Unsupported format: " ++ extract_file_format filename) := by
  obtain ⟨buf, hbuf, -, hbytes⟩ := byte_loops_ok m framebuffer width height hfb
  refine ⟨buf, hbytes, ?_⟩
  have hsize : ¬ (width * height * 3 < 0) := by
    have := mul_nonneg hw hh
    omega
  simp only [save_framebuffer, write_lines_eq, hbuf, if_neg hsize]

/-- Claim C17, amended: on the framebuffer of a `width × height` image with `width >= 0`
and `height >= 0`, `save_framebuffer` throws exactly when the format of the file name is not one of `ppm`, `png`, `jpg`, `jpeg`, `bmp`,
`tga`, and otherwise returns. The format is empty for a file name without a dot; for a file
name `pre.ext` with no dot in `ext` it is the lower-cased `ext`, and empty when `pre` is
empty. -/
theorem save_framebuffer_format_contract (m : Libm F) (framebuffer : List (vec3 F))
    (width height : Int) (filename : String) (hw : 0 ≤ width) (hh : 0 ≤ height)
    (hfb : framebuffer.length = (width * height).toNat) :
    ((∃ e, save_framebuffer m framebuffer width height filename = .throws e) ↔
      extract_file_format filename ∉ supported_formats) ∧
    (extract_file_format filename ∈ supported_formats →
      ∃ f, save_framebuffer m framebuffer width height filename = .ret f) ∧
    (extract_file_format filename ∉ supported_formats →
      save_framebuffer m framebuffer width height filename =
        .throws ("Unsupported format: " ++ extract_file_format filename)) ∧
    ((∀ c ∈ filename.data, c ≠ '.') → extract_file_format filename = "") ∧
    (∀ pre ext : List Char, filename.data = pre ++ '.' :: ext → '.' ∉ ext →
      extract_file_format filename = if pre = [] then "" else ⟨ext.map Char.toLower⟩) := by
  obtain ⟨buf, -, hs⟩ := save_framebuffer_eq m framebuffer width height filename hw hh hfb
  have hin : extract_file_format filename ∈ supported_formats →
      ∃ f, save_framebuffer m framebuffer width height filename = .ret f := by
    intro h
    rw [hs]
    simp only [supported_formats, List.mem_cons, List.mem_singleton, List.not_mem_nil,
      or_false] at h
    split_ifs with h1 h2 h3 h4 h5
    · exact ⟨_, rfl⟩
    · exact ⟨_, rfl⟩
    · exact ⟨_, rfl⟩
    · exact ⟨_, rfl⟩
    · exact ⟨_, rfl⟩
    · exfalso
      rcases h with h | h | h | h | h | h
      · exact h1 h
      · exact h2 h
      · exact h3 (Or.inl h)
      · exact h3 (Or.inr h)
      · exact h4 h
      · exact h5 h
  have hout : extract_file_format filename ∉ supported_formats →
      save_framebuffer m framebuffer width height filename =
        .throws ("Unsupported format: " ++ extract_file_format filename) := by
    intro h
    rw [hs]
    simp only [supported_formats, List.mem_cons, List.mem_singleton, List.not_mem_nil,
      or_false, not_or] at h
    obtain ⟨h1, h2, h3, h4, h5, h6⟩ := h
    rw [if_neg h1, if_neg h2, if_neg (not_or.mpr ⟨h3, h4⟩), if_neg h5, if_neg h6]
  refine ⟨⟨?_, fun h => ⟨_, hout h⟩⟩, hin, hout,
    extract_file_format_no_dot filename, extract_file_format_last_dot filename⟩
  rintro ⟨e, he⟩ hmem
  obtain ⟨f, hf⟩ := hin hmem
  rw [hf] at he
  exact Outcome.noConfusion he

/-- Claim C18: `write_color` and the byte path of `save_framebuffer` both encode a linear
channel value `x` as `gamma_byte x`, the floor of `256 * clamp(g, 0, 0.999)` with
`g = sqrt(x)` for `x > 0` and `g = 0` otherwise: the three numbers of every PPM line and the
three bytes of every pixel of the buffer are the encodings of the channels. The encoding is
in `0..255`, and with `std::sqrt` the square root it is non-decreasing in `x`. -/
theorem gamma_encoding_contract (m : Libm F) (framebuffer : List (vec3 F))
    (width height : Int) (filename : String) (hw : 0 ≤ width) (hh : 0 ≤ height)
    (hfb : framebuffer.length = (width * height).toNat) :
    (∀ c : vec3 F,
      write_color m c = some (gamma_byte m c.x, gamma_byte m c.y, gamma_byte m c.z)) ∧
    (∀ lines, save_framebuffer m framebuffer width height filename =
        .ret (.ppm width height lines) →
      lines = framebuffer.map
        (fun c => (gamma_byte m c.x, gamma_byte m c.y, gamma_byte m c.z))) ∧
    (∀ f buf, save_framebuffer m framebuffer width height filename = .ret f →
      f.image_buffer = some buf →
      ∀ i j : Int, 0 ≤ i → i < width → 0 ≤ j → j < height →
        ∃ c, framebuffer[(j * width + i).toNat]? = some c ∧
          buf[((j * width + i) * 3 + 0).toNat]? = some (gamma_byte m c.x).toNat ∧
          buf[((j * width + i) * 3 + 1).toNat]? = some (gamma_byte m c.y).toNat ∧
          buf[((j * width + i) * 3 + 2).toNat]? = some (gamma_byte m c.z).toNat) ∧
    (∀ x : F, 0 ≤ gamma_byte m x ∧ gamma_byte m x ≤ 255) ∧
    (m.SqrtSpec → ∀ x y : F, x ≤ y → gamma_byte m x ≤ gamma_byte m y) := by
  obtain ⟨buf0, hbytes, hs⟩ := save_framebuffer_eq m framebuffer width height filename hw hh hfb
  refine ⟨write_color_eq m, ?_, ?_, gamma_byte_range m, gamma_byte_mono m⟩
  · intro lines h
    rw [hs] at h
    split_ifs at h <;> simp only [Outcome.ret.injEq, image_file.ppm.injEq, true_and,
      reduceCtorEq] at h
    exact h.symm
  · intro f buf h hb
    rw [hs] at h
    have : buf = buf0 := by
      split_ifs at h <;> simp only [Outcome.ret.injEq, reduceCtorEq] at h <;> subst h <;>
        simp only [image_file.image_buffer, Option.some.injEq, reduceCtorEq] at hb
      all_goals exact hb.symm
    subst this
    exact hbytes

end save_file_claims

section save_file_witness

/-- Example for C17: the empty image is written to `out.PNG`, whose format is `png`, and is
refused for `scene.xyz`, with the square root of the reals. -/
theorem save_framebuffer_format_contract_witness :
    extract_file_format "out.PNG" = "png" ∧
    (∃ f, save_framebuffer (⟨Real.sqrt, Real.arccos, fun y x => Complex.arg ⟨x, y⟩, Real.sin,
        Real.cos, Real.tan⟩ : Libm ℝ) [] 0 0 "out.PNG" = .ret f) ∧
    save_framebuffer (⟨Real.sqrt, Real.arccos, fun y x => Complex.arg ⟨x, y⟩, Real.sin,
        Real.cos, Real.tan⟩ : Libm ℝ) [] 0 0 "scene.xyz" =
      .throws ("Unsupported format: " ++ extract_file_format "scene.xyz") :=
  ⟨by decide,
   (save_framebuffer_format_contract (⟨Real.sqrt, Real.arccos, fun y x => Complex.arg ⟨x, y⟩,
      Real.sin, Real.cos, Real.tan⟩ : Libm ℝ) [] 0 0 "out.PNG" le_rfl le_rfl rfl).2.1
      (by decide),
   (save_framebuffer_format_contract (⟨Real.sqrt, Real.arccos, fun y x => Complex.arg ⟨x, y⟩,
      Real.sin, Real.cos, Real.tan⟩ : Libm ℝ) [] 0 0 "scene.xyz" le_rfl le_rfl rfl).2.2.1
      (by decide)⟩

/-- Example for C18: the one-pixel image of colour `(1/4, 0, 4)` written to `a.png`, with the
square root of the reals: the three bytes are the encodings of the channels, the PPM line of
the colour holds the same numbers, and they are at most 255. -/
theorem gamma_encoding_contract_witness :
    write_color (⟨Real.sqrt, Real.arccos, fun y x => Complex.arg ⟨x, y⟩, Real.sin,
        Real.cos, Real.tan⟩ : Libm ℝ) ⟨1 / 4, 0, 4⟩ =
      some (gamma_byte (⟨Real.sqrt, Real.arccos, fun y x => Complex.arg ⟨x, y⟩, Real.sin,
          Real.cos, Real.tan⟩ : Libm ℝ) (1 / 4),
        gamma_byte (⟨Real.sqrt, Real.arccos, fun y x => Complex.arg ⟨x, y⟩, Real.sin,
          Real.cos, Real.tan⟩ : Libm ℝ) 0,
        gamma_byte (⟨Real.sqrt, Real.arccos, fun y x => Complex.arg ⟨x, y⟩, Real.sin,
          Real.cos, Real.tan⟩ : Libm ℝ) 4) ∧
    gamma_byte (⟨Real.sqrt, Real.arccos, fun y x => Complex.arg ⟨x, y⟩, Real.sin,
      Real.cos, Real.tan⟩ : Libm ℝ) (1 / 4) ≤
      gamma_byte (⟨Real.sqrt, Real.arccos, fun y x => Complex.arg ⟨x, y⟩, Real.sin,
        Real.cos, Real.tan⟩ : Libm ℝ) 4 ∧
    gamma_byte (⟨Real.sqrt, Real.arccos, fun y x => Complex.arg ⟨x, y⟩, Real.sin,
      Real.cos, Real.tan⟩ : Libm ℝ) 4 ≤ 255 :=
  match gamma_encoding_contract (⟨Real.sqrt, Real.arccos, fun y x => Complex.arg ⟨x, y⟩,
      Real.sin, Real.cos, Real.tan⟩ : Libm ℝ) [⟨1 / 4, 0, 4⟩] 1 1 "a.png"
      (by norm_num) (by norm_num) (by decide) with
  | ⟨h1, _, _, h4, h5⟩ =>
    ⟨h1 _, h5 (real_sqrt_spec _ _ _ _ _) _ _ (by norm_num), (h4 4).2⟩

end save_file_witness

/-! ## The tiles of `render_tiles` -/

section tiles

variable {F : Type} [LinearOrderedField F]

theorem Tile.covers_iff (t : Tile) (i j : Int) :
    t.covers i j ↔ t.x0 ≤ i ∧ i < t.x1 ∧ t.y0 ≤ j ∧ j < t.y1 := by
  simp only [Tile.covers, mem_int_range_from]
  constructor
  · rintro ⟨⟨a, b⟩, c, d⟩
    exact ⟨c, d, a, b⟩
  · rintro ⟨a, b, c, d⟩
    exact ⟨⟨c, d⟩, a, b⟩

theorem tile_starts_nodup (n : Int) : (tile_starts n).Nodup := by
  rw [tile_starts]
  refine List.Nodup.map ?_ (List.nodup_range _)
  intro a b h
  simp only [] at h
  omega

/-- The shape of a tile: its corner is a multiple of 32 inside the image and it extends 32
pixels, or to the border. -/
theorem Camera.tile_shape (c : Camera F) (t : Tile) (ht : t ∈ c.make_tiles) :
    0 ≤ t.x0 ∧ t.x0 < c.image_width ∧ t.x0 % 32 = 0 ∧ t.x1 = min (t.x0 + 32) c.image_width ∧
    0 ≤ t.y0 ∧ t.y0 < c.image_height ∧ t.y0 % 32 = 0 ∧
      t.y1 = min (t.y0 + 32) c.image_height := by
  rw [Camera.mem_make_tiles] at ht
  obtain ⟨y, hy, x, hx, rfl⟩ := ht
  rw [mem_tile_starts] at hx hy
  exact ⟨hx.1, hx.2.1, hx.2.2, rfl, hy.1, hy.2.1, hy.2.2, rfl⟩

/-- Two tiles that cover the same pixel are the same tile. -/
theorem Camera.tile_unique (c : Camera F) (t t' : Tile) (ht : t ∈ c.make_tiles)
    (ht' : t' ∈ c.make_tiles) (i j : Int) (h : t.covers i j) (h' : t'.covers i j) : t = t' := by
  obtain ⟨a1, a2, a3, a4, a5, a6, a7, a8⟩ := c.tile_shape t ht
  obtain ⟨b1, b2, b3, b4, b5, b6, b7, b8⟩ := c.tile_shape t' ht'
  rw [Tile.covers_iff] at h h'
  obtain ⟨x0, y0, x1, y1⟩ := t
  obtain ⟨x0', y0', x1', y1'⟩ := t'
  simp only at a1 a2 a3 a4 a5 a6 a7 a8 b1 b2 b3 b4 b5 b6 b7 b8 h h'
  have hx : x0 = x0' := by omega
  have hy : y0 = y0' := by omega
  subst hx hy
  rw [a4, a8, b4, b8]

theorem Camera.make_tiles_nodup (c : Camera F) : c.make_tiles.Nodup := by
  rw [Camera.make_tiles, List.nodup_flatMap]
  constructor
  · intro y _
    refine List.Nodup.map ?_ (tile_starts_nodup _)
    intro a b h
    simp only [Tile.mk.injEq] at h
    exact h.1
  · refine List.Pairwise.imp ?_ (tile_starts_nodup c.image_height)
    intro y y' hne
    simp only [Function.onFun, List.disjoint_left, List.mem_map]
    rintro t ⟨x, _, rfl⟩ ⟨x', _, h⟩
    simp only [Tile.mk.injEq] at h
    exact hne h.2.1.symm

/-- Claim C19: the tiles that `render_tiles` creates partition the pixel grid. Every pixel of
the image is visited for exactly one tile, and no tile is created twice; every tile is
non-empty, at most 32 by 32 and inside the image; so the indices `j * image_width + i`
written for two different tiles are different, and all of them are in
`[0, image_width * image_height)`. -/
theorem tiles_partition (c : Camera F) (hw : 1 ≤ c.image_width) (hh : 1 ≤ c.image_height) :
    c.make_tiles ≠ [] ∧
    (∀ i j : Int, 0 ≤ i → i < c.image_width → 0 ≤ j → j < c.image_height →
      ∃ t, (t ∈ c.make_tiles ∧ t.covers i j) ∧
        ∀ t', t' ∈ c.make_tiles ∧ t'.covers i j → t' = t) ∧
    c.make_tiles.Nodup ∧
    (∀ t ∈ c.make_tiles, (∃ i j, t.covers i j) ∧ t.x1 - t.x0 ≤ 32 ∧ t.y1 - t.y0 ≤ 32 ∧
      0 ≤ t.x0 ∧ t.x0 < t.x1 ∧ t.x1 ≤ c.image_width ∧
      0 ≤ t.y0 ∧ t.y0 < t.y1 ∧ t.y1 ≤ c.image_height) ∧
    (∀ t ∈ c.make_tiles, ∀ t' ∈ c.make_tiles, t ≠ t' → ∀ i j i' j' : Int,
      t.covers i j → t'.covers i' j' →
        (j * c.image_width + i).toNat ≠ (j' * c.image_width + i').toNat) ∧
    (∀ t ∈ c.make_tiles, ∀ i j : Int, t.covers i j →
      0 ≤ j * c.image_width + i ∧ j * c.image_width + i < c.image_width * c.image_height ∧
        (j * c.image_width + i).toNat < (c.image_width * c.image_height).toNat) := by
  have hex : ∀ i j : Int, 0 ≤ i → i < c.image_width → 0 ≤ j → j < c.image_height →
      ∃ t, (t ∈ c.make_tiles ∧ t.covers i j) ∧
        ∀ t', t' ∈ c.make_tiles ∧ t'.covers i j → t' = t := by
    intro i j hi0 hi1 hj0 hj1
    have hmem : (⟨32 * (i / 32), 32 * (j / 32), min (32 * (i / 32) + 32) c.image_width,
        min (32 * (j / 32) + 32) c.image_height⟩ : Tile) ∈ c.make_tiles := by
      rw [Camera.mem_make_tiles]
      refine ⟨32 * (j / 32), ?_, 32 * (i / 32), ?_, rfl⟩
      · rw [mem_tile_starts]; omega
      · rw [mem_tile_starts]; omega
    have hcov : (⟨32 * (i / 32), 32 * (j / 32), min (32 * (i / 32) + 32) c.image_width,
        min (32 * (j / 32) + 32) c.image_height⟩ : Tile).covers i j := by
      rw [Tile.covers_iff]
      simp only []
      omega
    exact ⟨_, ⟨hmem, hcov⟩, fun t' ht' => c.tile_unique t' _ ht'.1 hmem i j ht'.2 hcov⟩
  have hin : ∀ t ∈ c.make_tiles, ∀ i j : Int, t.covers i j →
      0 ≤ i ∧ i < c.image_width ∧ 0 ≤ j ∧ j < c.image_height := by
    intro t ht i j hc
    obtain ⟨a1, a2, a3, a4, a5, a6, a7, a8⟩ := c.tile_shape t ht
    rw [Tile.covers_iff] at hc
    omega
  refine ⟨?_, hex, c.make_tiles_nodup, ?_, ?_, ?_⟩
  · obtain ⟨t, ⟨ht, -⟩, -⟩ := hex 0 0 le_rfl (by omega) le_rfl (by omega)
    exact List.ne_nil_of_mem ht
  · intro t ht
    obtain ⟨a1, a2, a3, a4, a5, a6, a7, a8⟩ := c.tile_shape t ht
    refine ⟨⟨t.x0, t.y0, ?_⟩, ?_⟩
    · rw [Tile.covers_iff]; omega
    · omega
  · intro t ht t' ht' hne i j i' j' hc hc' heq
    obtain ⟨b1, b2, b3, b4⟩ := hin t ht i j hc
    obtain ⟨d1, d2, d3, d4⟩ := hin t' ht' i' j' hc'
    obtain ⟨rfl, rfl⟩ := pixel_index_inj c.image_width i j i' j' b1 b2 b3 d1 d2 d3 heq
    exact hne (c.tile_unique t t' ht ht' i j hc hc')
  · intro t ht i j hc
    obtain ⟨b1, b2, b3, b4⟩ := hin t ht i j hc
    have hlt := pixel_index_lt c.image_width c.image_height i j b1 b2 b3 b4
    have h0 : 0 ≤ j * c.image_width + i := by
      have := mul_nonneg b3 (show (0 : Int) ≤ c.image_width by omega)
      omega
    refine ⟨h0, ?_, hlt⟩
    omega

/-- Example for C19: an image of 40 by 33 pixels has tiles, none of them twice. -/
theorem tiles_partition_witness :
    ({ (Camera.default_config : Camera ℚ) with image_width := 40, image_height := 33 } :
      Camera ℚ).make_tiles ≠ [] ∧
    ({ (Camera.default_config : Camera ℚ) with image_width := 40, image_height := 33 } :
      Camera ℚ).make_tiles.Nodup :=
  match tiles_partition
      ({ (Camera.default_config : Camera ℚ) with image_width := 40, image_height := 33 } :
        Camera ℚ) (by norm_num) (by norm_num) with
  | ⟨h1, _, h3, _⟩ => ⟨h1, h3⟩

end tiles

/-! ## `Camera::get_ray` -/

section get_ray

variable {F : Type} [LinearOrderedField F]

/-- The generator `next_u32` keeps the state a `uint32_t` and returns one. -/
theorem XorShift32.next_u32_lt (g : XorShift32) (hg : g.state < 4294967296) :
    g.next_u32.1 < 4294967296 ∧ g.next_u32.2.state < 4294967296 := by
  have h32 : (4294967296 : Nat) = 2 ^ 32 := by norm_num
  have h1 : g.state ^^^ ((g.state <<< 13) % 4294967296) < 4294967296 := by
    rw [h32] at hg ⊢
    exact Nat.xor_lt_two_pow hg (Nat.mod_lt _ (by norm_num))
  have h2 : (g.state ^^^ ((g.state <<< 13) % 4294967296)) ^^^
      ((g.state ^^^ ((g.state <<< 13) % 4294967296)) >>> 17) < 4294967296 := by
    rw [h32] at h1 ⊢
    exact Nat.xor_lt_two_pow h1 (lt_of_le_of_lt
      (by rw [Nat.shiftRight_eq_div_pow]; exact Nat.div_le_self _ _) h1)
  have h3 : ((g.state ^^^ ((g.state <<< 13) % 4294967296)) ^^^
      ((g.state ^^^ ((g.state <<< 13) % 4294967296)) >>> 17)) ^^^
      ((((g.state ^^^ ((g.state <<< 13) % 4294967296)) ^^^
      ((g.state ^^^ ((g.state <<< 13) % 4294967296)) >>> 17)) <<< 5) % 4294967296)
      < 4294967296 := by
    rw [h32] at h2 ⊢
    exact Nat.xor_lt_two_pow h2 (Nat.mod_lt _ (by norm_num))
  exact ⟨h3, h3⟩

/-- The generator `next_float` returns a float in `[0, 1)`. -/
theorem XorShift32.next_float_range (g : XorShift32) (hg : g.state < 4294967296) :
    0 ≤ (g.next_float : F × XorShift32).1 ∧ (g.next_float : F × XorShift32).1 < 1 ∧
      (g.next_float : F × XorShift32).2.state < 4294967296 := by
  obtain ⟨h1, h2⟩ := g.next_u32_lt hg
  have hk : g.next_u32.1 >>> 8 < 16777216 := by
    rw [Nat.shiftRight_eq_div_pow]
    omega
  have hkF : ((g.next_u32.1 >>> 8 : Nat) : F) < 16777216 := by exact_mod_cast hk
  have hk0 : (0 : F) ≤ ((g.next_u32.1 >>> 8 : Nat) : F) := Nat.cast_nonneg _
  have e : (g.next_float : F × XorShift32).1 =
      ((g.next_u32.1 >>> 8 : Nat) : F) * (1 / 16777216) := rfl
  refine ⟨?_, ?_, h2⟩
  · rw [e]
    exact mul_nonneg hk0 (by norm_num)
  · rw [e, mul_one_div, div_lt_one (by norm_num)]
    exact hkF

theorem random_real_range (lo hi : F) (hlh : lo < hi) (g : XorShift32)
    (hg : g.state < 4294967296) :
    lo ≤ (random_real lo hi g).1 ∧ (random_real lo hi g).1 < hi ∧
      (random_real lo hi g).2.state < 4294967296 := by
  obtain ⟨h0, h1, h2⟩ := XorShift32.next_float_range (F := F) g hg
  have e : (random_real lo hi g).1 = lo + (hi - lo) * (g.next_float : F × XorShift32).1 := rfl
  refine ⟨?_, ?_, h2⟩
  · rw [e]
    have := mul_nonneg (sub_pos.mpr hlh).le h0
    linarith
  · rw [e]
    have := mul_lt_mul_of_pos_left h1 (sub_pos.mpr hlh)
    linarith

theorem random_float_range (g : XorShift32) (hg : g.state < 4294967296) :
    0 ≤ (random_float g : F × XorShift32).1 ∧ (random_float g : F × XorShift32).1 < 1 ∧
      (random_float g : F × XorShift32).2.state < 4294967296 :=
  random_real_range 0 1 zero_lt_one g hg

theorem random_in_unit_disk_state :
    ∀ (fuel : Nat) (g : XorShift32), g.state < 4294967296 →
      ∀ (p : F × F) (g' : XorShift32), random_in_unit_disk fuel g = some (p, g') →
        g'.state < 4294967296 := by
  intro fuel
  induction fuel with
  | zero => intro g _ p g' h; simp [random_in_unit_disk] at h
  | succ n ih =>
    intro g hg p g' h
    have h1 := (random_real_range (-1 : F) 1 (by norm_num) g hg).2.2
    have h2 := (random_real_range (-1 : F) 1 (by norm_num) _ h1).2.2
    rw [random_in_unit_disk] at h
    simp only [] at h
    split_ifs at h
    · simp only [Option.some.injEq, Prod.mk.injEq] at h
      rw [← h.2]
      exact h2
    · exact ih _ h2 p g' h

theorem Camera.sample_squared_range (g : XorShift32) (hg : g.state < 4294967296) :
    (-(1 / 2) ≤ (Camera.sample_squared g : vec3 F × XorShift32).1.x ∧
      (Camera.sample_squared g : vec3 F × XorShift32).1.x < 1 / 2) ∧
    (-(1 / 2) ≤ (Camera.sample_squared g : vec3 F × XorShift32).1.y ∧
      (Camera.sample_squared g : vec3 F × XorShift32).1.y < 1 / 2) ∧
    (Camera.sample_squared g : vec3 F × XorShift32).2.state < 4294967296 := by
  obtain ⟨a0, a1, a2⟩ := random_float_range (F := F) g hg
  obtain ⟨b0, b1, b2⟩ := random_float_range (F := F) _ a2
  have ex : (Camera.sample_squared g : vec3 F × XorShift32).1.x =
      (random_float g : F × XorShift32).1 - 1 / 2 := rfl
  have ey : (Camera.sample_squared g : vec3 F × XorShift32).1.y =
      (random_float (random_float g : F × XorShift32).2 : F × XorShift32).1 - 1 / 2 := rfl
  refine ⟨⟨?_, ?_⟩, ⟨?_, ?_⟩, b2⟩
  · rw [ex]; linarith
  · rw [ex]; linarith
  · rw [ey]; linarith
  · rw [ey]; linarith

/-- The loop of `random_in_unit_disk` returns within `fuel` iterations exactly when one of
its first `fuel` iterations draws a point inside the unit disk. -/
theorem random_in_unit_disk_returns_iff :
    ∀ (fuel : Nat) (g : XorShift32),
      (∃ p g', (random_in_unit_disk fuel g : Option ((F × F) × XorShift32)) = some (p, g')) ↔
        ∃ k, k < fuel ∧ disk_accepts F k g := by
  intro fuel
  induction fuel with
  | zero =>
    intro g
    constructor
    · rintro ⟨p, g', h⟩
      exact Option.noConfusion h
    · rintro ⟨k, hk, -⟩
      exact absurd hk (Nat.not_lt_zero k)
  | succ n ih =>
    intro g
    have e : (random_in_unit_disk (n + 1) g : Option ((F × F) × XorShift32)) =
        if (random_real (-1 : F) 1 g).1 * (random_real (-1 : F) 1 g).1 +
            (random_real (-1 : F) 1 (random_real (-1 : F) 1 g).2).1 *
              (random_real (-1 : F) 1 (random_real (-1 : F) 1 g).2).1 < 1 then
          some (((random_real (-1 : F) 1 g).1,
            (random_real (-1 : F) 1 (random_real (-1 : F) 1 g).2).1),
            (random_real (-1 : F) 1 (random_real (-1 : F) 1 g).2).2)
        else random_in_unit_disk n (random_real (-1 : F) 1 (random_real (-1 : F) 1 g).2).2 :=
      rfl
    rw [e]
    by_cases h0 : (random_real (-1 : F) 1 g).1 * (random_real (-1 : F) 1 g).1 +
        (random_real (-1 : F) 1 (random_real (-1 : F) 1 g).2).1 *
          (random_real (-1 : F) 1 (random_real (-1 : F) 1 g).2).1 < 1
    · rw [if_pos h0]
      exact ⟨fun _ => ⟨0, Nat.succ_pos n, h0⟩, fun _ => ⟨_, _, rfl⟩⟩
    · rw [if_neg h0, ih]
      constructor
      · rintro ⟨k, hk, hacc⟩
        exact ⟨k + 1, Nat.succ_lt_succ hk, hacc⟩
      · rintro ⟨k, hk, hacc⟩
        cases k with
        | zero => exact absurd hacc h0
        | succ k => exact ⟨k, Nat.lt_of_succ_lt_succ hk, hacc⟩

/-- With `defocus_angle > 0`, `get_ray` returns within `fuel` iterations of the disk loop
exactly when one of them draws a point inside the unit disk. -/
theorem Camera.get_ray_returns_iff (c : Camera F) (hd : 0 < c.defocus_angle) (fuel : Nat)
    (i j : Int) (g : XorShift32) :
    (∃ r g', c.get_ray fuel i j g = some (r, g')) ↔
      ∃ k, k < fuel ∧ disk_accepts F k (Camera.sample_squared g : vec3 F × XorShift32).2 := by
  rw [← random_in_unit_disk_returns_iff]
  unfold Camera.get_ray
  simp only [if_neg (not_le.mpr hd), Camera.defocus_disk_sample]
  cases hp : (random_in_unit_disk fuel (Camera.sample_squared g : vec3 F × XorShift32).2 :
      Option ((F × F) × XorShift32)) with
  | none =>
    constructor
    · rintro ⟨r, g', h⟩
      exact Option.noConfusion h
    · rintro ⟨p, g', h⟩
      exact Option.noConfusion h
  | some pg =>
    obtain ⟨p, g1⟩ := pg
    exact ⟨fun _ => ⟨p, g1, rfl⟩, fun _ => ⟨_, _, rfl⟩⟩

/-- Claim C20, amended: for a generator whose state is a `uint32_t`, `get_ray` returns when
`defocus_angle <= 0`; when `defocus_angle > 0` it returns within `fuel` iterations of the
rejection loop of `random_in_unit_disk` exactly when one of them draws a point inside the
unit disk. Every ray it returns has its time in `[0, 1)`, its origin equal to
`camera_center` when `defocus_angle <= 0`, and the direction
`pixel00_loc + (i + dx) * pixel_delta_u + (j + dy) * pixel_delta_v - origin` for some
`dx`, `dy` in `[-0.5, 0.5)`. -/
theorem get_ray_contract (c : Camera F) (fuel : Nat) (i j : Int) (g : XorShift32)
    (hg : g.state < 4294967296) :
    (c.defocus_angle ≤ 0 → ∃ r g', c.get_ray fuel i j g = some (r, g')) ∧
    (0 < c.defocus_angle →
      ((∃ r g', c.get_ray fuel i j g = some (r, g')) ↔
        ∃ k, k < fuel ∧
          disk_accepts F k (Camera.sample_squared g : vec3 F × XorShift32).2)) ∧
    ∀ r g', c.get_ray fuel i j g = some (r, g') →
      (0 ≤ r.tm ∧ r.tm < 1) ∧
      (c.defocus_angle ≤ 0 → r.orig = c.camera_center) ∧
      (∃ dx dy : F, (-(1 / 2) ≤ dx ∧ dx < 1 / 2) ∧ (-(1 / 2) ≤ dy ∧ dy < 1 / 2) ∧
        r.dir = ((c.pixel00_loc.add (vec3.smul ((i : F) + dx) c.pixel_delta_u)).add
          (vec3.smul ((j : F) + dy) c.pixel_delta_v)).sub r.orig) ∧
      g'.state < 4294967296 := by
  refine ⟨c.get_ray_returns fuel i j g,
    fun hd => Camera.get_ray_returns_iff c hd fuel i j g, ?_⟩
  intro r g' h
  obtain ⟨hx, hy, hs⟩ := Camera.sample_squared_range (F := F) g hg
  unfold Camera.get_ray at h
  simp only [] at h
  by_cases hd : c.defocus_angle ≤ 0
  · rw [if_pos hd] at h
    simp only [Option.some.injEq, Prod.mk.injEq] at h
    obtain ⟨hr, hg'⟩ := h
    obtain ⟨t0, t1, t2⟩ := random_float_range (F := F) _ hs
    subst hr hg'
    exact ⟨⟨t0, t1⟩, fun _ => rfl, ⟨_, _, hx, hy, rfl⟩, t2⟩
  · rw [if_neg hd] at h
    cases hdisk : c.defocus_disk_sample fuel (Camera.sample_squared g : vec3 F × XorShift32).2 with
    | none => rw [hdisk] at h; simp at h
    | some og =>
      obtain ⟨o, g2⟩ := og
      rw [hdisk] at h
      simp only [Option.some.injEq, Prod.mk.injEq] at h
      obtain ⟨hr, hg'⟩ := h
      have hs2 : g2.state < 4294967296 := by
        unfold Camera.defocus_disk_sample at hdisk
        cases hp : (random_in_unit_disk fuel (Camera.sample_squared g : vec3 F × XorShift32).2 :
            Option ((F × F) × XorShift32)) with
        | none => rw [hp] at hdisk; simp at hdisk
        | some pg =>
          obtain ⟨p, g3⟩ := pg
          rw [hp] at hdisk
          simp only [Option.some.injEq, Prod.mk.injEq] at hdisk
          rw [← hdisk.2]
          exact random_in_unit_disk_state fuel _ hs p g3 hp
      obtain ⟨t0, t1, t2⟩ := random_float_range (F := F) g2 hs2
      subst hr hg'
      exact ⟨⟨t0, t1⟩, fun h0 => absurd h0 hd, ⟨_, _, hx, hy, rfl⟩, t2⟩

/-- Example for C20: the default camera with `defocus_angle = 1` and the generator in its
default seed state. The first point the disk loop draws is inside the unit disk, so one
iteration is enough: `get_ray` returns the ray of pixel `(3, 4)`, whose time is in `[0, 1)`. -/
theorem get_ray_contract_witness :
    (0 : ℚ) < ({ Camera.default_config with defocus_angle := 1 } : Camera ℚ).defocus_angle ∧
    ∃ r g', ({ Camera.default_config with defocus_angle := 1 } : Camera ℚ).get_ray 1 3 4
        ⟨88675123⟩ = some (r, g') ∧ 0 ≤ r.tm ∧ r.tm < 1 :=
  have hacc : disk_accepts ℚ 0 (Camera.sample_squared ⟨88675123⟩ : vec3 ℚ × XorShift32).2 := by
    simp [disk_accepts, disk_state, Camera.sample_squared, random_float, random_real,
      XorShift32.next_float, XorShift32.next_u32]
    norm_num
  match ((get_ray_contract ({ Camera.default_config with defocus_angle := 1 } : Camera ℚ)
      1 3 4 ⟨88675123⟩ (by norm_num)).2.1 (by simp [Camera.default_config])).mpr
      ⟨0, Nat.one_pos, hacc⟩ with
  | ⟨r, g', h⟩ =>
    ⟨by simp [Camera.default_config], r, g', h,
      ((get_ray_contract ({ Camera.default_config with defocus_angle := 1 } : Camera ℚ)
        1 3 4 ⟨88675123⟩ (by norm_num)).2.2 r g' h).1⟩

/-- Claim C20, counterexample: the default camera with `defocus_angle = 1` and the generator
in state 0. Every point the disk loop draws is `(-1, -1)`, outside the unit disk: whatever
the fuel, `get_ray` returns no ray for the pixel `(3, 4)`. -/
theorem get_ray_never_returns :
    (0 : ℚ) < ({ Camera.default_config with defocus_angle := 1 } : Camera ℚ).defocus_angle ∧
    ∀ fuel : Nat,
      ({ Camera.default_config with defocus_angle := 1 } : Camera ℚ).get_ray fuel 3 4 ⟨0⟩ =
        none :=
  ⟨by simp [Camera.default_config],
    fun fuel => Camera.get_ray_zero_state
      ({ Camera.default_config with defocus_angle := 1 } : Camera ℚ)
      (by simp [Camera.default_config]) fuel 3 4⟩

end get_ray

/-! ## `Camera::initialize`: the camera basis -/

section camera_basis

variable {F : Type} [LinearOrderedField F]

theorem vec3.length_squared_ge_zero (v : vec3 F) : 0 ≤ v.length_squared := by
  simp only [vec3.length_squared]
  linarith [mul_self_nonneg v.x, mul_self_nonneg v.y, mul_self_nonneg v.z]

/-- With `std::sqrt` the square root, `unit_vector` of a vector that is not zero divides it
by its positive length, and the result has squared length 1. -/
theorem vec3.unit_vector_nonzero (m : Libm F) (hm : m.SqrtSpec) (d : vec3 F)
    (hd : d ≠ vec3.zero) :
    0 < d.length m ∧
    vec3.unit_vector m d = .ok ⟨d.x / d.length m, d.y / d.length m, d.z / d.length m⟩ ∧
    (⟨d.x / d.length m, d.y / d.length m, d.z / d.length m⟩ : vec3 F).length_squared = 1 := by
  have hpos := vec3.length_squared_pos d hd
  obtain ⟨h1, h2⟩ := hm _ hpos.le
  have hL : d.length m ≠ 0 := by
    intro h0
    rw [vec3.length] at h0
    rw [h0] at h2
    linarith
  refine ⟨lt_of_le_of_ne h1 (Ne.symm hL), ?_, vec3.length_squared_div d _ hL h2⟩
  rw [vec3.unit_vector]
  simp only [hL, if_false, vec3.div]

theorem vec3.length_of_length_squared_one (m : Libm F) (hm : m.SqrtSpec) (v : vec3 F)
    (h : v.length_squared = 1) : v.length m = 1 := by
  rw [vec3.length, h]
  exact sqrt_one m hm

/-- The three lines of `initialize` that compute the basis: for `lookfrom - lookat` and
`cross(vup, lookfrom - lookat)` not zero the vectors are orthonormal. -/
theorem camera_basis_spec (m : Libm F) (hm : m.SqrtSpec) (lookfrom lookat vup : vec3 F)
    (hpar : vec3.cross vup (lookfrom.sub lookat) ≠ vec3.zero) :
    ∃ w u : vec3 F, vec3.unit_vector m (lookfrom.sub lookat) = .ok w ∧
      vec3.unit_vector m (vec3.cross vup w) = .ok u ∧
      w.length_squared = 1 ∧ u.length_squared = 1 ∧ (vec3.cross w u).length_squared = 1 ∧
      vec3.dot u w = 0 ∧ vec3.dot u (vec3.cross w u) = 0 ∧ vec3.dot (vec3.cross w u) w = 0 ∧
      ∃ k : F, 0 < k ∧ w = vec3.smul k (lookfrom.sub lookat) := by
  have hd : lookfrom.sub lookat ≠ vec3.zero := by
    intro h0
    apply hpar
    rw [h0]
    simp [vec3.cross, vec3.zero]
  obtain ⟨hL, hw, hw1⟩ := vec3.unit_vector_nonzero m hm _ hd
  set d := lookfrom.sub lookat with hd_def
  set L := d.length m with hL_def
  have hc : vec3.cross vup (⟨d.x / L, d.y / L, d.z / L⟩ : vec3 F) ≠ vec3.zero := by
    intro h0
    apply hpar
    have hx := congrArg vec3.x h0
    have hy := congrArg vec3.y h0
    have hz := congrArg vec3.z h0
    simp only [vec3.cross, vec3.zero] at hx hy hz ⊢
    have hL0 : L ≠ 0 := ne_of_gt hL
    field_simp at hx hy hz
    ext <;> simp only [] <;> linarith
  obtain ⟨hK, hu, hu1⟩ := vec3.unit_vector_nonzero m hm _ hc
  set e := vec3.cross vup (⟨d.x / L, d.y / L, d.z / L⟩ : vec3 F) with he_def
  set K := e.length m with hK_def
  have hK0 : K ≠ 0 := ne_of_gt hK
  have hperp : vec3.dot (⟨e.x / K, e.y / K, e.z / K⟩ : vec3 F)
      (⟨d.x / L, d.y / L, d.z / L⟩ : vec3 F) = 0 := by
    simp only [he_def, vec3.dot, vec3.cross]
    field_simp
    ring
  refine ⟨_, _, hw, hu, hw1, hu1, ?_, hperp, ?_, ?_, 1 / L, by positivity, ?_⟩
  · have hlag : ∀ a b : vec3 F, (vec3.cross a b).length_squared =
        a.length_squared * b.length_squared - vec3.dot b a * vec3.dot b a := by
      intro a b
      simp only [vec3.length_squared, vec3.dot, vec3.cross]
      ring
    rw [hlag, hw1, hu1, hperp]
    ring
  · simp only [vec3.dot, vec3.cross]
    ring
  · simp only [vec3.dot, vec3.cross]
    ring
  · simp only [vec3.smul]
    ext <;> simp only [] <;> field_simp

end camera_basis

section camera_basis_claim

variable {F : Type} [LinearOrderedField F]

/-- The basis that `initialize` stores is the one its three basis lines compute. -/
theorem Camera.init_basis [FloorRing F] (m : Libm F) (PI : F) (c0 c : Camera F)
    (w u : vec3 F) (hw : vec3.unit_vector m (c0.lookfrom.sub c0.lookat) = .ok w)
    (hu : vec3.unit_vector m (vec3.cross c0.vup w) = .ok u)
    (h : c0.init m PI = .ok c) : c.w = w ∧ c.u = u ∧ c.v = vec3.cross w u := by
  unfold Camera.init at h
  simp only [hw, hu] at h
  split at h
  · simp at h
  · split at h
    · simp at h
    · split at h
      · simp at h
      · split at h
        · simp at h
        · simp only [Except.ok.injEq] at h
          subst h
          exact ⟨rfl, rfl, rfl⟩

/-- Claim C21, amended: with arithmetic read over the reals and `std::sqrt` the square root,
for a camera whose `vup` is not parallel to
`lookfrom - lookat` (so that `lookfrom != lookat`), the basis lines of `initialize` compute
vectors `u`, `v`, `w` of length 1 that are pairwise orthogonal, with `w` a positive multiple
of `lookfrom - lookat`; `initialize` stores them whenever it returns, and it returns when
`image_width` is not 0. -/
theorem camera_basis_contract [FloorRing F] (m : Libm F) (hm : m.SqrtSpec) (PI : F)
    (c0 : Camera F) (hpar : vec3.cross c0.vup (c0.lookfrom.sub c0.lookat) ≠ vec3.zero) :
    c0.lookfrom ≠ c0.lookat ∧
    (∃ w u : vec3 F, vec3.unit_vector m (c0.lookfrom.sub c0.lookat) = .ok w ∧
      vec3.unit_vector m (vec3.cross c0.vup w) = .ok u ∧
      ∀ c, c0.init m PI = .ok c → c.w = w ∧ c.u = u ∧ c.v = vec3.cross w u) ∧
    (c0.image_width ≠ 0 → ∃ c, c0.init m PI = .ok c) ∧
    ∀ c, c0.init m PI = .ok c →
      c.u.length m = 1 ∧ c.v.length m = 1 ∧ c.w.length m = 1 ∧
      vec3.dot c.u c.v = 0 ∧ vec3.dot c.u c.w = 0 ∧ vec3.dot c.v c.w = 0 ∧
      ∃ k : F, 0 < k ∧ c.w = vec3.smul k (c0.lookfrom.sub c0.lookat) := by
  obtain ⟨w, u, hw, hu, hw1, hu1, hv1, huw, huv, hvw, k, hk, hwk⟩ :=
    camera_basis_spec m hm c0.lookfrom c0.lookat c0.vup hpar
  refine ⟨?_, ⟨w, u, hw, hu, fun c hc => Camera.init_basis m PI c0 c w u hw hu hc⟩,
    Camera.init_ok m PI c0, ?_⟩
  · intro h
    apply hpar
    rw [h]
    simp [vec3.cross, vec3.sub, vec3.zero]
  · intro c hc
    obtain ⟨e1, e2, e3⟩ := Camera.init_basis m PI c0 c w u hw hu hc
    rw [e1, e2, e3]
    exact ⟨vec3.length_of_length_squared_one m hm _ hu1,
      vec3.length_of_length_squared_one m hm _ hv1,
      vec3.length_of_length_squared_one m hm _ hw1, huv, huw, hvw, k, hk, hwk⟩

/-- Example for C21: the default camera, `lookfrom = (0, 0, 0)` and `lookat = (0, 0, -1)`,
with `vup` set to `(0, 1, 0)`, with the square root of the reals: `initialize` returns an
orthonormal basis. -/
theorem camera_basis_contract_witness :
    ∃ c, ({ (Camera.default_config : Camera ℝ) with vup := ⟨0, 1, 0⟩ } : Camera ℝ).init
        ⟨Real.sqrt, Real.arccos, fun y x => Complex.arg ⟨x, y⟩, Real.sin, Real.cos, Real.tan⟩
        (3141593 / 1000000) = .ok c ∧
      vec3.dot c.u c.v = 0 ∧ vec3.dot c.u c.w = 0 ∧ vec3.dot c.v c.w = 0 :=
  have hpar : vec3.cross
      ({ (Camera.default_config : Camera ℝ) with vup := ⟨0, 1, 0⟩ } : Camera ℝ).vup
      (({ (Camera.default_config : Camera ℝ) with vup := ⟨0, 1, 0⟩ } : Camera ℝ).lookfrom.sub
        ({ (Camera.default_config : Camera ℝ) with vup := ⟨0, 1, 0⟩ } : Camera ℝ).lookat) ≠
      vec3.zero := by
    simp [Camera.default_config, vec3.cross, vec3.sub, vec3.zero]
  match (camera_basis_contract
      (⟨Real.sqrt, Real.arccos, fun y x => Complex.arg ⟨x, y⟩, Real.sin, Real.cos, Real.tan⟩ :
        Libm ℝ) (real_sqrt_spec _ _ _ _ _) (3141593 / 1000000)
      ({ (Camera.default_config : Camera ℝ) with vup := ⟨0, 1, 0⟩ } : Camera ℝ) hpar).2.2.1
      (by simp [Camera.default_config]) with
  | ⟨c, hc⟩ =>
    match (camera_basis_contract
      (⟨Real.sqrt, Real.arccos, fun y x => Complex.arg ⟨x, y⟩, Real.sin, Real.cos, Real.tan⟩ :
        Libm ℝ) (real_sqrt_spec _ _ _ _ _) (3141593 / 1000000)
      ({ (Camera.default_config : Camera ℝ) with vup := ⟨0, 1, 0⟩ } : Camera ℝ) hpar).2.2.2
      c hc with
    | ⟨_, _, _, h1, h2, h3, _⟩ => ⟨c, hc, h1, h2, h3⟩

end camera_basis_claim

/-! ## The hull of two intervals -/

section interval_hull

variable {F : Type} [LinearOrderedField F]

theorem Ext.cases (e : Ext F) : e = NEG_INF ∨ e = INF ∨ ∃ x : F, e = fin x := by
  match e with
  | none => exact Or.inl rfl
  | some none => exact Or.inr (Or.inl rfl)
  | some (some x) => exact Or.inr (Or.inr ⟨x, rfl⟩)

theorem NEG_INF_le (e : Ext F) : (NEG_INF : Ext F) ≤ e := bot_le

theorem le_INF (e : Ext F) : e ≤ (INF : Ext F) := by
  rcases Ext.cases e with h | h | ⟨x, h⟩
  · rw [h]; exact bot_le
  · rw [h]
  · rw [h]; exact (fin_lt_INF x).le

theorem hull_min_max (a b : interval F) :
    (interval.hull a b).min = min a.min b.min ∧ (interval.hull a b).max = max a.max b.max := by
  simp only [interval.hull, ge_iff_le]
  constructor
  · split_ifs with h
    · exact (min_eq_left h).symm
    · exact (min_eq_right (le_of_not_le h)).symm
  · split_ifs with h
    · exact (max_eq_left h).symm
    · exact (max_eq_right (le_of_not_le h)).symm

theorem hull_eq_min_max (a b : interval F) :
    interval.hull a b = ⟨min a.min b.min, max a.max b.max⟩ := by
  ext
  · exact (hull_min_max a b).1
  · exact (hull_min_max a b).2

/-- An interval that contains every finite point of the interval `a`, which has one, starts
at or before `a.min` and ends at or after `a.max`. -/
theorem encloses_of_contains (a c : interval F) (x0 : F)
    (hx0 : a.contains x0 = true) (h : ∀ x, a.contains x = true → c.contains x = true) :
    c.min ≤ a.min ∧ a.max ≤ c.max := by
  simp only [interval.contains_iff] at hx0 h
  constructor
  · rcases Ext.cases a.min with hm | hm | ⟨lo, hm⟩
    · rw [hm]
      rcases Ext.cases c.min with hc | hc | ⟨y, hc⟩
      · rw [hc]
      · exfalso
        have := (h x0 hx0).1
        rw [hc] at this
        exact not_INF_le_fin _ this
      · exfalso
        have := (h (min y x0 - 1) ⟨by rw [hm]; exact bot_le,
          le_trans ((fin_le_fin _ _).mpr (by linarith [min_le_right y x0])) hx0.2⟩).1
        rw [hc, fin_le_fin] at this
        linarith [min_le_left y x0]
    · exfalso
      rw [hm] at hx0
      exact not_INF_le_fin _ hx0.1
    · rw [hm] at hx0 ⊢
      exact (h lo ⟨by rw [hm], le_trans hx0.1 hx0.2⟩).1
  · rcases Ext.cases a.max with hm | hm | ⟨hi, hm⟩
    · exfalso
      rw [hm] at hx0
      exact not_fin_le_NEG_INF _ hx0.2
    · rw [hm]
      rcases Ext.cases c.max with hc | hc | ⟨y, hc⟩
      · exfalso
        have := (h x0 hx0).2
        rw [hc] at this
        exact not_fin_le_NEG_INF _ this
      · rw [hc]
      · exfalso
        have := (h (max y x0 + 1) ⟨le_trans hx0.1 ((fin_le_fin _ _).mpr
          (by linarith [le_max_right y x0])), by rw [hm]; exact le_INF _⟩).2
        rw [hc, fin_le_fin] at this
        linarith [le_max_left y x0]
    · rw [hm] at hx0 ⊢
      exact (h hi ⟨le_trans hx0.1 hx0.2, by rw [hm]⟩).2

/-- Claim C22: the hull `interval(a, b)` has `min = min(a.min, b.min)` and
`max = max(a.max, b.max)`. It contains every `x` that `a` or `b` contains; it lies inside
every interval that contains all points of `a` and of `b`, for `a` and `b` with a point,
both when the points are the finite floats and when they may be infinite; the operation is
commutative, associative and idempotent, and the empty interval `(+inf, -inf)` is its
identity. -/
theorem interval_hull_contract (a b c : interval F) :
    ((interval.hull a b).min = min a.min b.min ∧ (interval.hull a b).max = max a.max b.max) ∧
    (∀ x : F, a.contains x = true ∨ b.contains x = true →
      (interval.hull a b).contains x = true) ∧
    (∀ x : Ext F, a.contains_ext x = true ∨ b.contains_ext x = true →
      (interval.hull a b).contains_ext x = true) ∧
    ((∃ x, a.contains x = true) → (∃ x, b.contains x = true) →
      (∀ x, a.contains x = true → c.contains x = true) →
      (∀ x, b.contains x = true → c.contains x = true) →
      c.min ≤ (interval.hull a b).min ∧ (interval.hull a b).max ≤ c.max) ∧
    ((∃ x, a.contains_ext x = true) → (∃ x, b.contains_ext x = true) →
      (∀ x, a.contains_ext x = true → c.contains_ext x = true) →
      (∀ x, b.contains_ext x = true → c.contains_ext x = true) →
      c.min ≤ (interval.hull a b).min ∧ (interval.hull a b).max ≤ c.max) ∧
    interval.hull a b = interval.hull b a ∧
    interval.hull (interval.hull a b) c = interval.hull a (interval.hull b c) ∧
    interval.hull a a = a ∧
    interval.hull interval.empty a = a ∧ interval.hull a interval.empty = a := by
  refine ⟨hull_min_max a b, ?_, ?_, ?_, ?_, ?_, ?_, ?_, ?_, ?_⟩
  · intro x hx
    simp only [interval.contains_iff, hull_eq_min_max] at hx ⊢
    rcases hx with h | h
    · exact ⟨le_trans (min_le_left _ _) h.1, le_trans h.2 (le_max_left _ _)⟩
    · exact ⟨le_trans (min_le_right _ _) h.1, le_trans h.2 (le_max_right _ _)⟩
  · intro x hx
    simp only [interval.contains_ext, decide_eq_true_eq, hull_eq_min_max] at hx ⊢
    rcases hx with h | h
    · exact ⟨le_trans (min_le_left _ _) h.1, le_trans h.2 (le_max_left _ _)⟩
    · exact ⟨le_trans (min_le_right _ _) h.1, le_trans h.2 (le_max_right _ _)⟩
  · rintro ⟨xa, hxa⟩ ⟨xb, hxb⟩ ha hb
    obtain ⟨a1, a2⟩ := encloses_of_contains a c xa hxa ha
    obtain ⟨b1, b2⟩ := encloses_of_contains b c xb hxb hb
    rw [hull_eq_min_max]
    exact ⟨le_min a1 b1, max_le a2 b2⟩
  · rintro ⟨xa, hxa⟩ ⟨xb, hxb⟩ ha hb
    simp only [interval.contains_ext, decide_eq_true_eq] at hxa hxb ha hb
    have ha1 := ha a.min ⟨le_rfl, le_trans hxa.1 hxa.2⟩
    have ha2 := ha a.max ⟨le_trans hxa.1 hxa.2, le_rfl⟩
    have hb1 := hb b.min ⟨le_rfl, le_trans hxb.1 hxb.2⟩
    have hb2 := hb b.max ⟨le_trans hxb.1 hxb.2, le_rfl⟩
    rw [hull_eq_min_max]
    exact ⟨le_min ha1.1 hb1.1, max_le ha2.2 hb2.2⟩
  · rw [hull_eq_min_max, hull_eq_min_max, min_comm, max_comm]
  · simp only [hull_eq_min_max, min_assoc, max_assoc]
  · simp only [hull_eq_min_max, min_self, max_self]
  · rw [hull_eq_min_max]
    ext
    · exact min_eq_right (le_INF _)
    · exact max_eq_right (NEG_INF_le _)
  · rw [hull_eq_min_max]
    ext
    · exact min_eq_left (le_INF _)
    · exact max_eq_left (NEG_INF_le _)

/-- Example for C22: the hull of `[0, 1]` and `[2, 3]` is `[0, 3]`, and it contains 1. -/
theorem interval_hull_contract_witness :
    interval.hull (⟨fin 0, fin 1⟩ : interval ℚ) ⟨fin 2, fin 3⟩ = ⟨fin 0, fin 3⟩ ∧
    (interval.hull (⟨fin 0, fin 1⟩ : interval ℚ) ⟨fin 2, fin 3⟩).contains 1 = true :=
  ⟨by
    have h := (interval_hull_contract (⟨fin 0, fin 1⟩ : interval ℚ) ⟨fin 2, fin 3⟩
      interval.empty).1
    ext
    · rw [h.1]
      exact min_eq_left ((fin_le_fin _ _).mpr (by norm_num))
    · rw [h.2]
      exact max_eq_right ((fin_le_fin _ _).mpr (by norm_num)),
   (interval_hull_contract (⟨fin 0, fin 1⟩ : interval ℚ) ⟨fin 2, fin 3⟩
      interval.empty).2.1 1 (Or.inl (by
        rw [interval.contains_iff]
        exact ⟨(fin_le_fin _ _).mpr (by norm_num), (fin_le_fin _ _).mpr (by norm_num)⟩))⟩

end interval_hull

/-! ## `mesh_triangle::hit`, `hit_record::set_face_normal` and the frame of the triangle hits -/

section mesh_hit

variable {F M : Type} [LinearOrderedField F]

/-- The result of `mesh_triangle::hit` in one piece; `n` is the unit normal it computes on a
hit. -/
theorem mesh_triangle_hit_eq (m : Libm F) (mt : mesh_triangle F M) (r : ray F)
    (ray_t : interval F) (rc : hit_record F M) (n : vec3 F)
    (hn : vec3.unit_vector m (vec3.cross (mt.v1.sub mt.v0) (mt.v2.sub mt.v0)) = .ok n) :
    let edge1 := mt.v1.sub mt.v0
    let edge2 := mt.v2.sub mt.v0
    let h := vec3.cross r.dir edge2
    let a := vec3.dot edge1 h
    let s := r.orig.sub mt.v0
    let u := 1 / a * vec3.dot s h
    let q := vec3.cross s edge1
    let v := 1 / a * vec3.dot r.dir q
    let t := 1 / a * vec3.dot edge2 q
    mt.hit m r ray_t rc =
      if mesh_triangle.epsilon ≤ |a| ∧ (0 ≤ u ∧ u ≤ 1) ∧ (0 ≤ v ∧ u + v ≤ 1) ∧
          (ray_t.min < fin t ∧ fin t < ray_t.max) then
        .ok (true,
          { p := r.«at» t
            normal := if vec3.dot r.dir n < 0 then n else n.neg
            t := t, u := rc.u, v := rc.v
            front_face := decide (vec3.dot r.dir n < 0)
            mat := mt.mat })
      else .ok (false, rc) := by
  intro edge1 edge2 h a s u q v t
  unfold mesh_triangle.hit
  simp only [hn]
  by_cases h1 : |a| < mesh_triangle.epsilon
  · have h1' := h1
    simp only [a, h, edge1, edge2] at h1'
    rw [if_pos h1', if_neg]
    rintro ⟨hh, _⟩
    exact absurd h1 (not_lt.mpr hh)
  · have h1' := h1
    simp only [a, h, edge1, edge2] at h1'
    rw [if_neg h1']
    by_cases h2 : u < 0 ∨ u > 1
    · have h2' := h2
      simp only [u, a, h, s, edge1, edge2] at h2'
      rw [if_pos h2', if_neg]
      rintro ⟨_, ⟨hu0, hu1⟩, _⟩
      rcases h2 with h2 | h2
      · exact absurd h2 (not_lt.mpr hu0)
      · exact absurd h2 (not_lt.mpr hu1)
    · have h2' := h2
      simp only [u, a, h, s, edge1, edge2] at h2'
      rw [if_neg h2']
      by_cases h3 : v < 0 ∨ u + v > 1
      · have h3' := h3
        simp only [v, u, q, a, h, s, edge1, edge2] at h3'
        rw [if_pos h3', if_neg]
        rintro ⟨_, _, ⟨hv0, hv1⟩, _⟩
        rcases h3 with h3 | h3
        · exact absurd h3 (not_lt.mpr hv0)
        · exact absurd h3 (not_lt.mpr hv1)
      · have h3' := h3
        simp only [v, u, q, a, h, s, edge1, edge2] at h3'
        rw [if_neg h3']
        by_cases h4 : ray_t.min < fin t ∧ fin t < ray_t.max
        · have h4' : ray_t.surrounds (1 / vec3.dot (mt.v1.sub mt.v0)
              (vec3.cross r.dir (mt.v2.sub mt.v0)) *
              vec3.dot (mt.v2.sub mt.v0) (vec3.cross (r.orig.sub mt.v0) (mt.v1.sub mt.v0)))
              = true := (interval.surrounds_iff _ _).mpr h4
          simp only [h4', Bool.not_true, Bool.false_eq_true, if_false]
          push_neg at h2 h3
          rw [if_pos ⟨not_lt.mp h1, h2, h3, h4⟩]
          simp [hit_record.set_face_normal, t, a, h, q, s, edge1, edge2]
        · have h4' : ray_t.surrounds (1 / vec3.dot (mt.v1.sub mt.v0)
              (vec3.cross r.dir (mt.v2.sub mt.v0)) *
              vec3.dot (mt.v2.sub mt.v0) (vec3.cross (r.orig.sub mt.v0) (mt.v1.sub mt.v0)))
              = false := by
            rw [← Bool.not_eq_true, interval.surrounds_iff]
            exact h4
          simp only [h4', Bool.not_false, if_true]
          rw [if_neg]
          rintro ⟨_, _, _, hh⟩
          exact h4 hh

/-- The identity behind the Möller–Trumbore test, without the division by `a`. -/
theorem moller_trumbore_scaled (v0 v1 v2 o d : vec3 F) :
    (vec3.smul (vec3.dot (v1.sub v0) (vec3.cross d (v2.sub v0))) (o.sub v0)).add
        (vec3.smul (vec3.dot (v2.sub v0) (vec3.cross (o.sub v0) (v1.sub v0))) d) =
      (vec3.smul (vec3.dot (o.sub v0) (vec3.cross d (v2.sub v0))) (v1.sub v0)).add
        (vec3.smul (vec3.dot d (vec3.cross (o.sub v0) (v1.sub v0))) (v2.sub v0)) := by
  simp only [vec3.add, vec3.smul, vec3.dot, vec3.cross, vec3.sub]
  ext <;> simp only [] <;> ring

/-- With `a ≠ 0` the point of the ray at the parameter that `mesh_triangle::hit` computes has
the barycentric coordinates it computes. -/
theorem moller_trumbore (v0 v1 v2 o d : vec3 F)
    (ha : vec3.dot (v1.sub v0) (vec3.cross d (v2.sub v0)) ≠ 0) :
    o.add (vec3.smul (1 / vec3.dot (v1.sub v0) (vec3.cross d (v2.sub v0)) *
        vec3.dot (v2.sub v0) (vec3.cross (o.sub v0) (v1.sub v0))) d) =
      ((vec3.smul (1 - 1 / vec3.dot (v1.sub v0) (vec3.cross d (v2.sub v0)) *
            vec3.dot (o.sub v0) (vec3.cross d (v2.sub v0)) -
          1 / vec3.dot (v1.sub v0) (vec3.cross d (v2.sub v0)) *
            vec3.dot d (vec3.cross (o.sub v0) (v1.sub v0))) v0).add
        (vec3.smul (1 / vec3.dot (v1.sub v0) (vec3.cross d (v2.sub v0)) *
          vec3.dot (o.sub v0) (vec3.cross d (v2.sub v0))) v1)).add
        (vec3.smul (1 / vec3.dot (v1.sub v0) (vec3.cross d (v2.sub v0)) *
          vec3.dot d (vec3.cross (o.sub v0) (v1.sub v0))) v2) := by
  have hid := moller_trumbore_scaled v0 v1 v2 o d
  have hx := congrArg vec3.x hid
  have hy := congrArg vec3.y hid
  have hz := congrArg vec3.z hid
  generalize vec3.dot (v1.sub v0) (vec3.cross d (v2.sub v0)) = a at ha hx hy hz ⊢
  generalize vec3.dot (v2.sub v0) (vec3.cross (o.sub v0) (v1.sub v0)) = T at hx hy hz ⊢
  generalize vec3.dot (o.sub v0) (vec3.cross d (v2.sub v0)) = U at hx hy hz ⊢
  generalize vec3.dot d (vec3.cross (o.sub v0) (v1.sub v0)) = V at hx hy hz ⊢
  simp only [vec3.add, vec3.smul, vec3.sub] at hx hy hz ⊢
  ext <;> simp only [] <;> field_simp
  · linear_combination hx
  · linear_combination hy
  · linear_combination hz

end mesh_hit

section mesh_hit_claims

variable {F M : Type} [LinearOrderedField F]

/-- Claim C23, amended: with arithmetic read over the reals, if `mesh_triangle::hit` returns
`true` there are `u >= 0` and `v >= 0` with
`u + v <= 1` such that `rec.p = r.at(rec.t) = (1 - u - v) v0 + u v1 + v v2`, and `rec.t` is
strictly inside the interval; a triangle of zero area, `cross(v1 - v0, v2 - v0) = 0`, is
never hit: the call returns `false` and leaves the record as it was. -/
theorem mesh_triangle_hit_contract (m : Libm F) (mt : mesh_triangle F M) (r : ray F)
    (ray_t : interval F) (rc : hit_record F M) :
    (∀ out, mt.hit m r ray_t rc = .ok (true, out) →
      ∃ u v : F, 0 ≤ u ∧ 0 ≤ v ∧ u + v ≤ 1 ∧ out.p = r.«at» out.t ∧
        out.p = ((vec3.smul (1 - u - v) mt.v0).add (vec3.smul u mt.v1)).add
          (vec3.smul v mt.v2) ∧
        ray_t.min < fin out.t ∧ fin out.t < ray_t.max) ∧
    (vec3.cross (mt.v1.sub mt.v0) (mt.v2.sub mt.v0) = vec3.zero →
      mt.hit m r ray_t rc = .ok (false, rc)) := by
  obtain ⟨n, hn⟩ := vec3.unit_vector_ok m (vec3.cross (mt.v1.sub mt.v0) (mt.v2.sub mt.v0))
  have heq := mesh_triangle_hit_eq m mt r ray_t rc n hn
  simp only at heq
  constructor
  · intro out h
    rw [heq] at h
    split at h
    · rename_i hc
      obtain ⟨ha, ⟨hu0, _⟩, ⟨hv0, huv⟩, ht0, ht1⟩ := hc
      simp only [Except.ok.injEq, Prod.mk.injEq, true_and] at h
      subst h
      have ha0 : vec3.dot (mt.v1.sub mt.v0) (vec3.cross r.dir (mt.v2.sub mt.v0)) ≠ 0 := by
        intro h0
        rw [h0, abs_zero] at ha
        have : (0 : F) < mesh_triangle.epsilon := by
          rw [mesh_triangle.epsilon]
          norm_num
        exact absurd ha (not_le.mpr this)
      exact ⟨_, _, hu0, hv0, huv, rfl, moller_trumbore mt.v0 mt.v1 mt.v2 r.orig r.dir ha0,
        ht0, ht1⟩
    · simp at h
  · intro hz
    rw [heq, if_neg]
    rintro ⟨ha, _⟩
    have h0 : vec3.dot (mt.v1.sub mt.v0) (vec3.cross r.dir (mt.v2.sub mt.v0)) =
        -vec3.dot r.dir (vec3.cross (mt.v1.sub mt.v0) (mt.v2.sub mt.v0)) := by
      simp only [vec3.dot, vec3.cross]
      ring
    rw [h0, hz] at ha
    simp only [vec3.dot, vec3.zero, mul_zero, add_zero, neg_zero, abs_zero,
      mesh_triangle.epsilon] at ha
    norm_num at ha

/-- Example for C23: the mesh triangle whose three vertices are the origin has no area, and
the ray from `(0, 0, 5)` towards `-z`, which passes through it, does not hit it. -/
theorem mesh_triangle_hit_contract_witness :
    (⟨⟨0, 0, 0⟩, ⟨0, 0, 0⟩, ⟨0, 0, 0⟩, none⟩ : mesh_triangle ℝ Unit).hit
      ⟨Real.sqrt, Real.arccos, fun y x => Complex.arg ⟨x, y⟩, Real.sin, Real.cos, Real.tan⟩
      ⟨⟨0, 0, 5⟩, ⟨0, 0, -1⟩, 0⟩ ⟨fin (1 / 1000), INF⟩ hit_record.fresh =
      .ok (false, hit_record.fresh) :=
  (mesh_triangle_hit_contract
    (⟨Real.sqrt, Real.arccos, fun y x => Complex.arg ⟨x, y⟩, Real.sin, Real.cos, Real.tan⟩ :
      Libm ℝ) (⟨⟨0, 0, 0⟩, ⟨0, 0, 0⟩, ⟨0, 0, 0⟩, none⟩ : mesh_triangle ℝ Unit)
    ⟨⟨0, 0, 5⟩, ⟨0, 0, -1⟩, 0⟩ ⟨fin (1 / 1000), INF⟩ hit_record.fresh).2
    (by simp [vec3.cross, vec3.sub, vec3.zero])

/-- Claim C27: `triangle::hit` and `mesh_triangle::hit` do not write the surface
coordinates: after a hit `rec.u` and `rec.v` are what they were before the call, while `t`,
`p`, `normal`, `front_face` and `mat` are set from the hit. -/
theorem triangle_hits_frame (m : Libm F) (tr : triangle F M) (mt : mesh_triangle F M)
    (r : ray F) (ray_t : interval F) (rc : hit_record F M) :
    (∀ out, tr.hit r ray_t rc = .ok (true, out) →
      out.u = rc.u ∧ out.v = rc.v ∧
      out.t = (tr.D - vec3.dot tr.normal r.orig) / vec3.dot tr.normal r.dir ∧
      out.p = r.«at» out.t ∧ out.mat = tr.mat ∧
      out.front_face = decide (vec3.dot r.dir tr.normal < 0) ∧
      out.normal = if vec3.dot r.dir tr.normal < 0 then tr.normal else tr.normal.neg) ∧
    (∀ out, mt.hit m r ray_t rc = .ok (true, out) →
      out.u = rc.u ∧ out.v = rc.v ∧
      ∃ n, vec3.unit_vector m (vec3.cross (mt.v1.sub mt.v0) (mt.v2.sub mt.v0)) = .ok n ∧
        out.t = 1 / vec3.dot (mt.v1.sub mt.v0) (vec3.cross r.dir (mt.v2.sub mt.v0)) *
          vec3.dot (mt.v2.sub mt.v0) (vec3.cross (r.orig.sub mt.v0) (mt.v1.sub mt.v0)) ∧
        out.p = r.«at» out.t ∧ out.mat = mt.mat ∧
        out.front_face = decide (vec3.dot r.dir n < 0) ∧
        out.normal = if vec3.dot r.dir n < 0 then n else n.neg) := by
  constructor
  · intro out h
    have heq := triangle_hit_eq tr r ray_t rc
    simp only at heq
    rw [heq] at h
    split at h
    · simp only [Except.ok.injEq, Prod.mk.injEq, true_and] at h
      subst h
      exact ⟨rfl, rfl, rfl, rfl, rfl, rfl, rfl⟩
    · simp at h
  · intro out h
    obtain ⟨n, hn⟩ := vec3.unit_vector_ok m (vec3.cross (mt.v1.sub mt.v0) (mt.v2.sub mt.v0))
    have heq := mesh_triangle_hit_eq m mt r ray_t rc n hn
    simp only at heq
    rw [heq] at h
    split at h
    · simp only [Except.ok.injEq, Prod.mk.injEq, true_and] at h
      subst h
      exact ⟨rfl, rfl, n, hn, rfl, rfl, rfl, rfl, rfl⟩
    · simp at h

/-- Example for C27: the triangle `(0,0,0)`, `(1,0,0)`, `(0,1,0)` is hit by the ray from
`(1/4, 1/4, 1)` towards `-z`; the record that held `u = 7` and `v = 9` before the call holds
them after it. -/
theorem triangle_hits_frame_witness :
    ∃ out, (⟨⟨0, 0, 0⟩, ⟨1, 0, 0⟩, ⟨0, 1, 0⟩, ⟨1, 0, 0⟩, ⟨0, 1, 0⟩, ⟨0, 0, 1⟩, 0, none,
        AABB.empty⟩ : triangle ℚ Unit).hit ⟨⟨1 / 4, 1 / 4, 1⟩, ⟨0, 0, -1⟩, 0⟩
        ⟨fin (1 / 1000), INF⟩ { (hit_record.fresh : hit_record ℚ Unit) with u := 7, v := 9 } =
        .ok (true, out) ∧ out.u = 7 ∧ out.v = 9 := by
  have h := triangle_hit_eq (⟨⟨0, 0, 0⟩, ⟨1, 0, 0⟩, ⟨0, 1, 0⟩, ⟨1, 0, 0⟩, ⟨0, 1, 0⟩,
    ⟨0, 0, 1⟩, 0, none, AABB.empty⟩ : triangle ℚ Unit) ⟨⟨1 / 4, 1 / 4, 1⟩, ⟨0, 0, -1⟩, 0⟩
    ⟨fin (1 / 1000), INF⟩ { (hit_record.fresh : hit_record ℚ Unit) with u := 7, v := 9 }
  simp only at h
  rw [if_pos] at h
  · obtain ⟨h1, h2, -⟩ := (triangle_hits_frame (⟨fun x => x, fun x => x, fun y _ => y,
      fun x => x, fun x => x, fun x => x⟩ : Libm ℚ) _ (⟨⟨0, 0, 0⟩, ⟨0, 0, 0⟩, ⟨0, 0, 0⟩,
      none⟩ : mesh_triangle ℚ Unit) _ _ _).1 _ h
    exact ⟨_, h, h1, h2⟩
  · refine ⟨?_, ⟨?_, ?_⟩, ?_, ?_, ?_⟩
    · norm_num [vec3.dot]
    · rw [fin_le_fin]
      norm_num [vec3.dot]
    · exact (fin_lt_INF _).le
    · norm_num [vec3.dot, vec3.cross, vec3.sub, ray.«at», vec3.add, vec3.smul]
    · norm_num [vec3.dot, vec3.cross, vec3.sub, ray.«at», vec3.add, vec3.smul]
    · norm_num [vec3.dot, vec3.cross, vec3.sub, ray.«at», vec3.add, vec3.smul]

end mesh_hit_claims

/-! ## `Camera::ray_color`: termination and the number of queries -/

section ray_color_queries

variable {F M : Type} [LinearOrderedField F]

/-- Recording the queries does not change the outcome of `ray_color`. -/
theorem Camera.ray_color_traced_fst (c : Camera F) (mo : material_ops F M)
    (world : ray F → interval F → hit_record F M → HitResult F M) :
    ∀ (fuel : Nat) (r : ray F) (depth : Int) (g : XorShift32),
      (c.ray_color_traced mo world fuel r depth g).1 = c.ray_color mo world fuel r depth g := by
  intro fuel
  induction fuel with
  | zero =>
    intro r depth g
    rw [Camera.ray_color_traced, Camera.ray_color]
    split_ifs <;> rfl
  | succ n ih =>
    intro r depth g
    rw [Camera.ray_color_traced, Camera.ray_color]
    split_ifs with hd
    · rfl
    · simp only []
      rcases hw : world r ⟨fin (1 / 1000), INF⟩ hit_record.fresh with e | ⟨b, rc⟩
      · rfl
      · cases b
        · rfl
        · simp only []
          cases hm : rc.mat with
          | none => rfl
          | some mt =>
            simp only []
            rcases hs : mo.scatter mt r rc g with ⟨o, g1⟩
            cases o with
            | none => rfl
            | some as =>
              obtain ⟨att, sc⟩ := as
              simp only [ih]

/-- The queries of a run of `ray_color` from depth `d ≥ 0` with fuel at least `d`: at most
`d`, and the `k`-th is made at depth `d - k`. -/
theorem Camera.ray_color_traced_queries (c : Camera F) (mo : material_ops F M)
    (world : ray F → interval F → hit_record F M → HitResult F M) :
    ∀ (fuel : Nat) (r : ray F) (depth : Int) (g : XorShift32), 0 ≤ depth →
      depth.toNat ≤ fuel →
      (c.ray_color_traced mo world fuel r depth g).2.length ≤ depth.toNat ∧
      ∀ (k : Nat) (q : ray F × Int),
        (c.ray_color_traced mo world fuel r depth g).2[k]? = some q → q.2 = depth - k := by
  intro fuel
  induction fuel with
  | zero =>
    intro r depth g h0 hf
    have hd : depth = 0 := by omega
    rw [Camera.ray_color_traced, if_pos hd]
    simp
  | succ n ih =>
    intro r depth g h0 hf
    rw [Camera.ray_color_traced]
    split_ifs with hd
    · simp
    · have hpos : 1 ≤ depth.toNat := by omega
      have hone : ∀ (k : Nat) (q : ray F × Int), [(r, depth)][k]? = some q →
          q.2 = depth - k := by
        intro k q hq
        cases k with
        | zero =>
          simp only [List.getElem?_cons_zero, Option.some.injEq] at hq
          subst hq
          simp
        | succ k => simp at hq
      simp only []
      rcases hw : world r ⟨fin (1 / 1000), INF⟩ hit_record.fresh with e | ⟨b, rc⟩
      · exact ⟨hpos, hone⟩
      · cases b
        · exact ⟨hpos, hone⟩
        · simp only []
          cases hm : rc.mat with
          | none => exact ⟨hpos, hone⟩
          | some mt =>
            simp only []
            rcases hs : mo.scatter mt r rc g with ⟨o, g1⟩
            cases o with
            | none => exact ⟨hpos, hone⟩
            | some as =>
              obtain ⟨att, sc⟩ := as
              simp only []
              obtain ⟨h1, h2⟩ := ih sc (depth - 1) g1 (by omega) (by omega)
              refine ⟨?_, ?_⟩
              · rw [List.length_cons]
                omega
              · intro k q hq
                cases k with
                | zero =>
                  simp only [List.getElem?_cons_zero, Option.some.injEq] at hq
                  subst hq
                  simp
                | succ k =>
                  rw [List.getElem?_cons_succ] at hq
                  have := h2 k q hq
                  rw [this]
                  push_cast
                  ring

/-- Claim C25: `ray_color` called with depth `d >= 0` terminates, fuel `d` is enough for the
recursion, and makes at most `d` scene-intersection queries, whatever the scene and the
materials do: the `k`-th query is made by the call at depth `d - k`, so each recursive call
has depth one less and there is none at depth 0. -/
theorem ray_color_query_bound (c : Camera F) (mo : material_ops F M)
    (world : ray F → interval F → hit_record F M → HitResult F M) (fuel : Nat) (r : ray F)
    (d : Int) (g : XorShift32) (hd : 0 ≤ d) (hfuel : d.toNat ≤ fuel) :
    (c.ray_color_traced mo world fuel r d g).1 = c.ray_color mo world fuel r d g ∧
    c.ray_color mo world fuel r d g ≠ .fuel_out ∧
    ((c.ray_color_traced mo world fuel r d g).2.length : Int) ≤ d ∧
    (∀ (k : Nat) (q : ray F × Int),
      (c.ray_color_traced mo world fuel r d g).2[k]? = some q → q.2 = d - k ∧ 1 ≤ q.2) ∧
    (d = 0 → (c.ray_color_traced mo world fuel r d g).2 = []) := by
  obtain ⟨h1, h2⟩ := c.ray_color_traced_queries mo world fuel r d g hd hfuel
  refine ⟨c.ray_color_traced_fst mo world fuel r d g,
    c.ray_color_fuel mo world fuel d r g hd hfuel, by omega, ?_, ?_⟩
  · intro k q hq
    have hk : k < (c.ray_color_traced mo world fuel r d g).2.length := by
      by_contra hlt
      rw [List.getElem?_eq_none (not_lt.mp hlt)] at hq
      exact Option.noConfusion hq
    have := h2 k q hq
    exact ⟨this, by omega⟩
  · intro h0
    apply List.eq_nil_of_length_eq_zero
    have : d.toNat = 0 := by omega
    omega

/-- Example for C25: at depth 1 over a scene that is always missed, `ray_color` makes one
query and returns the background. -/
theorem ray_color_query_bound_witness :
    (((Camera.default_config : Camera ℚ).ray_color_traced
        (⟨fun _ _ _ _ => (⟨0, 0, 0⟩ : vec3 ℚ), fun (_ : Unit) _ _ g => (none, g)⟩ :
          material_ops ℚ Unit)
        (fun _ _ rc => .ok (false, rc)) 1 ⟨⟨0, 0, 0⟩, ⟨0, 0, -1⟩, 0⟩ 1 ⟨1⟩).2.length : Int)
      ≤ 1 :=
  (ray_color_query_bound (Camera.default_config : Camera ℚ)
    (⟨fun _ _ _ _ => (⟨0, 0, 0⟩ : vec3 ℚ), fun (_ : Unit) _ _ g => (none, g)⟩ :
      material_ops ℚ Unit)
    (fun _ _ rc => .ok (false, rc)) 1 ⟨⟨0, 0, 0⟩, ⟨0, 0, -1⟩, 0⟩ 1 ⟨1⟩ (by norm_num)
    (by decide)).2.2.1

end ray_color_queries

/-! ## `XorShift32::next_u32` is a bijection -/

section xorshift

theorem testBit_of_lt_u32 (x j : Nat) (hx : x < 2 ^ 32) (hj : 32 ≤ j) : x.testBit j = false :=
  Nat.testBit_lt_two_pow (lt_of_lt_of_le hx (Nat.pow_le_pow_right (by norm_num) hj))

/-- The step `x ^= x << a` on 32 bits is injective. -/
theorem xor_shl_injective (a : Nat) (ha : 0 < a) (x y : Nat) (hx : x < 4294967296)
    (hy : y < 4294967296)
    (h : x ^^^ ((x <<< a) % 4294967296) = y ^^^ ((y <<< a) % 4294967296)) : x = y := by
  have h32 : (4294967296 : Nat) = 2 ^ 32 := by norm_num
  rw [h32] at hx hy h
  apply Nat.eq_of_testBit_eq
  intro j
  induction j using Nat.strong_induction_on with
  | _ j ih =>
    have hj := congrArg (fun n => n.testBit j) h
    simp only [Nat.testBit_xor, Nat.testBit_mod_two_pow, Nat.testBit_shiftLeft] at hj
    by_cases h1 : j < 32
    · by_cases h2 : a ≤ j
      · have := ih (j - a) (by omega)
        simp only [h1, h2, decide_True, Bool.true_and, ge_iff_le, this] at hj
        exact Bool.xor_right_inj.mp hj
      · simp only [h1, h2, decide_True, decide_False, Bool.true_and, Bool.false_and,
          ge_iff_le, Bool.xor_false] at hj
        exact hj
    · rw [testBit_of_lt_u32 x j hx (not_lt.mp h1), testBit_of_lt_u32 y j hy (not_lt.mp h1)]

/-- The step `x ^= x >> b` on 32 bits is injective. -/
theorem xor_shr_injective (b : Nat) (hb : 0 < b) (x y : Nat) (hx : x < 4294967296)
    (hy : y < 4294967296) (h : x ^^^ (x >>> b) = y ^^^ (y >>> b)) : x = y := by
  have h32 : (4294967296 : Nat) = 2 ^ 32 := by norm_num
  rw [h32] at hx hy
  apply Nat.eq_of_testBit_eq
  have key : ∀ n j : Nat, 32 ≤ j + n → x.testBit j = y.testBit j := by
    intro n
    induction n using Nat.strong_induction_on with
    | _ n ih =>
      intro j hjn
      by_cases h1 : 32 ≤ j
      · rw [testBit_of_lt_u32 x j hx h1, testBit_of_lt_u32 y j hy h1]
      · have hj := congrArg (fun n => n.testBit j) h
        simp only [Nat.testBit_xor, Nat.testBit_shiftRight] at hj
        have := ih (n - b) (by omega) (b + j) (by omega)
        rw [this] at hj
        exact Bool.xor_right_inj.mp hj
  intro j
  exact key 32 j (by omega)

theorem XorShift32.next_u32_injective (s s' : Nat) (hs : s < 4294967296)
    (hs' : s' < 4294967296)
    (h : (XorShift32.next_u32 ⟨s⟩).1 = (XorShift32.next_u32 ⟨s'⟩).1) : s = s' := by
  have h32 : (4294967296 : Nat) = 2 ^ 32 := by norm_num
  have b1 : ∀ t : Nat, t < 4294967296 → t ^^^ ((t <<< 13) % 4294967296) < 4294967296 := by
    intro t ht
    rw [h32] at ht ⊢
    exact Nat.xor_lt_two_pow ht (Nat.mod_lt _ (by norm_num))
  have b2 : ∀ t : Nat, t < 4294967296 → t ^^^ (t >>> 17) < 4294967296 := by
    intro t ht
    rw [h32] at ht ⊢
    exact Nat.xor_lt_two_pow ht (lt_of_le_of_lt
      (by rw [Nat.shiftRight_eq_div_pow]; exact Nat.div_le_self _ _) ht)
  simp only [XorShift32.next_u32] at h
  have e3 := xor_shl_injective 5 (by norm_num) _ _ (b2 _ (b1 s hs)) (b2 _ (b1 s' hs')) h
  have e2 := xor_shr_injective 17 (by norm_num) _ _ (b1 s hs) (b1 s' hs') e3
  exact xor_shl_injective 13 (by norm_num) _ _ hs hs' e2

theorem XorShift32.next_u32_surjective (y : Nat) (hy : y < 4294967296) :
    ∃ s, s < 4294967296 ∧ (XorShift32.next_u32 ⟨s⟩).1 = y := by
  have hsub : Finset.image (fun s => (XorShift32.next_u32 ⟨s⟩).1) (Finset.range 4294967296) ⊆
      Finset.range 4294967296 := by
    intro z hz
    rw [Finset.mem_image] at hz
    obtain ⟨s, hs, rfl⟩ := hz
    rw [Finset.mem_range] at hs ⊢
    exact (XorShift32.next_u32_lt ⟨s⟩ hs).1
  have hinj : Set.InjOn (fun s => (XorShift32.next_u32 ⟨s⟩).1)
      (Finset.range 4294967296 : Finset Nat) := by
    intro s hs s' hs' h
    rw [Finset.coe_range, Set.mem_Iio] at hs hs'
    exact XorShift32.next_u32_injective s s' hs hs' h
  have heq := Finset.eq_of_subset_of_card_le hsub
    (le_of_eq (Finset.card_image_of_injOn hinj).symm)
  have hmem : y ∈ Finset.image (fun s => (XorShift32.next_u32 ⟨s⟩).1)
      (Finset.range 4294967296) := by
    rw [heq, Finset.mem_range]
    exact hy
  rw [Finset.mem_image] at hmem
  obtain ⟨s, hs, h⟩ := hmem
  exact ⟨s, Finset.mem_range.mp hs, h⟩

/-- Claim C28: `next_u32` is a bijection of the 32-bit states that fixes 0. The new state is
the returned value and is below `2^32`; different states give different values and every
32-bit value is returned from some state; from a state that is not 0 the new state is not 0;
from the state 0 the state stays 0 and every output is 0. -/
theorem next_u32_bijection :
    (∀ s, s < 4294967296 → (XorShift32.next_u32 ⟨s⟩).1 < 4294967296 ∧
      (XorShift32.next_u32 ⟨s⟩).2.state = (XorShift32.next_u32 ⟨s⟩).1) ∧
    (∀ s s', s < 4294967296 → s' < 4294967296 →
      (XorShift32.next_u32 ⟨s⟩).1 = (XorShift32.next_u32 ⟨s'⟩).1 → s = s') ∧
    (∀ y, y < 4294967296 → ∃ s, s < 4294967296 ∧ (XorShift32.next_u32 ⟨s⟩).1 = y) ∧
    (∀ s, s < 4294967296 → s ≠ 0 → (XorShift32.next_u32 ⟨s⟩).1 ≠ 0 ∧
      (XorShift32.next_u32 ⟨s⟩).2.state ≠ 0) ∧
    XorShift32.next_u32 ⟨0⟩ = (0, ⟨0⟩) ∧
    (∀ n : Nat, (fun g => (XorShift32.next_u32 g).2)^[n] ⟨0⟩ = ⟨0⟩ ∧
      (XorShift32.next_u32 ((fun g => (XorShift32.next_u32 g).2)^[n] ⟨0⟩)).1 = 0) := by
  have h0 : XorShift32.next_u32 ⟨0⟩ = (0, ⟨0⟩) := by decide
  have hfix : ∀ n : Nat, (fun g => (XorShift32.next_u32 g).2)^[n] ⟨0⟩ = ⟨0⟩ :=
    Function.iterate_fixed (by rw [h0])
  refine ⟨fun s hs => ⟨(XorShift32.next_u32_lt ⟨s⟩ hs).1, rfl⟩,
    fun s s' hs hs' h => XorShift32.next_u32_injective s s' hs hs' h,
    XorShift32.next_u32_surjective, ?_, h0, fun n => ⟨hfix n, by rw [hfix n, h0]⟩⟩
  intro s hs hne
  have hz : (XorShift32.next_u32 ⟨s⟩).1 ≠ 0 := by
    intro hz
    apply hne
    apply XorShift32.next_u32_injective s 0 hs (by norm_num)
    rw [hz, h0]
  exact ⟨hz, hz⟩

/-- Example for C28: from the default seed `88675123` the generator does not reach 0. -/
theorem next_u32_bijection_witness : (XorShift32.next_u32 ⟨88675123⟩).1 ≠ 0 :=
  (next_u32_bijection.2.2.2.1 88675123 (by norm_num) (by norm_num)).1

end xorshift

/-! ## The SSE specialisation against the generic `VecN<float, 3>` -/

section simd

open simd_utils

variable {F : Type} [LinearOrderedField F]

/-- The horizontal sum is the sum of the four lanes, with and without SSE3. -/
theorem horizontal_sum_sse_eq (sse3 : Bool) (v : m128 F) :
    horizontal_sum_sse sse3 v = v.e0 + v.e1 + v.e2 + v.e3 := by
  cases sse3
  · simp only [horizontal_sum_sse, mm_shuffle_ps, mm_add_ps, mm_movehl_ps, mm_add_ss,
      mm_cvtss_f32, lane, Bool.false_eq_true, if_false]
    ring
  · simp only [horizontal_sum_sse, mm_hadd_ps, mm_cvtss_f32, if_true]
    ring

/-- The arithmetic of the SSE specialisation is that of the generic template. -/
theorem simd_arith_eq (sse3 : Bool) (a b : vec3 F) (s : F) :
    (vec3_simd.neg ⟨a⟩).v = a.neg ∧
    (vec3_simd.add ⟨a⟩ ⟨b⟩).v = a.add b ∧
    (vec3_simd.sub ⟨a⟩ ⟨b⟩).v = a.sub b ∧
    (vec3_simd.hadamard ⟨a⟩ ⟨b⟩).v = a.hadamard b ∧
    (vec3_simd.smul s ⟨a⟩).v = vec3.smul s a ∧
    vec3_simd.dot sse3 ⟨a⟩ ⟨b⟩ = vec3.dot a b ∧
    (vec3_simd.cross ⟨a⟩ ⟨b⟩).v = vec3.cross a b ∧
    vec3_simd.length_squared sse3 ⟨a⟩ = a.length_squared := by
  refine ⟨?_, ?_, ?_, ?_, ?_, ?_, ?_, ?_⟩
  · simp [vec3_simd.neg, vec3.neg, load_vec3, mm_set_ps, mm_setzero_ps, mm_sub_ps, store_vec3]
  · simp [vec3_simd.add, vec3.add, load_vec3, mm_set_ps, mm_add_ps, store_vec3]
  · simp [vec3_simd.sub, vec3.sub, load_vec3, mm_set_ps, mm_sub_ps, store_vec3]
  · simp [vec3_simd.hadamard, vec3.hadamard, load_vec3, mm_set_ps, mm_mul_ps, store_vec3]
  · simp only [vec3_simd.smul, vec3.smul, load_vec3, mm_set_ps, mm_set1_ps, mm_mul_ps,
      store_vec3]
    ext <;> simp only [] <;> ring
  · simp only [vec3_simd.dot, horizontal_sum_sse_eq, vec3.dot, load_vec3, mm_set_ps,
      mm_mul_ps]
    ring
  · simp only [vec3_simd.cross, vec3.cross, load_vec3, mm_set_ps, mm_shuffle_ps, mm_mul_ps,
      mm_sub_ps, store_vec3, lane]
  · simp only [vec3_simd.length_squared, horizontal_sum_sse_eq, vec3.length_squared,
      load_vec3, mm_set_ps, mm_mul_ps]
    ring

/-- The test `near_zero` of the generic template: every component is below `epsilon` in
absolute value. -/
theorem vec3.near_zero_iff (v : vec3 F) :
    v.near_zero = true ↔ |v.x| < FLT_EPSILON ∧ |v.y| < FLT_EPSILON ∧ |v.z| < FLT_EPSILON := by
  simp only [vec3.near_zero, ge_iff_le]
  split_ifs with h1 h2 h3
  · simp [not_lt.mpr h1]
  · simp [not_lt.mpr h2]
  · simp [not_lt.mpr h3]
  · simp [not_le.mp h1, not_le.mp h2, not_le.mp h3]

/-- The test `nearlyEqual(a, 0.0f)`, which the specialisation uses: `a` is 0 or below
`epsilon * FLT_MIN = 2⁻¹⁴⁹` in absolute value. -/
theorem nearlyEqual_zero (a : F) :
    nearlyEqual a 0 FLT_EPSILON = true ↔ |a| < FLT_EPSILON * FLT_MIN := by
  simp only [nearlyEqual, sub_zero, true_or, or_true, if_true]
  split_ifs with h
  · subst h
    simp only [abs_zero, true_iff]
    rw [FLT_EPSILON, FLT_MIN]
    positivity
  · simp

/-- Claim C29, the defect: the arithmetic of the SSE specialisation (negation, `+`, `-`, the
component-wise product, the product with a scalar, `dot`, `cross`, `length_squared`) returns
the values of the generic template, but `near_zero` does not: on `(2⁻²⁴, 0, 0)` the generic
template returns `true`, because `2⁻²⁴ < epsilon`, and the specialisation returns `false`,
because `nearlyEqual(2⁻²⁴, 0)` compares with `epsilon * FLT_MIN`. -/
theorem simd_near_zero_differs :
    (∀ (sse3 : Bool) (a b : vec3 ℚ) (s : ℚ),
      (vec3_simd.neg ⟨a⟩).v = a.neg ∧ (vec3_simd.add ⟨a⟩ ⟨b⟩).v = a.add b ∧
      (vec3_simd.sub ⟨a⟩ ⟨b⟩).v = a.sub b ∧
      (vec3_simd.hadamard ⟨a⟩ ⟨b⟩).v = a.hadamard b ∧
      (vec3_simd.smul s ⟨a⟩).v = vec3.smul s a ∧
      vec3_simd.dot sse3 ⟨a⟩ ⟨b⟩ = vec3.dot a b ∧
      (vec3_simd.cross ⟨a⟩ ⟨b⟩).v = vec3.cross a b ∧
      vec3_simd.length_squared sse3 ⟨a⟩ = a.length_squared) ∧
    (⟨1 / 2 ^ 24, 0, 0⟩ : vec3 ℚ).near_zero = true ∧
    (⟨⟨1 / 2 ^ 24, 0, 0⟩⟩ : vec3_simd ℚ).near_zero = false := by
  refine ⟨fun sse3 a b s => simd_arith_eq sse3 a b s, ?_, ?_⟩
  · rw [vec3.near_zero_iff]
    simp only [FLT_EPSILON, abs_zero]
    refine ⟨?_, by positivity, by positivity⟩
    rw [abs_of_nonneg (by positivity)]
    norm_num
  · have h : nearlyEqual (1 / 2 ^ 24 : ℚ) 0 FLT_EPSILON = false := by
      rw [← Bool.not_eq_true, nearlyEqual_zero, abs_of_nonneg (by positivity), FLT_EPSILON,
        FLT_MIN]
      norm_num
    simp only [vec3_simd.near_zero, h, Bool.false_and]

end simd

/-! ## The permutation tables of `perlin` -/

section perlin_tables

theorem mem_int_range_256 (x : Int) : x ∈ int_range 256 ↔ 0 ≤ x ∧ x ≤ 255 := by
  rw [mem_int_range]
  omega

theorem int_range_length (n : Int) : (int_range n).length = n.toNat := by
  simp [int_range]

/-- The bit mask `x & 255` of an `int` is in `0..255`. -/
theorem land_255_range (x : Int) : 0 ≤ Int.land x 255 ∧ Int.land x 255 ≤ 255 := by
  have h255 : (255 : Int) = Int.ofNat 255 := rfl
  rw [h255]
  cases x with
  | ofNat m =>
    show 0 ≤ ((m &&& 255 : Nat) : Int) ∧ ((m &&& 255 : Nat) : Int) ≤ Int.ofNat 255
    have : m &&& 255 ≤ 255 := Nat.and_le_right
    constructor
    · exact Int.natCast_nonneg _
    · exact Int.ofNat_le.mpr this
  | negSucc m =>
    show 0 ≤ ((Nat.ldiff 255 m : Nat) : Int) ∧ ((Nat.ldiff 255 m : Nat) : Int) ≤ Int.ofNat 255
    have : Nat.ldiff 255 m < 2 ^ 8 := by
      apply Nat.lt_pow_two_of_testBit
      intro i hi
      rw [Nat.testBit_ldiff]
      have : Nat.testBit 255 i = false :=
        Nat.testBit_lt_two_pow (lt_of_lt_of_le (by norm_num : 255 < 2 ^ 8)
          (Nat.pow_le_pow_right (by norm_num) hi))
      rw [this]
      rfl
    constructor
    · exact Int.natCast_nonneg _
    · exact Int.ofNat_le.mpr (by omega)

/-- The XOR of two `int` values in `0..255` is in `0..255`. -/
theorem xor_255_range (a b : Int) (ha : 0 ≤ a ∧ a ≤ 255) (hb : 0 ≤ b ∧ b ≤ 255) :
    0 ≤ Int.xor a b ∧ Int.xor a b ≤ 255 := by
  obtain ⟨m, rfl⟩ := Int.eq_ofNat_of_zero_le ha.1
  obtain ⟨n, rfl⟩ := Int.eq_ofNat_of_zero_le hb.1
  show 0 ≤ ((m ^^^ n : Nat) : Int) ∧ ((m ^^^ n : Nat) : Int) ≤ 255
  have hm : m < 2 ^ 8 := by omega
  have hn : n < 2 ^ 8 := by omega
  have := Nat.xor_lt_two_pow hm hn
  constructor
  · exact Int.natCast_nonneg _
  · omega

/-- The call `random_int(0, i)` returns a value in `0..i`. -/
theorem random_int_range (i : Int) (g : XorShift32) (h0 : 0 ≤ i) (h1 : i < 2147483647) :
    ∃ t g1, random_int 0 i g = some (t, g1) ∧ 0 ≤ t ∧ t ≤ i := by
  have hd : (i - 0 + 1) % 4294967296 = i + 1 := by omega
  have hd0 : ¬ (i + 1 = 0) := by omega
  have hr0 : 0 ≤ (g.next_u32.1 : Int) % (i + 1) := Int.emod_nonneg _ hd0
  have hr1 : (g.next_u32.1 : Int) % (i + 1) < i + 1 := Int.emod_lt_of_pos _ (by omega)
  refine ⟨(g.next_u32.1 : Int) % (i + 1), g.next_u32.2, ?_, hr0, by omega⟩
  simp only [random_int, hd, if_neg hd0]
  have e1 : ((0 : Int) % 4294967296 + (g.next_u32.1 : Int) % (i + 1)) % 4294967296 =
      (g.next_u32.1 : Int) % (i + 1) := by omega
  rw [e1, to_int32, if_pos (by omega)]

/-- Exchanging two entries of a list gives a permutation of the list. -/
theorem swap_entries_perm (l : List Int) (i t : Nat) (hi : i < l.length) (ht : t < l.length) :
    ((l.set i l[t]).set t l[i]).Perm l := by
  rw [List.perm_iff_count]
  intro b
  have hlen : t < (l.set i l[t]).length := by rw [List.length_set]; exact ht
  rw [List.count_set _ _ _ _ hlen, List.count_set _ _ _ _ hi]
  have hget : (l.set i l[t])[t] = l[t] := by
    rw [List.getElem_set]
    split_ifs <;> rfl
  rw [hget]
  have hpos : (l[i] == b) = true → 1 ≤ List.count b l := by
    intro h
    have : l[i] = b := by simpa using h
    rw [← this]
    exact List.count_pos_iff.mpr (List.getElem_mem _)
  by_cases h1 : (l[i] == b) = true <;> by_cases h2 : (l[t] == b) = true
  · have := hpos h1
    simp only [h1, h2, if_true]
    omega
  · have := hpos h1
    simp only [Bool.not_eq_true] at h2
    simp only [h1, h2, if_true, Bool.false_eq_true, if_false]
    omega
  · simp only [Bool.not_eq_true] at h1
    simp only [h1, h2, if_true, Bool.false_eq_true, if_false]
    omega
  · simp only [Bool.not_eq_true] at h1 h2
    simp only [h1, h2, Bool.false_eq_true, if_false]
    omega

end perlin_tables

section perlin_claim

variable {F : Type} [LinearOrderedField F]

theorem index_array_some {α : Type} (a : List α) (n : Int) (h0 : 0 ≤ n)
    (h1 : n.toNat < a.length) : index_array a n = some (a.get ⟨n.toNat, h1⟩) := by
  rw [index_array, if_pos h0]
  exact List.getElem?_eq_getElem h1

/-- One iteration of `permute` on a table that has the entry `i`: it exchanges entry `i`
with entry `target`, for some `target` in `0..i`. -/
theorem perlin.permute_step_perm (i : Int) (l : List Int) (g : XorShift32) (h0 : 0 ≤ i)
    (h1 : i.toNat < l.length) (h2 : i < 2147483647) :
    ∃ l' g', perlin.permute_step i (l, g) = some (l', g') ∧ l'.Perm l ∧
      ∃ target : Int, 0 ≤ target ∧ target ≤ i ∧
        l' = (l.set i.toNat (l.getD target.toNat 0)).set target.toNat (l.getD i.toNat 0) := by
  obtain ⟨t, g1, hr, ht0, ht1⟩ := random_int_range i g h0 h2
  have htl : t.toNat < l.length := by omega
  have hperm := swap_entries_perm l i.toNat t.toNat h1 htl
  refine ⟨(l.set i.toNat l[t.toNat]).set t.toNat l[i.toNat], g1, ?_, hperm, t, ht0, ht1, ?_⟩
  · simp only [perlin.permute_step, hr, index_array_some l i h0 h1,
      index_array_some l t ht0 htl, assign_array, h0, h1, ht0, htl, List.length_set,
      and_self, if_true, List.get_eq_getElem]
  · rw [List.getD_eq_getElem _ _ htl, List.getD_eq_getElem _ _ h1]

theorem perlin.permute_loop_perm :
    ∀ (k : Nat) (l : List Int) (g : XorShift32), k < l.length → (k : Int) < 2147483647 →
      ∃ l' g', perlin.permute_loop k (l, g) = some (l', g') ∧ l'.Perm l := by
  intro k
  induction k with
  | zero => intro l g _ _; exact ⟨l, g, rfl, List.Perm.refl l⟩
  | succ k ih =>
    intro l g hk hk2
    obtain ⟨l1, g1, hs, hp, -⟩ := perlin.permute_step_perm ((k : Int) + 1) l g (by omega)
      (by omega) (by push_cast at hk2; omega)
    have hlen : l1.length = l.length := hp.length_eq
    obtain ⟨l', g', hl, hp'⟩ := ih l1 g1 (by omega) (by push_cast at hk2; omega)
    refine ⟨l', g', ?_, hp'.trans hp⟩
    rw [perlin.permute_loop, hs]
    exact hl

/-- Every table that `perlin_generate_perm` builds is a permutation of `0..255`. -/
theorem perlin.generate_perm_ok (g : XorShift32) :
    ∃ p g', perlin.perlin_generate_perm g = some (p, g') ∧ perlin.is_perm_table p := by
  have hlen : (int_range perlin.point_count).length = 256 := by
    rw [int_range_length]
    rfl
  obtain ⟨l', g', h, hp⟩ := perlin.permute_loop_perm 255 (int_range perlin.point_count) g
    (by rw [hlen]; norm_num) (by norm_num)
  exact ⟨l', g', h, hp⟩

theorem perlin.table_entry (p : List Int) (hp : perlin.is_perm_table p) (x : Int) :
    ∃ a, index_array p (Int.land x 255) = some a ∧ 0 ≤ a ∧ a ≤ 255 := by
  obtain ⟨h0, h1⟩ := land_255_range x
  have hlen : p.length = 256 := by
    rw [hp.length_eq, int_range_length]
    rfl
  have hl : (Int.land x 255).toNat < p.length := by omega
  refine ⟨_, index_array_some p _ h0 hl, ?_⟩
  have hmem : p.get ⟨(Int.land x 255).toNat, hl⟩ ∈ int_range 256 :=
    hp.subset (List.get_mem _ _ _)
  exact (mem_int_range_256 _).mp hmem

/-- With permutation tables and 256 vectors, every read of `noise_smooth` is inside its
array. -/
theorem perlin.cell_ok (pn : perlin F) (hx : perlin.is_perm_table pn.perm_x)
    (hy : perlin.is_perm_table pn.perm_y) (hz : perlin.is_perm_table pn.perm_z)
    (hr : pn.rand_float.length = 256) (i j k : Int) (d : Int × Int × Int) :
    ∃ a b c x, index_array pn.perm_x (Int.land (i + d.1) 255) = some a ∧
      index_array pn.perm_y (Int.land (j + d.2.1) 255) = some b ∧
      index_array pn.perm_z (Int.land (k + d.2.2) 255) = some c ∧
      (0 ≤ Int.xor (Int.xor a b) c ∧ Int.xor (Int.xor a b) c ≤ 255) ∧
      pn.cell i j k d = some x := by
  obtain ⟨a, ha, ha1⟩ := perlin.table_entry pn.perm_x hx (i + d.1)
  obtain ⟨b, hb, hb1⟩ := perlin.table_entry pn.perm_y hy (j + d.2.1)
  obtain ⟨c, hc, hc1⟩ := perlin.table_entry pn.perm_z hz (k + d.2.2)
  have hxor := xor_255_range _ _ (xor_255_range a b ha1 hb1) hc1
  have hl : (Int.xor (Int.xor a b) c).toNat < pn.rand_float.length := by omega
  refine ⟨a, b, c, pn.rand_float.get ⟨(Int.xor (Int.xor a b) c).toNat, hl⟩, ha, hb, hc,
    hxor, ?_⟩
  simp only [perlin.cell, ha, hb, hc]
  exact index_array_some _ _ hxor.1 hl

theorem perlin.cells_ok (pn : perlin F) (hx : perlin.is_perm_table pn.perm_x)
    (hy : perlin.is_perm_table pn.perm_y) (hz : perlin.is_perm_table pn.perm_z)
    (hr : pn.rand_float.length = 256) (i j k : Int) :
    ∀ ds : List (Int × Int × Int), ∃ cs, pn.cells i j k ds = some cs := by
  intro ds
  induction ds with
  | nil => exact ⟨[], rfl⟩
  | cons d ds ih =>
    obtain ⟨_, _, _, x, -, -, -, -, hcell⟩ := perlin.cell_ok pn hx hy hz hr i j k d
    obtain ⟨cs, hcs⟩ := ih
    exact ⟨(d, x) :: cs, by simp only [perlin.cells, hcell, hcs]⟩

/-- Claim C30: every table built by `perlin_generate_perm` is a permutation of `0..255`:
`random_int(0, i)` is in `0..i` and an iteration of `permute` exchanges entry `i` with that
entry. With such tables, and 256 vectors in `rand_float`, every index that `noise_smooth`
uses is in `0..255`, `(i+di) & 255` into a table and the XOR of three table entries into
`rand_float`, so that no read is outside its array and `noise_smooth` returns. -/
theorem perlin_tables_contract [FloorRing F] :
    (∀ g : XorShift32, ∃ p g', perlin.perlin_generate_perm g = some (p, g') ∧
      perlin.is_perm_table p) ∧
    (∀ (i : Int) (g : XorShift32), 0 ≤ i → i ≤ 255 →
      ∃ t g1, random_int 0 i g = some (t, g1) ∧ 0 ≤ t ∧ t ≤ i) ∧
    (∀ (i : Int) (l : List Int) (g : XorShift32), 0 ≤ i → i ≤ 255 → i.toNat < l.length →
      ∃ l' g', perlin.permute_step i (l, g) = some (l', g') ∧ l'.Perm l ∧
        ∃ target : Int, 0 ≤ target ∧ target ≤ i ∧
          l' = (l.set i.toNat (l.getD target.toNat 0)).set target.toNat
            (l.getD i.toNat 0)) ∧
    (∀ x : Int, 0 ≤ Int.land x 255 ∧ Int.land x 255 ≤ 255) ∧
    (∀ pn : perlin F, perlin.is_perm_table pn.perm_x → perlin.is_perm_table pn.perm_y →
      perlin.is_perm_table pn.perm_z → pn.rand_float.length = 256 →
      (∀ (i j k : Int) (d : Int × Int × Int),
        ∃ a b c x, index_array pn.perm_x (Int.land (i + d.1) 255) = some a ∧
          index_array pn.perm_y (Int.land (j + d.2.1) 255) = some b ∧
          index_array pn.perm_z (Int.land (k + d.2.2) 255) = some c ∧
          (0 ≤ Int.xor (Int.xor a b) c ∧ Int.xor (Int.xor a b) c ≤ 255) ∧
          pn.cell i j k d = some x) ∧
      ∀ p : vec3 F, ∃ y, pn.noise_smooth p = some y) := by
  refine ⟨perlin.generate_perm_ok, fun i g h0 h1 => random_int_range i g h0 (by omega),
    fun i l g h0 h1 h2 => perlin.permute_step_perm i l g h0 h2 (by omega), land_255_range, ?_⟩
  intro pn hx hy hz hr
  refine ⟨perlin.cell_ok pn hx hy hz hr, ?_⟩
  intro p
  obtain ⟨cs, hcs⟩ := perlin.cells_ok pn hx hy hz hr ⌊p.x⌋ ⌊p.y⌋ ⌊p.z⌋ perlin.cube_indices
  simp only [perlin.noise_smooth, hcs]
  exact ⟨_, rfl⟩

/-- Example for C30: from the default seed the table that `perlin_generate_perm` builds is a
permutation of `0..255`. -/
theorem perlin_tables_contract_witness :
    ∃ p g', perlin.perlin_generate_perm ⟨88675123⟩ = some (p, g') ∧
      perlin.is_perm_table p :=
  (perlin_tables_contract (F := ℚ)).1 ⟨88675123⟩

end perlin_claim

/-! ## `hittable_list::hit`: the closest hit -/

section list_hit_forms

variable {F M : Type} [LinearOrderedField F]

theorem hit_form.accepts_widen (hf : hit_form F M) (lo c hi : Ext F) (hc : c ≤ hi) (t : F)
    (h : hf.accepts ⟨lo, c⟩ t) : hf.accepts ⟨lo, hi⟩ t ∧ fin t ≤ c := by
  unfold hit_form.accepts at h ⊢
  split_ifs at h ⊢ with hs
  · exact ⟨⟨h.1, lt_of_lt_of_le h.2 hc⟩, h.2.le⟩
  · exact ⟨⟨h.1, le_trans h.2 hc⟩, h.2⟩

theorem hit_form.accepts_narrow (hf : hit_form F M) (lo c hi : Ext F) (t : F)
    (h : hf.accepts ⟨lo, hi⟩ t) : hf.accepts ⟨lo, c⟩ t ∨ c ≤ fin t := by
  unfold hit_form.accepts at h ⊢
  split_ifs at h ⊢ with hs
  · by_cases h1 : fin t < c
    · exact Or.inl ⟨h.1, h1⟩
    · exact Or.inr (not_lt.mp h1)
  · by_cases h1 : fin t ≤ c
    · exact Or.inl ⟨h.1, h1⟩
    · exact Or.inr (not_le.mp h1).le

/-- A later parameter is not accepted by a shorter interval that rejects an earlier one
which the longer interval accepts. -/
theorem hit_form.accepts_order (hf : hit_form F M) (lo c hi : Ext F) (t1 t2 : F)
    (h12 : t1 ≤ t2) (h1 : hf.accepts ⟨lo, hi⟩ t1) (h1n : ¬ hf.accepts ⟨lo, c⟩ t1) :
    ¬ hf.accepts ⟨lo, c⟩ t2 := by
  unfold hit_form.accepts at h1 h1n ⊢
  have h12' : fin t1 ≤ fin t2 := (fin_le_fin _ _).mpr h12
  split_ifs at h1 h1n ⊢ with hs
  · rintro ⟨-, h2⟩
    exact h1n ⟨h1.1, lt_of_le_of_lt h12' h2⟩
  · rintro ⟨-, h2⟩
    exact h1n ⟨h1.1, le_trans h12' h2⟩

/-- A function that a form describes has the properties the loop of `hittable_list::hit`
needs. -/
theorem narrows_of_form (hf : hit_form F M)
    (h : interval F → hit_record F M → HitResult F M) (hd : hf.describes h) (lo hi : Ext F) :
    narrows h lo hi := by
  obtain ⟨hord, ht, hcase⟩ := hd
  have cases3 : ∀ I rc, (hf.G1 ∧ hf.accepts I hf.t1 ∧ h I rc = .ok (true, hf.B1 rc)) ∨
      (¬ (hf.G1 ∧ hf.accepts I hf.t1) ∧ (hf.G2 ∧ hf.accepts I hf.t2) ∧
        h I rc = .ok (true, hf.B2 rc)) ∨
      (¬ (hf.G1 ∧ hf.accepts I hf.t1) ∧ ¬ (hf.G2 ∧ hf.accepts I hf.t2) ∧
        h I rc = .ok (false, rc)) := by
    intro I rc
    obtain ⟨c1, c2, c3⟩ := hcase I rc
    by_cases a1 : hf.G1 ∧ hf.accepts I hf.t1
    · exact Or.inl ⟨a1.1, a1.2, c1 a1⟩
    · by_cases a2 : hf.G2 ∧ hf.accepts I hf.t2
      · exact Or.inr (Or.inl ⟨a1, a2, c2 a1 a2⟩)
      · exact Or.inr (Or.inr ⟨a1, a2, c3 a1 a2⟩)
  refine ⟨?_, ?_, ?_, ?_, ?_⟩
  · intro I rc
    rcases cases3 I rc with ⟨-, -, e⟩ | ⟨-, -, e⟩ | ⟨-, -, e⟩ <;> exact ⟨_, _, e⟩
  · intro I rc out ho
    rcases cases3 I rc with ⟨-, -, e⟩ | ⟨-, -, e⟩ | ⟨-, -, e⟩
    · rw [e] at ho; simp at ho
    · rw [e] at ho; simp at ho
    · rw [e] at ho
      simp only [Except.ok.injEq, Prod.mk.injEq, true_and] at ho
      exact ho.symm
  · intro I rc rc1 out ho
    rcases cases3 I rc with ⟨g, a, e⟩ | ⟨n1, a2, e⟩ | ⟨-, -, e⟩
    · rw [e] at ho
      simp only [Except.ok.injEq, Prod.mk.injEq, true_and] at ho
      subst ho
      exact ⟨_, (hcase I rc1).1 ⟨g, a⟩, by rw [(ht rc1).1, (ht rc).1]⟩
    · rw [e] at ho
      simp only [Except.ok.injEq, Prod.mk.injEq, true_and] at ho
      subst ho
      exact ⟨_, (hcase I rc1).2.1 n1 a2, by rw [(ht rc1).2, (ht rc).2]⟩
    · rw [e] at ho; simp at ho
  · intro c rc out hc ho
    rcases cases3 ⟨lo, c⟩ rc with ⟨g, a, e⟩ | ⟨n1, a2, e⟩ | ⟨-, -, e⟩
    · rw [e] at ho
      simp only [Except.ok.injEq, Prod.mk.injEq, true_and] at ho
      subst ho
      obtain ⟨aw, ac⟩ := hf.accepts_widen lo c hi hc _ a
      exact ⟨(hcase ⟨lo, hi⟩ rc).1 ⟨g, aw⟩, by rw [(ht rc).1]; exact ac⟩
    · rw [e] at ho
      simp only [Except.ok.injEq, Prod.mk.injEq, true_and] at ho
      subst ho
      obtain ⟨aw, ac⟩ := hf.accepts_widen lo c hi hc _ a2.2
      have n1' : ¬ (hf.G1 ∧ hf.accepts ⟨lo, hi⟩ hf.t1) := by
        rintro ⟨g, a⟩
        have hn : ¬ hf.accepts ⟨lo, c⟩ hf.t1 := fun a' => n1 ⟨g, a'⟩
        exact hf.accepts_order lo c hi _ _ (hord a2.1) a hn a2.2
      exact ⟨(hcase ⟨lo, hi⟩ rc).2.1 n1' ⟨a2.1, aw⟩, by rw [(ht rc).2]; exact ac⟩
    · rw [e] at ho; simp at ho
  · intro c rc out hc ho
    rcases cases3 ⟨lo, hi⟩ rc with ⟨g, a, e⟩ | ⟨n1, a2, e⟩ | ⟨-, -, e⟩
    · rw [e] at ho
      simp only [Except.ok.injEq, Prod.mk.injEq, true_and] at ho
      subst ho
      by_cases ac : hf.accepts ⟨lo, c⟩ hf.t1
      · exact Or.inl ((hcase ⟨lo, c⟩ rc).1 ⟨g, ac⟩)
      · right
        have hge : c ≤ fin hf.t1 := by
          rcases hf.accepts_narrow lo c hi _ a with h1 | h1
          · exact absurd h1 ac
          · exact h1
        have n1 : ¬ (hf.G1 ∧ hf.accepts ⟨lo, c⟩ hf.t1) := fun x => ac x.2
        have n2 : ¬ (hf.G2 ∧ hf.accepts ⟨lo, c⟩ hf.t2) := by
          rintro ⟨g2, a2⟩
          exact hf.accepts_order lo c hi _ _ (hord g2) a ac a2
        exact ⟨(hcase ⟨lo, c⟩ rc).2.2 n1 n2, by rw [(ht rc).1]; exact hge⟩
    · rw [e] at ho
      simp only [Except.ok.injEq, Prod.mk.injEq, true_and] at ho
      subst ho
      have n1c : ¬ (hf.G1 ∧ hf.accepts ⟨lo, c⟩ hf.t1) := by
        rintro ⟨g, a⟩
        exact n1 ⟨g, (hf.accepts_widen lo c hi hc _ a).1⟩
      by_cases ac : hf.accepts ⟨lo, c⟩ hf.t2
      · exact Or.inl ((hcase ⟨lo, c⟩ rc).2.1 n1c ⟨a2.1, ac⟩)
      · right
        have hge : c ≤ fin hf.t2 := by
          rcases hf.accepts_narrow lo c hi _ a2.2 with h1 | h1
          · exact absurd h1 ac
          · exact h1
        have n2 : ¬ (hf.G2 ∧ hf.accepts ⟨lo, c⟩ hf.t2) := fun x => ac x.2
        exact ⟨(hcase ⟨lo, c⟩ rc).2.2 n1c n2, by rw [(ht rc).2]; exact hge⟩
    · rw [e] at ho; simp at ho

end list_hit_forms

section primitive_forms

variable {F M : Type} [LinearOrderedField F]

/-- The hit of a quad is a search with one parameter, accepted inside the closed interval. -/
theorem quad_form (q : quad F M) (r : ray F) :
    ∃ hf : hit_form F M, hf.describes (fun I rc => q.hit r I rc) := by
  refine ⟨⟨false, (q.D - vec3.dot q.normal r.orig) / vec3.dot q.normal r.dir,
    (q.D - vec3.dot q.normal r.orig) / vec3.dot q.normal r.dir,
    1 / 100000000 ≤ |vec3.dot q.normal r.dir| ∧
      (0 ≤ vec3.dot q.w (vec3.cross ((r.«at» ((q.D - vec3.dot q.normal r.orig) /
          vec3.dot q.normal r.dir)).sub q.Q) q.v) ∧
       vec3.dot q.w (vec3.cross ((r.«at» ((q.D - vec3.dot q.normal r.orig) /
          vec3.dot q.normal r.dir)).sub q.Q) q.v) ≤ 1 ∧
       0 ≤ vec3.dot q.w (vec3.cross q.u ((r.«at» ((q.D - vec3.dot q.normal r.orig) /
          vec3.dot q.normal r.dir)).sub q.Q)) ∧
       vec3.dot q.w (vec3.cross q.u ((r.«at» ((q.D - vec3.dot q.normal r.orig) /
          vec3.dot q.normal r.dir)).sub q.Q)) ≤ 1),
    False,
    fun _ =>
      { p := r.«at» ((q.D - vec3.dot q.normal r.orig) / vec3.dot q.normal r.dir)
        normal := if vec3.dot r.dir q.normal < 0 then q.normal else q.normal.neg
        t := (q.D - vec3.dot q.normal r.orig) / vec3.dot q.normal r.dir
        u := vec3.dot q.w (vec3.cross ((r.«at» ((q.D - vec3.dot q.normal r.orig) /
          vec3.dot q.normal r.dir)).sub q.Q) q.v)
        v := vec3.dot q.w (vec3.cross q.u ((r.«at» ((q.D - vec3.dot q.normal r.orig) /
          vec3.dot q.normal r.dir)).sub q.Q))
        front_face := decide (vec3.dot r.dir q.normal < 0)
        mat := q.mat },
    fun rc => { rc with t := (q.D - vec3.dot q.normal r.orig) / vec3.dot q.normal r.dir }⟩,
    fun h => le_rfl, fun rc => ⟨rfl, rfl⟩, ?_⟩
  intro I rc
  have heq := quad_hit_eq q r I rc
  simp only [hit_form.accepts, Bool.false_eq_true, if_false] at heq ⊢
  refine ⟨?_, ?_, ?_⟩
  · rintro ⟨⟨g1, g2⟩, a⟩
    rw [heq, if_pos ⟨g1, a, g2⟩]
  · rintro _ ⟨hF, _⟩
    exact False.elim hF
  · intro n1 _
    rw [heq, if_neg]
    rintro ⟨g1, a, g2⟩
    exact n1 ⟨⟨g1, g2⟩, a⟩

/-- The hit of a triangle is a search with one parameter, accepted inside the closed
interval. -/
theorem triangle_form (tr : triangle F M) (r : ray F) :
    ∃ hf : hit_form F M, hf.describes (fun I rc => tr.hit r I rc) := by
  refine ⟨⟨false, (tr.D - vec3.dot tr.normal r.orig) / vec3.dot tr.normal r.dir,
    (tr.D - vec3.dot tr.normal r.orig) / vec3.dot tr.normal r.dir,
    1 / 100000000 ≤ |vec3.dot tr.normal r.dir| ∧
      (0 ≤ vec3.dot tr.normal (vec3.cross (tr.b.sub tr.a) ((r.«at» ((tr.D -
          vec3.dot tr.normal r.orig) / vec3.dot tr.normal r.dir)).sub tr.a)) ∧
       0 ≤ vec3.dot tr.normal (vec3.cross (tr.c.sub tr.b) ((r.«at» ((tr.D -
          vec3.dot tr.normal r.orig) / vec3.dot tr.normal r.dir)).sub tr.b)) ∧
       0 ≤ vec3.dot tr.normal (vec3.cross (tr.a.sub tr.c) ((r.«at» ((tr.D -
          vec3.dot tr.normal r.orig) / vec3.dot tr.normal r.dir)).sub tr.c))),
    False,
    fun rc =>
      { p := r.«at» ((tr.D - vec3.dot tr.normal r.orig) / vec3.dot tr.normal r.dir)
        normal := if vec3.dot r.dir tr.normal < 0 then tr.normal else tr.normal.neg
        t := (tr.D - vec3.dot tr.normal r.orig) / vec3.dot tr.normal r.dir
        u := rc.u
        v := rc.v
        front_face := decide (vec3.dot r.dir tr.normal < 0)
        mat := tr.mat },
    fun rc => { rc with t := (tr.D - vec3.dot tr.normal r.orig) / vec3.dot tr.normal r.dir }⟩,
    fun h => le_rfl, fun rc => ⟨rfl, rfl⟩, ?_⟩
  intro I rc
  have heq := triangle_hit_eq tr r I rc
  simp only [hit_form.accepts, Bool.false_eq_true, if_false] at heq ⊢
  refine ⟨?_, ?_, ?_⟩
  · rintro ⟨⟨g1, g2⟩, a⟩
    rw [heq, if_pos ⟨g1, a, g2⟩]
  · rintro _ ⟨hF, _⟩
    exact False.elim hF
  · intro n1 _
    rw [heq, if_neg]
    rintro ⟨g1, a, g2⟩
    exact n1 ⟨⟨g1, g2⟩, a⟩

/-- The hit of a mesh triangle is a search with one parameter, accepted strictly inside the
interval. -/
theorem mesh_triangle_form (m : Libm F) (mt : mesh_triangle F M) (r : ray F) :
    ∃ hf : hit_form F M, hf.describes (fun I rc => mt.hit m r I rc) := by
  obtain ⟨n, hn⟩ := vec3.unit_vector_ok m (vec3.cross (mt.v1.sub mt.v0) (mt.v2.sub mt.v0))
  refine ⟨⟨true,
    1 / vec3.dot (mt.v1.sub mt.v0) (vec3.cross r.dir (mt.v2.sub mt.v0)) *
      vec3.dot (mt.v2.sub mt.v0) (vec3.cross (r.orig.sub mt.v0) (mt.v1.sub mt.v0)),
    1 / vec3.dot (mt.v1.sub mt.v0) (vec3.cross r.dir (mt.v2.sub mt.v0)) *
      vec3.dot (mt.v2.sub mt.v0) (vec3.cross (r.orig.sub mt.v0) (mt.v1.sub mt.v0)),
    mesh_triangle.epsilon ≤ |vec3.dot (mt.v1.sub mt.v0) (vec3.cross r.dir (mt.v2.sub mt.v0))| ∧
      (0 ≤ 1 / vec3.dot (mt.v1.sub mt.v0) (vec3.cross r.dir (mt.v2.sub mt.v0)) *
          vec3.dot (r.orig.sub mt.v0) (vec3.cross r.dir (mt.v2.sub mt.v0)) ∧
        1 / vec3.dot (mt.v1.sub mt.v0) (vec3.cross r.dir (mt.v2.sub mt.v0)) *
          vec3.dot (r.orig.sub mt.v0) (vec3.cross r.dir (mt.v2.sub mt.v0)) ≤ 1) ∧
      (0 ≤ 1 / vec3.dot (mt.v1.sub mt.v0) (vec3.cross r.dir (mt.v2.sub mt.v0)) *
          vec3.dot r.dir (vec3.cross (r.orig.sub mt.v0) (mt.v1.sub mt.v0)) ∧
        1 / vec3.dot (mt.v1.sub mt.v0) (vec3.cross r.dir (mt.v2.sub mt.v0)) *
          vec3.dot (r.orig.sub mt.v0) (vec3.cross r.dir (mt.v2.sub mt.v0)) +
        1 / vec3.dot (mt.v1.sub mt.v0) (vec3.cross r.dir (mt.v2.sub mt.v0)) *
          vec3.dot r.dir (vec3.cross (r.orig.sub mt.v0) (mt.v1.sub mt.v0)) ≤ 1),
    False,
    fun rc =>
      { p := r.«at» (1 / vec3.dot (mt.v1.sub mt.v0) (vec3.cross r.dir (mt.v2.sub mt.v0)) *
          vec3.dot (mt.v2.sub mt.v0) (vec3.cross (r.orig.sub mt.v0) (mt.v1.sub mt.v0)))
        normal := if vec3.dot r.dir n < 0 then n else n.neg
        t := 1 / vec3.dot (mt.v1.sub mt.v0) (vec3.cross r.dir (mt.v2.sub mt.v0)) *
          vec3.dot (mt.v2.sub mt.v0) (vec3.cross (r.orig.sub mt.v0) (mt.v1.sub mt.v0))
        u := rc.u
        v := rc.v
        front_face := decide (vec3.dot r.dir n < 0)
        mat := mt.mat },
    fun rc => { rc with
      t := 1 / vec3.dot (mt.v1.sub mt.v0) (vec3.cross r.dir (mt.v2.sub mt.v0)) *
          vec3.dot (mt.v2.sub mt.v0) (vec3.cross (r.orig.sub mt.v0) (mt.v1.sub mt.v0)) }⟩,
    fun h => le_rfl, fun rc => ⟨rfl, rfl⟩, ?_⟩
  intro I rc
  have heq := mesh_triangle_hit_eq m mt r I rc n hn
  simp only [hit_form.accepts, if_true] at heq ⊢
  refine ⟨?_, ?_, ?_⟩
  · rintro ⟨⟨g1, g2, g3⟩, a⟩
    rw [heq, if_pos ⟨g1, g2, g3, a⟩]
  · rintro _ ⟨hF, _⟩
    exact False.elim hF
  · intro n1 _
    rw [heq, if_neg]
    rintro ⟨g1, g2, g3, a⟩
    exact n1 ⟨⟨g1, g2, g3⟩, a⟩

/-- With `std::sqrt` the square root, the hit of a sphere of non-zero radius is a search
with two parameters, the roots in increasing order, accepted strictly inside the interval. -/
theorem sphere_form (m : Libm F) (hm : m.SqrtSpec) (PI : F) (s : sphere F M) (r : ray F)
    (hr : s.radius ≠ 0) :
    ∃ hf : hit_form F M, hf.describes (fun I rc => s.hit m PI r I rc) := by
  set C := s.center.«at» r.tm with hC
  set a := r.dir.length_squared with ha
  set h := vec3.dot r.dir (C.sub r.orig) with hh
  set c := (C.sub r.orig).length_squared - s.radius * s.radius with hc
  have hunf : ∀ (I : interval F) (rc : hit_record F M), s.hit m PI r I rc =
      if h * h - a * c < 0 then .ok (false, rc)
      else if fin ((h - m.sqrt (h * h - a * c)) / a) ≤ I.min ∨
            I.max ≤ fin ((h - m.sqrt (h * h - a * c)) / a) then
        if fin ((h + m.sqrt (h * h - a * c)) / a) ≤ I.min ∨
            I.max ≤ fin ((h + m.sqrt (h * h - a * c)) / a) then .ok (false, rc)
        else sphere.hit_at m PI s r C ((h + m.sqrt (h * h - a * c)) / a) rc
      else sphere.hit_at m PI s r C ((h - m.sqrt (h * h - a * c)) / a) rc := by
    intro I rc
    rfl
  have hB : ∀ root rc, ∃ out, sphere.hit_at m PI s r C root rc = .ok (true, out) ∧
      out.t = root := by
    intro root rc
    exact ⟨_, sphere.hit_at_ok m PI s r C root rc hr, rfl⟩
  refine ⟨⟨true, (h - m.sqrt (h * h - a * c)) / a, (h + m.sqrt (h * h - a * c)) / a,
    ¬ (h * h - a * c < 0), ¬ (h * h - a * c < 0),
    fun rc => (hB ((h - m.sqrt (h * h - a * c)) / a) rc).choose,
    fun rc => (hB ((h + m.sqrt (h * h - a * c)) / a) rc).choose⟩, ?_, ?_, ?_⟩
  · intro hd
    have hs := (hm _ (not_lt.mp hd)).1
    have ha0 : 0 ≤ a := vec3.length_squared_ge_zero _
    exact div_le_div_of_nonneg_right (by linarith) ha0
  · intro rc
    exact ⟨(hB _ rc).choose_spec.2, (hB _ rc).choose_spec.2⟩
  · intro I rc
    simp only [hit_form.accepts, if_true]
    refine ⟨?_, ?_, ?_⟩
    · rintro ⟨g, a1, a2⟩
      rw [hunf, if_neg g, if_neg (by
        rintro (h1 | h1)
        · exact absurd a1 (not_lt.mpr h1)
        · exact absurd a2 (not_lt.mpr h1))]
      exact (hB _ rc).choose_spec.1
    · rintro n1 ⟨g, a1, a2⟩
      have hrej : fin ((h - m.sqrt (h * h - a * c)) / a) ≤ I.min ∨
          I.max ≤ fin ((h - m.sqrt (h * h - a * c)) / a) := by
        by_contra hcon
        push_neg at hcon
        exact n1 ⟨g, hcon.1, hcon.2⟩
      rw [hunf, if_neg g, if_pos hrej, if_neg (by
        rintro (h1 | h1)
        · exact absurd a1 (not_lt.mpr h1)
        · exact absurd a2 (not_lt.mpr h1))]
      exact (hB _ rc).choose_spec.1
    · intro n1 n2
      rw [hunf]
      by_cases g : h * h - a * c < 0
      · rw [if_pos g]
      · have hrej1 : fin ((h - m.sqrt (h * h - a * c)) / a) ≤ I.min ∨
            I.max ≤ fin ((h - m.sqrt (h * h - a * c)) / a) := by
          by_contra hcon
          push_neg at hcon
          exact n1 ⟨g, hcon.1, hcon.2⟩
        have hrej2 : fin ((h + m.sqrt (h * h - a * c)) / a) ≤ I.min ∨
            I.max ≤ fin ((h + m.sqrt (h * h - a * c)) / a) := by
          by_contra hcon
          push_neg at hcon
          exact n2 ⟨g, hcon.1, hcon.2⟩
        rw [if_neg g, if_pos hrej1, if_pos hrej2]

/-- Every primitive of a scene list, a sphere only with a positive radius, has a `hit`
that the loop of `hittable_list::hit` can narrow. -/
theorem hittable_narrows (m : Libm F) (hm : m.SqrtSpec) (PI : F) (o : hittable F M)
    (r : ray F) (hrad : ∀ s, o = .sphere s → 0 < s.radius) (lo hi : Ext F) :
    narrows (fun I rc => o.hit m PI r I rc) lo hi := by
  cases o with
  | sphere s =>
    obtain ⟨hf, hd⟩ := sphere_form m hm PI s r (ne_of_gt (hrad s rfl))
    exact narrows_of_form hf _ hd lo hi
  | quad q =>
    obtain ⟨hf, hd⟩ := quad_form q r
    exact narrows_of_form hf _ hd lo hi
  | triangle tr =>
    obtain ⟨hf, hd⟩ := triangle_form tr r
    exact narrows_of_form hf _ hd lo hi
  | mesh_triangle mt =>
    obtain ⟨hf, hd⟩ := mesh_triangle_form m mt r
    exact narrows_of_form hf _ hd lo hi

end primitive_forms

section list_hit

variable {F M : Type} [LinearOrderedField F]

/-- The loop of `hittable_list::hit` over objects whose `hit` can be narrowed: it returns,
and either no object reports a hit inside the current interval and the scan state is as
before, or the record is that of an object, with the least parameter among the hits of the
objects inside the whole interval. -/
theorem hittable_list.hit_loop_closest (m : Libm F) (PI : F) (r : ray F) (ray_t : interval F) :
    ∀ (objs : List (hittable F M)) (st : hittable_list.scan F M),
      (∀ o ∈ objs, narrows (fun I rc => o.hit m PI r I rc) ray_t.min ray_t.max) →
      st.closes_so_far ≤ ray_t.max →
      ∃ st1, hittable_list.hit_loop m PI r ray_t objs st = .ok st1 ∧
        ((st1.rc = st.rc ∧ st1.hit_anything = st.hit_anything ∧
            ∀ o ∈ objs, ∀ rc1 out1,
              o.hit m PI r ⟨ray_t.min, st.closes_so_far⟩ rc1 ≠ .ok (true, out1)) ∨
         (st1.hit_anything = true ∧ fin st1.rc.t ≤ st.closes_so_far ∧
            (∃ o ∈ objs, ∃ rc1, o.hit m PI r ⟨ray_t.min, ray_t.max⟩ rc1 = .ok (true, st1.rc)) ∧
            ∀ o ∈ objs, ∀ rc2 out2,
              o.hit m PI r ⟨ray_t.min, ray_t.max⟩ rc2 = .ok (true, out2) →
                st1.rc.t ≤ out2.t)) := by
  intro objs
  induction objs with
  | nil =>
    intro st _ _
    refine ⟨st, rfl, Or.inl ⟨rfl, rfl, ?_⟩⟩
    intro o ho
    exact absurd ho (List.not_mem_nil o)
  | cons o1 rest ih =>
    intro st hn hc
    have hn1 := hn o1 (List.mem_cons_self _ _)
    have hnr : ∀ o ∈ rest, narrows (fun I rc => o.hit m PI r I rc) ray_t.min ray_t.max :=
      fun o ho => hn o (List.mem_cons_of_mem _ ho)
    obtain ⟨N1, N2, N3, N4, N5⟩ := hn1
    obtain ⟨b, out, hb⟩ := N1 ⟨ray_t.min, st.closes_so_far⟩ st.temp_rec
    have hb1 : o1.hit m PI r ⟨ray_t.min, st.closes_so_far⟩ st.temp_rec = .ok (b, out) := hb
    cases b with
    | true =>
      obtain ⟨hfull, htc⟩ := N4 st.closes_so_far st.temp_rec out hc hb
      have hfull1 : o1.hit m PI r ⟨ray_t.min, ray_t.max⟩ st.temp_rec = .ok (true, out) := hfull
      have hc1 : fin out.t ≤ ray_t.max := le_trans htc hc
      have hmin1 : ∀ rc2 out2, o1.hit m PI r ⟨ray_t.min, ray_t.max⟩ rc2 = .ok (true, out2) →
          out2.t = out.t := by
        intro rc2 out2 h2
        obtain ⟨out3, h3, ht3⟩ := N3 ⟨ray_t.min, ray_t.max⟩ st.temp_rec rc2 out hfull
        have h3b : o1.hit m PI r ⟨ray_t.min, ray_t.max⟩ rc2 = .ok (true, out3) := h3
        rw [h2] at h3b
        injection h3b with h3c
        injection h3c with _ h3d
        rw [h3d]
        exact ht3
      obtain ⟨st1, hst1, hcase⟩ := ih
        { temp_rec := out, hit_anything := true, closes_so_far := fin out.t, rc := out } hnr hc1
      refine ⟨st1, ?_, Or.inr ?_⟩
      · rw [hittable_list.hit_loop, hb1]
        exact hst1
      · rcases hcase with ⟨e1, e2, e3⟩ | ⟨e1, e2, e3, e4⟩
        · simp only at e1 e2 e3
          refine ⟨e2, ?_, ⟨o1, List.mem_cons_self _ _, st.temp_rec, ?_⟩, ?_⟩
          · rw [e1]
            exact htc
          · rw [e1]
            exact hfull1
          · intro o2 ho2 rc2 out2 h2
            rw [e1]
            rcases List.mem_cons.mp ho2 with rfl | hmem
            · exact le_of_eq (hmin1 rc2 out2 h2).symm
            · have hN := (hnr o2 hmem).2.2.2.2 (fin out.t) rc2 out2 hc1 h2
              rcases hN with hN | ⟨_, hN⟩
              · exact absurd hN (e3 o2 hmem rc2 out2)
              · exact (fin_le_fin _ _).mp hN
        · simp only at e2
          refine ⟨e1, le_trans e2 htc, ?_, ?_⟩
          · obtain ⟨o2, ho2, rc1, h2⟩ := e3
            exact ⟨o2, List.mem_cons_of_mem _ ho2, rc1, h2⟩
          · intro o2 ho2 rc2 out2 h2
            rcases List.mem_cons.mp ho2 with rfl | hmem
            · rw [hmin1 rc2 out2 h2]
              exact (fin_le_fin _ _).mp e2
            · exact e4 o2 hmem rc2 out2 h2
    | false =>
      have hout : out = st.temp_rec := N2 _ _ _ hb
      have hmiss : ∀ rc1 out1,
          o1.hit m PI r ⟨ray_t.min, st.closes_so_far⟩ rc1 ≠ .ok (true, out1) := by
        intro rc1 out1 h1
        obtain ⟨out3, h3, _⟩ := N3 ⟨ray_t.min, st.closes_so_far⟩ rc1 st.temp_rec out1 h1
        have h3b : o1.hit m PI r ⟨ray_t.min, st.closes_so_far⟩ st.temp_rec = .ok (true, out3) :=
          h3
        rw [hb1] at h3b
        injection h3b with h3c
        injection h3c with h3d _
        exact Bool.noConfusion h3d
      obtain ⟨st1, hst1, hcase⟩ := ih { st with temp_rec := out } hnr hc
      refine ⟨st1, ?_, ?_⟩
      · rw [hittable_list.hit_loop, hb1]
        exact hst1
      · rcases hcase with ⟨e1, e2, e3⟩ | ⟨e1, e2, e3, e4⟩
        · simp only at e1 e2 e3
          refine Or.inl ⟨e1, e2, ?_⟩
          intro o2 ho2 rc1 out1
          rcases List.mem_cons.mp ho2 with rfl | hmem
          · exact hmiss rc1 out1
          · exact e3 o2 hmem rc1 out1
        · simp only at e2
          refine Or.inr ⟨e1, e2, ?_, ?_⟩
          · obtain ⟨o2, ho2, rc1, h2⟩ := e3
            exact ⟨o2, List.mem_cons_of_mem _ ho2, rc1, h2⟩
          · intro o2 ho2 rc2 out2 h2
            rcases List.mem_cons.mp ho2 with rfl | hmem
            · have hN := N5 st.closes_so_far rc2 out2 hc h2
              rcases hN with hN | ⟨_, hN⟩
              · exact absurd hN (hmiss rc2 out2)
              · exact (fin_le_fin _ _).mp (le_trans e2 hN)
            · exact e4 o2 hmem rc2 out2 h2

end list_hit

section list_hit_claim

variable {F M : Type} [LinearOrderedField F]

/-- C26, amended: with arithmetic read over the reals, for every list of spheres of positive
radius, quads, triangles and mesh triangles, every ray and every interval, with `std::sqrt`
the square root, `hittable_list::hit` returns; it returns true iff at least one object of
the list reports a hit within the interval; the record it then returns is the one an object
of the list writes for this ray and interval, and its parameter `t` is minimal among the
hits of all objects within the interval; on a miss, and so for the empty list, the caller's
record is left unchanged. -/
theorem list_hit_contract (m : Libm F) (hm : m.SqrtSpec) (PI : F) (l : hittable_list F M)
    (r : ray F) (ray_t : interval F) (rc : hit_record F M)
    (hrad : ∀ s, hittable.sphere s ∈ l.objects → 0 < s.radius) :
    ∃ b out, l.hit m PI r ray_t rc = .ok (b, out) ∧
      (b = true ↔ ∃ o ∈ l.objects, ∃ rc1 out1, o.hit m PI r ray_t rc1 = .ok (true, out1)) ∧
      (b = true →
        (∃ o ∈ l.objects, ∃ rc1, o.hit m PI r ray_t rc1 = .ok (true, out)) ∧
        ∀ o ∈ l.objects, ∀ rc2 out2, o.hit m PI r ray_t rc2 = .ok (true, out2) →
          out.t ≤ out2.t) ∧
      (b = false → out = rc) ∧
      (l.objects = [] → b = false ∧ out = rc) := by
  have hn : ∀ o ∈ l.objects, narrows (fun I rc => o.hit m PI r I rc) ray_t.min ray_t.max :=
    fun o ho => hittable_narrows m hm PI o r (fun s hs => hrad s (hs ▸ ho)) _ _
  obtain ⟨st1, hst1, hcase⟩ := hittable_list.hit_loop_closest m PI r ray_t l.objects
    { temp_rec := hit_record.fresh, hit_anything := false, closes_so_far := ray_t.max, rc := rc }
    hn le_rfl
  have heta : (⟨ray_t.min, ray_t.max⟩ : interval F) = ray_t := rfl
  simp only [heta] at hcase
  refine ⟨st1.hit_anything, st1.rc, ?_, ?_⟩
  · rw [hittable_list.hit, hst1]
  · rcases hcase with ⟨e1, e2, e3⟩ | ⟨e1, e2, e3, e4⟩
    · have e1b : st1.rc = rc := e1
      have e2b : st1.hit_anything = false := e2
      rw [e2b, e1b]
      refine ⟨⟨fun h => Bool.noConfusion h, ?_⟩, fun h => Bool.noConfusion h, fun _ => rfl,
        fun _ => ⟨rfl, rfl⟩⟩
      rintro ⟨o, ho, rc1, out1, h1⟩
      exact absurd h1 (e3 o ho rc1 out1)
    · rw [e1]
      refine ⟨⟨fun _ => ?_, fun _ => rfl⟩, fun _ => ⟨e3, e4⟩, fun h => Bool.noConfusion h, ?_⟩
      · obtain ⟨o, ho, rc1, h1⟩ := e3
        exact ⟨o, ho, rc1, _, h1⟩
      · intro hnil
        obtain ⟨o, ho, _⟩ := e3
        rw [hnil] at ho
        exact absurd ho (List.not_mem_nil o)

/-- At a list of one unit sphere, seen from (0,0,5) along -z over (0.001, +inf), the
contract of `hittable_list::hit` applies. -/
theorem list_hit_contract_witness :
    (⟨Real.sqrt, Real.arccos, fun y x => Complex.arg ⟨x, y⟩, Real.sin, Real.cos, Real.tan⟩ :
      Libm ℝ).SqrtSpec ∧
    ∃ b out,
      (hittable_list.single
        (hittable.sphere (sphere.mk_static (⟨0, 0, 0⟩ : vec3 ℝ) 1 (none : Option Unit)))).hit
        ⟨Real.sqrt, Real.arccos, fun y x => Complex.arg ⟨x, y⟩, Real.sin, Real.cos, Real.tan⟩
        (3141593 / 1000000) ⟨⟨0, 0, 5⟩, ⟨0, 0, -1⟩, 0⟩ ⟨fin (1 / 1000), INF⟩
        hit_record.fresh = .ok (b, out) ∧
      (b = false → out = hit_record.fresh) := by
  have hrad : ∀ s, hittable.sphere s ∈ (hittable_list.single
      (hittable.sphere (sphere.mk_static (⟨0, 0, 0⟩ : vec3 ℝ) 1 (none : Option Unit)))).objects →
      0 < s.radius := by
    intro s hs
    simp only [hittable_list.single, hittable_list.add, hittable_list.new, List.nil_append,
      List.mem_singleton, hittable.sphere.injEq] at hs
    rw [hs]
    simp [sphere.mk_static]
  obtain ⟨b, out, h1, _, _, h4, _⟩ := list_hit_contract
    ⟨Real.sqrt, Real.arccos, fun y x => Complex.arg ⟨x, y⟩, Real.sin, Real.cos, Real.tan⟩
    (real_sqrt_spec _ _ _ _ _) (3141593 / 1000000)
    (hittable_list.single
      (hittable.sphere (sphere.mk_static (⟨0, 0, 0⟩ : vec3 ℝ) 1 (none : Option Unit))))
    ⟨⟨0, 0, 5⟩, ⟨0, 0, -1⟩, 0⟩ ⟨fin (1 / 1000), INF⟩ hit_record.fresh hrad
  exact ⟨real_sqrt_spec _ _ _ _ _, b, out, h1, h4⟩

/-- C26, counterexample: the list of the unit sphere at the origin followed by a sphere of
radius 0 at (0,0,3), the ray from (0,0,5) along -z and the interval (0.001, +inf). The unit
sphere reports a hit within the interval, yet `hittable_list::hit` does not return true: it
raises "Division by zero", thrown by the second sphere. In binary32, for the list of the
unit sphere alone and the ray from (0,5,0) with the direction (1e-30,0,0),
`hittable_list::hit` returns true with `rec.t` a NaN, which is not less than or equal to
any parameter, itself included. -/
theorem list_hit_raises :
    (∀ m : Libm32, ∃ rc : hit_record fp Unit,
      f32.list_hit
        [f32.sphere.hit m (f32.sphere.mk_static ⟨fp.zero, fp.zero, fp.zero⟩ fp.one none)]
        ⟨⟨fp.zero, fp.ofDec32 false 5 1, fp.zero⟩,
          ⟨fp.ofDec32 false 1 (10 ^ 30), fp.zero, fp.zero⟩, fp.zero⟩
        ⟨fp.ofDec32 false 1 1000, fp.inf false⟩ f32.fresh = .ok (true, rc) ∧
      rc.t = fp.nan ∧ rc.t.le rc.t = false) ∧
    (∃ out,
      (hittable.sphere (sphere.mk_static (⟨0, 0, 0⟩ : vec3 ℝ) 1 (none : Option Unit))).hit
        ⟨Real.sqrt, Real.arccos, fun y x => Complex.arg ⟨x, y⟩, Real.sin, Real.cos, Real.tan⟩
        (3141593 / 1000000) ⟨⟨0, 0, 5⟩, ⟨0, 0, -1⟩, 0⟩ ⟨fin (1 / 1000), INF⟩
        hit_record.fresh = .ok (true, out)) ∧
    ((hittable_list.single
        (hittable.sphere (sphere.mk_static (⟨0, 0, 0⟩ : vec3 ℝ) 1 (none : Option Unit)))).add
      (hittable.sphere (sphere.mk_static (⟨0, 0, 3⟩ : vec3 ℝ) 0 (none : Option Unit)))).hit
        ⟨Real.sqrt, Real.arccos, fun y x => Complex.arg ⟨x, y⟩, Real.sin, Real.cos, Real.tan⟩
        (3141593 / 1000000) ⟨⟨0, 0, 5⟩, ⟨0, 0, -1⟩, 0⟩ ⟨fin (1 / 1000), INF⟩
        hit_record.fresh = .error "Division by zero" := by
  have hA : ∀ rc : hit_record ℝ Unit, ∃ out,
      (sphere.mk_static (⟨0, 0, 0⟩ : vec3 ℝ) 1 (none : Option Unit)).hit
        ⟨Real.sqrt, Real.arccos, fun y x => Complex.arg ⟨x, y⟩, Real.sin, Real.cos, Real.tan⟩
        (3141593 / 1000000) ⟨⟨0, 0, 5⟩, ⟨0, 0, -1⟩, 0⟩ ⟨fin (1 / 1000), INF⟩ rc =
          .ok (true, out) ∧ out.t = 4 := by
    intro rc
    simp only [sphere.hit, sphere.mk_static, ray.mk2, ray.«at», vec3.zero, vec3.add, vec3.smul,
      vec3.sub, vec3.length_squared, vec3.dot]
    norm_num
    rw [if_neg (by simp [fin_le_fin, not_INF_le_fin]; norm_num)]
    exact ⟨_, sphere.hit_at_ok _ _ _ _ _ _ _ (by norm_num), rfl⟩
  have hB : ∀ rc : hit_record ℝ Unit,
      (sphere.mk_static (⟨0, 0, 3⟩ : vec3 ℝ) 0 (none : Option Unit)).hit
        ⟨Real.sqrt, Real.arccos, fun y x => Complex.arg ⟨x, y⟩, Real.sin, Real.cos, Real.tan⟩
        (3141593 / 1000000) ⟨⟨0, 0, 5⟩, ⟨0, 0, -1⟩, 0⟩ ⟨fin (1 / 1000), fin 4⟩ rc =
          .error "Division by zero" := by
    intro rc
    simp only [sphere.hit, sphere.mk_static, ray.mk2, ray.«at», vec3.zero, vec3.add, vec3.smul,
      vec3.sub, vec3.length_squared, vec3.dot]
    norm_num
    rw [if_neg (by simp [fin_le_fin]; norm_num)]
    simp [sphere.hit_at, vec3.div]
  obtain ⟨out, hout, ht⟩ := hA hit_record.fresh
  refine ⟨fun _ => ⟨_, rfl, rfl, rfl⟩, ⟨out, hout⟩, ?_⟩
  have h1 : (hittable.sphere (sphere.mk_static (⟨0, 0, 0⟩ : vec3 ℝ) 1 (none : Option Unit))).hit
      ⟨Real.sqrt, Real.arccos, fun y x => Complex.arg ⟨x, y⟩, Real.sin, Real.cos, Real.tan⟩
      (3141593 / 1000000) ⟨⟨0, 0, 5⟩, ⟨0, 0, -1⟩, 0⟩ ⟨fin (1 / 1000), INF⟩
      hit_record.fresh = .ok (true, out) := hout
  simp only [hittable_list.hit, hittable_list.single, hittable_list.add, hittable_list.new,
    List.nil_append, List.singleton_append, hittable_list.hit_loop, h1, ht]
  have h2 := hB out
  have h3 : (hittable.sphere (sphere.mk_static (⟨0, 0, 3⟩ : vec3 ℝ) 0 (none : Option Unit))).hit
      ⟨Real.sqrt, Real.arccos, fun y x => Complex.arg ⟨x, y⟩, Real.sin, Real.cos, Real.tan⟩
      (3141593 / 1000000) ⟨⟨0, 0, 5⟩, ⟨0, 0, -1⟩, 0⟩ ⟨fin (1 / 1000), fin 4⟩
      out = .error "Division by zero" := h2
  simp only [h3]

end list_hit_claim

/-! ## `save_framebuffer` with a negative size -/

/-- Claim C17, counterexample: for the file name `a.png`, whose format `png` is supported,
and the sizes `width = -1`, `height = 1`, `save_framebuffer` raises an error all the same:
the constructor of the byte buffer is given a negative size and throws
`std::length_error`. -/
theorem save_framebuffer_negative_size :
    extract_file_format "a.png" ∈ supported_formats ∧
    save_framebuffer
      (⟨fun x => x, fun x => x, fun y _ => y, fun x => x, fun x => x, fun x => x⟩ : Libm ℚ)
      [] (-1) 1 "a.png" = .throws "std::length_error" := by
  have hf : extract_file_format "a.png" = "png" := by decide
  refine ⟨by rw [hf]; simp [supported_formats], ?_⟩
  simp only [save_framebuffer, hf]
  rw [if_neg (by decide), if_pos (by norm_num)]

/-! ## The binary32 reading against the reading over the reals -/

section binary32

set_option maxRecDepth 100000

/-- C1, counterexample: in binary32, the unit sphere at the origin, the ray from (0,5,0)
with the direction (1e-30,0,0) and the interval (0.001, +inf). The direction is not zero,
but `a = |d|²` underflows to 0, the root `(h - sqrtd) / a` is `0/0`, a NaN that neither
range test rejects, and `sphere::hit` returns true with `rec.t` a NaN, whatever `acos` and
`atan2` return. Over the reals every line in this direction through (0,5,0) stays at
distance 5 from the centre: the quadratic has no root. -/
theorem sphere_hit_tiny_direction :
    (∀ m : Libm32, ∃ rc : hit_record fp Unit,
      f32.sphere.hit m (f32.sphere.mk_static ⟨fp.zero, fp.zero, fp.zero⟩ fp.one none)
        ⟨⟨fp.zero, fp.ofDec32 false 5 1, fp.zero⟩,
          ⟨fp.ofDec32 false 1 (10 ^ 30), fp.zero, fp.zero⟩, fp.zero⟩
        ⟨fp.ofDec32 false 1 1000, fp.inf false⟩ f32.fresh = .ok (true, rc) ∧
      rc.t = fp.nan) ∧
    0 < (fp.ofDec32 false 1 (10 ^ 30)).toRat ∧
    ∀ d t : ℝ, ((ray.«at» ⟨⟨0, 5, 0⟩, ⟨d, 0, 0⟩, 0⟩ t).sub ⟨0, 0, 0⟩).length_squared ≠ 1 * 1 := by
  refine ⟨fun _ => ⟨_, rfl, rfl⟩, ?_, ?_⟩
  · rw [show fp.ofDec32 false 1 (10 ^ 30) = fp.fin false (10633824 * 2 ^ 26) from by decide]
    simp only [fp.toRat]
    positivity
  · intro d t
    simp only [ray.«at», vec3.add, vec3.smul, vec3.sub, vec3.length_squared]
    nlinarith [sq_nonneg (t * d)]

/-- C2, counterexample: in binary32, the quad with `Q = 0` and the edges `u = (e,0,0)`,
`v = (0,e,0)`, `e = 7 * 2^(-40)`, about 6.4e-12, and rays along -z from height 1 over
(0.001, +inf). The constructor succeeds, but `dot(n, n) = e^4` is rounded to the least
positive `float` and `w` is 17 percent too long. The ray through the plane point
`Q + (7/8) u + (1/2) v` is reported a miss, and the ray through `Q + (1/4) u + (1/2) v`
a hit with `rec.u` and `rec.v` not 1/4 and 1/2. -/
theorem quad_hit_misses_interior :
    ∃ q : f32.quad Unit,
      f32.quad.mk_quad ⟨fp.zero, fp.zero, fp.zero⟩ ⟨fp.ofDec32 false 7 (2 ^ 40), fp.zero, fp.zero⟩
        ⟨fp.zero, fp.ofDec32 false 7 (2 ^ 40), fp.zero⟩ none = .ok q ∧
      q.hit ⟨⟨fp.ofDec32 false 49 (2 ^ 43), fp.ofDec32 false 7 (2 ^ 41), fp.one⟩,
          ⟨fp.zero, fp.zero, fp.one.neg⟩, fp.zero⟩
        ⟨fp.ofDec32 false 1 1000, fp.inf false⟩ f32.fresh = .ok (false, f32.fresh) ∧
      (∃ rc, q.hit ⟨⟨fp.ofDec32 false 7 (2 ^ 42), fp.ofDec32 false 7 (2 ^ 41), fp.one⟩,
          ⟨fp.zero, fp.zero, fp.one.neg⟩, fp.zero⟩
        ⟨fp.ofDec32 false 1 1000, fp.inf false⟩ f32.fresh = .ok (true, rc) ∧
        rc.t = fp.one ∧ rc.u ≠ fp.ofDec32 false 1 4 ∧ rc.v ≠ fp.ofDec32 false 1 2) ∧
      0 < (fp.ofDec32 false 7 (2 ^ 40)).toRat ∧
      (fp.ofDec32 false 49 (2 ^ 43)).toRat = 7 / 8 * (fp.ofDec32 false 7 (2 ^ 40)).toRat ∧
      (fp.ofDec32 false 7 (2 ^ 42)).toRat = 1 / 4 * (fp.ofDec32 false 7 (2 ^ 40)).toRat ∧
      (fp.ofDec32 false 7 (2 ^ 41)).toRat = 1 / 2 * (fp.ofDec32 false 7 (2 ^ 40)).toRat := by
  refine ⟨_, rfl, rfl, ⟨_, rfl, rfl, by decide, by decide⟩, ?_, ?_, ?_, ?_⟩
  · rw [show fp.ofDec32 false 7 (2 ^ 40) = fp.fin false (7 * 2 ^ 109) from by decide]
    simp only [fp.toRat]
    positivity
  · rw [show fp.ofDec32 false 7 (2 ^ 40) = fp.fin false (7 * 2 ^ 109) from by decide,
      show fp.ofDec32 false 49 (2 ^ 43) = fp.fin false (49 * 2 ^ 106) from by decide]
    simp only [fp.toRat]
    push_cast
    norm_num
  · rw [show fp.ofDec32 false 7 (2 ^ 40) = fp.fin false (7 * 2 ^ 109) from by decide,
      show fp.ofDec32 false 7 (2 ^ 42) = fp.fin false (7 * 2 ^ 107) from by decide]
    simp only [fp.toRat]
    push_cast
    norm_num
  · rw [show fp.ofDec32 false 7 (2 ^ 40) = fp.fin false (7 * 2 ^ 109) from by decide,
      show fp.ofDec32 false 7 (2 ^ 41) = fp.fin false (7 * 2 ^ 108) from by decide]
    simp only [fp.toRat]
    push_cast
    norm_num

/-- C5, counterexample: in binary32, the moving sphere with both centres at the origin and
radius 1, whose box is `[-1, 1]` on every axis, over (0.001, +inf). The ray from
(-4.2668295,0,0) with the direction (0.5374626,0,0) is a hit whose point has
`rec.p.x = -1.00000095`, below `min(center1_x, center2_x) - radius = -1`. The ray from
(0,5,0) with the zero direction is a hit too: the root is `0/0` and `rec.p` is made of
NaNs, which no comparison places inside the box. -/
theorem moving_sphere_leaves_box :
    (∀ m : Libm32, ∃ rc : hit_record fp Unit,
      f32.sphere.hit m
        (f32.sphere.mk_moving ⟨fp.zero, fp.zero, fp.zero⟩ ⟨fp.zero, fp.zero, fp.zero⟩ fp.one none)
        ⟨⟨fp.ofDec32 true 42668295 10000000, fp.zero, fp.zero⟩,
          ⟨fp.ofDec32 false 5374626 10000000, fp.zero, fp.zero⟩, fp.zero⟩
        ⟨fp.ofDec32 false 1 1000, fp.inf false⟩ f32.fresh = .ok (true, rc) ∧
      rc.p.x = fp.fin true (8388616 * 2 ^ 126) ∧
      rc.p.x.lt (fp.zero.sub fp.one) = true) ∧
    (∀ m : Libm32, ∃ rc : hit_record fp Unit,
      f32.sphere.hit m
        (f32.sphere.mk_moving ⟨fp.zero, fp.zero, fp.zero⟩ ⟨fp.zero, fp.zero, fp.zero⟩ fp.one none)
        ⟨⟨fp.zero, fp.ofDec32 false 5 1, fp.zero⟩, ⟨fp.zero, fp.zero, fp.zero⟩, fp.zero⟩
        ⟨fp.ofDec32 false 1 1000, fp.inf false⟩ f32.fresh = .ok (true, rc) ∧
      rc.p = ⟨fp.nan, fp.nan, fp.nan⟩) ∧
    (fp.fin true (8388616 * 2 ^ 126)).toRat < 0 - 1 := by
  refine ⟨fun _ => ⟨_, rfl, rfl, rfl⟩, fun _ => ⟨_, rfl, rfl⟩, ?_⟩
  simp only [fp.toRat]
  push_cast
  norm_num

/-- C8, counterexample: in binary32, the triangle (0,0,0), (1e-12,0,0), (0,1e-12,0), the
ray from (-1,5,0) with the direction (1,0,0) and the interval (0.001, +inf). The triangle
is not degenerate, `cross(b - a, c - a)` is not zero, but its squared length underflows to
0 and the constructor takes the fall-back normal (1,0,0): `triangle::hit` returns true at
`t = 1` with `rec.p = (0,5,0)`, which is no convex combination of the vertices, whose
`y` is at most 1e-12. -/
theorem triangle_hit_outside :
    (∃ tr : f32.triangle Unit,
      f32.triangle.mk_triangle ⟨fp.zero, fp.zero, fp.zero⟩
        ⟨fp.ofDec32 false 1 (10 ^ 12), fp.zero, fp.zero⟩
        ⟨fp.zero, fp.ofDec32 false 1 (10 ^ 12), fp.zero⟩ none = .ok tr ∧
      ∃ rc, tr.hit ⟨⟨fp.one.neg, fp.ofDec32 false 5 1, fp.zero⟩, ⟨fp.one, fp.zero, fp.zero⟩,
          fp.zero⟩ ⟨fp.ofDec32 false 1 1000, fp.inf false⟩ f32.fresh = .ok (true, rc) ∧
        rc.t = fp.one ∧ rc.p = ⟨fp.zero, fp.ofDec32 false 5 1, fp.zero⟩) ∧
    (f32.cross ⟨fp.ofDec32 false 1 (10 ^ 12), fp.zero, fp.zero⟩
      ⟨fp.zero, fp.ofDec32 false 1 (10 ^ 12), fp.zero⟩).z ≠ fp.zero ∧
    (fp.ofDec32 false 5 1).toRat = 5 ∧
    ∀ α β γ : ℚ, 0 ≤ α → 0 ≤ β → 0 ≤ γ → α + β + γ = 1 →
      α * 0 + β * 0 + γ * (fp.ofDec32 false 1 (10 ^ 12)).toRat ≠ 5 := by
  refine ⟨⟨_, rfl, _, rfl, rfl, rfl⟩, by decide, ?_, ?_⟩
  · rw [show fp.ofDec32 false 5 1 = fp.fin false (5 * 2 ^ 149) from by decide]
    simp only [fp.toRat]
    push_cast
    norm_num
  · intro α β γ hα hβ hγ hsum
    rw [show fp.ofDec32 false 1 (10 ^ 12) = fp.fin false (9223372 * 2 ^ 86) from by decide]
    simp only [fp.toRat]
    have hle : γ ≤ 1 := by linarith
    have hsmall : ((9223372 * 2 ^ 86 : ℕ) : ℚ) / 2 ^ 149 ≤ 1 := by
      push_cast
      norm_num
    nlinarith

/-- C15, counterexample: in binary32 `v /= t` multiplies by `1 / t`, and the product is
not the quotient. For `v = (7, 49, 1)` and `t = 49` the first component of `v /= t` is
0.142857134 and that of `v / t`, the correctly rounded `7 / 49`, is 0.142857149. For
`v = (0, 1, 2)` and the least positive `t = 2^(-149)`, `1 / t` overflows and the first
component of `v /= t` is `0 * inf`, a NaN, where `0 / t` is 0. -/
theorem div_assign_differs :
    f32.div_assign ⟨fp.ofDec32 false 7 1, fp.ofDec32 false 49 1, fp.one⟩ (fp.ofDec32 false 49 1) =
      .ok ⟨fp.fin false (9586980 * 2 ^ 123), fp.one, fp.fin false (10956549 * 2 ^ 120)⟩ ∧
    f32.div ⟨fp.ofDec32 false 7 1, fp.ofDec32 false 49 1, fp.one⟩ (fp.ofDec32 false 49 1) =
      .ok ⟨fp.fin false (9586981 * 2 ^ 123), fp.one, fp.fin false (10956549 * 2 ^ 120)⟩ ∧
    (fp.ofDec32 false 7 1).div (fp.ofDec32 false 49 1) = fp.fin false (9586981 * 2 ^ 123) ∧
    f32.div_assign ⟨fp.zero, fp.one, fp.ofDec32 false 2 1⟩ (fp.fin false 1) =
      .ok ⟨fp.nan, fp.inf false, fp.inf false⟩ ∧
    f32.div ⟨fp.zero, fp.one, fp.ofDec32 false 2 1⟩ (fp.fin false 1) =
      .ok ⟨fp.zero, fp.inf false, fp.inf false⟩ := by
  refine ⟨rfl, rfl, by decide, rfl, rfl⟩

/-- C16, counterexample: in binary32 `unit_vector` tests the computed length against 0.
For `v = (0, 1e-30, 0)` the squared length underflows to 0 and the fall-back (1,0,0), which
is no multiple of `v`, is returned; for `v = (1e20, 0, 0)` the squared length overflows,
the length is `+inf` and the result is the zero vector, whose length is not 1. -/
theorem unit_vector_underflows :
    f32.unit_vector ⟨fp.zero, fp.ofDec32 false 1 (10 ^ 30), fp.zero⟩ =
      .ok ⟨fp.one, fp.zero, fp.zero⟩ ∧
    fp.ofDec32 false 1 (10 ^ 30) ≠ fp.zero ∧
    f32.unit_vector ⟨fp.ofDec32 false (10 ^ 20) 1, fp.zero, fp.zero⟩ =
      .ok ⟨fp.zero, fp.zero, fp.zero⟩ ∧
    fp.ofDec32 false (10 ^ 20) 1 ≠ fp.zero := by
  refine ⟨rfl, by decide, rfl, by decide⟩

/-- C21, counterexample: in binary32, `lookfrom = (0, 1e-30, 0)`, `lookat = (0,0,0)` and
`vup = (1,0,0)`. `lookfrom` is not `lookat` and `vup` is not parallel to
`lookfrom - lookat`: their cross product is (0, 0, 1e-30). But the squared length of
`lookfrom - lookat` underflows to 0, `w` is the fall-back (1,0,0), no multiple of
`lookfrom - lookat`, then `cross(vup, w)` is zero, `u` is the fall-back too and
`v = cross(w, u)` is the zero vector: the frame is not orthonormal. -/
theorem camera_frame_degenerate :
    f32.camera_frame ⟨fp.zero, fp.ofDec32 false 1 (10 ^ 30), fp.zero⟩
      ⟨fp.zero, fp.zero, fp.zero⟩ ⟨fp.one, fp.zero, fp.zero⟩ =
      .ok (⟨fp.one, fp.zero, fp.zero⟩, ⟨fp.zero, fp.zero, fp.zero⟩, ⟨fp.one, fp.zero, fp.zero⟩) ∧
    f32.sub ⟨fp.zero, fp.ofDec32 false 1 (10 ^ 30), fp.zero⟩ ⟨fp.zero, fp.zero, fp.zero⟩ =
      ⟨fp.zero, fp.ofDec32 false 1 (10 ^ 30), fp.zero⟩ ∧
    f32.cross ⟨fp.one, fp.zero, fp.zero⟩ ⟨fp.zero, fp.ofDec32 false 1 (10 ^ 30), fp.zero⟩ =
      ⟨fp.zero, fp.zero, fp.ofDec32 false 1 (10 ^ 30)⟩ ∧
    fp.ofDec32 false 1 (10 ^ 30) ≠ fp.zero := by
  refine ⟨rfl, by decide, by decide, by decide⟩

/-- C23, counterexample: in binary32, the mesh triangle with the collinear vertices
`v0 = (0,0,0)`, `v1 = (3.2, 5.1, 4.6)` and `v2 = 2 * v1`, of zero area, the ray from
(7,7,0) with the direction (-9,-9,0) and the interval (0.001, +inf). The determinant `a`,
0 over the reals, is rounding noise above `epsilon`, and `mesh_triangle::hit` returns true
at `t = 0.5` with `rec.p = (2.5, 2.5, 0)`, a point off the line of the vertices. -/
theorem mesh_triangle_collinear_hit :
    (∃ rc : hit_record fp Unit,
      f32.mesh_triangle.hit
        ⟨⟨fp.zero, fp.zero, fp.zero⟩,
          ⟨fp.ofDec32 false 32 10, fp.ofDec32 false 51 10, fp.ofDec32 false 46 10⟩,
          ⟨fp.ofDec32 false 64 10, fp.ofDec32 false 102 10, fp.ofDec32 false 92 10⟩, none⟩
        ⟨⟨fp.ofDec32 false 7 1, fp.ofDec32 false 7 1, fp.zero⟩,
          ⟨fp.ofDec32 true 9 1, fp.ofDec32 true 9 1, fp.zero⟩, fp.zero⟩
        ⟨fp.ofDec32 false 1 1000, fp.inf false⟩ f32.fresh = .ok (true, rc) ∧
      rc.t = fp.ofDec32 false 1 2 ∧
      rc.p = ⟨fp.ofDec32 false 5 2, fp.ofDec32 false 5 2, fp.zero⟩) ∧
    (fp.ofDec32 false 64 10).toRat = 2 * (fp.ofDec32 false 32 10).toRat ∧
    (fp.ofDec32 false 102 10).toRat = 2 * (fp.ofDec32 false 51 10).toRat ∧
    (fp.ofDec32 false 92 10).toRat = 2 * (fp.ofDec32 false 46 10).toRat ∧
    (fp.ofDec32 false 5 2).toRat = 5 / 2 ∧
    ∀ s : ℚ, s * (fp.ofDec32 false 46 10).toRat = 0 →
      s * (fp.ofDec32 false 32 10).toRat ≠ (fp.ofDec32 false 5 2).toRat := by
  have h32 : fp.ofDec32 false 32 10 = fp.fin false (13421773 * 2 ^ 127) := by decide
  have h51 : fp.ofDec32 false 51 10 = fp.fin false (10695475 * 2 ^ 128) := by decide
  have h46 : fp.ofDec32 false 46 10 = fp.fin false (9646899 * 2 ^ 128) := by decide
  have h64 : fp.ofDec32 false 64 10 = fp.fin false (13421773 * 2 ^ 128) := by decide
  have h102 : fp.ofDec32 false 102 10 = fp.fin false (10695475 * 2 ^ 129) := by decide
  have h92 : fp.ofDec32 false 92 10 = fp.fin false (9646899 * 2 ^ 129) := by decide
  have h52 : fp.ofDec32 false 5 2 = fp.fin false (5 * 2 ^ 148) := by decide
  refine ⟨⟨_, rfl, rfl, rfl⟩, ?_, ?_, ?_, ?_, ?_⟩
  · rw [h64, h32]
    simp only [fp.toRat]
    push_cast
    ring
  · rw [h102, h51]
    simp only [fp.toRat]
    push_cast
    ring
  · rw [h92, h46]
    simp only [fp.toRat]
    push_cast
    ring
  · rw [h52]
    simp only [fp.toRat]
    push_cast
    norm_num
  · intro s hs
    rw [h46] at hs
    rw [h32, h52]
    simp only [fp.toRat] at hs ⊢
    have hs0 : s = 0 := by
      rcases mul_eq_zero.mp hs with h | h
      · exact h
      · exfalso
        revert h
        push_cast
        norm_num
    rw [hs0, zero_mul]
    push_cast
    norm_num

end binary32

end rt
